import Mathlib

/-!
# Optimus robot: three grid-walking solvers

A verification development for the three Go programs `chatgpt/main.go`,
`claude/main.go` and `grok/main.go`.  Each program reads a grid, walks a robot
over it and prints either the list of directions travelled or `LOOP`.

Conventions of the embedding.

* A grid is a list of rows, a row a list of cells.  A cell is a `Char`
  (`rune` in chatgpt and claude, `byte` in grok; only ASCII symbols are ever
  compared against).
* Go `int` coordinates are `Int`.  A grid read `grid[r][c]` is `cellAt`, which
  is `none` where Go raises an index-out-of-range panic; a panic ends a run with
  `Outcome.crash`.
* The endless `for` loops are driven by a fuel argument; `none` means that the
  fuel ran out before the loop ended.
* The `visited` maps are lists of keys.  String keys built by `fmt.Sprintf`
  are kept as records of their fields: the formats separate the fields by `,`
  and `|`, which occur inside no field, so two key strings are equal exactly
  when their fields are.
-/

namespace Optimus

/-! ## Shared vocabulary -/

/-- Rows of cells. -/
abbrev Grid := List (List Char)

/-- The read `grid[r][c]`; `none` is Go's index-out-of-range panic. -/
def cellAt (g : Grid) (r c : Int) : Option Char :=
  if 0 ≤ r ∧ 0 ≤ c then (g[r.toNat]?).bind (fun row => row[c.toNat]?) else none

/-- The write `grid[r][c] = ch` (only ever executed after a successful read of the same cell). -/
def setCell (g : Grid) (r c : Int) (ch : Char) : Grid :=
  g.set r.toNat ((g.getD r.toNat []).set c.toNat ch)

/-- The four compass directions.  chatgpt and claude number them
`SOUTH = 0, EAST = 1, NORTH = 2, WEST = 3`; grok numbers them
`North = 0, South = 1, East = 2, West = 3`.  The numbers are only used as
table indices and key fields, so one enumeration serves the three programs. -/
inductive Dir where
  | SOUTH
  | EAST
  | NORTH
  | WEST
deriving DecidableEq, Repr, Fintype

/-- How a run ends. `success` carries the accumulated direction names. -/
inductive Outcome where
  | success (path : List String)
  | cycle
  | stuck
  | crash
deriving DecidableEq, Repr

/-- What is written to standard output: the path, one name per line, or the
single line `LOOP`; a panic prints nothing on standard output. -/
def Outcome.output : Outcome → Option (List String)
  | .success path => some path
  | .cycle => some ["LOOP"]
  | .stuck => some ["LOOP"]
  | .crash => none

/-- Result of one pass through the body of a `for { ... }` loop. -/
inductive Iter (σ : Type) where
  | next (s : σ)
  | halt (o : Outcome)

/-- Result of a helper that may panic. -/
inductive Res (α : Type) where
  | ok (a : α)
  | crash
deriving DecidableEq, Repr

/-- The loop `for { body }`: run `body` until it halts; `none` when the fuel
runs out first, or when the body itself does not return. -/
def drive {σ : Type} (body : σ → Option (Iter σ)) : Nat → σ → Option Outcome
  | 0, _ => none
  | n + 1, s =>
    match body s with
    | none => none
    | some (.halt o) => some o
    | some (.next s') => drive body n s'

/-- The cell coordinates `(0,0), (0,1), ..., (H-1,W-1)` in the order of the
nested loops `for r := 0; r < H; r++ { for c := 0; c < W; c++ { ... } }`. -/
def rowMajor (H W : Nat) : List (Nat × Nat) :=
  (List.range H).flatMap (fun r => (List.range W).map (fun c => (r, c)))

/-- The test `ch >= '1' && ch <= '9'`. -/
def isTeleDigit (ch : Char) : Bool :=
  decide ('1'.toNat ≤ ch.toNat ∧ ch.toNat ≤ '9'.toNat)

/-- The digit symbols `'1'` to `'9'`, as listed in `case '1', '2', ..., '9'`. -/
def teleDigits : List Char := ['1', '2', '3', '4', '5', '6', '7', '8', '9']

/-! ## chatgpt/main.go -/

namespace Chatgpt

/-- The type `Point struct{ r, c int }`. -/
structure Point where
  r : Int
  c : Int
deriving DecidableEq, Repr

/-- The table `dirToDelta`. -/
def dirToDelta : Dir → Point
  | .SOUTH => ⟨1, 0⟩
  | .EAST => ⟨0, 1⟩
  | .NORTH => ⟨-1, 0⟩
  | .WEST => ⟨0, -1⟩

/-- The table `dirToName`. -/
def dirToName : Dir → String
  | .SOUTH => "SOUTH"
  | .EAST => "EAST"
  | .NORTH => "NORTH"
  | .WEST => "WEST"

/-- The function `canInside`. -/
def canInside (p : Point) (H W : Nat) : Bool :=
  decide (p.r ≥ 0 ∧ p.r < (H : Int) ∧ p.c ≥ 0 ∧ p.c < (W : Int))

/-- The cells of the loaded grid with their coordinates, in the order the
load loop `for i ... { for j, ch := range row ... } }` meets them. -/
def cells (g : Grid) : List (Point × Char) :=
  g.enum.flatMap (fun ir => ir.2.enum.map (fun jc => (⟨(ir.1 : Int), (jc.1 : Int)⟩, jc.2)))

/-- The variable `start` after the load loop: the last `@` met, else `{-1, -1}`. -/
def findStart (g : Grid) : Point :=
  (cells g).foldl (fun st pc => if pc.2 = '@' then pc.1 else st) ⟨-1, -1⟩

/-- The map `teleByDigit` after the load loop. -/
def teleByDigit (g : Grid) : Char → List Point :=
  (cells g).foldl
    (fun m pc => if isTeleDigit pc.2 then
        (fun ch => if ch = pc.2 then m ch ++ [pc.1] else m ch) else m)
    (fun _ => [])

/-- The map `telePair`, read at `p`: for a digit with exactly two cells each
is mapped to the other; a missing key reads as the zero value `Point{0, 0}`.
(The entries written for different digits have different keys, so the order
in which the Go map is ranged over does not matter.) -/
def telePair (g : Grid) (p : Point) : Point :=
  match teleDigits.findSome? (fun d =>
      match teleByDigit g d with
      | [a, b] => if p = a then some b else if p = b then some a else none
      | _ => none) with
  | some q => q
  | none => ⟨0, 0⟩

/-- The fields of the key string `"%d,%d|%d|%t|%t|%s"`. -/
structure Key where
  r : Int
  c : Int
  dir : Dir
  breaker : Bool
  inverted : Bool
  sig : List Int
deriving DecidableEq, Repr

/-- The variables of `runSolver` that the main loop reads and writes. -/
structure St where
  grid : Grid
  pos : Point
  dir : Dir
  breaker : Bool
  inverted : Bool
  destroyed : List Int
  moves : List String
  visited : List Key

/-- The closure `makeDestroyedSig`: the keys of `destroyed` in increasing order
(joined by commas in the program). -/
def makeDestroyedSig (destroyed : List Int) : List Int :=
  destroyed.insertionSort (fun a b => a ≤ b)

/-- The key of the current configuration. -/
def key (s : St) : Key :=
  ⟨s.pos.r, s.pos.c, s.dir, s.breaker, s.inverted, makeDestroyedSig s.destroyed⟩

/-- The closure `applyTile`: a `for` loop that is left by `break` after any
cell that is not a digit and repeated by `continue` after a digit cell. The
first argument stands for the map `telePair`. -/
def applyTile (tp : Point → Point) : Nat → St → Option (Res St)
  | 0, _ => none
  | n + 1, s =>
    match cellAt s.grid s.pos.r s.pos.c with
    | none => some .crash
    | some cell =>
      if cell = 'S' then some (.ok { s with dir := .SOUTH })
      else if cell = 'E' then some (.ok { s with dir := .EAST })
      else if cell = 'N' then some (.ok { s with dir := .NORTH })
      else if cell = 'W' then some (.ok { s with dir := .WEST })
      else if cell = 'B' then some (.ok { s with breaker := !s.breaker })
      else if cell = 'I' then some (.ok { s with inverted := !s.inverted })
      else if isTeleDigit cell then applyTile tp n { s with pos := tp s.pos }
      else some (.ok s)

/-- The closure `canStep`. -/
def canStep (g : Grid) (breaker : Bool) (next : Point) : Res Bool :=
  match cellAt g next.r next.c with
  | none => .crash
  | some ch =>
    if ch = '#' then .ok false
    else if ch = 'X' ∧ breaker = false then .ok false
    else .ok true

/-- The condition `canInside(nn, H, W) && canStep(nn)`, evaluated left to right. -/
def canGo (g : Grid) (H W : Nat) (breaker : Bool) (nn : Point) : Res Bool :=
  if canInside nn H W then canStep g breaker nn else .ok false

/-- The closure `nextDirOrder`. -/
def nextDirOrder (inverted : Bool) : List Dir :=
  if inverted then [.WEST, .NORTH, .EAST, .SOUTH] else [.SOUTH, .EAST, .NORTH, .WEST]

/-- The point one cell from `p` in direction `d`. -/
def neighbour (p : Point) (d : Dir) : Point :=
  ⟨p.r + (dirToDelta d).r, p.c + (dirToDelta d).c⟩

/-- The loop `for _, d := range nextDirOrder()`: the first direction of the
order whose neighbour passes the test; `none` is `chosen == -1`. -/
def scan (g : Grid) (H W : Nat) (breaker : Bool) (pos : Point) : List Dir → Res (Option (Dir × Point))
  | [] => .ok none
  | d :: ds =>
    match canGo g H W breaker (neighbour pos d) with
    | .crash => .crash
    | .ok true => .ok (some (d, neighbour pos d))
    | .ok false => scan g H W breaker pos ds

/-- Lines 180-196 of the main loop: the direction travelled and the cell entered. -/
def resolve (H W : Nat) (s : St) : Res (Option (Dir × Point)) :=
  match canGo s.grid H W s.breaker (neighbour s.pos s.dir) with
  | .crash => .crash
  | .ok true => .ok (some (s.dir, neighbour s.pos s.dir))
  | .ok false => scan s.grid H W s.breaker s.pos (nextDirOrder s.inverted)

/-- Lines 198-204: destroy the wall entered, occupy the cell, record the move.
(The cell `next` has just been read by `canStep`, so the read cannot panic.) -/
def enter (W : Nat) (s : St) (d : Dir) (next : Point) : St :=
  let s1 : St :=
    if cellAt s.grid next.r next.c = some 'X' ∧ s.breaker = true then
      { s with grid := setCell s.grid next.r next.c ' ',
               destroyed := s.destroyed.insert (next.r * (W : Int) + next.c) }
    else s
  { s1 with pos := next, dir := d, moves := s1.moves ++ [dirToName d] }

/-- Line 205: the call `applyTile()` that ends a pass through the main loop. -/
def land (tp : Point → Point) (tf : Nat) (s : St) : Option (Iter St) :=
  match applyTile tp tf s with
  | none => none
  | some .crash => some (.halt .crash)
  | some (.ok s2) => some (.next s2)

/-- Lines 178-205 of the main loop, the part after the visited check: record
the key, resolve the move, enter the cell, apply its tile. -/
def advance (tp : Point → Point) (tf : Nat) (H W : Nat) (s : St) : Option (Iter St) :=
  let s0 : St := { s with visited := key s :: s.visited }
  match resolve H W s0 with
  | .crash => some (.halt .crash)
  | .ok none => some (.halt .stuck)
  | .ok (some (d, next)) => land tp tf (enter W s0 d next)

/-- One pass through the body of the main loop (lines 168-206). -/
def body (tp : Point → Point) (tf : Nat) (H W : Nat) (s : St) : Option (Iter St) :=
  match cellAt s.grid s.pos.r s.pos.c with
  | none => some (.halt .crash)
  | some here =>
    if here = '$' then some (.halt (.success s.moves))
    else if key s ∈ s.visited then some (.halt .cycle)
    else advance tp tf H W s

/-- The variables as they stand before the first `applyTile()`. -/
def initial (g : Grid) : St :=
  { grid := g, pos := findStart g, dir := .SOUTH, breaker := false, inverted := false,
    destroyed := [], moves := [], visited := [] }

/-- The function `runSolver` on a loaded grid: `tf` bounds the passes through
the loop of `applyTile`, `fuel` the passes through the main loop. -/
def runSolver (tf fuel : Nat) (H W : Nat) (g : Grid) : Option Outcome :=
  match applyTile (telePair g) tf (initial g) with
  | none => none
  | some .crash => some .crash
  | some (.ok s) => drive (body (telePair g) tf H W) fuel s

end Chatgpt

/-! ## claude/main.go -/

namespace Claude

/-- The method `Direction.String`. -/
def Direction.String : Dir → String
  | .SOUTH => "SOUTH"
  | .EAST => "EAST"
  | .NORTH => "NORTH"
  | .WEST => "WEST"

/-- The type `Position struct{ row, col int }`. -/
structure Position where
  row : Int
  col : Int
deriving DecidableEq, Repr

/-- The type `State`.  The key string `"%d,%d,%d,%t,%t"` of `getStateKey`
lists exactly these five fields, so a key is kept as a `State`. -/
structure State where
  pos : Position
  direction : Dir
  inverted : Bool
  breaker : Bool
deriving DecidableEq, Repr

/-- The type `Robot`. -/
structure Robot where
  grid : Grid
  height : Nat
  width : Nat
  startPos : Position
  destPos : Position
  teleporters : Char → List Position
  state : State
  visited : List State
  path : List Dir

/-- The body of the scan in `NewRobot` for the cell `(i, j)` holding `cell`. -/
def newRobotVisit (robot : Robot) (i j : Nat) (cell : Char) : Robot :=
  if cell = '@' then
    { robot with startPos := ⟨i, j⟩,
                 state := { robot.state with pos := ⟨i, j⟩, direction := .SOUTH } }
  else if cell = '$' then { robot with destPos := ⟨i, j⟩ }
  else if cell ∈ teleDigits then
    { robot with teleporters :=
        fun ch => if ch = cell then robot.teleporters ch ++ [⟨i, j⟩] else robot.teleporters ch }
  else robot

/-- The nested loops of `NewRobot` over the listed coordinates. -/
def newRobotScan (grid : Grid) : List (Nat × Nat) → Robot → Res Robot
  | [], robot => .ok robot
  | (i, j) :: rest, robot =>
    match cellAt grid i j with
    | none => .crash
    | some cell => newRobotScan grid rest (newRobotVisit robot i j cell)

/-- The function `NewRobot`: all unset fields hold Go's zero values. -/
def NewRobot (grid : Grid) (height width : Nat) : Res Robot :=
  newRobotScan grid (rowMajor height width)
    { grid := grid, height := height, width := width,
      startPos := ⟨0, 0⟩, destPos := ⟨0, 0⟩, teleporters := fun _ => [],
      state := ⟨⟨0, 0⟩, .SOUTH, false, false⟩, visited := [], path := [] }

/-- The method `getStateKey`. -/
def getStateKey (r : Robot) : State := r.state

/-- The method `getNextPosition`. -/
def getNextPosition (r : Robot) (dir : Dir) : Position :=
  match dir with
  | .SOUTH => ⟨r.state.pos.row + 1, r.state.pos.col⟩
  | .EAST => ⟨r.state.pos.row, r.state.pos.col + 1⟩
  | .NORTH => ⟨r.state.pos.row - 1, r.state.pos.col⟩
  | .WEST => ⟨r.state.pos.row, r.state.pos.col - 1⟩

/-- The method `isValidPosition`. -/
def isValidPosition (r : Robot) (pos : Position) : Bool :=
  decide (pos.row ≥ 0 ∧ pos.row < (r.height : Int) ∧ pos.col ≥ 0 ∧ pos.col < (r.width : Int))

/-- The method `canMoveTo`. -/
def canMoveTo (r : Robot) (pos : Position) : Res Bool :=
  if isValidPosition r pos = false then .ok false
  else
    match cellAt r.grid pos.row pos.col with
    | none => .crash
    | some cell =>
      if cell = ' ' ∨ cell = '@' ∨ cell = '$' ∨ cell = 'S' ∨ cell = 'E' ∨
          cell = 'N' ∨ cell = 'W' ∨ cell = 'B' ∨ cell = 'I' ∨ isTeleDigit cell = true then .ok true
      else if cell = '#' then .ok false
      else if cell = 'X' ∧ r.state.breaker = true then .ok true
      else if cell = 'X' then .ok false
      else .ok true

/-- The method `getPriorityDirections`. -/
def getPriorityDirections (r : Robot) : List Dir :=
  if r.state.inverted then [.WEST, .NORTH, .EAST, .SOUTH] else [.SOUTH, .EAST, .NORTH, .WEST]

/-- The `switch cell` of `findPath` (lines 168-190). -/
def special (r : Robot) (cell : Char) : Robot :=
  if cell = 'S' then { r with state := { r.state with direction := .SOUTH } }
  else if cell = 'E' then { r with state := { r.state with direction := .EAST } }
  else if cell = 'N' then { r with state := { r.state with direction := .NORTH } }
  else if cell = 'W' then { r with state := { r.state with direction := .WEST } }
  else if cell = 'I' then { r with state := { r.state with inverted := !r.state.inverted } }
  else if cell = 'B' then { r with state := { r.state with breaker := !r.state.breaker } }
  else if cell ∈ teleDigits then
    match (r.teleporters cell).find? (fun tp => decide (tp ≠ r.state.pos)) with
    | some tp => { r with state := { r.state with pos := tp } }
    | none => r
  else r

/-- The move into `nextPos` facing `dir` (lines 195-200 and 211-217): destroy
the wall entered, occupy the cell, set the facing, record the move.
(`canMoveTo` has just read the cell, so the read cannot panic.) -/
def moveTo (r : Robot) (nextPos : Position) (dir : Dir) : Robot :=
  let g : Grid :=
    if cellAt r.grid nextPos.row nextPos.col = some 'X' ∧ r.state.breaker = true then
      setCell r.grid nextPos.row nextPos.col ' '
    else r.grid
  { r with grid := g, state := { r.state with pos := nextPos, direction := dir },
           path := r.path ++ [dir] }

/-- The loop `for _, dir := range priorities` (lines 208-221); `none` is `!moved`. -/
def tryPriorities (r : Robot) : List Dir → Res (Option Robot)
  | [] => .ok none
  | dir :: rest =>
    match canMoveTo r (getNextPosition r dir) with
    | .crash => .crash
    | .ok true => .ok (some (moveTo r (getNextPosition r dir) dir))
    | .ok false => tryPriorities r rest

/-- Lines 192-226 of `findPath`: move ahead if possible, else in the first
possible direction of the priority list, else give up. -/
def moveStep (r : Robot) : Iter Robot :=
  match canMoveTo r (getNextPosition r r.state.direction) with
  | .crash => .halt .crash
  | .ok true =>
    .next (moveTo r (getNextPosition r r.state.direction) r.state.direction)
  | .ok false =>
    match tryPriorities r (getPriorityDirections r) with
    | .crash => .halt .crash
    | .ok none => .halt .stuck
    | .ok (some r3) => .next r3

/-- Lines 162-226 of `findPath`, the part after the visited check: record the
key, apply the effect of the current cell, move. -/
def advance (r : Robot) : Iter Robot :=
  let r1 : Robot := { r with visited := getStateKey r :: r.visited }
  match cellAt r1.grid r1.state.pos.row r1.state.pos.col with
  | none => .halt .crash
  | some cell => moveStep (special r1 cell)

/-- One pass through the body of the loop of `findPath`.  `return true` is
`success` with the path that `main` then prints; the two `return false` are
told apart as `cycle` and `stuck`. -/
def findPathBody (r : Robot) : Iter Robot :=
  if r.state.pos = r.destPos then .halt (.success (r.path.map Direction.String))
  else if getStateKey r ∈ r.visited then .halt .cycle
  else advance r

/-- The method `findPath`, with the printing done by `main` on its result. -/
def findPath (fuel : Nat) (r : Robot) : Option Outcome :=
  drive (fun r => some (findPathBody r)) fuel r

/-- The function `main` on a loaded grid. -/
def main (fuel : Nat) (height width : Nat) (grid : Grid) : Option Outcome :=
  match NewRobot grid height width with
  | .crash => some .crash
  | .ok robot => findPath fuel robot

end Claude

/-! ## grok/main.go -/

namespace Grok

/-- The table `dirNames`. -/
def dirNames : Dir → String
  | .NORTH => "NORTH"
  | .SOUTH => "SOUTH"
  | .EAST => "EAST"
  | .WEST => "WEST"

/-- The table `deltas`. -/
def deltas : Dir → Int × Int
  | .NORTH => (-1, 0)
  | .SOUTH => (1, 0)
  | .EAST => (0, 1)
  | .WEST => (0, -1)

/-- The table `prioNormal`. -/
def prioNormal : List Dir := [.SOUTH, .EAST, .NORTH, .WEST]

/-- The table `prioInv`. -/
def prioInv : List Dir := [.WEST, .NORTH, .EAST, .SOUTH]

/-- The map `charToDir`. -/
def charToDir (ch : Char) : Option Dir :=
  if ch = 'N' then some .NORTH
  else if ch = 'S' then some .SOUTH
  else if ch = 'E' then some .EAST
  else if ch = 'W' then some .WEST
  else none

/-- The type `State`, the key of `visited`. -/
structure State where
  r : Int
  c : Int
  dir : Dir
  inv : Bool
  breaker : Bool
  gridkey : List Char
deriving DecidableEq, Repr

/-- The variables of `main` that the simulation loop reads and writes. -/
structure Vars where
  grid : Grid
  curR : Int
  curC : Int
  curDir : Dir
  curInv : Bool
  curBreaker : Bool
  path : List String
  visited : List State

/-- The start scan (lines 50-59): every `@` met is blanked, the last one met
is the start; the start is `(0, 0)` when there is none. -/
def findStart : List (Nat × Nat) → Grid × Int × Int → Res (Grid × Int × Int)
  | [], acc => .ok acc
  | (r, c) :: rest, (grid, startr, startc) =>
    match cellAt grid r c with
    | none => .crash
    | some ch =>
      if ch = '@' then findStart rest (setCell grid r c ' ', (r : Int), (c : Int))
      else findStart rest (grid, startr, startc)

/-- The grid key (lines 78-82): the rows written one after the other. -/
def gridKey (grid : Grid) : List Char := grid.flatten

/-- The blocked test (lines 96-104 and 118-126) for the candidate cell `(nR, nC)`. -/
def blockedAt (grid : Grid) (H W : Nat) (curBreaker : Bool) (nR nC : Int) : Res Bool :=
  if nR ≥ 0 ∧ nR < (H : Int) ∧ nC ≥ 0 ∧ nC < (W : Int) then
    match cellAt grid nR nC with
    | none => .crash
    | some ch =>
      if ch ≠ '#' then
        if ch ≠ 'X' ∨ curBreaker = true then .ok false else .ok true
      else .ok true
  else .ok true

/-- The loop `for _, nDir := range prio` (lines 113-132); `none` is `!found`. -/
def turn (grid : Grid) (H W : Nat) (curBreaker : Bool) (curR curC : Int) : List Dir → Res (Option Dir)
  | [] => .ok none
  | nDir :: rest =>
    match blockedAt grid H W curBreaker (curR + (deltas nDir).1) (curC + (deltas nDir).2) with
    | .crash => .crash
    | .ok false => .ok (some nDir)
    | .ok true => turn grid H W curBreaker curR curC rest

/-- The teleport scan (lines 151-159) over the listed coordinates: the first
cell holding `d` other than `(curR, curC)`. -/
def teleScan (grid : Grid) (d : Char) (curR curC : Int) : List (Nat × Nat) → Res (Option (Nat × Nat))
  | [] => .ok none
  | (rR, cC) :: rest =>
    match cellAt grid rR cC with
    | none => .crash
    | some ch =>
      if ch = d ∧ ((rR : Int) ≠ curR ∨ (cC : Int) ≠ curC) then .ok (some (rR, cC))
      else teleScan grid d curR curC rest

/-- The effect of the cell just entered (lines 146-167). -/
def applyEffect (H W : Nat) (v : Vars) : Res Vars :=
  match cellAt v.grid v.curR v.curC with
  | none => .crash
  | some char =>
    if isTeleDigit char then
      match teleScan v.grid char v.curR v.curC (rowMajor H W) with
      | .crash => .crash
      | .ok (some (rR, cC)) => .ok { v with curR := rR, curC := cC }
      | .ok none => .ok v
    else
      match charToDir char with
      | some dIr => .ok { v with curDir := dIr }
      | none =>
        if char = 'I' then .ok { v with curInv := !v.curInv }
        else if char = 'B' then .ok { v with curBreaker := !v.curBreaker }
        else .ok v

/-- The move (lines 138-144): blank a breakable wall entered, occupy the cell,
record the move.  (The blocked test has just read the cell.) -/
def moveTo (v : Vars) (nR nC : Int) : Vars :=
  let g : Grid := if cellAt v.grid nR nC = some 'X' then setCell v.grid nR nC ' ' else v.grid
  { v with grid := g, curR := nR, curC := nC, path := v.path ++ [dirNames v.curDir] }

/-- The key of the current configuration (line 84). -/
def stateOf (v : Vars) : State :=
  ⟨v.curR, v.curC, v.curDir, v.curInv, v.curBreaker, gridKey v.grid⟩

/-- Lines 146-167 as the end of a pass through the loop. -/
def land (H W : Nat) (v : Vars) : Iter Vars :=
  match applyEffect H W v with
  | .crash => .halt .crash
  | .ok v2 => .next v2

/-- Lines 91-168 of the simulation loop: turn if blocked, else move and apply
the effect of the cell entered. -/
def moveStep (H W : Nat) (v : Vars) : Iter Vars :=
  match blockedAt v.grid H W v.curBreaker
      (v.curR + (deltas v.curDir).1) (v.curC + (deltas v.curDir).2) with
  | .crash => .halt .crash
  | .ok true =>
    match turn v.grid H W v.curBreaker v.curR v.curC
        (if v.curInv then prioInv else prioNormal) with
    | .crash => .halt .crash
    | .ok none => .halt .stuck
    | .ok (some nDir) => .next { v with curDir := nDir }
  | .ok false =>
    land H W (moveTo v (v.curR + (deltas v.curDir).1) (v.curC + (deltas v.curDir).2))

/-- Lines 89-168 of the simulation loop, the part after the visited check:
record the key, then turn or move. -/
def advance (H W : Nat) (v : Vars) : Iter Vars :=
  moveStep H W { v with visited := stateOf v :: v.visited }

/-- One pass through the body of the simulation loop (lines 69-169). -/
def body (H W : Nat) (v : Vars) : Iter Vars :=
  match cellAt v.grid v.curR v.curC with
  | none => .halt .crash
  | some here =>
    if here = '$' then .halt (.success v.path)
    else if stateOf v ∈ v.visited then .halt .cycle
    else advance H W v

/-- The variables at the first pass through the loop. -/
def initial (grid : Grid) (startr startc : Int) : Vars :=
  { grid := grid, curR := startr, curC := startc, curDir := .SOUTH, curInv := false,
    curBreaker := false, path := [], visited := [] }

/-- The function `main` on a loaded grid. -/
def main (fuel : Nat) (H W : Nat) (grid : Grid) : Option Outcome :=
  match findStart (rowMajor H W) (grid, 0, 0) with
  | .crash => some .crash
  | .ok (g, startr, startc) => drive (fun v => some (body H W v)) fuel (initial g startr startc)

end Grok

/-! ## Vocabulary of the specification -/

/-- A rectangular grid: `H` rows of exactly `W` cells. -/
def Rect (g : Grid) (H W : Nat) : Prop :=
  g.length = H ∧ ∀ row ∈ g, row.length = W

instance (g : Grid) (H W : Nat) : Decidable (Rect g H W) := by
  unfold Rect
  infer_instance

/-- The coordinates lie inside an `H` by `W` grid. -/
def InGrid (H W : Nat) (r c : Int) : Prop :=
  0 ≤ r ∧ r < (H : Int) ∧ 0 ≤ c ∧ c < (W : Int)

instance (H W : Nat) (r c : Int) : Decidable (InGrid H W r c) := by
  unfold InGrid
  infer_instance

/-- Passable (spec 4.2, step 2): inside the grid bounds, not a permanent
wall, and either not a breakable wall or the robot is in breaker mode. -/
def Passable (g : Grid) (H W : Nat) (breaker : Bool) (r c : Int) : Prop :=
  InGrid H W r c ∧ (cellAt g r c).isSome = true ∧ cellAt g r c ≠ some '#' ∧
    (cellAt g r c ≠ some 'X' ∨ breaker = true)

instance (g : Grid) (H W : Nat) (breaker : Bool) (r c : Int) :
    Decidable (Passable g H W breaker r c) := by
  unfold Passable
  infer_instance

/-- The priority order of the specification (4.2, step 4). -/
def priorityOrder (inverted : Bool) : List Dir :=
  match inverted with
  | false => [.SOUTH, .EAST, .NORTH, .WEST]
  | true => [.WEST, .NORTH, .EAST, .SOUTH]

/-- The direction `d` is the first one of `order` that satisfies `good`. -/
def FirstOf (order : List Dir) (good : Dir → Prop) (d : Dir) : Prop :=
  ∃ pre post, order = pre ++ d :: post ∧ good d ∧ ∀ e ∈ pre, ¬ good e

/-- The row and column one cell away in direction `d`. -/
def ahead (r c : Int) : Dir → Int × Int
  | .SOUTH => (r + 1, c)
  | .EAST => (r, c + 1)
  | .NORTH => (r - 1, c)
  | .WEST => (r, c - 1)

/-- The cell one step from `(r, c)` in direction `d` is passable. -/
def OpenTo (g : Grid) (H W : Nat) (breaker : Bool) (r c : Int) (d : Dir) : Prop :=
  Passable g H W breaker (ahead r c d).1 (ahead r c d).2

instance (g : Grid) (H W : Nat) (breaker : Bool) (r c : Int) (d : Dir) :
    Decidable (OpenTo g H W breaker r c d) := by
  unfold OpenTo
  infer_instance

/-- Row-major order on cell coordinates: rows top to bottom, columns left to right. -/
def Before (p q : Nat × Nat) : Prop :=
  p.1 < q.1 ∨ (p.1 = q.1 ∧ p.2 < q.2)

/-- The teleport destination of the specification (4.1) for a robot on
`(curR, curC)` and the digit `d`: the first cell in row-major order that holds
`d` and is not the robot's cell, or the robot's cell when there is no such cell. -/
def TeleTarget (g : Grid) (H W : Nat) (d : Char) (curR curC destR destC : Int) : Prop :=
  (∃ r c : Nat, r < H ∧ c < W ∧ destR = (r : Int) ∧ destC = (c : Int) ∧
      cellAt g r c = some d ∧ ((r : Int) ≠ curR ∨ (c : Int) ≠ curC) ∧
      ∀ r' c' : Nat, r' < H → c' < W → Before (r', c') (r, c) →
        cellAt g r' c' = some d → ((r' : Int) = curR ∧ (c' : Int) = curC)) ∨
  (destR = curR ∧ destC = curC ∧
    ∀ r' c' : Nat, r' < H → c' < W → cellAt g r' c' = some d →
      ((r' : Int) = curR ∧ (c' : Int) = curC))

/-- The grid `g'` is the grid `g` with some breakable walls turned into blanks:
every cell is as in `g`, or was `X` in `g` and is blank in `g'`. -/
def Eroded (g g' : Grid) : Prop :=
  ∀ r c : Int, cellAt g' r c = cellAt g r c ∨
    (cellAt g r c = some 'X' ∧ cellAt g' r c = some ' ')

/-- The only change a move makes to the grid: none, or, with breaker on, the
breakable wall at the cell `(mr, mc)` moved into becomes blank. -/
def WallStep (g : Grid) (H W : Nat) (breaker : Bool) (mr mc : Int) (g' : Grid) : Prop :=
  g' = g ∨
  (breaker = true ∧ InGrid H W mr mc ∧ cellAt g mr mc = some 'X' ∧ g' = setCell g mr mc ' ')

/-- The coordinates of the cells `(r, c)` with `r < H` and `c < W` that hold `X`. -/
def xCells (g : Grid) (H W : Nat) : Finset (Nat × Nat) :=
  (Finset.range H ×ˢ Finset.range W).filter
    (fun p => cellAt g (p.1 : Int) (p.2 : Int) = some 'X')

/-- The number of `X` cells of an `H` by `W` grid. -/
def xCount (g : Grid) (H W : Nat) : Nat := (xCells g H W).card

/-- The grid `g` with the cells of `S` blanked. -/
def blankSet (g : Grid) (S : Finset (Nat × Nat)) : Grid :=
  g.mapIdx (fun i row => row.mapIdx (fun j ch => if (i, j) ∈ S then ' ' else ch))

/-- The bound of the specification on the number of configurations: `H·W·4·2·2·2^K`. -/
def configBound (H W K : Nat) : Nat := H * W * 4 * 2 * 2 * 2 ^ K

/-! ## Runs, configurations and invariants -/

/-- Iterating a loop body that has no exit test: the state after `n` passes,
`none` when a pass halts or does not return. -/
def iterate {σ : Type} (step : σ → Option (Iter σ)) : Nat → σ → Option σ
  | 0, s => some s
  | n + 1, s =>
    match step s with
    | some (.next s') => iterate step n s'
    | _ => none

/-- The configuration of chatgpt: position, facing, breaker, inverted and grid. -/
def Chatgpt.conf (s : Chatgpt.St) : Chatgpt.Point × Dir × Bool × Bool × Grid :=
  (s.pos, s.dir, s.breaker, s.inverted, s.grid)

/-- The configuration of claude: the state and the grid. -/
def Claude.conf (r : Claude.Robot) : Claude.State × Grid := (r.state, r.grid)

/-- The configuration of grok: position, facing, inverted, breaker and grid
(all variables of the loop but the path and the visited set). -/
def Grok.conf (v : Grok.Vars) : Int × Int × Dir × Bool × Bool × Grid :=
  (v.curR, v.curC, v.curDir, v.curInv, v.curBreaker, v.grid)

/-- What the main loop of chatgpt reads of its variables. -/
def Chatgpt.view (s : Chatgpt.St) : Grid × Chatgpt.Point × Dir × Bool × Bool × Bool :=
  (s.grid, s.pos, s.dir, s.breaker, s.inverted, decide (Chatgpt.key s ∈ s.visited))

/-- What the loop of claude reads of its robot: the state and the grid. -/
def Claude.view (r : Claude.Robot) : Claude.State × Grid := (r.state, r.grid)

/-- The claude robot after `n` passes of the loop of `findPath`, all of which went on. -/
def Claude.runChecked (n : Nat) (grid : Grid) (height width : Nat) : Option Claude.Robot :=
  match Claude.NewRobot grid height width with
  | .crash => none
  | .ok robot => iterate (fun r => some (Claude.findPathBody r)) n robot

/-- The claude robot after `n` passes of the loop of `findPath` with the
destination test and the visited test left out. -/
def Claude.runFree (n : Nat) (grid : Grid) (height width : Nat) : Option Claude.Robot :=
  match Claude.NewRobot grid height width with
  | .crash => none
  | .ok robot => iterate (fun r => some (Claude.advance r)) n robot

/-- The grid of chatgpt is the loaded grid `g0` with the cells listed in
`destroyed` (as indices `r * W + c`) blanked. -/
def Chatgpt.Tracks (g0 : Grid) (H W : Nat) (s : Chatgpt.St) : Prop :=
  Rect s.grid H W ∧
  ∀ r c : Int, InGrid H W r c →
    cellAt s.grid r c = if r * (W : Int) + c ∈ s.destroyed then some ' ' else cellAt g0 r c

/-- The robot of claude is well placed on an `H` by `W` grid: the grid is
rectangular, the robot and all teleporter cells lie inside it. -/
def Claude.Sound (H W : Nat) (r : Claude.Robot) : Prop :=
  Rect r.grid H W ∧ r.height = H ∧ r.width = W ∧
  InGrid H W r.state.pos.row r.state.pos.col ∧
  ∀ ch ∈ teleDigits, ∀ tp ∈ r.teleporters ch, InGrid H W tp.row tp.col

/-- The variables of grok are well placed with respect to the grid `g1` the
loop started on: the grid is `g1` with some of its breakable walls blanked and
the robot is inside it. -/
def Grok.Sound (g1 : Grid) (H W : Nat) (v : Grok.Vars) : Prop :=
  Rect v.grid H W ∧ InGrid H W v.curR v.curC ∧
  ∃ S, S ⊆ xCells g1 H W ∧ v.grid = blankSet g1 S

/-- The keys claude can record on an `H` by `W` grid. -/
def Claude.keySpace (H W : Nat) : Finset Claude.State :=
  (Finset.range H ×ˢ Finset.range W ×ˢ (Finset.univ : Finset Dir) ×ˢ
      (Finset.univ : Finset Bool) ×ˢ (Finset.univ : Finset Bool)).image
    (fun t => ⟨⟨(t.1 : Int), (t.2.1 : Int)⟩, t.2.2.1, t.2.2.2.1, t.2.2.2.2⟩)

/-- The keys grok can record when its loop starts on the grid `g1`. -/
def Grok.keySpace (g1 : Grid) (H W : Nat) : Finset Grok.State :=
  (Finset.range H ×ˢ Finset.range W ×ˢ (Finset.univ : Finset Dir) ×ˢ
      (Finset.univ : Finset Bool) ×ˢ (Finset.univ : Finset Bool) ×ˢ
      (xCells g1 H W).powerset).image
    (fun t => ⟨(t.1 : Int), (t.2.1 : Int), t.2.2.1, t.2.2.2.1, t.2.2.2.2.1,
      Grok.gridKey (blankSet g1 t.2.2.2.2.2)⟩)

/-! ## Sample inputs -/

/-- Scenario A of the specification, test 1 of the chatgpt harness. -/
def scenarioA : Grid :=
  ["######".toList, "#@E $#".toList, "# N  #".toList, "#X   #".toList, "######".toList]

/-- Test 3 of the chatgpt harness: breaker tiles and breakable walls. -/
def harnessTest3 : Grid :=
  ["##########".toList, "# @      #".toList, "# B      #".toList, "#XXX     #".toList,
   "# B      #".toList, "#    BXX$#".toList, "#XXXXXXXX#".toList, "#        #".toList,
   "#        #".toList, "##########".toList]

/-- Test 5 of the chatgpt harness (scenario D): one teleporter pair `1`. -/
def harnessTest5 : Grid :=
  ["##########".toList, "#    1   #".toList, "#        #".toList, "#        #".toList,
   "#        #".toList, "#@       #".toList, "#        #".toList, "#        #".toList,
   "#    1  $#".toList, "##########".toList]

/-- Test 6 of the chatgpt harness (scenario B): the robot circles below `$`. -/
def harnessTest6 : Grid :=
  ["#####".toList, "#   #".toList, "# $ #".toList, "# @ #".toList, "#####".toList]

/-- A grid on which the robot comes back to its start with the same facing and
flags after having destroyed the wall below the start:
row 1 `#ES##`, row 2 `#B@B#`, row 3 `#NXW#`, row 4 `##$##`. -/
def wallLoopGrid : Grid :=
  ["#####".toList, "#ES##".toList, "#B@B#".toList, "#NXW#".toList, "##$##".toList]

/-- A one-row grid without a goal cell: a blank and the start. -/
def noGoalGrid : Grid := [" @".toList]

/-- The chatgpt variables on scenario A after the first move: the robot stands
at `(2, 1)` facing SOUTH with the breakable wall ahead. -/
def Chatgpt.sampleSt : Chatgpt.St :=
  { grid := scenarioA, pos := ⟨2, 1⟩, dir := .SOUTH, breaker := false, inverted := false,
    destroyed := [], moves := ["SOUTH"], visited := [⟨1, 1, .SOUTH, false, false, []⟩] }

/-- The claude robot on scenario A after the first move. -/
def Claude.sampleRobot : Claude.Robot :=
  { grid := scenarioA, height := 5, width := 6, startPos := ⟨1, 1⟩, destPos := ⟨1, 4⟩,
    teleporters := fun _ => [], state := ⟨⟨2, 1⟩, .SOUTH, false, false⟩,
    visited := [⟨⟨1, 1⟩, .SOUTH, false, false⟩], path := [.SOUTH] }

/-- The grok variables on scenario A after the first move (the start cell is blanked). -/
def Grok.sampleVars : Grok.Vars :=
  { grid := setCell scenarioA 1 1 ' ', curR := 2, curC := 1, curDir := .SOUTH, curInv := false,
    curBreaker := false, path := ["SOUTH"],
    visited := [⟨1, 1, .SOUTH, false, false, Grok.gridKey (setCell scenarioA 1 1 ' ')⟩] }

/-- The grok variables on test 5 of the harness when the robot has just
entered the teleporter cell `(8, 5)` facing EAST. -/
def Grok.sampleOnTele : Grok.Vars :=
  { grid := setCell harnessTest5 5 1 ' ', curR := 8, curC := 5, curDir := .EAST, curInv := false,
    curBreaker := false, path := ["SOUTH", "SOUTH", "SOUTH", "EAST", "EAST", "EAST", "EAST"],
    visited := [] }

/-! ## Reading the grid -/

/-- The number of bytes a character takes in a Go string (its UTF-8 encoding);
Go's `len(line)` counts bytes. -/
def byteLen (c : Char) : Nat :=
  if c.toNat < 128 then 1 else if c.toNat < 2048 then 2 else if c.toNat < 65536 then 3 else 4

/-- The value `len(line)` for a line of text. -/
def textLen (line : List Char) : Nat := (line.map byteLen).sum

/-- The conversion `[]rune(line[:n])` for `n ≤ len(line)`: the characters that
lie wholly inside the first `n` bytes; when the cut falls inside the encoding
of a character, each of its bytes that is kept converts to the replacement
character `U+FFFD`. -/
def runesOfBytes : List Char → Nat → List Char
  | [], _ => []
  | c :: cs, n =>
    if n = 0 then []
    else if byteLen c ≤ n then c :: runesOfBytes cs (n - byteLen c)
    else List.replicate n (Char.ofNat 0xFFFD)

/-- The bytes of the UTF-8 encoding of a character, each byte as a cell. -/
def utf8Bytes (c : Char) : List Char :=
  let n := c.toNat
  if n < 128 then [c]
  else if n < 2048 then [Char.ofNat (192 + n / 64), Char.ofNat (128 + n % 64)]
  else if n < 65536 then
    [Char.ofNat (224 + n / 4096), Char.ofNat (128 + n / 64 % 64), Char.ofNat (128 + n % 64)]
  else
    [Char.ofNat (240 + n / 262144), Char.ofNat (128 + n / 4096 % 64),
     Char.ofNat (128 + n / 64 % 64), Char.ofNat (128 + n % 64)]

/-- Lines 71-74 of chatgpt: pad the line with blanks up to `W` bytes, keep the
first `W` bytes and convert them to runes. -/
def Chatgpt.loadRow (W : Nat) (line : String) : List Char :=
  let padded : List Char :=
    if textLen line.toList < W then line.toList ++ List.replicate (W - textLen line.toList) ' '
    else line.toList
  runesOfBytes padded W

/-- The load loop of chatgpt (lines 65-84): `lines` are the texts returned by
the successive calls of `readLine`, which returns the empty text at the end of
the input. -/
def Chatgpt.loadGrid (H W : Nat) (lines : List String) : Grid :=
  (List.range H).map (fun i => Chatgpt.loadRow W (lines.getD i ""))

/-- The function `runSolver` on the dimensions and the lines that follow them. -/
def Chatgpt.run (tf fuel : Nat) (H W : Nat) (lines : List String) : Option Outcome :=
  Chatgpt.runSolver tf fuel H W (Chatgpt.loadGrid H W lines)

/-- Lines 243-255 of claude: add blanks while the line has fewer than `width`
bytes, cut it to `width` bytes when it has more, convert it to runes. -/
def Claude.loadRow (width : Nat) (line : String) : List Char :=
  let padded : List Char := line.toList ++ List.replicate (width - textLen line.toList) ' '
  if textLen padded > width then runesOfBytes padded width else padded

/-- The load loop of claude (lines 240-256): `lines` are the texts returned by
`scanner.Text()`, empty once the input has ended. -/
def Claude.loadGrid (height width : Nat) (lines : List String) : Grid :=
  (List.range height).map (fun i => Claude.loadRow width (lines.getD i ""))

/-- The function `main` of claude on the dimensions and the lines that follow them. -/
def Claude.run (fuel : Nat) (height width : Nat) (lines : List String) : Option Outcome :=
  Claude.main fuel height width (Claude.loadGrid height width lines)

/-- Line 46 of grok: the row is the bytes of the line, as they are. -/
def Grok.loadRow (line : String) : List Char := line.toList.flatMap utf8Bytes

/-- The load loop of grok (lines 43-47). -/
def Grok.loadGrid (H : Nat) (lines : List String) : Grid :=
  (List.range H).map (fun i => Grok.loadRow (lines.getD i ""))

/-- The function `main` of grok on the dimensions and the lines that follow them. -/
def Grok.run (fuel : Nat) (H W : Nat) (lines : List String) : Option Outcome :=
  Grok.main fuel H W (Grok.loadGrid H lines)

/-- The five lines of scenario A. -/
def scenarioALines : List String := ["######", "#@E $#", "# N  #", "#X   #", "######"]

/-- The cell `(r, c)` of the 5 by 5 enclosed box whose start is at `a` and
whose goal is at `d`: `#` on the border, blank inside except for `@` at `a`
and `$` at `d`. -/
def boxCell (a d : Nat × Nat) (r c : Nat) : Char :=
  if r = 0 ∨ r = 4 ∨ c = 0 ∨ c = 4 then '#'
  else if (r, c) = a then '@'
  else if (r, c) = d then '$'
  else ' '

/-- The 5 by 5 enclosed box with the start at `a` and the goal at `d`. -/
def boxGrid (a d : Nat × Nat) : Grid :=
  (List.range 5).map (fun r => (List.range 5).map (fun c => boxCell a d r c))

/-- Scenario B: `g` is a 5 by 5 grid whose border cells are all `#` and whose
3 by 3 interior is blank except for one `@`, at `a`, and one `$`, at `d`. -/
def EnclosedBox (g : Grid) (a d : Nat × Nat) : Prop :=
  Rect g 5 5 ∧ (1 ≤ a.1 ∧ a.1 ≤ 3 ∧ 1 ≤ a.2 ∧ a.2 ≤ 3) ∧
  (1 ≤ d.1 ∧ d.1 ≤ 3 ∧ 1 ≤ d.2 ∧ d.2 ≤ 3) ∧ a ≠ d ∧
  ∀ r c : Nat, r < 5 → c < 5 → cellAt g (r : Int) (c : Int) = some (boxCell a d r c)

/-- An enclosed box with `@` directly above `$`: rows `# @ #`, `# $ #`, `#   #`. -/
def startAboveGoal : Grid :=
  ["#####".toList, "# @ #".toList, "# $ #".toList, "#   #".toList, "#####".toList]

/-! ## Replaying a path (specification, section 8) -/

/-- Exactly one start: `(sr, sc)` is the one cell of the `H` by `W` grid that holds `@`. -/
def UniqueStart (g : Grid) (H W : Nat) (sr sc : Int) : Prop :=
  InGrid H W sr sc ∧ cellAt g sr sc = some '@' ∧
  ∀ r c : Int, cellAt g r c = some '@' → r = sr ∧ c = sc

/-- The cells of the `H` by `W` grid that hold `d`, in row-major order. -/
def cellsWith (g : Grid) (H W : Nat) (d : Char) : List (Nat × Nat) :=
  (rowMajor H W).filter (fun q => decide (cellAt g (q.1 : Int) (q.2 : Int) = some d))

/-- Every digit that appears in the grid appears exactly twice (specification,
section 3): each of `1` to `9` is the symbol of no cell or of two cells. -/
def PairedDigits (g : Grid) : Prop :=
  ∀ d ∈ teleDigits, g.flatten.count d = 0 ∨ g.flatten.count d = 2

instance (g : Grid) : Decidable (PairedDigits g) := by
  unfold PairedDigits
  infer_instance

/-- Every cell of the `H` by `W` window is a cell of the grid: each read
`grid[r][c]` with `r < H` and `c < W` finds a cell. -/
def Readable (g : Grid) (H W : Nat) : Prop :=
  ∀ q ∈ rowMajor H W, (cellAt g (q.1 : Int) (q.2 : Int)).isSome = true

instance (g : Grid) (H W : Nat) : Decidable (Readable g H W) := by
  unfold Readable
  infer_instance

/-- The grid `g'` is the grid `g` with some of its `@` cells turned into blanks. -/
def Blanked (g g' : Grid) : Prop :=
  ∀ r c : Int, cellAt g' r c = cellAt g r c ∨
    (cellAt g r c = some '@' ∧ cellAt g' r c = some ' ')

/-- The direction that a printed line names. -/
def nameToDir (name : String) : Option Dir :=
  if name = "SOUTH" then some .SOUTH
  else if name = "EAST" then some .EAST
  else if name = "NORTH" then some .NORTH
  else if name = "WEST" then some .WEST
  else none

/-- The directions that the lines of a printed path name. -/
def parsePath : List String → Option (List Dir)
  | [] => some []
  | name :: rest =>
    match nameToDir name, parsePath rest with
    | some d, some ds => some (d :: ds)
    | _, _ => none

/-- The teleport destination of the specification (4.1) as a function: the
first cell in row-major order that holds `d` and is not `(r, c)`, else `(r, c)`. -/
def teleDest (g : Grid) (H W : Nat) (d : Char) (r c : Int) : Int × Int :=
  match (rowMajor H W).find? (fun q => decide (cellAt g (q.1 : Int) (q.2 : Int) = some d ∧
      ((q.1 : Int) ≠ r ∨ (q.2 : Int) ≠ c))) with
  | some q => ((q.1 : Int), (q.2 : Int))
  | none => (r, c)

/-- The state of a replay: its own copy of the grid, the robot, the walls it
has destroyed, and whether every cell entered so far was passable. -/
structure Walk where
  grid : Grid
  r : Int
  c : Int
  facing : Dir
  breaker : Bool
  inverted : Bool
  destroyed : List (Int × Int)
  legal : Bool

/-- The start of a replay on the grid `g`: at `(sr, sc)` facing SOUTH, breaker
and inverted off, nothing destroyed. -/
def Walk.start (g : Grid) (sr sc : Int) : Walk :=
  { grid := g, r := sr, c := sc, facing := .SOUTH, breaker := false, inverted := false,
    destroyed := [], legal := true }

/-- The tile effect of the current cell in a replay: `B` and `I` toggle their
flag, a digit teleports.  (A direction letter would set the facing, which the
next listed direction replaces.) -/
def Walk.effect (H W : Nat) (w : Walk) : Walk :=
  match cellAt w.grid w.r w.c with
  | none => w
  | some ch =>
    if ch = 'B' then { w with breaker := !w.breaker }
    else if ch = 'I' then { w with inverted := !w.inverted }
    else if isTeleDigit ch then
      { w with r := (teleDest w.grid H W ch w.r w.c).1, c := (teleDest w.grid H W ch w.r w.c).2 }
    else w

/-- One cell in the direction `d`: the cell entered is checked for passability
and destroyed if it is `X` and breaker is on. -/
def Walk.move (H W : Nat) (w : Walk) (d : Dir) : Walk :=
  let w1 : Walk :=
    if cellAt w.grid (ahead w.r w.c d).1 (ahead w.r w.c d).2 = some 'X' ∧ w.breaker = true then
      { w with grid := setCell w.grid (ahead w.r w.c d).1 (ahead w.r w.c d).2 ' ',
               destroyed := ((ahead w.r w.c d).1, (ahead w.r w.c d).2) :: w.destroyed }
    else w
  { w1 with r := (ahead w.r w.c d).1, c := (ahead w.r w.c d).2, facing := d,
            legal := w.legal && decide (Passable w.grid H W w.breaker
              (ahead w.r w.c d).1 (ahead w.r w.c d).2) }

/-- The replay of a list of directions: for each one, the effect of the
current cell, then the move. -/
def replay (H W : Nat) (w : Walk) (dirs : List Dir) : Walk :=
  dirs.foldl (fun w d => Walk.move H W (Walk.effect H W w) d) w

/-- The replay of a printed path; `none` when a line is not a direction name. -/
def replayNames (H W : Nat) (w : Walk) (names : List String) : Option Walk :=
  (parsePath names).map (replay H W w)

/-- A one-row grid with a single teleporter cell: `$`, blank, `1`, `@`. -/
def loneTeleGrid : Grid := ["$ 1@".toList]

/-- A one-row grid without a start cell: `1`, `$`, blank, `1`. -/
def noStartGrid : Grid := ["1$ 1".toList]

/-- A grid with two start cells: rows `@ @` and two blanks followed by `$`. -/
def twoStartsGrid : Grid := ["@ @".toList, "  $".toList]

/-- The one line `@é$` that follows the dimensions `1 3`: four bytes, of which
the load loops of chatgpt and claude keep three, two characters. -/
def shortRowLines : List String := ["@é$"]

/-- The symbol that the start scan of grok leaves in a cell: a blank for `@`. -/
def deAt (ch : Char) : Char := if ch = '@' then ' ' else ch

/-- The robot of claude at the head of a pass agrees with the replay of its
path so far on the loaded grid `g0`: same grid, position, facing and flags,
and every cell entered was passable. -/
def Claude.Replays (g0 : Grid) (H W : Nat) (sr sc : Int) (r : Claude.Robot) : Prop :=
  r.height = H ∧ r.width = W ∧
  (∀ ch ∈ teleDigits, r.teleporters ch =
    (cellsWith g0 H W ch).map (fun q => (⟨(q.1 : Int), (q.2 : Int)⟩ : Claude.Position))) ∧
  (replay H W (Walk.start g0 sr sc) r.path).legal = true ∧
  (replay H W (Walk.start g0 sr sc) r.path).grid = r.grid ∧
  (replay H W (Walk.start g0 sr sc) r.path).r = r.state.pos.row ∧
  (replay H W (Walk.start g0 sr sc) r.path).c = r.state.pos.col ∧
  (replay H W (Walk.start g0 sr sc) r.path).facing = r.state.direction ∧
  (replay H W (Walk.start g0 sr sc) r.path).breaker = r.state.breaker ∧
  (replay H W (Walk.start g0 sr sc) r.path).inverted = r.state.inverted

/-- The variables of grok at the head of a pass agree with the replay of the
path so far on the loaded grid `g0`: the grid of grok is the grid of the
replay with the `@` cells that the start scan met blanked, and grok has
already applied the effect of the cell that the replay stands on. -/
def Grok.Replays (g0 : Grid) (H W : Nat) (sr sc : Int) (v : Grok.Vars) : Prop :=
  ∃ dirs : List Dir, v.path = dirs.map Grok.dirNames ∧
    (replay H W (Walk.start g0 sr sc) dirs).legal = true ∧
    Blanked (replay H W (Walk.start g0 sr sc) dirs).grid v.grid ∧
    (Walk.effect H W (replay H W (Walk.start g0 sr sc) dirs)).r = v.curR ∧
    (Walk.effect H W (replay H W (Walk.start g0 sr sc) dirs)).c = v.curC ∧
    (Walk.effect H W (replay H W (Walk.start g0 sr sc) dirs)).breaker = v.curBreaker ∧
    (Walk.effect H W (replay H W (Walk.start g0 sr sc) dirs)).inverted = v.curInv

/-- The variables of chatgpt at the head of a pass of the main loop agree with
the replay of the moves so far on the loaded grid `g0`: same grid and
position, the robot stands on a cell that is no digit, chatgpt has already
applied the effect of that cell, and `destroyed` holds the indices
`r * W + c` of the walls the replay has destroyed. -/
def Chatgpt.Replays (g0 : Grid) (H W : Nat) (sr sc : Int) (s : Chatgpt.St) : Prop :=
  ∃ dirs : List Dir, s.moves = dirs.map Chatgpt.dirToName ∧
    (replay H W (Walk.start g0 sr sc) dirs).legal = true ∧
    (replay H W (Walk.start g0 sr sc) dirs).grid = s.grid ∧
    (replay H W (Walk.start g0 sr sc) dirs).r = s.pos.r ∧
    (replay H W (Walk.start g0 sr sc) dirs).c = s.pos.c ∧
    (∃ ch, cellAt s.grid s.pos.r s.pos.c = some ch ∧ isTeleDigit ch = false) ∧
    (Walk.effect H W (replay H W (Walk.start g0 sr sc) dirs)).breaker = s.breaker ∧
    (Walk.effect H W (replay H W (Walk.start g0 sr sc) dirs)).inverted = s.inverted ∧
    ∀ i : Int, i ∈ s.destroyed ↔
      ∃ q ∈ (replay H W (Walk.start g0 sr sc) dirs).destroyed, i = q.1 * (W : Int) + q.2

/-- A row as the specification (section 6) wants it loaded: the line extended
with trailing blanks when it has fewer than `W` characters, cut to its first
`W` characters when it has more. -/
def padOrCut (W : Nat) (line : List Char) : List Char :=
  (line ++ List.replicate (W - line.length) ' ').take W

/-- A line of one-byte characters (ASCII), the kind the grid alphabet is made of. -/
def OneByte (line : String) : Prop := ∀ c ∈ line.toList, c.toNat < 128

instance (line : String) : Decidable (OneByte line) := by
  unfold OneByte
  infer_instance

/-- Two input lines for a 2 by 3 grid, the first one shorter than the width. -/
def shortLineInput : List String := ["@", "  $"]

/-! ## The loops without their visited test -/

/-- One pass of the main loop of chatgpt with the visited test left out. -/
def Chatgpt.plainBody (tp : Chatgpt.Point → Chatgpt.Point) (tf : Nat) (H W : Nat)
    (s : Chatgpt.St) : Option (Iter Chatgpt.St) :=
  match cellAt s.grid s.pos.r s.pos.c with
  | none => some (.halt .crash)
  | some here =>
    if here = '$' then some (.halt (.success s.moves)) else Chatgpt.advance tp tf H W s

/-- One pass of the loop of `findPath` with the visited test left out. -/
def Claude.plainBody (r : Claude.Robot) : Iter Claude.Robot :=
  if r.state.pos = r.destPos then .halt (.success (r.path.map Claude.Direction.String))
  else Claude.advance r

/-- One pass of the simulation loop of grok with the visited test left out. -/
def Grok.plainBody (H W : Nat) (v : Grok.Vars) : Iter Grok.Vars :=
  match cellAt v.grid v.curR v.curC with
  | none => .halt .crash
  | some here => if here = '$' then .halt (.success v.path) else Grok.advance H W v

/-- The `H` by `W` grid holds no digit cell. -/
def NoDigits (g : Grid) (H W : Nat) : Prop := ∀ d ∈ teleDigits, cellsWith g H W d = []

instance (g : Grid) (H W : Nat) : Decidable (NoDigits g H W) := by
  unfold NoDigits
  infer_instance

/-- The variables of chatgpt are well placed on the loaded grid `g0`: the grid
is `g0` with the cells listed in `destroyed` blanked, the robot is inside it,
and `destroyed` lists distinct indices of cells of the grid. -/
def Chatgpt.Steady (g0 : Grid) (H W : Nat) (s : Chatgpt.St) : Prop :=
  Chatgpt.Tracks g0 H W s ∧ InGrid H W s.pos.r s.pos.c ∧ s.destroyed.Nodup ∧
  ∀ i ∈ s.destroyed, 0 ≤ i ∧ i < (H : Int) * (W : Int)

/-- The keys chatgpt can record on an `H` by `W` grid: a cell, a facing, the
two flags and an increasing list of cell indices. -/
def Chatgpt.keySpace (H W : Nat) : Finset Chatgpt.Key :=
  (Finset.range H ×ˢ Finset.range W ×ˢ (Finset.univ : Finset Dir) ×ˢ
      (Finset.univ : Finset Bool) ×ˢ (Finset.univ : Finset Bool) ×ˢ
      (Finset.Ico (0 : Int) ((H : Int) * (W : Int))).powerset).image
    (fun t => ⟨(t.1 : Int), (t.2.1 : Int), t.2.2.1, t.2.2.2.1, t.2.2.2.2.1,
      t.2.2.2.2.2.sort (fun a b => a ≤ b)⟩)

/-- chatgpt and grok stand alike: the grid of grok is the grid of chatgpt with
`@` blanked, there is no digit on it, and the robot, its facing, its flags and
the moves recorded are the same. -/
def Chatgpt.Matches (H W : Nat) (s : Chatgpt.St) (v : Grok.Vars) : Prop :=
  Rect s.grid H W ∧ Rect v.grid H W ∧ InGrid H W s.pos.r s.pos.c ∧
  (∀ x y : Int, cellAt v.grid x y = (cellAt s.grid x y).map deAt) ∧
  (∀ (x y : Int) (ch : Char), cellAt s.grid x y = some ch → isTeleDigit ch = false) ∧
  v.curR = s.pos.r ∧ v.curC = s.pos.c ∧ v.curDir = s.dir ∧ v.curBreaker = s.breaker ∧
  v.curInv = s.inverted ∧ v.path = s.moves

/-- Everything of the robot of claude that a pass of the loop reads, the
visited set apart: the state, the grid and its size, the destination and the
teleporter table. -/
def Claude.whole (r : Claude.Robot) :
    Claude.State × Grid × Nat × Nat × Claude.Position × (Char → List Claude.Position) :=
  (r.state, r.grid, r.height, r.width, r.destPos, r.teleporters)

/-- The robot `r` of claude has the grid, the size, the destination and the
teleporter table of the robot `rb0`. -/
def Claude.Fixed (rb0 r : Claude.Robot) : Prop :=
  r.grid = rb0.grid ∧ r.height = rb0.height ∧ r.width = rb0.width ∧
  r.destPos = rb0.destPos ∧ r.teleporters = rb0.teleporters

/-- Exactly one goal: `(dr, dc)` is the one cell of the `H` by `W` grid that holds `$`. -/
def UniqueGoal (g : Grid) (H W : Nat) (dr dc : Int) : Prop :=
  InGrid H W dr dc ∧ cellAt g dr dc = some '$' ∧
  ∀ r c : Int, cellAt g r c = some '$' → r = dr ∧ c = dc

/-- The `H` by `W` grid holds no breakable wall. -/
def NoWalls (g : Grid) (H W : Nat) : Prop := cellsWith g H W 'X' = []

instance (g : Grid) (H W : Nat) : Decidable (NoWalls g H W) := by
  unfold NoWalls
  infer_instance

/-- claude at the head of a pass and grok at the head of a pass stand alike:
on the loaded grid `g`, which grok holds as `g1`, grok has the position, the
facing and the flags that claude will have once it has applied the effect of
the cell it stands on, and both have recorded the same moves. -/
def Claude.Agrees (g g1 : Grid) (H W : Nat) (dr dc : Int) (r : Claude.Robot)
    (v : Grok.Vars) : Prop :=
  r.grid = g ∧ r.height = H ∧ r.width = W ∧ r.destPos = ⟨dr, dc⟩ ∧
  (∀ ch ∈ teleDigits, r.teleporters ch =
    (cellsWith g H W ch).map (fun q => (⟨(q.1 : Int), (q.2 : Int)⟩ : Claude.Position))) ∧
  InGrid H W r.state.pos.row r.state.pos.col ∧
  v.grid = g1 ∧ v.path = r.path.map Claude.Direction.String ∧
  ∃ cell, cellAt g r.state.pos.row r.state.pos.col = some cell ∧
    v.curR = (Claude.special r cell).state.pos.row ∧
    v.curC = (Claude.special r cell).state.pos.col ∧
    v.curDir = (Claude.special r cell).state.direction ∧
    v.curInv = (Claude.special r cell).state.inverted ∧
    v.curBreaker = (Claude.special r cell).state.breaker

/-! ## Cells probed by a move -/

/-- Each of the cells one step from `(r, c)` in a direction of `l` that lies
inside the `H` by `W` bounds is a cell of the grid. -/
def Probed (g : Grid) (H W : Nat) (r c : Int) (l : List Dir) : Prop :=
  ∀ e ∈ l, InGrid H W (ahead r c e).1 (ahead r c e).2 →
    (cellAt g (ahead r c e).1 (ahead r c e).2).isSome = true

instance (g : Grid) (H W : Nat) (r c : Int) (l : List Dir) : Decidable (Probed g H W r c l) := by
  unfold Probed
  infer_instance

/-- The variables of chatgpt on the input `1 3` / `@é$` after the first pass of
the main loop: the robot has moved EAST onto the second and last cell of the row. -/
def Chatgpt.shortRowSt : Chatgpt.St :=
  { grid := [['@', 'é']], pos := ⟨0, 1⟩, dir := .EAST, breaker := false, inverted := false,
    destroyed := [], moves := ["EAST"],
    visited := [⟨0, 0, .SOUTH, false, false, []⟩] }

/-- A one-row grid whose row is longer than the width `3` it is read with:
`@`, blank, `$`, `#`. -/
def longRowGrid : Grid := ["@ $#".toList]

/-! ## Passability and move resolution -/

theorem cellAt_of_rect {g : Grid} {H W : Nat} (hg : Rect g H W) {r c : Int}
    (h : InGrid H W r c) : ∃ ch, cellAt g r c = some ch := by
  obtain ⟨hr0, hr1, hc0, hc1⟩ := h
  obtain ⟨hlen, hrow⟩ := hg
  have h1 : r.toNat < g.length := by omega
  have h2 : (g[r.toNat]).length = W := hrow _ (List.getElem_mem _)
  have h3 : c.toNat < (g[r.toNat]).length := by omega
  refine ⟨(g[r.toNat])[c.toNat], ?_⟩
  simp [cellAt, hr0, hc0, List.getElem?_eq_getElem h1, List.getElem?_eq_getElem h3]

theorem isTeleDigit_ne_wall {ch : Char} (h : isTeleDigit ch = true) : ch ≠ '#' ∧ ch ≠ 'X' := by
  constructor <;> (rintro rfl; revert h; decide)

/-- chatgpt: `canInside && canStep` is the passability of the specification. -/
theorem Chatgpt.canGo_iff (g : Grid) (H W : Nat) (breaker : Bool) (p : Chatgpt.Point) :
    Chatgpt.canGo g H W breaker p = .ok true ↔ Passable g H W breaker p.r p.c := by
  unfold Chatgpt.canGo Chatgpt.canInside Chatgpt.canStep Passable InGrid
  by_cases hin : p.r ≥ 0 ∧ p.r < (H : Int) ∧ p.c ≥ 0 ∧ p.c < (W : Int)
  · have hin2 : 0 ≤ p.r ∧ p.r < (H : Int) ∧ 0 ≤ p.c ∧ p.c < (W : Int) := hin
    simp only [hin, hin2, decide_True, if_true, true_and]
    cases hc : cellAt g p.r p.c with
    | none => simp
    | some ch =>
      by_cases h1 : ch = '#'
      · simp [h1]
      · by_cases h2 : ch = 'X'
        · cases breaker <;> simp [h1, h2]
        · simp [h1, h2]
  · have hin2 : ¬ (0 ≤ p.r ∧ p.r < (H : Int) ∧ 0 ≤ p.c ∧ p.c < (W : Int)) := hin
    simp only [hin, hin2, decide_False]
    simp

theorem Claude.canMoveTo_eq (r : Claude.Robot) (p : Claude.Position) :
    Claude.canMoveTo r p = Chatgpt.canGo r.grid r.height r.width r.state.breaker ⟨p.row, p.col⟩ := by
  unfold Claude.canMoveTo Claude.isValidPosition Chatgpt.canGo Chatgpt.canInside Chatgpt.canStep
  by_cases hin : p.row ≥ 0 ∧ p.row < (r.height : Int) ∧ p.col ≥ 0 ∧ p.col < (r.width : Int)
  · have hv : decide (p.row ≥ 0 ∧ p.row < (r.height : Int) ∧ p.col ≥ 0 ∧ p.col < (r.width : Int))
        = true := by simpa using hin
    simp only [hv, Bool.true_eq_false, if_false, if_true]
    cases hc : cellAt r.grid p.row p.col with
    | none => simp
    | some ch =>
      by_cases h1 : ch = '#'
      · subst h1; simp; decide
      · by_cases h2 : ch = 'X'
        · subst h2
          cases hb : r.state.breaker <;> simp; all_goals decide
        · simp only [h1, h2, if_false, false_and]
          split <;> simp
  · simp [hin]

theorem Grok.blockedAt_eq (g : Grid) (H W : Nat) (breaker : Bool) (r c : Int) :
    Grok.blockedAt g H W breaker r c =
      match Chatgpt.canGo g H W breaker ⟨r, c⟩ with
      | .ok b => .ok (!b)
      | .crash => .crash := by
  unfold Grok.blockedAt Chatgpt.canGo Chatgpt.canInside Chatgpt.canStep
  by_cases hin : r ≥ 0 ∧ r < (H : Int) ∧ c ≥ 0 ∧ c < (W : Int)
  · simp only [hin, decide_True, if_true]
    cases hc : cellAt g r c with
    | none => simp
    | some ch =>
      by_cases h1 : ch = '#'
      · simp [h1]
      · by_cases h2 : ch = 'X'
        · cases breaker <;> simp [h1, h2]
        · simp [h1, h2]
  · simp [hin]

theorem Chatgpt.canGo_total {g : Grid} {H W : Nat} (hg : Rect g H W) (breaker : Bool)
    (p : Chatgpt.Point) :
    (Chatgpt.canGo g H W breaker p = .ok true ∧ Passable g H W breaker p.r p.c) ∨
    (Chatgpt.canGo g H W breaker p = .ok false ∧ ¬ Passable g H W breaker p.r p.c) := by
  by_cases hp : Passable g H W breaker p.r p.c
  · exact Or.inl ⟨(Chatgpt.canGo_iff g H W breaker p).2 hp, hp⟩
  · refine Or.inr ⟨?_, hp⟩
    have hne : Chatgpt.canGo g H W breaker p ≠ .ok true :=
      fun h => hp ((Chatgpt.canGo_iff g H W breaker p).1 h)
    unfold Chatgpt.canGo Chatgpt.canStep at hne ⊢
    by_cases hin : Chatgpt.canInside p H W = true
    · have hin2 : InGrid H W p.r p.c := by
        simpa [Chatgpt.canInside, InGrid] using hin
      obtain ⟨ch, hc⟩ := cellAt_of_rect hg hin2
      simp only [hin, hc, if_true] at hne ⊢
      by_cases h1 : ch = '#'
      · simp [h1]
      · by_cases h2 : ch = 'X' ∧ breaker = false
        · simp [h1, h2]
        · simp [h1, h2] at hne
    · simp [hin]

theorem Chatgpt.neighbour_eq (p : Chatgpt.Point) (d : Dir) :
    Chatgpt.neighbour p d = ⟨(ahead p.r p.c d).1, (ahead p.r p.c d).2⟩ := by
  cases d <;> simp [Chatgpt.neighbour, Chatgpt.dirToDelta, ahead] <;> rfl

theorem Chatgpt.scan_first {g : Grid} {H W : Nat} (hg : Rect g H W) (breaker : Bool)
    (pos : Chatgpt.Point) (d : Dir) :
    ∀ (pre post : List Dir), OpenTo g H W breaker pos.r pos.c d →
      (∀ e ∈ pre, ¬ OpenTo g H W breaker pos.r pos.c e) →
      Chatgpt.scan g H W breaker pos (pre ++ d :: post) =
        .ok (some (d, Chatgpt.neighbour pos d)) := by
  intro pre
  induction pre with
  | nil =>
    intro post hd _
    have h := (Chatgpt.canGo_iff g H W breaker (Chatgpt.neighbour pos d)).2
      (by rw [Chatgpt.neighbour_eq]; exact hd)
    simp [Chatgpt.scan, h]
  | cons e pre ih =>
    intro post hd hpre
    have he : ¬ OpenTo g H W breaker pos.r pos.c e := hpre e (List.mem_cons_self _ _)
    have h : Chatgpt.canGo g H W breaker (Chatgpt.neighbour pos e) = .ok false := by
      rcases Chatgpt.canGo_total hg breaker (Chatgpt.neighbour pos e) with ⟨_, h2⟩ | ⟨h1, _⟩
      · rw [Chatgpt.neighbour_eq] at h2; exact absurd h2 he
      · exact h1
    simp only [List.cons_append, Chatgpt.scan, h]
    exact ih post hd (fun x hx => hpre x (List.mem_cons_of_mem _ hx))

theorem priorityOrder_chatgpt (inverted : Bool) :
    Chatgpt.nextDirOrder inverted = priorityOrder inverted := by
  cases inverted <;> rfl

theorem Chatgpt.resolve_open {H W : Nat} (s : Chatgpt.St)
    (h : OpenTo s.grid H W s.breaker s.pos.r s.pos.c s.dir) :
    Chatgpt.resolve H W s = .ok (some (s.dir, Chatgpt.neighbour s.pos s.dir)) := by
  have h1 := (Chatgpt.canGo_iff s.grid H W s.breaker (Chatgpt.neighbour s.pos s.dir)).2
    (by rw [Chatgpt.neighbour_eq]; exact h)
  simp [Chatgpt.resolve, h1]

theorem Chatgpt.resolve_blocked {H W : Nat} (s : Chatgpt.St) (hg : Rect s.grid H W)
    (h : ¬ OpenTo s.grid H W s.breaker s.pos.r s.pos.c s.dir) (d : Dir)
    (hd : FirstOf (priorityOrder s.inverted) (OpenTo s.grid H W s.breaker s.pos.r s.pos.c) d) :
    Chatgpt.resolve H W s = .ok (some (d, Chatgpt.neighbour s.pos d)) := by
  have h1 : Chatgpt.canGo s.grid H W s.breaker (Chatgpt.neighbour s.pos s.dir) = .ok false := by
    rcases Chatgpt.canGo_total hg s.breaker (Chatgpt.neighbour s.pos s.dir) with ⟨_, h2⟩ | ⟨h1, _⟩
    · rw [Chatgpt.neighbour_eq] at h2; exact absurd h2 h
    · exact h1
  obtain ⟨pre, post, hord, hgood, hpre⟩ := hd
  simp only [Chatgpt.resolve, h1, priorityOrder_chatgpt, hord]
  exact Chatgpt.scan_first hg s.breaker s.pos d pre post hgood hpre

theorem Claude.getNextPosition_eq (r : Claude.Robot) (d : Dir) :
    Claude.getNextPosition r d =
      ⟨(ahead r.state.pos.row r.state.pos.col d).1, (ahead r.state.pos.row r.state.pos.col d).2⟩ := by
  cases d <;> rfl

theorem Claude.canMoveTo_open (r : Claude.Robot) (d : Dir)
    (h : OpenTo r.grid r.height r.width r.state.breaker r.state.pos.row r.state.pos.col d) :
    Claude.canMoveTo r (Claude.getNextPosition r d) = .ok true := by
  rw [Claude.canMoveTo_eq, Claude.getNextPosition_eq]
  exact (Chatgpt.canGo_iff _ _ _ _ _).2 h

theorem Claude.canMoveTo_blocked (r : Claude.Robot) (hg : Rect r.grid r.height r.width) (d : Dir)
    (h : ¬ OpenTo r.grid r.height r.width r.state.breaker r.state.pos.row r.state.pos.col d) :
    Claude.canMoveTo r (Claude.getNextPosition r d) = .ok false := by
  rw [Claude.canMoveTo_eq, Claude.getNextPosition_eq]
  rcases Chatgpt.canGo_total hg r.state.breaker
      ⟨(ahead r.state.pos.row r.state.pos.col d).1, (ahead r.state.pos.row r.state.pos.col d).2⟩
    with ⟨_, h2⟩ | ⟨h1, _⟩
  · exact absurd h2 h
  · exact h1

theorem Claude.tryPriorities_first (r : Claude.Robot) (hg : Rect r.grid r.height r.width)
    (d : Dir) :
    ∀ (pre post : List Dir),
      OpenTo r.grid r.height r.width r.state.breaker r.state.pos.row r.state.pos.col d →
      (∀ e ∈ pre,
        ¬ OpenTo r.grid r.height r.width r.state.breaker r.state.pos.row r.state.pos.col e) →
      Claude.tryPriorities r (pre ++ d :: post) =
        .ok (some (Claude.moveTo r (Claude.getNextPosition r d) d)) := by
  intro pre
  induction pre with
  | nil =>
    intro post hd _
    simp [Claude.tryPriorities, Claude.canMoveTo_open r d hd]
  | cons e pre ih =>
    intro post hd hpre
    have he := Claude.canMoveTo_blocked r hg e (hpre e (List.mem_cons_self _ _))
    simp only [List.cons_append, Claude.tryPriorities, he]
    exact ih post hd (fun x hx => hpre x (List.mem_cons_of_mem _ hx))

theorem priorityOrder_claude (r : Claude.Robot) :
    Claude.getPriorityDirections r = priorityOrder r.state.inverted := by
  unfold Claude.getPriorityDirections
  cases r.state.inverted <;> rfl

theorem Grok.deltas_eq (r c : Int) (d : Dir) :
    (r + (Grok.deltas d).1, c + (Grok.deltas d).2) = ahead r c d := by
  cases d <;> simp [Grok.deltas, ahead] <;> rfl

theorem Grok.blockedAt_open {g : Grid} {H W : Nat} {breaker : Bool} {r c : Int} {d : Dir}
    (h : OpenTo g H W breaker r c d) :
    Grok.blockedAt g H W breaker (r + (Grok.deltas d).1) (c + (Grok.deltas d).2) = .ok false := by
  have e := Grok.deltas_eq r c d
  have e1 : r + (Grok.deltas d).1 = (ahead r c d).1 := congrArg Prod.fst e
  have e2 : c + (Grok.deltas d).2 = (ahead r c d).2 := congrArg Prod.snd e
  rw [Grok.blockedAt_eq, e1, e2,
    (Chatgpt.canGo_iff g H W breaker ⟨(ahead r c d).1, (ahead r c d).2⟩).2 h]
  rfl

theorem Grok.blockedAt_blocked {g : Grid} {H W : Nat} (hg : Rect g H W) {breaker : Bool}
    {r c : Int} {d : Dir} (h : ¬ OpenTo g H W breaker r c d) :
    Grok.blockedAt g H W breaker (r + (Grok.deltas d).1) (c + (Grok.deltas d).2) = .ok true := by
  have e := Grok.deltas_eq r c d
  have e1 : r + (Grok.deltas d).1 = (ahead r c d).1 := congrArg Prod.fst e
  have e2 : c + (Grok.deltas d).2 = (ahead r c d).2 := congrArg Prod.snd e
  rw [Grok.blockedAt_eq, e1, e2]
  rcases Chatgpt.canGo_total hg breaker ⟨(ahead r c d).1, (ahead r c d).2⟩ with ⟨_, h2⟩ | ⟨h1, _⟩
  · exact absurd h2 h
  · rw [h1]; rfl

theorem Grok.turn_first {g : Grid} {H W : Nat} (hg : Rect g H W) (breaker : Bool)
    (r c : Int) (d : Dir) :
    ∀ (pre post : List Dir), OpenTo g H W breaker r c d →
      (∀ e ∈ pre, ¬ OpenTo g H W breaker r c e) →
      Grok.turn g H W breaker r c (pre ++ d :: post) = .ok (some d) := by
  intro pre
  induction pre with
  | nil =>
    intro post hd _
    simp [Grok.turn, Grok.blockedAt_open hd]
  | cons e pre ih =>
    intro post hd hpre
    have he := Grok.blockedAt_blocked hg (hpre e (List.mem_cons_self _ _))
    simp only [List.cons_append, Grok.turn, he]
    exact ih post hd (fun x hx => hpre x (List.mem_cons_of_mem _ hx))

theorem priorityOrder_grok (inv : Bool) :
    (if inv = true then Grok.prioInv else Grok.prioNormal) = priorityOrder inv := by
  cases inv <;> rfl

/-- C9: in each solver the passability test of a candidate cell `(r, c)` is
true exactly when the cell is inside the `H` by `W` bounds, is there, is not
`#`, and is not `X` or breaker is on; claude's `canMoveTo`, chatgpt's
`canInside`-and-`canStep` and grok's blocked test (negated) are the same
function of grid, position and breaker, panics included. -/
theorem passability_same (g : Grid) (H W : Nat) (breaker : Bool) (r c : Int)
    (rb : Claude.Robot) :
    (Chatgpt.canGo g H W breaker ⟨r, c⟩ = .ok true ↔ Passable g H W breaker r c) ∧
    (Claude.canMoveTo rb ⟨r, c⟩ = .ok true ↔
      Passable rb.grid rb.height rb.width rb.state.breaker r c) ∧
    (Grok.blockedAt g H W breaker r c = .ok false ↔ Passable g H W breaker r c) ∧
    Claude.canMoveTo rb ⟨r, c⟩ =
      Chatgpt.canGo rb.grid rb.height rb.width rb.state.breaker ⟨r, c⟩ ∧
    Grok.blockedAt g H W breaker r c =
      (match Chatgpt.canGo g H W breaker ⟨r, c⟩ with
       | .ok b => .ok (!b)
       | .crash => .crash) ∧
    (Rect g H W → Chatgpt.canGo g H W breaker ⟨r, c⟩ ≠ .crash) := by
  refine ⟨Chatgpt.canGo_iff g H W breaker ⟨r, c⟩, ?_, ?_, Claude.canMoveTo_eq rb ⟨r, c⟩,
    Grok.blockedAt_eq g H W breaker r c, ?_⟩
  · rw [Claude.canMoveTo_eq]
    exact Chatgpt.canGo_iff rb.grid rb.height rb.width rb.state.breaker ⟨r, c⟩
  · rw [Grok.blockedAt_eq, ← Chatgpt.canGo_iff g H W breaker ⟨r, c⟩]
    cases Chatgpt.canGo g H W breaker ⟨r, c⟩ with
    | crash => simp
    | ok b => cases b <;> simp
  · intro hg h
    rcases Chatgpt.canGo_total hg breaker ⟨r, c⟩ with ⟨h1, _⟩ | ⟨h1, _⟩ <;>
      (rw [h] at h1; cases h1)

theorem mem_teleDigits_iff (ch : Char) : ch ∈ teleDigits ↔ isTeleDigit ch = true := by
  constructor
  · intro h
    simp only [teleDigits, List.mem_cons, List.mem_singleton, List.not_mem_nil, or_false] at h
    rcases h with h | h | h | h | h | h | h | h | h <;> (subst h; decide)
  · intro h
    have hb : 49 ≤ ch.toNat ∧ ch.toNat ≤ 57 := by
      simpa [isTeleDigit] using h
    have e : ch = Char.ofNat ch.toNat := (Char.ofNat_toNat ch).symm
    obtain ⟨h1, h2⟩ := hb
    rw [e]
    generalize ch.toNat = n at h1 h2
    interval_cases n <;> decide

theorem drive_none_of_iterate {σ : Type} (body : σ → Option (Iter σ)) :
    ∀ (n : Nat) (s0 s : σ), iterate body n s0 = some s → body s = none →
      ∀ fuel, drive body fuel s0 = none := by
  intro n
  induction n with
  | zero =>
    intro s0 s h hb fuel
    simp only [iterate, Option.some.injEq] at h
    subst h
    cases fuel with
    | zero => rfl
    | succ k => simp [drive, hb]
  | succ n ih =>
    intro s0 s h hb fuel
    cases fuel with
    | zero => rfl
    | succ k =>
      simp only [iterate] at h
      cases hs : body s0 with
      | none => simp [drive, hs]
      | some x =>
        cases x with
        | halt o => simp [hs] at h
        | next s1 =>
          simp only [hs] at h
          simp only [drive, hs]
          exact ih s1 s h hb k

theorem iterate_mono {σ : Type} (b1 b2 : σ → Option (Iter σ))
    (hb : ∀ s s', b1 s = some (.next s') → b2 s = some (.next s')) :
    ∀ (n : Nat) (s0 s : σ), iterate b1 n s0 = some s → iterate b2 n s0 = some s := by
  intro n
  induction n with
  | zero => intro s0 s h; exact h
  | succ n ih =>
    intro s0 s h
    simp only [iterate] at h ⊢
    cases hs : b1 s0 with
    | none => simp [hs] at h
    | some x =>
      cases x with
      | halt o => simp [hs] at h
      | next s1 =>
        simp only [hs] at h
        simp only [hb s0 s1 hs]
        exact ih s1 s h

/-! ## chatgpt: `applyTile` on a teleporter pair -/

theorem isTeleDigit_ne_letters {ch : Char} (h : isTeleDigit ch = true) :
    ch ≠ 'S' ∧ ch ≠ 'E' ∧ ch ≠ 'N' ∧ ch ≠ 'W' ∧ ch ≠ 'B' ∧ ch ≠ 'I' := by
  refine ⟨?_, ?_, ?_, ?_, ?_, ?_⟩ <;> (rintro rfl; revert h; decide)

theorem Chatgpt.applyTile_digit (tp : Chatgpt.Point → Chatgpt.Point) (n : Nat) (s : Chatgpt.St)
    (d : Char) (hc : cellAt s.grid s.pos.r s.pos.c = some d) (hd : isTeleDigit d = true) :
    Chatgpt.applyTile tp (n + 1) s = Chatgpt.applyTile tp n { s with pos := tp s.pos } := by
  obtain ⟨h1, h2, h3, h4, h5, h6⟩ := isTeleDigit_ne_letters hd
  simp [Chatgpt.applyTile, hc, h1, h2, h3, h4, h5, h6, hd]

/-- On a cell of a teleporter pair the loop of `applyTile` hops between the two
cells and never reaches its `break`. -/
theorem Chatgpt.applyTile_pair_diverges (tp : Chatgpt.Point → Chatgpt.Point) :
    ∀ (n : Nat) (s : Chatgpt.St) (d1 d2 : Char),
      cellAt s.grid s.pos.r s.pos.c = some d1 → isTeleDigit d1 = true →
      cellAt s.grid (tp s.pos).r (tp s.pos).c = some d2 → isTeleDigit d2 = true →
      tp (tp s.pos) = s.pos →
      Chatgpt.applyTile tp n s = none := by
  intro n
  induction n with
  | zero => intro s d1 d2 _ _ _ _ _; rfl
  | succ n ih =>
    intro s d1 d2 h1 hd1 h2 hd2 hback
    rw [Chatgpt.applyTile_digit tp n s d1 h1 hd1]
    apply ih { s with pos := tp s.pos } d2 d1
    · exact h2
    · exact hd2
    · simp only [hback]; exact h1
    · exact hd1
    · simp only [hback]

theorem Chatgpt.applyTile_mono (tp : Chatgpt.Point → Chatgpt.Point) :
    ∀ (n : Nat) (s : Chatgpt.St) (x : Res Chatgpt.St),
      Chatgpt.applyTile tp n s = some x → Chatgpt.applyTile tp (n + 1) s = some x := by
  intro n
  induction n with
  | zero => intro s x h; simp [Chatgpt.applyTile] at h
  | succ n ih =>
    intro s x h
    rw [Chatgpt.applyTile] at h ⊢
    cases hc : cellAt s.grid s.pos.r s.pos.c with
    | none => simpa [hc] using h
    | some cell =>
      simp only [hc] at h ⊢
      split_ifs at h ⊢ <;> first | exact h | exact ih _ _ h

theorem Chatgpt.applyTile_mono_add (tp : Chatgpt.Point → Chatgpt.Point) (s : Chatgpt.St)
    (x : Res Chatgpt.St) (n : Nat) (h : Chatgpt.applyTile tp n s = some x) :
    ∀ k, Chatgpt.applyTile tp (n + k) s = some x := by
  intro k
  induction k with
  | zero => exact h
  | succ k ih => exact Chatgpt.applyTile_mono tp (n + k) s x ih

theorem Chatgpt.body_mono_add (tp : Chatgpt.Point → Chatgpt.Point) (n k H W : Nat)
    (s s' : Chatgpt.St) (h : Chatgpt.body tp n H W s = some (.next s')) :
    Chatgpt.body tp (n + k) H W s = some (.next s') := by
  unfold Chatgpt.body at h ⊢
  cases hc : cellAt s.grid s.pos.r s.pos.c with
  | none => simp [hc] at h
  | some here =>
    simp only [hc] at h ⊢
    by_cases hgoal : here = '$'
    · simp [hgoal] at h
    by_cases hvis : Chatgpt.key s ∈ s.visited
    · simp [hgoal, hvis] at h
    simp only [hgoal, hvis, if_false] at h ⊢
    unfold Chatgpt.advance at h ⊢
    simp only at h ⊢
    cases hr : Chatgpt.resolve H W { s with visited := Chatgpt.key s :: s.visited } with
    | crash => simp [hr] at h
    | ok o =>
      cases o with
      | none => simp [hr] at h
      | some dn =>
        obtain ⟨d, next⟩ := dn
        simp only [hr] at h ⊢
        unfold Chatgpt.land at h ⊢
        cases ha : Chatgpt.applyTile tp n
            (Chatgpt.enter W { s with visited := Chatgpt.key s :: s.visited } d next) with
        | none => simp [ha] at h
        | some x =>
          rw [Chatgpt.applyTile_mono_add tp _ x n ha k]
          simpa [ha] using h

theorem Chatgpt.test5_pair :
    Chatgpt.telePair harnessTest5 ⟨8, 5⟩ = ⟨1, 5⟩ ∧
    Chatgpt.telePair harnessTest5 ⟨1, 5⟩ = ⟨8, 5⟩ := by
  constructor <;> decide

theorem Chatgpt.test5_six_moves :
    (iterate (Chatgpt.body (Chatgpt.telePair harnessTest5) 1 10 10) 6
        (Chatgpt.initial harnessTest5)).map Chatgpt.view =
      some (harnessTest5, ⟨8, 4⟩, .EAST, false, false, false) := by
  decide

theorem Chatgpt.test5_seventh (tf : Nat) (s : Chatgpt.St)
    (hv : Chatgpt.view s = (harnessTest5, ⟨8, 4⟩, .EAST, false, false, false)) :
    Chatgpt.body (Chatgpt.telePair harnessTest5) tf 10 10 s = none := by
  simp only [Chatgpt.view, Prod.mk.injEq, decide_eq_false_iff_not] at hv
  obtain ⟨hg, hp, hd, hb, hi, hvis⟩ := hv
  have hopen : OpenTo ({ s with visited := Chatgpt.key s :: s.visited } : Chatgpt.St).grid 10 10
      ({ s with visited := Chatgpt.key s :: s.visited } : Chatgpt.St).breaker
      ({ s with visited := Chatgpt.key s :: s.visited } : Chatgpt.St).pos.r
      ({ s with visited := Chatgpt.key s :: s.visited } : Chatgpt.St).pos.c
      ({ s with visited := Chatgpt.key s :: s.visited } : Chatgpt.St).dir := by
    simp only [hg, hp, hd, hb]
    decide
  have hres := Chatgpt.resolve_open (H := 10) (W := 10)
    ({ s with visited := Chatgpt.key s :: s.visited }) hopen
  have hhere : cellAt s.grid s.pos.r s.pos.c = some ' ' := by
    rw [hg, hp]; decide
  have hne : ¬ ((' ' : Char) = '$') := by decide
  simp only [Chatgpt.body, hhere, hne, hvis, if_false, Chatgpt.advance, hres, Chatgpt.land]
  have hnb : Chatgpt.neighbour s.pos s.dir = ⟨8, 5⟩ := by
    rw [hp, hd]; decide
  have hdiv := Chatgpt.applyTile_pair_diverges (Chatgpt.telePair harnessTest5) tf
    (Chatgpt.enter 10 { s with visited := Chatgpt.key s :: s.visited } s.dir
      (Chatgpt.neighbour s.pos s.dir)) '1' '1'
  have hx : ¬ (cellAt harnessTest5 8 5 = some 'X' ∧ s.breaker = true) := by
    intro h; exact absurd h.1 (by decide)
  simp only [Chatgpt.enter, hnb, hg, hx, if_false, Chatgpt.test5_pair.1,
    Chatgpt.test5_pair.2] at hdiv
  have := hdiv (by decide) (by decide) (by decide) (by decide) trivial
  simp only [Chatgpt.enter, hnb, hg, hx, if_false]
  rw [this]

/-- C3 (code defect): on test 5 of the harness the two cells `1` at `(8, 5)`
and `(1, 5)` form a teleporter pair.  Whenever the robot stands on `(8, 5)`,
`applyTile` does not return, whatever the number of passes allowed: after the
hop its loop meets the digit of the other cell and hops back.  The robot
enters `(8, 5)` on its seventh move, so `runSolver` prints nothing on this
input, whatever the fuel. -/
theorem teleporter_pair_hangs :
    (∀ (n : Nat) (s : Chatgpt.St), s.grid = harnessTest5 → s.pos = ⟨8, 5⟩ →
      Chatgpt.applyTile (Chatgpt.telePair harnessTest5) n s = none) ∧
    (∀ tf fuel : Nat, Chatgpt.runSolver tf fuel 10 10 harnessTest5 = none) := by
  constructor
  · intro n s hg hp
    apply Chatgpt.applyTile_pair_diverges (Chatgpt.telePair harnessTest5) n s '1' '1'
    · rw [hg, hp]; decide
    · decide
    · rw [hg, hp, Chatgpt.test5_pair.1]; decide
    · decide
    · rw [hp, Chatgpt.test5_pair.1, Chatgpt.test5_pair.2]
  · intro tf fuel
    cases tf with
    | zero => simp [Chatgpt.runSolver, Chatgpt.applyTile]
    | succ t =>
      have h0 : Chatgpt.applyTile (Chatgpt.telePair harnessTest5) 1 (Chatgpt.initial harnessTest5)
          = some (.ok (Chatgpt.initial harnessTest5)) := by rfl
      have h0' := Chatgpt.applyTile_mono_add _ _ _ 1 h0 t
      rw [Nat.add_comm] at h0'
      simp only [Chatgpt.runSolver, h0']
      have h6 := Chatgpt.test5_six_moves
      cases hs : iterate (Chatgpt.body (Chatgpt.telePair harnessTest5) 1 10 10) 6
          (Chatgpt.initial harnessTest5) with
      | none => rw [hs] at h6; simp at h6
      | some s6 =>
        rw [hs] at h6
        simp only [Option.map_some', Option.some.injEq] at h6
        have hs' := iterate_mono (Chatgpt.body (Chatgpt.telePair harnessTest5) 1 10 10)
          (Chatgpt.body (Chatgpt.telePair harnessTest5) (t + 1) 10 10)
          (fun s s' h => by
            have := Chatgpt.body_mono_add (Chatgpt.telePair harnessTest5) 1 t 10 10 s s' h
            rwa [Nat.add_comm] at this) 6 _ _ hs
        exact drive_none_of_iterate _ 6 _ s6 hs' (Chatgpt.test5_seventh (t + 1) s6 h6) fuel

/-! ## Grid reads and writes -/

theorem cellAt_nat (g : Grid) (i j : Nat) :
    cellAt g (i : Int) (j : Int) = (g[i]?).bind (fun row => row[j]?) := by
  simp [cellAt]

theorem cellAt_setCell (g : Grid) (r c : Int) (ch : Char) (hr : 0 ≤ r) (hc : 0 ≤ c)
    (r' c' : Int) :
    cellAt (setCell g r c ch) r' c' =
      if r' = r ∧ c' = c then (cellAt g r c).map (fun _ => ch) else cellAt g r' c' := by
  unfold cellAt setCell
  by_cases h0 : 0 ≤ r' ∧ 0 ≤ c'
  · obtain ⟨hr', hc'⟩ := h0
    simp only [hr, hc, hr', hc', and_self, if_true]
    by_cases e1 : r' = r
    · subst e1
      rw [List.getElem?_set]
      simp only [if_true]
      by_cases hlen : r'.toNat < g.length
      · simp only [hlen, if_true, Option.some_bind, List.getD_eq_getElem?_getD,
          List.getElem?_eq_getElem hlen, Option.getD_some, true_and]
        rw [List.getElem?_set]
        by_cases e2 : c' = c
        · subst e2
          simp only [if_true]
          by_cases hl2 : c'.toNat < (g[r'.toNat]).length
          · simp [hl2, List.getElem?_eq_getElem hl2]
          · simp [hl2, List.getElem?_eq_none (Nat.le_of_not_lt hl2)]
        · have : c.toNat ≠ c'.toNat := by omega
          simp [this, e2]
      · have hn : g[r'.toNat]? = none := List.getElem?_eq_none (Nat.le_of_not_lt hlen)
        simp [hlen, hn]
    · have : r.toNat ≠ r'.toNat := by omega
      rw [List.getElem?_set_ne this]
      simp [e1]
  · have h1 : ¬ (r' = r ∧ c' = c) := by
      rintro ⟨rfl, rfl⟩; exact h0 ⟨hr, hc⟩
    simp [h0, h1]

theorem cellAt_nonneg {g : Grid} {r c : Int} {ch : Char} (h : cellAt g r c = some ch) :
    0 ≤ r ∧ 0 ≤ c := by
  unfold cellAt at h
  by_contra hn
  simp [hn] at h

theorem rect_setCell {g : Grid} {H W : Nat} (hg : Rect g H W) (r c : Int) (ch : Char) :
    Rect (setCell g r c ch) H W := by
  obtain ⟨hlen, hrow⟩ := hg
  refine ⟨by simp [setCell, hlen], ?_⟩
  intro row hmem
  unfold setCell at hmem
  rcases List.mem_or_eq_of_mem_set hmem with h | h
  · exact hrow row h
  · subst h
    rw [List.length_set, List.getD_eq_getElem?_getD]
    cases hq : g[r.toNat]? with
    | none =>
      have hle : g.length ≤ r.toNat := by
        by_contra hlt
        rw [List.getElem?_eq_getElem (Nat.lt_of_not_le hlt)] at hq
        cases hq
      rw [List.set_eq_of_length_le hle] at hmem
      have := hrow _ hmem
      simpa [List.getD_eq_getElem?_getD, hq] using this
    | some row0 =>
      simp only [Option.getD_some]
      exact hrow row0 (List.mem_iff_getElem?.2 ⟨_, hq⟩)

theorem eroded_refl (g : Grid) : Eroded g g := fun _ _ => Or.inl rfl

theorem eroded_trans {g1 g2 g3 : Grid} (h12 : Eroded g1 g2) (h23 : Eroded g2 g3) :
    Eroded g1 g3 := by
  intro r c
  rcases h12 r c with a | ⟨a1, a2⟩ <;> rcases h23 r c with b | ⟨b1, b2⟩
  · exact Or.inl (b.trans a)
  · exact Or.inr ⟨a ▸ b1, b2⟩
  · exact Or.inr ⟨a1, b.trans a2⟩
  · rw [a2] at b1; exact absurd b1 (by decide)

theorem eroded_setCell (g : Grid) (r c : Int) (h : cellAt g r c = some 'X') :
    Eroded g (setCell g r c ' ') := by
  intro r' c'
  obtain ⟨hr, hc⟩ := cellAt_nonneg h
  rw [cellAt_setCell g r c ' ' hr hc]
  by_cases e : r' = r ∧ c' = c
  · obtain ⟨rfl, rfl⟩ := e
    right
    simp [h]
  · left
    simp [e]

theorem eroded_xCount {g g' : Grid} (h : Eroded g g') (H W : Nat) :
    xCount g' H W ≤ xCount g H W := by
  unfold xCount xCells
  apply Finset.card_le_card
  intro p hp
  simp only [Finset.mem_filter] at hp ⊢
  refine ⟨hp.1, ?_⟩
  rcases h p.1 p.2 with e | ⟨_, e⟩
  · rw [← e]; exact hp.2
  · rw [e] at hp; exact absurd hp.2 (by decide)

theorem eroded_keeps {g g' : Grid} (h : Eroded g g') {r c : Int} {ch : Char} (hx : ch ≠ 'X')
    (hc : cellAt g r c = some ch) : cellAt g' r c = some ch := by
  rcases h r c with e | ⟨e, _⟩
  · rw [e, hc]
  · rw [hc] at e
    exact absurd (Option.some.inj e) hx

theorem eroded_back {g g' : Grid} (h : Eroded g g') {r c : Int} {ch : Char} (hx : ch ≠ ' ')
    (hc : cellAt g' r c = some ch) : cellAt g r c = some ch := by
  rcases h r c with e | ⟨_, e⟩
  · rw [← e, hc]
  · rw [hc] at e
    exact absurd (Option.some.inj e) hx

theorem eroded_rect {g g' : Grid} (h : Eroded g g') : ∀ r c : Int,
    (cellAt g' r c).isSome = (cellAt g r c).isSome := by
  intro r c
  rcases h r c with e | ⟨e1, e2⟩
  · rw [e]
  · rw [e1, e2]; rfl

/-! ## One pass of each loop and the grid -/

theorem iterate_rel {σ : Type} (body : σ → Option (Iter σ)) (R : σ → σ → Prop)
    (hrefl : ∀ s, R s s) (htrans : ∀ a b c, R a b → R b c → R a c)
    (hstep : ∀ s s', body s = some (.next s') → R s s') :
    ∀ (n : Nat) (s s' : σ), iterate body n s = some s' → R s s' := by
  intro n
  induction n with
  | zero =>
    intro s s' h
    simp only [iterate, Option.some.injEq] at h
    subst h
    exact hrefl s
  | succ n ih =>
    intro s s' h
    simp only [iterate] at h
    cases hs : body s with
    | none => simp [hs] at h
    | some x =>
      cases x with
      | halt o => simp [hs] at h
      | next s1 =>
        simp only [hs] at h
        exact htrans _ _ _ (hstep s s1 hs) (ih s1 s' h)

theorem wallStep_eroded {g g' : Grid} {H W : Nat} {b : Bool} {mr mc : Int}
    (h : WallStep g H W b mr mc g') : Eroded g g' := by
  rcases h with rfl | ⟨_, _, hx, rfl⟩
  · exact eroded_refl _
  · exact eroded_setCell g mr mc hx

theorem wallStep_elsewhere {g g' : Grid} {H W : Nat} {b : Bool} {mr mc : Int}
    (h : WallStep g H W b mr mc g') (r c : Int) (hne : ¬ (r = mr ∧ c = mc)) :
    cellAt g' r c = cellAt g r c := by
  rcases h with rfl | ⟨_, _, hx, rfl⟩
  · rfl
  · obtain ⟨hr, hc⟩ := cellAt_nonneg hx
    rw [cellAt_setCell g mr mc ' ' hr hc]
    simp [hne]

theorem wallStep_rect {g g' : Grid} {H W : Nat} {b : Bool} {mr mc : Int}
    (h : WallStep g H W b mr mc g') (hg : Rect g H W) : Rect g' H W := by
  rcases h with rfl | ⟨_, _, _, rfl⟩
  · exact hg
  · exact rect_setCell hg _ _ _

theorem passable_after {g g' : Grid} {H W : Nat} {r c : Int} (hin : InGrid H W r c)
    (hc : cellAt g r c = some ' ') (h : Eroded g g') (b : Bool) : Passable g' H W b r c := by
  have h' := eroded_keeps h (by decide) hc
  refine ⟨hin, by simp [h'], by rw [h']; decide, Or.inl (by rw [h']; decide)⟩

/-! ### chatgpt -/

theorem Chatgpt.applyTile_frame (tp : Chatgpt.Point → Chatgpt.Point) :
    ∀ (n : Nat) (s s' : Chatgpt.St), Chatgpt.applyTile tp n s = some (.ok s') →
      s'.grid = s.grid ∧ s'.moves = s.moves ∧ s'.visited = s.visited ∧
      s'.destroyed = s.destroyed := by
  intro n
  induction n with
  | zero => intro s s' h; simp [Chatgpt.applyTile] at h
  | succ n ih =>
    intro s s' h
    rw [Chatgpt.applyTile] at h
    cases hc : cellAt s.grid s.pos.r s.pos.c with
    | none => simp [hc] at h
    | some cell =>
      simp only [hc] at h
      split_ifs at h
      all_goals first
        | (simp only [Option.some.injEq, Res.ok.injEq] at h; subst h; exact ⟨rfl, rfl, rfl, rfl⟩)
        | (have h2 := ih _ _ h; simpa using h2)

theorem Chatgpt.scan_some {g : Grid} {H W : Nat} {b : Bool} {pos : Chatgpt.Point} :
    ∀ (l : List Dir) (d : Dir) (next : Chatgpt.Point),
      Chatgpt.scan g H W b pos l = .ok (some (d, next)) →
      next = Chatgpt.neighbour pos d ∧ Chatgpt.canGo g H W b next = .ok true := by
  intro l
  induction l with
  | nil => intro d next h; simp [Chatgpt.scan] at h
  | cons e l ih =>
    intro d next h
    simp only [Chatgpt.scan] at h
    cases hc : Chatgpt.canGo g H W b (Chatgpt.neighbour pos e) with
    | crash => simp [hc] at h
    | ok t =>
      cases t with
      | true =>
        simp only [hc, Res.ok.injEq, Option.some.injEq, Prod.mk.injEq] at h
        obtain ⟨rfl, rfl⟩ := h
        exact ⟨rfl, hc⟩
      | false =>
        simp only [hc] at h
        exact ih d next h

theorem Chatgpt.resolve_some {H W : Nat} {s : Chatgpt.St} {d : Dir} {next : Chatgpt.Point}
    (h : Chatgpt.resolve H W s = .ok (some (d, next))) :
    next = Chatgpt.neighbour s.pos d ∧ Chatgpt.canGo s.grid H W s.breaker next = .ok true := by
  unfold Chatgpt.resolve at h
  cases hc : Chatgpt.canGo s.grid H W s.breaker (Chatgpt.neighbour s.pos s.dir) with
  | crash => simp [hc] at h
  | ok t =>
    cases t with
    | true =>
      simp only [hc, Res.ok.injEq, Option.some.injEq, Prod.mk.injEq] at h
      obtain ⟨rfl, rfl⟩ := h
      exact ⟨rfl, hc⟩
    | false =>
      simp only [hc] at h
      exact Chatgpt.scan_some _ d next h

theorem Chatgpt.advance_next_chatgpt {tp : Chatgpt.Point → Chatgpt.Point} {tf H W : Nat}
    {s s' : Chatgpt.St} (h : Chatgpt.advance tp tf H W s = some (.next s')) :
    ∃ d, Passable s.grid H W s.breaker (ahead s.pos.r s.pos.c d).1 (ahead s.pos.r s.pos.c d).2 ∧
      Chatgpt.applyTile tp tf (Chatgpt.enter W { s with visited := Chatgpt.key s :: s.visited } d
        ⟨(ahead s.pos.r s.pos.c d).1, (ahead s.pos.r s.pos.c d).2⟩) = some (.ok s') := by
  unfold Chatgpt.advance at h
  simp only at h
  cases hr : Chatgpt.resolve H W { s with visited := Chatgpt.key s :: s.visited } with
  | crash => simp [hr] at h
  | ok o =>
    cases o with
    | none => simp [hr] at h
    | some dn =>
      obtain ⟨d, next⟩ := dn
      simp only [hr, Chatgpt.land] at h
      obtain ⟨hn, hgo⟩ := Chatgpt.resolve_some hr
      simp only at hn hgo
      rw [Chatgpt.neighbour_eq] at hn
      subst hn
      refine ⟨d, (Chatgpt.canGo_iff _ _ _ _ _).1 hgo, ?_⟩
      cases ha : Chatgpt.applyTile tp tf (Chatgpt.enter W
          { s with visited := Chatgpt.key s :: s.visited } d
          ⟨(ahead s.pos.r s.pos.c d).1, (ahead s.pos.r s.pos.c d).2⟩) with
      | none => simp [ha] at h
      | some x =>
        cases x with
        | crash => simp [ha] at h
        | ok s2 =>
          simp only [ha, Option.some.injEq, Iter.next.injEq] at h
          subst h
          rfl

theorem Chatgpt.enter_grid (W : Nat) (s : Chatgpt.St) (d : Dir) (H : Nat) (next : Chatgpt.Point)
    (hp : Passable s.grid H W s.breaker next.r next.c) :
    WallStep s.grid H W s.breaker next.r next.c (Chatgpt.enter W s d next).grid := by
  unfold Chatgpt.enter
  by_cases hx : cellAt s.grid next.r next.c = some 'X' ∧ s.breaker = true
  · rw [if_pos hx]
    exact Or.inr ⟨hx.2, hp.1, hx.1, rfl⟩
  · rw [if_neg hx]
    exact Or.inl rfl

theorem Chatgpt.body_next_chatgpt {tp : Chatgpt.Point → Chatgpt.Point} {tf H W : Nat}
    {s s' : Chatgpt.St} (h : Chatgpt.body tp tf H W s = some (.next s')) :
    Chatgpt.advance tp tf H W s = some (.next s') ∧ Chatgpt.key s ∉ s.visited ∧
      cellAt s.grid s.pos.r s.pos.c ≠ some '$' ∧ (cellAt s.grid s.pos.r s.pos.c).isSome = true := by
  unfold Chatgpt.body at h
  cases hc : cellAt s.grid s.pos.r s.pos.c with
  | none => simp [hc] at h
  | some here =>
    simp only [hc] at h
    by_cases hgoal : here = '$'
    · simp [hgoal] at h
    by_cases hvis : Chatgpt.key s ∈ s.visited
    · simp [hgoal, hvis] at h
    simp only [hgoal, hvis, if_false] at h
    exact ⟨h, hvis, by simpa using hgoal, rfl⟩

/-- chatgpt: what one pass of the main loop does to the grid and the move list. -/
theorem Chatgpt.advance_grid_chatgpt {tp : Chatgpt.Point → Chatgpt.Point} {tf H W : Nat}
    {s s' : Chatgpt.St} (h : Chatgpt.advance tp tf H W s = some (.next s')) :
    ∃ d, s'.moves = s.moves ++ [Chatgpt.dirToName d] ∧
      WallStep s.grid H W s.breaker (ahead s.pos.r s.pos.c d).1 (ahead s.pos.r s.pos.c d).2
        s'.grid := by
  obtain ⟨d, hp, ha⟩ := Chatgpt.advance_next_chatgpt h
  obtain ⟨hg, hm, _, _⟩ := Chatgpt.applyTile_frame tp tf _ _ ha
  refine ⟨d, ?_, ?_⟩
  · rw [hm]
    unfold Chatgpt.enter
    simp only
    split_ifs <;> rfl
  · rw [hg]
    exact Chatgpt.enter_grid W { s with visited := Chatgpt.key s :: s.visited } d H
      ⟨(ahead s.pos.r s.pos.c d).1, (ahead s.pos.r s.pos.c d).2⟩ hp

/-! ### claude -/

theorem Claude.special_frame (r : Claude.Robot) (cell : Char) :
    (Claude.special r cell).grid = r.grid ∧ (Claude.special r cell).height = r.height ∧
    (Claude.special r cell).width = r.width ∧ (Claude.special r cell).destPos = r.destPos ∧
    (Claude.special r cell).teleporters = r.teleporters ∧
    (Claude.special r cell).visited = r.visited ∧ (Claude.special r cell).path = r.path := by
  unfold Claude.special
  split_ifs
  all_goals first
    | exact ⟨rfl, rfl, rfl, rfl, rfl, rfl, rfl⟩
    | (split <;> exact ⟨rfl, rfl, rfl, rfl, rfl, rfl, rfl⟩)

theorem Claude.special_visited (r : Claude.Robot) (v : List Claude.State) (cell : Char) :
    Claude.special { r with visited := v } cell = { Claude.special r cell with visited := v } := by
  unfold Claude.special
  simp only
  split_ifs
  all_goals first
    | rfl
    | (cases List.find? (fun tp => decide (tp ≠ r.state.pos)) (r.teleporters cell) <;> rfl)

theorem Claude.tryPriorities_some (r : Claude.Robot) :
    ∀ (l : List Dir) (r3 : Claude.Robot), Claude.tryPriorities r l = .ok (some r3) →
      ∃ d, d ∈ l ∧ r3 = Claude.moveTo r (Claude.getNextPosition r d) d ∧
        Claude.canMoveTo r (Claude.getNextPosition r d) = .ok true := by
  intro l
  induction l with
  | nil => intro r3 h; simp [Claude.tryPriorities] at h
  | cons e l ih =>
    intro r3 h
    simp only [Claude.tryPriorities] at h
    cases hc : Claude.canMoveTo r (Claude.getNextPosition r e) with
    | crash => simp [hc] at h
    | ok t =>
      cases t with
      | true =>
        simp only [hc, Res.ok.injEq, Option.some.injEq] at h
        exact ⟨e, List.mem_cons_self _ _, h.symm, hc⟩
      | false =>
        simp only [hc] at h
        obtain ⟨d, hd, h1, h2⟩ := ih r3 h
        exact ⟨d, List.mem_cons_of_mem _ hd, h1, h2⟩

theorem Claude.moveStep_next_claude {r r' : Claude.Robot} (h : Claude.moveStep r = .next r') :
    ∃ d, r' = Claude.moveTo r ⟨(ahead r.state.pos.row r.state.pos.col d).1,
        (ahead r.state.pos.row r.state.pos.col d).2⟩ d ∧
      Passable r.grid r.height r.width r.state.breaker
        (ahead r.state.pos.row r.state.pos.col d).1 (ahead r.state.pos.row r.state.pos.col d).2 := by
  have key : ∀ d, Claude.canMoveTo r (Claude.getNextPosition r d) = .ok true →
      Passable r.grid r.height r.width r.state.breaker
        (ahead r.state.pos.row r.state.pos.col d).1 (ahead r.state.pos.row r.state.pos.col d).2 := by
    intro d hd
    rw [Claude.canMoveTo_eq, Claude.getNextPosition_eq] at hd
    exact (Chatgpt.canGo_iff _ _ _ _ _).1 hd
  unfold Claude.moveStep at h
  cases hc : Claude.canMoveTo r (Claude.getNextPosition r r.state.direction) with
  | crash => simp [hc] at h
  | ok t =>
    cases t with
    | true =>
      simp only [hc, Iter.next.injEq] at h
      refine ⟨r.state.direction, ?_, key _ hc⟩
      rw [← h, Claude.getNextPosition_eq]
    | false =>
      simp only [hc] at h
      cases ht : Claude.tryPriorities r (Claude.getPriorityDirections r) with
      | crash => simp [ht] at h
      | ok o =>
        cases o with
        | none => simp [ht] at h
        | some r3 =>
          simp only [ht, Iter.next.injEq] at h
          subst h
          obtain ⟨d, _, h1, h2⟩ := Claude.tryPriorities_some r _ _ ht
          refine ⟨d, ?_, key d h2⟩
          rw [h1, Claude.getNextPosition_eq]

theorem Claude.moveTo_grid_claude (r : Claude.Robot) (p : Claude.Position) (d : Dir)
    (hp : Passable r.grid r.height r.width r.state.breaker p.row p.col) :
    WallStep r.grid r.height r.width r.state.breaker p.row p.col (Claude.moveTo r p d).grid := by
  unfold Claude.moveTo
  by_cases hx : cellAt r.grid p.row p.col = some 'X' ∧ r.state.breaker = true
  · simp only [if_pos hx]
    exact Or.inr ⟨hx.2, hp.1, hx.1, rfl⟩
  · simp only [if_neg hx]
    exact Or.inl rfl

theorem Claude.advance_next_claude {r r' : Claude.Robot} (h : Claude.advance r = .next r') :
    ∃ cell, cellAt r.grid r.state.pos.row r.state.pos.col = some cell ∧
      Claude.moveStep (Claude.special { r with visited := Claude.getStateKey r :: r.visited } cell)
        = .next r' := by
  unfold Claude.advance at h
  simp only at h
  cases hc : cellAt r.grid r.state.pos.row r.state.pos.col with
  | none => simp [hc] at h
  | some cell =>
    simp only [hc] at h
    exact ⟨cell, rfl, h⟩

theorem Claude.findPathBody_next {r r' : Claude.Robot} (h : Claude.findPathBody r = .next r') :
    Claude.advance r = .next r' ∧ Claude.getStateKey r ∉ r.visited ∧ r.state.pos ≠ r.destPos := by
  unfold Claude.findPathBody at h
  by_cases hgoal : r.state.pos = r.destPos
  · simp [hgoal] at h
  by_cases hvis : Claude.getStateKey r ∈ r.visited
  · simp [hgoal, hvis] at h
  simp only [hgoal, hvis, if_false] at h
  exact ⟨h, hvis, hgoal⟩

/-- claude: what one pass of the loop of `findPath` does to the grid and the path. -/
theorem Claude.advance_grid_claude {r r' : Claude.Robot} (h : Claude.advance r = .next r') :
    ∃ (cell : Char) (d : Dir),
      cellAt r.grid r.state.pos.row r.state.pos.col = some cell ∧
      r'.path = r.path ++ [d] ∧ r'.height = r.height ∧ r'.width = r.width ∧
      r'.destPos = r.destPos ∧ r'.teleporters = r.teleporters ∧
      r'.visited = Claude.getStateKey r :: r.visited ∧
      r'.state.pos = ⟨(ahead (Claude.special r cell).state.pos.row
          (Claude.special r cell).state.pos.col d).1,
        (ahead (Claude.special r cell).state.pos.row
          (Claude.special r cell).state.pos.col d).2⟩ ∧
      WallStep r.grid r.height r.width (Claude.special r cell).state.breaker
        r'.state.pos.row r'.state.pos.col r'.grid := by
  obtain ⟨cell, hc, hm⟩ := Claude.advance_next_claude h
  obtain ⟨d, hr', hp⟩ := Claude.moveStep_next_claude hm
  obtain ⟨f1, f2, f3, f4, f5, f6, f7⟩ :=
    Claude.special_frame { r with visited := Claude.getStateKey r :: r.visited } cell
  have hst : (Claude.special { r with visited := Claude.getStateKey r :: r.visited } cell).state
      = (Claude.special r cell).state := by
    rw [Claude.special_visited]
  rw [f1, f2, f3, hst] at hp
  have hw := Claude.moveTo_grid_claude
    (Claude.special { r with visited := Claude.getStateKey r :: r.visited } cell)
    ⟨(ahead (Claude.special r cell).state.pos.row (Claude.special r cell).state.pos.col d).1,
     (ahead (Claude.special r cell).state.pos.row (Claude.special r cell).state.pos.col d).2⟩ d
    (by rw [f1, f2, f3, hst]; exact hp)
  rw [f1, f2, f3, hst] at hw
  rw [hst] at hr'
  refine ⟨cell, d, hc, ?_, ?_, ?_, ?_, ?_, ?_, ?_, ?_⟩
  · rw [hr']; simp [Claude.moveTo, f7]
  · rw [hr']; simp [Claude.moveTo, f2]
  · rw [hr']; simp [Claude.moveTo, f3]
  · rw [hr']; simp [Claude.moveTo, f4]
  · rw [hr']; simp [Claude.moveTo, f5]
  · rw [hr']; simp [Claude.moveTo, f6]
  · rw [hr']; simp [Claude.moveTo]
  · rw [hr']
    simp only [Claude.moveTo] at hw ⊢
    exact hw

/-! ### grok -/

theorem Grok.applyEffect_frame {H W : Nat} {v v' : Grok.Vars}
    (h : Grok.applyEffect H W v = .ok v') :
    v'.grid = v.grid ∧ v'.path = v.path ∧ v'.visited = v.visited := by
  unfold Grok.applyEffect at h
  cases hc : cellAt v.grid v.curR v.curC with
  | none => simp [hc] at h
  | some char =>
    simp only [hc] at h
    by_cases hd : isTeleDigit char = true
    · simp only [hd, if_true] at h
      cases ht : Grok.teleScan v.grid char v.curR v.curC (rowMajor H W) with
      | crash => simp [ht] at h
      | ok o =>
        cases o with
        | none =>
          simp only [ht, Res.ok.injEq] at h
          subst h
          exact ⟨rfl, rfl, rfl⟩
        | some p =>
          obtain ⟨rR, cC⟩ := p
          simp only [ht, Res.ok.injEq] at h
          subst h
          exact ⟨rfl, rfl, rfl⟩
    · have hd' : isTeleDigit char = false := by simpa using hd
      simp only [hd', Bool.false_eq_true, if_false] at h
      cases hdir : Grok.charToDir char with
      | some dIr =>
        simp only [hdir, Res.ok.injEq] at h
        subst h
        exact ⟨rfl, rfl, rfl⟩
      | none =>
        simp only [hdir] at h
        split_ifs at h <;>
          (simp only [Res.ok.injEq] at h; subst h; exact ⟨rfl, rfl, rfl⟩)

theorem Grok.turn_some {g : Grid} {H W : Nat} {b : Bool} {r c : Int} :
    ∀ (l : List Dir) (nDir : Dir), Grok.turn g H W b r c l = .ok (some nDir) →
      nDir ∈ l ∧ OpenTo g H W b r c nDir := by
  intro l
  induction l with
  | nil => intro nDir h; simp [Grok.turn] at h
  | cons e l ih =>
    intro nDir h
    simp only [Grok.turn] at h
    cases hc : Grok.blockedAt g H W b (r + (Grok.deltas e).1) (c + (Grok.deltas e).2) with
    | crash => simp [hc] at h
    | ok t =>
      cases t with
      | false =>
        simp only [hc, Res.ok.injEq, Option.some.injEq] at h
        subst h
        refine ⟨List.mem_cons_self _ _, ?_⟩
        have e0 := Grok.deltas_eq r c e
        have e1 : r + (Grok.deltas e).1 = (ahead r c e).1 := congrArg Prod.fst e0
        have e2 : c + (Grok.deltas e).2 = (ahead r c e).2 := congrArg Prod.snd e0
        rw [e1, e2, Grok.blockedAt_eq] at hc
        unfold OpenTo
        rw [← Chatgpt.canGo_iff g H W b ⟨(ahead r c e).1, (ahead r c e).2⟩]
        cases hq : Chatgpt.canGo g H W b ⟨(ahead r c e).1, (ahead r c e).2⟩ with
        | crash => simp [hq] at hc
        | ok t => cases t <;> simp [hq] at hc ⊢
      | true =>
        simp only [hc] at h
        obtain ⟨h1, h2⟩ := ih nDir h
        exact ⟨List.mem_cons_of_mem _ h1, h2⟩

theorem Grok.blockedAt_false {g : Grid} {H W : Nat} {b : Bool} {r c : Int}
    (h : Grok.blockedAt g H W b r c = .ok false) : Passable g H W b r c := by
  rw [Grok.blockedAt_eq] at h
  rw [← Chatgpt.canGo_iff g H W b ⟨r, c⟩]
  cases hq : Chatgpt.canGo g H W b ⟨r, c⟩ with
  | crash => simp [hq] at h
  | ok t => cases t <;> simp [hq] at h ⊢

theorem Grok.moveTo_grid_grok (v : Grok.Vars) (H W : Nat) (nR nC : Int)
    (hp : Passable v.grid H W v.curBreaker nR nC) :
    WallStep v.grid H W v.curBreaker nR nC (Grok.moveTo v nR nC).grid := by
  unfold Grok.moveTo
  by_cases hx : cellAt v.grid nR nC = some 'X'
  · simp only [if_pos hx]
    have hb : v.curBreaker = true := by
      rcases hp.2.2.2 with h | h
      · exact absurd hx h
      · exact h
    exact Or.inr ⟨hb, hp.1, hx, rfl⟩
  · simp only [if_neg hx]
    exact Or.inl rfl

/-- grok: a pass of the loop either turns the robot on the spot, leaving all
else as it is, or moves it one cell ahead and applies the effect of that cell. -/
theorem Grok.moveStep_next_grok {H W : Nat} {v v' : Grok.Vars} (h : Grok.moveStep H W v = .next v') :
    (¬ OpenTo v.grid H W v.curBreaker v.curR v.curC v.curDir ∧
      ∃ nDir, OpenTo v.grid H W v.curBreaker v.curR v.curC nDir ∧ v' = { v with curDir := nDir }) ∨
    (OpenTo v.grid H W v.curBreaker v.curR v.curC v.curDir ∧
      Grok.applyEffect H W (Grok.moveTo v (ahead v.curR v.curC v.curDir).1
        (ahead v.curR v.curC v.curDir).2) = .ok v') := by
  have e0 := Grok.deltas_eq v.curR v.curC v.curDir
  have e1 : v.curR + (Grok.deltas v.curDir).1 = (ahead v.curR v.curC v.curDir).1 :=
    congrArg Prod.fst e0
  have e2 : v.curC + (Grok.deltas v.curDir).2 = (ahead v.curR v.curC v.curDir).2 :=
    congrArg Prod.snd e0
  unfold Grok.moveStep at h
  rw [e1, e2] at h
  cases hb : Grok.blockedAt v.grid H W v.curBreaker (ahead v.curR v.curC v.curDir).1
      (ahead v.curR v.curC v.curDir).2 with
  | crash => simp [hb] at h
  | ok t =>
    cases t with
    | true =>
      left
      simp only [hb] at h
      constructor
      · intro ho
        have := Grok.blockedAt_open ho
        rw [e1, e2, hb] at this
        cases this
      · cases ht : Grok.turn v.grid H W v.curBreaker v.curR v.curC
            (if v.curInv = true then Grok.prioInv else Grok.prioNormal) with
        | crash => simp [ht] at h
        | ok o =>
          cases o with
          | none => simp [ht] at h
          | some nDir =>
            simp only [ht, Iter.next.injEq] at h
            exact ⟨nDir, (Grok.turn_some _ _ ht).2, h.symm⟩
    | false =>
      right
      simp only [hb, Grok.land] at h
      refine ⟨Grok.blockedAt_false hb, ?_⟩
      cases ha : Grok.applyEffect H W (Grok.moveTo v (ahead v.curR v.curC v.curDir).1
          (ahead v.curR v.curC v.curDir).2) with
      | crash => simp [ha] at h
      | ok v2 =>
        simp only [ha, Iter.next.injEq] at h
        rw [h]

theorem Grok.body_next_grok {H W : Nat} {v v' : Grok.Vars} (h : Grok.body H W v = .next v') :
    Grok.advance H W v = .next v' ∧ Grok.stateOf v ∉ v.visited ∧
      cellAt v.grid v.curR v.curC ≠ some '$' ∧ (cellAt v.grid v.curR v.curC).isSome = true := by
  unfold Grok.body at h
  cases hc : cellAt v.grid v.curR v.curC with
  | none => simp [hc] at h
  | some here =>
    simp only [hc] at h
    by_cases hgoal : here = '$'
    · simp [hgoal] at h
    by_cases hvis : Grok.stateOf v ∈ v.visited
    · simp [hgoal, hvis] at h
    simp only [hgoal, hvis, if_false] at h
    exact ⟨h, hvis, by simpa using hgoal, rfl⟩

/-- grok: what one pass of the simulation loop does to the grid and the path. -/
theorem Grok.advance_grid_grok {H W : Nat} {v v' : Grok.Vars} (h : Grok.advance H W v = .next v') :
    v'.visited = Grok.stateOf v :: v.visited ∧
    ((v'.grid = v.grid ∧ v'.path = v.path ∧ v'.curR = v.curR ∧ v'.curC = v.curC ∧
        v'.curBreaker = v.curBreaker ∧ v'.curInv = v.curInv) ∨
      (v'.path = v.path ++ [Grok.dirNames v.curDir] ∧
        WallStep v.grid H W v.curBreaker (ahead v.curR v.curC v.curDir).1
          (ahead v.curR v.curC v.curDir).2 v'.grid)) := by
  unfold Grok.advance at h
  rcases Grok.moveStep_next_grok h with ⟨_, nDir, _, hv⟩ | ⟨ho, ha⟩
  · subst hv
    exact ⟨rfl, Or.inl ⟨rfl, rfl, rfl, rfl, rfl, rfl⟩⟩
  · obtain ⟨f1, f2, f3⟩ := Grok.applyEffect_frame ha
    refine ⟨by rw [f3]; rfl, Or.inr ⟨by rw [f2]; rfl, ?_⟩⟩
    rw [f1]
    exact Grok.moveTo_grid_grok { v with visited := Grok.stateOf v :: v.visited } H W _ _ ho

/-- C8: in each solver a pass of the simulation loop changes the grid in at
most one way: with breaker on, the breakable wall at the cell the robot moves
into becomes blank.  No other cell changes and no cell becomes `X`; so along a
run the grid only erodes, the number of `X` cells never increases, and a cell
that was destroyed stays passable, whatever the breaker flag. -/
theorem walls_only_erode :
    (∀ (tp : Chatgpt.Point → Chatgpt.Point) (tf H W : Nat) (s s' : Chatgpt.St),
      Chatgpt.body tp tf H W s = some (.next s') →
      ∃ d, s'.moves = s.moves ++ [Chatgpt.dirToName d] ∧
        WallStep s.grid H W s.breaker (ahead s.pos.r s.pos.c d).1 (ahead s.pos.r s.pos.c d).2
          s'.grid) ∧
    (∀ (tp : Chatgpt.Point → Chatgpt.Point) (tf H W n : Nat) (s s' : Chatgpt.St),
      iterate (Chatgpt.body tp tf H W) n s = some s' → Eroded s.grid s'.grid) ∧
    (∀ (r r' : Claude.Robot), Claude.findPathBody r = .next r' →
      ∃ (cell : Char) (d : Dir), cellAt r.grid r.state.pos.row r.state.pos.col = some cell ∧
        r'.path = r.path ++ [d] ∧
        r'.state.pos = ⟨(ahead (Claude.special r cell).state.pos.row
            (Claude.special r cell).state.pos.col d).1,
          (ahead (Claude.special r cell).state.pos.row
            (Claude.special r cell).state.pos.col d).2⟩ ∧
        WallStep r.grid r.height r.width (Claude.special r cell).state.breaker
          r'.state.pos.row r'.state.pos.col r'.grid) ∧
    (∀ (n : Nat) (r r' : Claude.Robot),
      iterate (fun r => some (Claude.findPathBody r)) n r = some r' → Eroded r.grid r'.grid) ∧
    (∀ (H W : Nat) (v v' : Grok.Vars), Grok.body H W v = .next v' →
      (v'.grid = v.grid ∧ v'.path = v.path) ∨
      (v'.path = v.path ++ [Grok.dirNames v.curDir] ∧
        WallStep v.grid H W v.curBreaker (ahead v.curR v.curC v.curDir).1
          (ahead v.curR v.curC v.curDir).2 v'.grid)) ∧
    (∀ (H W n : Nat) (v v' : Grok.Vars),
      iterate (fun v => some (Grok.body H W v)) n v = some v' → Eroded v.grid v'.grid) ∧
    (∀ (g g' : Grid) (H W : Nat) (b : Bool) (mr mc : Int), WallStep g H W b mr mc g' →
      (∀ r c, ¬ (r = mr ∧ c = mc) → cellAt g' r c = cellAt g r c) ∧
      (cellAt g' mr mc ≠ cellAt g mr mc →
        b = true ∧ cellAt g mr mc = some 'X' ∧ cellAt g' mr mc = some ' ' ∧
        ∀ g'', Eroded g' g'' → ∀ b', Passable g'' H W b' mr mc) ∧
      Eroded g g') ∧
    (∀ (g g' : Grid), Eroded g g' →
      (∀ r c, cellAt g' r c = some 'X' → cellAt g r c = some 'X') ∧
      (∀ r c, cellAt g r c = some ' ' → cellAt g' r c = some ' ') ∧
      (∀ H W, xCount g' H W ≤ xCount g H W)) := by
  refine ⟨?_, ?_, ?_, ?_, ?_, ?_, ?_, ?_⟩
  · intro tp tf H W s s' h
    exact Chatgpt.advance_grid_chatgpt (Chatgpt.body_next_chatgpt h).1
  · intro tp tf H W n s s' h
    refine iterate_rel (Chatgpt.body tp tf H W) (fun a b => Eroded a.grid b.grid)
      (fun a => eroded_refl _) (fun a b c => eroded_trans) ?_ n s s' h
    intro a b hab
    obtain ⟨d, _, hw⟩ := Chatgpt.advance_grid_chatgpt (Chatgpt.body_next_chatgpt hab).1
    exact wallStep_eroded hw
  · intro r r' h
    obtain ⟨cell, d, h1, h2, _, _, _, _, _, h3, h4⟩ :=
      Claude.advance_grid_claude (Claude.findPathBody_next h).1
    exact ⟨cell, d, h1, h2, h3, h4⟩
  · intro n r r' h
    refine iterate_rel (fun r => some (Claude.findPathBody r)) (fun a b => Eroded a.grid b.grid)
      (fun a => eroded_refl _) (fun a b c => eroded_trans) ?_ n r r' h
    intro a b hab
    simp only [Option.some.injEq] at hab
    obtain ⟨cell, d, _, _, _, _, _, _, _, _, hw⟩ :=
      Claude.advance_grid_claude (Claude.findPathBody_next hab).1
    exact wallStep_eroded hw
  · intro H W v v' h
    rcases (Grok.advance_grid_grok (Grok.body_next_grok h).1).2 with ⟨h1, h2, _⟩ | ⟨h1, h2⟩
    · exact Or.inl ⟨h1, h2⟩
    · exact Or.inr ⟨h1, h2⟩
  · intro H W n v v' h
    refine iterate_rel (fun v => some (Grok.body H W v)) (fun a b => Eroded a.grid b.grid)
      (fun a => eroded_refl _) (fun a b c => eroded_trans) ?_ n v v' h
    intro a b hab
    simp only [Option.some.injEq] at hab
    rcases (Grok.advance_grid_grok (Grok.body_next_grok hab).1).2 with ⟨h1, _⟩ | ⟨_, h2⟩
    · rw [h1]; exact eroded_refl _
    · exact wallStep_eroded h2
  · intro g g' H W b mr mc hw
    refine ⟨wallStep_elsewhere hw, ?_, wallStep_eroded hw⟩
    intro hne
    rcases hw with rfl | ⟨hb, hin, hx, rfl⟩
    · exact absurd rfl hne
    · obtain ⟨hr, hc⟩ := cellAt_nonneg hx
      have hblank : cellAt (setCell g mr mc ' ') mr mc = some ' ' := by
        rw [cellAt_setCell g mr mc ' ' hr hc]; simp [hx]
      exact ⟨hb, hx, hblank, fun g'' he b' => passable_after hin hblank he b'⟩
  · intro g g' he
    exact ⟨fun r c h => eroded_back he (by decide) h,
      fun r c h => eroded_keeps he (by decide) h, fun H W => eroded_xCount he H W⟩

/-- Witness of C8 on test 3 of the harness: with breaker on, the wall at
`(3, 2)` is destroyed by the move into it and is passable afterwards with
breaker off. -/
theorem walls_only_erode_witness :
    Passable (setCell harnessTest3 3 2 ' ') 10 10 false 3 2 :=
  ((walls_only_erode.2.2.2.2.2.2.1 harnessTest3 (setCell harnessTest3 3 2 ' ') 10 10 true 3 2
      (Or.inr ⟨rfl, by decide, by decide, rfl⟩)).2.1 (by decide)).2.2.2
    (setCell harnessTest3 3 2 ' ') (fun _ _ => Or.inl rfl) false

/-- C5 (code defect): the key of claude's visited set leaves out the grid.  On
`wallLoopGrid` the robot starts at `(2, 2)` facing SOUTH with the wall `X`
below it, turns away, switches breaker on, destroys that wall from the side,
switches breaker off and is back at `(2, 2)` facing SOUTH after eight moves.
The ninth pass finds the key of the first pass in the visited set and
`findPath` returns false (`LOOP`), although the grid differs from the grid of
the first pass: the wall at `(3, 2)` is gone, and two more moves by the same
rules put the robot on `$` at `(4, 2)`.  chatgpt and grok, whose keys account
for the destroyed walls, print that path of ten moves. -/
theorem claude_false_cycle :
    Claude.main 9 5 5 wallLoopGrid = some .cycle ∧
    (Claude.runChecked 0 wallLoopGrid 5 5).map Claude.view =
      some (⟨⟨2, 2⟩, .SOUTH, false, false⟩, wallLoopGrid) ∧
    (Claude.runChecked 8 wallLoopGrid 5 5).map Claude.view =
      some (⟨⟨2, 2⟩, .SOUTH, false, false⟩, setCell wallLoopGrid 3 2 ' ') ∧
    setCell wallLoopGrid 3 2 ' ' ≠ wallLoopGrid ∧
    (Claude.runFree 10 wallLoopGrid 5 5).map (fun r => (r.state.pos, r.destPos)) =
      some (⟨4, 2⟩, ⟨4, 2⟩) ∧
    cellAt wallLoopGrid 4 2 = some '$' ∧
    Chatgpt.runSolver 1 11 5 5 wallLoopGrid = some (.success
      ["EAST", "SOUTH", "WEST", "WEST", "NORTH", "NORTH", "EAST", "SOUTH", "SOUTH", "SOUTH"]) ∧
    Grok.main 14 5 5 wallLoopGrid = some (.success
      ["EAST", "SOUTH", "WEST", "WEST", "NORTH", "NORTH", "EAST", "SOUTH", "SOUTH", "SOUTH"]) := by
  refine ⟨?_, ?_, ?_, ?_, ?_, ?_, ?_, ?_⟩ <;> decide

/-! ## Runs: where and why a loop halts -/

theorem drive_halts {σ : Type} (body : σ → Option (Iter σ)) :
    ∀ (fuel : Nat) (s0 : σ) (o : Outcome), drive body fuel s0 = some o →
      ∃ j sj, j < fuel ∧ iterate body j s0 = some sj ∧ body sj = some (.halt o) := by
  intro fuel
  induction fuel with
  | zero => intro s0 o h; simp [drive] at h
  | succ k ih =>
    intro s0 o h
    simp only [drive] at h
    cases hs : body s0 with
    | none => simp [hs] at h
    | some x =>
      cases x with
      | halt o' =>
        simp only [hs, Option.some.injEq] at h
        subst h
        exact ⟨0, s0, Nat.succ_pos _, rfl, hs⟩
      | next s1 =>
        simp only [hs] at h
        obtain ⟨j, sj, hj, h1, h2⟩ := ih s1 o h
        exact ⟨j + 1, sj, Nat.succ_lt_succ hj, by simp [iterate, hs, h1], h2⟩

theorem drive_of_iterate {σ : Type} (body : σ → Option (Iter σ)) :
    ∀ (j : Nat) (s0 sj : σ) (o : Outcome), iterate body j s0 = some sj →
      body sj = some (.halt o) → ∀ fuel, j < fuel → drive body fuel s0 = some o := by
  intro j
  induction j with
  | zero =>
    intro s0 sj o h hb fuel hf
    simp only [iterate, Option.some.injEq] at h
    subst h
    cases fuel with
    | zero => omega
    | succ k => simp [drive, hb]
  | succ j ih =>
    intro s0 sj o h hb fuel hf
    cases fuel with
    | zero => omega
    | succ k =>
      simp only [iterate] at h
      cases hs : body s0 with
      | none => simp [hs] at h
      | some x =>
        cases x with
        | halt o' => simp [hs] at h
        | next s1 =>
          simp only [hs] at h
          simp only [drive, hs]
          exact ih s1 sj o h hb k (by omega)

theorem iterate_inv {σ : Type} (body : σ → Option (Iter σ)) (I : σ → Prop)
    (hstep : ∀ s s', I s → body s = some (.next s') → I s') :
    ∀ (n : Nat) (s s' : σ), I s → iterate body n s = some s' → I s' := by
  intro n
  induction n with
  | zero =>
    intro s s' hi h
    simp only [iterate, Option.some.injEq] at h
    subst h
    exact hi
  | succ n ih =>
    intro s s' hi h
    simp only [iterate] at h
    cases hs : body s with
    | none => simp [hs] at h
    | some x =>
      cases x with
      | halt o => simp [hs] at h
      | next s1 =>
        simp only [hs] at h
        exact ih s1 s' (hstep s s1 hi hs) h

/-! ### Why a pass halts -/

theorem Chatgpt.scan_none {g : Grid} {H W : Nat} {b : Bool} {pos : Chatgpt.Point} :
    ∀ (l : List Dir), Chatgpt.scan g H W b pos l = .ok none →
      ∀ d ∈ l, ¬ OpenTo g H W b pos.r pos.c d := by
  intro l
  induction l with
  | nil => intro _ d hd; simp at hd
  | cons e l ih =>
    intro h d hd
    simp only [Chatgpt.scan] at h
    cases hc : Chatgpt.canGo g H W b (Chatgpt.neighbour pos e) with
    | crash => simp [hc] at h
    | ok t =>
      cases t with
      | true => simp [hc] at h
      | false =>
        simp only [hc] at h
        rcases List.mem_cons.1 hd with rfl | hd'
        · intro ho
          have := (Chatgpt.canGo_iff g H W b (Chatgpt.neighbour pos d)).2
            (by rw [Chatgpt.neighbour_eq]; exact ho)
          rw [hc] at this
          cases this
        · exact ih h d hd'

theorem mem_priorityOrder (inverted : Bool) (d : Dir) : d ∈ priorityOrder inverted := by
  cases inverted <;> cases d <;> decide

theorem Chatgpt.body_halt_chatgpt {tp : Chatgpt.Point → Chatgpt.Point} {tf H W : Nat} {s : Chatgpt.St}
    {o : Outcome} (h : Chatgpt.body tp tf H W s = some (.halt o)) :
    (∀ p, o = .success p → cellAt s.grid s.pos.r s.pos.c = some '$' ∧ p = s.moves) ∧
    (o = .cycle → cellAt s.grid s.pos.r s.pos.c ≠ some '$' ∧ Chatgpt.key s ∈ s.visited) ∧
    (o = .stuck → cellAt s.grid s.pos.r s.pos.c ≠ some '$' ∧
      ∀ d, ¬ OpenTo s.grid H W s.breaker s.pos.r s.pos.c d) := by
  unfold Chatgpt.body at h
  cases hc : cellAt s.grid s.pos.r s.pos.c with
  | none =>
    simp only [hc, Option.some.injEq, Iter.halt.injEq] at h
    subst h
    simp
  | some here =>
    simp only [hc] at h
    by_cases hgoal : here = '$'
    · simp only [hgoal, if_true, Option.some.injEq, Iter.halt.injEq] at h
      subst h
      simp [hgoal]
    by_cases hvis : Chatgpt.key s ∈ s.visited
    · simp only [hgoal, hvis, if_true, if_false, Option.some.injEq, Iter.halt.injEq] at h
      subst h
      simp [hgoal, hvis]
    simp only [hgoal, hvis, if_false, Chatgpt.advance] at h
    cases hr : Chatgpt.resolve H W { s with visited := Chatgpt.key s :: s.visited } with
    | crash =>
      simp only [hr, Option.some.injEq, Iter.halt.injEq] at h
      subst h
      simp
    | ok x =>
      cases x with
      | none =>
        simp only [hr, Option.some.injEq, Iter.halt.injEq] at h
        subst h
        refine ⟨by simp, by simp, fun _ => ⟨by simpa using hgoal, ?_⟩⟩
        intro d
        unfold Chatgpt.resolve at hr
        simp only at hr
        cases hf : Chatgpt.canGo s.grid H W s.breaker (Chatgpt.neighbour s.pos s.dir) with
        | crash => simp [hf] at hr
        | ok t =>
          cases t with
          | true => simp [hf] at hr
          | false =>
            simp only [hf] at hr
            rw [priorityOrder_chatgpt] at hr
            exact Chatgpt.scan_none _ hr d (mem_priorityOrder _ d)
      | some dn =>
        obtain ⟨d, next⟩ := dn
        simp only [hr, Chatgpt.land] at h
        cases ha : Chatgpt.applyTile tp tf (Chatgpt.enter W
            { s with visited := Chatgpt.key s :: s.visited } d next) with
        | none => simp [ha] at h
        | some x =>
          cases x with
          | crash =>
            simp only [ha, Option.some.injEq, Iter.halt.injEq] at h
            subst h
            simp
          | ok s2 => simp [ha] at h

theorem Claude.tryPriorities_none (r : Claude.Robot) :
    ∀ (l : List Dir), Claude.tryPriorities r l = .ok none →
      ∀ d ∈ l, ¬ OpenTo r.grid r.height r.width r.state.breaker
        r.state.pos.row r.state.pos.col d := by
  intro l
  induction l with
  | nil => intro _ d hd; simp at hd
  | cons e l ih =>
    intro h d hd
    simp only [Claude.tryPriorities] at h
    cases hc : Claude.canMoveTo r (Claude.getNextPosition r e) with
    | crash => simp [hc] at h
    | ok t =>
      cases t with
      | true => simp [hc] at h
      | false =>
        simp only [hc] at h
        rcases List.mem_cons.1 hd with rfl | hd'
        · intro ho
          have := Claude.canMoveTo_open r d ho
          rw [hc] at this
          cases this
        · exact ih h d hd'

theorem Claude.findPathBody_halt {r : Claude.Robot} {o : Outcome}
    (h : Claude.findPathBody r = .halt o) :
    (∀ p, o = .success p → r.state.pos = r.destPos ∧ p = r.path.map Claude.Direction.String) ∧
    (o = .cycle → r.state.pos ≠ r.destPos ∧ Claude.getStateKey r ∈ r.visited) ∧
    (o = .stuck → r.state.pos ≠ r.destPos ∧
      ∃ cell, cellAt r.grid r.state.pos.row r.state.pos.col = some cell ∧
        ∀ d, ¬ OpenTo r.grid r.height r.width (Claude.special r cell).state.breaker
          (Claude.special r cell).state.pos.row (Claude.special r cell).state.pos.col d) := by
  unfold Claude.findPathBody at h
  by_cases hgoal : r.state.pos = r.destPos
  · simp only [hgoal, if_true, Iter.halt.injEq] at h
    subst h
    simp [hgoal]
  by_cases hvis : Claude.getStateKey r ∈ r.visited
  · simp only [hgoal, hvis, if_true, if_false, Iter.halt.injEq] at h
    subst h
    simp [hgoal, hvis]
  simp only [hgoal, hvis, if_false, Claude.advance] at h
  cases hc : cellAt r.grid r.state.pos.row r.state.pos.col with
  | none =>
    simp only [hc, Iter.halt.injEq] at h
    subst h
    simp
  | some cell =>
    simp only [hc, Claude.moveStep] at h
    obtain ⟨f1, f2, f3, _, _, _, _⟩ :=
      Claude.special_frame { r with visited := Claude.getStateKey r :: r.visited } cell
    have hst : (Claude.special { r with visited := Claude.getStateKey r :: r.visited } cell).state
        = (Claude.special r cell).state := by
      rw [Claude.special_visited]
    generalize hr2 : Claude.special { r with visited := Claude.getStateKey r :: r.visited } cell
      = r2 at h f1 f2 f3 hst
    cases hf : Claude.canMoveTo r2 (Claude.getNextPosition r2 r2.state.direction) with
    | crash =>
      simp only [hf, Iter.halt.injEq] at h
      subst h
      simp
    | ok t =>
      cases t with
      | true => simp [hf] at h
      | false =>
        simp only [hf] at h
        cases ht : Claude.tryPriorities r2 (Claude.getPriorityDirections r2) with
        | crash =>
          simp only [ht, Iter.halt.injEq] at h
          subst h
          simp
        | ok x =>
          cases x with
          | some r3 => simp [ht] at h
          | none =>
            simp only [ht, Iter.halt.injEq] at h
            subst h
            refine ⟨by simp, by simp, fun _ => ⟨hgoal, cell, rfl, ?_⟩⟩
            intro d
            rw [priorityOrder_claude] at ht
            have := Claude.tryPriorities_none r2 _ ht d (mem_priorityOrder _ d)
            rw [f1, f2, f3, hst] at this
            exact this

theorem Grok.turn_none {g : Grid} {H W : Nat} {b : Bool} {r c : Int} :
    ∀ (l : List Dir), Grok.turn g H W b r c l = .ok none →
      ∀ d ∈ l, ¬ OpenTo g H W b r c d := by
  intro l
  induction l with
  | nil => intro _ d hd; simp at hd
  | cons e l ih =>
    intro h d hd
    simp only [Grok.turn] at h
    cases hc : Grok.blockedAt g H W b (r + (Grok.deltas e).1) (c + (Grok.deltas e).2) with
    | crash => simp [hc] at h
    | ok t =>
      cases t with
      | false => simp [hc] at h
      | true =>
        simp only [hc] at h
        rcases List.mem_cons.1 hd with rfl | hd'
        · intro ho
          have := Grok.blockedAt_open ho
          rw [hc] at this
          cases this
        · exact ih h d hd'

theorem Grok.body_halt_grok {H W : Nat} {v : Grok.Vars} {o : Outcome}
    (h : Grok.body H W v = .halt o) :
    (∀ p, o = .success p → cellAt v.grid v.curR v.curC = some '$' ∧ p = v.path) ∧
    (o = .cycle → cellAt v.grid v.curR v.curC ≠ some '$' ∧ Grok.stateOf v ∈ v.visited) ∧
    (o = .stuck → cellAt v.grid v.curR v.curC ≠ some '$' ∧
      ∀ d, ¬ OpenTo v.grid H W v.curBreaker v.curR v.curC d) := by
  unfold Grok.body at h
  cases hc : cellAt v.grid v.curR v.curC with
  | none =>
    simp only [hc, Iter.halt.injEq] at h
    subst h
    simp
  | some here =>
    simp only [hc] at h
    by_cases hgoal : here = '$'
    · simp only [hgoal, if_true, Iter.halt.injEq] at h
      subst h
      simp [hgoal]
    by_cases hvis : Grok.stateOf v ∈ v.visited
    · simp only [hgoal, hvis, if_true, if_false, Iter.halt.injEq] at h
      subst h
      simp [hgoal, hvis]
    simp only [hgoal, hvis, if_false, Grok.advance, Grok.moveStep] at h
    cases hb : Grok.blockedAt v.grid H W v.curBreaker (v.curR + (Grok.deltas v.curDir).1)
        (v.curC + (Grok.deltas v.curDir).2) with
    | crash =>
      simp only [hb, Iter.halt.injEq] at h
      subst h
      simp
    | ok t =>
      cases t with
      | true =>
        simp only [hb] at h
        cases ht : Grok.turn v.grid H W v.curBreaker v.curR v.curC
            (if v.curInv = true then Grok.prioInv else Grok.prioNormal) with
        | crash =>
          simp only [ht, Iter.halt.injEq] at h
          subst h
          simp
        | ok x =>
          cases x with
          | some nDir => simp [ht] at h
          | none =>
            simp only [ht, Iter.halt.injEq] at h
            subst h
            refine ⟨by simp, by simp, fun _ => ⟨by simpa using hgoal, ?_⟩⟩
            intro d
            rw [priorityOrder_grok] at ht
            exact Grok.turn_none _ ht d (mem_priorityOrder _ d)
      | false =>
        simp only [hb, Grok.land] at h
        cases ha : Grok.applyEffect H W (Grok.moveTo { v with visited := Grok.stateOf v :: v.visited }
            (v.curR + (Grok.deltas v.curDir).1) (v.curC + (Grok.deltas v.curDir).2)) with
        | crash =>
          simp only [ha, Iter.halt.injEq] at h
          subst h
          simp
        | ok v2 => simp [ha] at h

/-! ### claude: what `NewRobot` finds -/

theorem Claude.newRobotVisit_frame (rb : Claude.Robot) (i j : Nat) (cell : Char) :
    (Claude.newRobotVisit rb i j cell).grid = rb.grid ∧
    (Claude.newRobotVisit rb i j cell).height = rb.height ∧
    (Claude.newRobotVisit rb i j cell).width = rb.width ∧
    (Claude.newRobotVisit rb i j cell).visited = rb.visited ∧
    (Claude.newRobotVisit rb i j cell).path = rb.path ∧
    (Claude.newRobotVisit rb i j cell).state.inverted = rb.state.inverted ∧
    (Claude.newRobotVisit rb i j cell).state.breaker = rb.state.breaker := by
  unfold Claude.newRobotVisit
  split_ifs <;> exact ⟨rfl, rfl, rfl, rfl, rfl, rfl, rfl⟩

theorem Claude.newRobotScan_frame (g : Grid) :
    ∀ (l : List (Nat × Nat)) (rb rb' : Claude.Robot), Claude.newRobotScan g l rb = .ok rb' →
      rb'.grid = rb.grid ∧ rb'.height = rb.height ∧ rb'.width = rb.width ∧
      rb'.visited = rb.visited ∧ rb'.path = rb.path ∧
      rb'.state.inverted = rb.state.inverted ∧ rb'.state.breaker = rb.state.breaker := by
  intro l
  induction l with
  | nil =>
    intro rb rb' h
    simp only [Claude.newRobotScan, Res.ok.injEq] at h
    subst h
    exact ⟨rfl, rfl, rfl, rfl, rfl, rfl, rfl⟩
  | cons p l ih =>
    intro rb rb' h
    obtain ⟨i, j⟩ := p
    simp only [Claude.newRobotScan] at h
    cases hc : cellAt g i j with
    | none => simp [hc] at h
    | some cell =>
      simp only [hc] at h
      obtain ⟨a1, a2, a3, a4, a5, a6, a7⟩ := ih _ _ h
      obtain ⟨b1, b2, b3, b4, b5, b6, b7⟩ := Claude.newRobotVisit_frame rb i j cell
      exact ⟨a1.trans b1, a2.trans b2, a3.trans b3, a4.trans b4, a5.trans b5, a6.trans b6,
        a7.trans b7⟩

theorem Claude.newRobotScan_dest (g : Grid) :
    ∀ (l : List (Nat × Nat)) (rb rb' : Claude.Robot), Claude.newRobotScan g l rb = .ok rb' →
      (cellAt g rb.destPos.row rb.destPos.col = some '$' ∨
        ∃ p ∈ l, cellAt g (p.1 : Int) (p.2 : Int) = some '$') →
      cellAt g rb'.destPos.row rb'.destPos.col = some '$' := by
  intro l
  induction l with
  | nil =>
    intro rb rb' h hd
    simp only [Claude.newRobotScan, Res.ok.injEq] at h
    subst h
    rcases hd with hd | ⟨p, hp, _⟩
    · exact hd
    · simp at hp
  | cons p l ih =>
    intro rb rb' h hd
    obtain ⟨i, j⟩ := p
    simp only [Claude.newRobotScan] at h
    cases hc : cellAt g i j with
    | none => simp [hc] at h
    | some cell =>
      simp only [hc] at h
      apply ih _ _ h
      by_cases hcell : cell = '$'
      · left
        subst hcell
        simp [Claude.newRobotVisit, hc]
      · have hsame : (Claude.newRobotVisit rb i j cell).destPos = rb.destPos := by
          unfold Claude.newRobotVisit
          split_ifs <;> rfl
        rw [hsame]
        rcases hd with hd | ⟨p, hp, hp2⟩
        · exact Or.inl hd
        · rcases List.mem_cons.1 hp with rfl | hp'
          · simp only at hp2
            rw [hc] at hp2
            exact absurd (Option.some.inj hp2) hcell
          · exact Or.inr ⟨p, hp', hp2⟩

theorem mem_rowMajor {H W : Nat} {p : Nat × Nat} : p ∈ rowMajor H W ↔ p.1 < H ∧ p.2 < W := by
  unfold rowMajor
  simp only [List.mem_flatMap, List.mem_range, List.mem_map]
  constructor
  · rintro ⟨r, hr, c, hc, rfl⟩
    exact ⟨hr, hc⟩
  · intro h
    exact ⟨p.1, h.1, p.2, h.2, rfl⟩

/-- C10 as stated fails for claude: on the one-row grid ` @`, which holds no
`$`, `destPos` keeps its zero value `(0, 0)`; the robot moves WEST onto the
blank cell `(0, 0)`, `findPath` returns true there and `WEST` is printed
although the robot does not stand on a `$` cell. -/
theorem claude_prints_off_goal :
    Claude.main 2 1 2 noGoalGrid = some (.success ["WEST"]) ∧
    (Outcome.success ["WEST"]).output = some ["WEST"] ∧
    (Claude.runChecked 1 noGoalGrid 1 2).map
        (fun r => (r.state.pos, r.destPos, cellAt r.grid r.state.pos.row r.state.pos.col)) =
      some (⟨0, 0⟩, ⟨0, 0⟩, some ' ') ∧
    (∀ p ∈ rowMajor 1 2, cellAt noGoalGrid (p.1 : Int) (p.2 : Int) ≠ some '$') := by
  refine ⟨?_, ?_, ?_, ?_⟩ <;> decide

/-! ## Teleporters: the first other cell in row-major order -/

theorem rowMajor_pairwise (H W : Nat) : (rowMajor H W).Pairwise Before := by
  unfold rowMajor
  rw [List.pairwise_flatMap]
  constructor
  · intro r _
    rw [List.pairwise_map]
    exact (List.pairwise_lt_range W).imp (fun h => Or.inr ⟨rfl, h⟩)
  · refine (List.pairwise_lt_range H).imp ?_
    intro a b hab x hx y hy
    simp only [List.mem_map, List.mem_range] at hx hy
    obtain ⟨_, _, rfl⟩ := hx
    obtain ⟨_, _, rfl⟩ := hy
    exact Or.inl hab

theorem before_irrefl (p : Nat × Nat) : ¬ Before p p := by
  rintro (h | ⟨_, h⟩) <;> omega

theorem before_asymm {p q : Nat × Nat} (h : Before p q) : ¬ Before q p := by
  rcases h with h | ⟨h1, h2⟩ <;> rintro (h' | ⟨h1', h2'⟩) <;> omega

theorem rowMajor_find_some {H W : Nat} {p : Nat × Nat → Bool} {q : Nat × Nat}
    (h : (rowMajor H W).find? p = some q) :
    q.1 < H ∧ q.2 < W ∧ p q = true ∧
      ∀ q' : Nat × Nat, q'.1 < H → q'.2 < W → Before q' q → p q' = false := by
  obtain ⟨hp, as, bs, hl, has⟩ := List.find?_eq_some.1 h
  have hmem : q ∈ rowMajor H W := by rw [hl]; simp
  obtain ⟨h1, h2⟩ := mem_rowMajor.1 hmem
  refine ⟨h1, h2, hp, ?_⟩
  intro q' hq1 hq2 hbef
  have hq' : q' ∈ rowMajor H W := mem_rowMajor.2 ⟨hq1, hq2⟩
  have hpw := rowMajor_pairwise H W
  rw [hl, List.pairwise_append, List.pairwise_cons] at hpw
  rw [hl] at hq'
  rcases List.mem_append.1 hq' with ha | hb
  · simpa using has q' ha
  · rcases List.mem_cons.1 hb with rfl | hb'
    · exact absurd hbef (before_irrefl _)
    · exact absurd hbef (before_asymm (hpw.2.1.1 q' hb'))

theorem rowMajor_find_none {H W : Nat} {p : Nat × Nat → Bool}
    (h : (rowMajor H W).find? p = none) :
    ∀ q' : Nat × Nat, q'.1 < H → q'.2 < W → p q' = false := by
  intro q' h1 h2
  have := List.find?_eq_none.1 h q' (mem_rowMajor.2 ⟨h1, h2⟩)
  simpa using this

/-- The test of the teleport scans: the cell holds `d` and is not the robot's cell. -/
theorem teleTarget_of_find {g : Grid} {H W : Nat} {d : Char} {curR curC : Int} :
    (∀ q, (rowMajor H W).find? (fun q => decide (cellAt g (q.1 : Int) (q.2 : Int) = some d ∧
        ((q.1 : Int) ≠ curR ∨ (q.2 : Int) ≠ curC))) = some q →
      TeleTarget g H W d curR curC (q.1 : Int) (q.2 : Int)) ∧
    ((rowMajor H W).find? (fun q => decide (cellAt g (q.1 : Int) (q.2 : Int) = some d ∧
        ((q.1 : Int) ≠ curR ∨ (q.2 : Int) ≠ curC))) = none →
      TeleTarget g H W d curR curC curR curC) := by
  constructor
  · intro q h
    obtain ⟨h1, h2, h3, h4⟩ := rowMajor_find_some h
    simp only [decide_eq_true_eq] at h3
    left
    refine ⟨q.1, q.2, h1, h2, rfl, rfl, h3.1, h3.2, ?_⟩
    intro r' c' hr hc hb hcell
    have := h4 (r', c') hr hc hb
    simp only [decide_eq_false_iff_not, not_and, not_or, not_not] at this
    exact this hcell
  · intro h
    right
    refine ⟨rfl, rfl, ?_⟩
    intro r' c' hr hc hcell
    have := rowMajor_find_none h (r', c') hr hc
    simp only [decide_eq_false_iff_not, not_and, not_or, not_not] at this
    exact this hcell

/-! ### grok -/

theorem Grok.teleScan_eq {g : Grid} {d : Char} {curR curC : Int} :
    ∀ (l : List (Nat × Nat)), (∀ q ∈ l, (cellAt g (q.1 : Int) (q.2 : Int)).isSome = true) →
      Grok.teleScan g d curR curC l =
        .ok (l.find? (fun q => decide (cellAt g (q.1 : Int) (q.2 : Int) = some d ∧
          ((q.1 : Int) ≠ curR ∨ (q.2 : Int) ≠ curC)))) := by
  intro l
  induction l with
  | nil => intro _; rfl
  | cons q l ih =>
    intro hl
    obtain ⟨rR, cC⟩ := q
    have hq := hl (rR, cC) (List.mem_cons_self _ _)
    simp only at hq
    cases hc : cellAt g (rR : Int) (cC : Int) with
    | none => simp [hc] at hq
    | some ch =>
      simp only [Grok.teleScan, hc, List.find?_cons, Option.some.injEq]
      by_cases hm : ch = d ∧ ((rR : Int) ≠ curR ∨ (cC : Int) ≠ curC)
      · simp [hm]
      · simp only [hm, if_false, decide_False]
        exact ih (fun q hq => hl q (List.mem_cons_of_mem _ hq))

theorem rect_readable {g : Grid} {H W : Nat} (hg : Rect g H W) :
    ∀ q ∈ rowMajor H W, (cellAt g (q.1 : Int) (q.2 : Int)).isSome = true := by
  intro q hq
  obtain ⟨h1, h2⟩ := mem_rowMajor.1 hq
  obtain ⟨ch, hc⟩ := cellAt_of_rect hg (r := (q.1 : Int)) (c := (q.2 : Int))
    ⟨by omega, by omega, by omega, by omega⟩
  simp [hc]

theorem Grok.applyEffect_digit {H W : Nat} {v : Grok.Vars} (hg : Rect v.grid H W) {d : Char}
    (hc : cellAt v.grid v.curR v.curC = some d) (hd : isTeleDigit d = true) :
    ∃ destR destC, TeleTarget v.grid H W d v.curR v.curC destR destC ∧
      Grok.applyEffect H W v = .ok { v with curR := destR, curC := destC } := by
  unfold Grok.applyEffect
  simp only [hc, hd, if_true]
  rw [Grok.teleScan_eq _ (rect_readable hg)]
  cases hf : (rowMajor H W).find? (fun q => decide (cellAt v.grid (q.1 : Int) (q.2 : Int) = some d ∧
          ((q.1 : Int) ≠ v.curR ∨ (q.2 : Int) ≠ v.curC))) with
  | none => exact ⟨v.curR, v.curC, teleTarget_of_find.2 hf, rfl⟩
  | some q =>
    obtain ⟨rR, cC⟩ := q
    exact ⟨rR, cC, teleTarget_of_find.1 _ hf, rfl⟩

/-! ### claude -/

theorem Claude.newRobotScan_tele (g : Grid) :
    ∀ (l : List (Nat × Nat)) (rb rb' : Claude.Robot), Claude.newRobotScan g l rb = .ok rb' →
      ∀ ch, ch ∈ teleDigits → rb'.teleporters ch = rb.teleporters ch ++
        (l.filter (fun q => decide (cellAt g (q.1 : Int) (q.2 : Int) = some ch))).map
          (fun q => (⟨(q.1 : Int), (q.2 : Int)⟩ : Claude.Position)) := by
  intro l
  induction l with
  | nil =>
    intro rb rb' h ch _
    simp only [Claude.newRobotScan, Res.ok.injEq] at h
    subst h
    simp
  | cons p l ih =>
    intro rb rb' h ch hch
    obtain ⟨i, j⟩ := p
    simp only [Claude.newRobotScan] at h
    cases hc : cellAt g i j with
    | none => simp [hc] at h
    | some cell =>
      simp only [hc] at h
      rw [ih _ _ h ch hch, List.filter_cons]
      have hne := isTeleDigit_ne_wall ((mem_teleDigits_iff ch).1 hch)
      by_cases e : cell = ch
      · subst e
        have h1 : cell ≠ '@' := by rintro rfl; revert hch; decide
        have h2 : cell ≠ '$' := by rintro rfl; revert hch; decide
        simp [Claude.newRobotVisit, hc, h1, h2, hch]
      · have e' : ¬ (some cell = some ch) := fun h => e (Option.some.inj h)
        simp only [hc, e', decide_False, Bool.false_eq_true, if_false]
        congr 1
        unfold Claude.newRobotVisit
        split_ifs
        · rfl
        · rfl
        · simp [Ne.symm e]
        · rfl

theorem Claude.special_digit (r : Claude.Robot) (g0 : Grid) (H W : Nat) (d : Char)
    (hd : isTeleDigit d = true)
    (htele : r.teleporters d =
      ((rowMajor H W).filter (fun q => decide (cellAt g0 (q.1 : Int) (q.2 : Int) = some d))).map
        (fun q => (⟨(q.1 : Int), (q.2 : Int)⟩ : Claude.Position)))
    (hero : Eroded g0 r.grid) :
    ∃ dest : Claude.Position,
      TeleTarget r.grid H W d r.state.pos.row r.state.pos.col dest.row dest.col ∧
      Claude.special r d = { r with state := { r.state with pos := dest } } := by
  obtain ⟨h1, h2, h3, h4, h5, h6⟩ := isTeleDigit_ne_letters hd
  have hmem := (mem_teleDigits_iff d).2 hd
  have hcell : ∀ q : Nat × Nat, cellAt g0 (q.1 : Int) (q.2 : Int) = some d ↔
      cellAt r.grid (q.1 : Int) (q.2 : Int) = some d := by
    intro q
    constructor
    · exact eroded_keeps hero (isTeleDigit_ne_wall hd).2
    · exact eroded_back hero (by rintro rfl; revert hd; decide)
  have hfind : (r.teleporters d).find? (fun tp => decide (tp ≠ r.state.pos)) =
      ((rowMajor H W).find? (fun q => decide (cellAt r.grid (q.1 : Int) (q.2 : Int) = some d ∧
        ((q.1 : Int) ≠ r.state.pos.row ∨ (q.2 : Int) ≠ r.state.pos.col)))).map
        (fun q => (⟨(q.1 : Int), (q.2 : Int)⟩ : Claude.Position)) := by
    rw [htele, List.find?_map, List.find?_filter]
    congr 2
    funext q
    simp only [Function.comp, decide_eq_true_eq, hcell q]
    congr 1
    apply propext
    constructor
    · rintro ⟨a, b⟩
      refine ⟨a, ?_⟩
      by_contra hn
      simp only [not_or, not_not] at hn
      apply b
      cases hp : r.state.pos
      rw [hp] at hn
      simp only at hn
      rw [hn.1, hn.2]
    · rintro ⟨a, b⟩
      refine ⟨a, ?_⟩
      intro hp
      rw [← hp] at b
      simp at b
  simp only [Claude.special, h1, h2, h3, h4, h5, h6, hmem, if_true, if_false, hfind]
  cases hf : (rowMajor H W).find? (fun q => decide (cellAt r.grid (q.1 : Int) (q.2 : Int) = some d ∧
        ((q.1 : Int) ≠ r.state.pos.row ∨ (q.2 : Int) ≠ r.state.pos.col))) with
  | none =>
    refine ⟨r.state.pos, teleTarget_of_find.2 hf, ?_⟩
    simp
  | some q =>
    exact ⟨⟨q.1, q.2⟩, teleTarget_of_find.1 _ hf, by simp⟩

/-! ## Visited sets and repeated configurations -/

theorem iterate_succ_left {σ : Type} (body : σ → Option (Iter σ)) (n : Nat) (s s1 : σ)
    (h : body s = some (.next s1)) : iterate body (n + 1) s = iterate body n s1 := by
  simp [iterate, h]

theorem iterate_add {σ : Type} (body : σ → Option (Iter σ)) :
    ∀ (a b : Nat) (s : σ), iterate body (a + b) s = (iterate body a s).bind (iterate body b) := by
  intro a
  induction a with
  | zero => intro b s; simp [iterate]
  | succ a ih =>
    intro b s
    have e : a + 1 + b = (a + b) + 1 := by omega
    rw [e]
    simp only [iterate]
    cases hs : body s with
    | none => simp
    | some x =>
      cases x with
      | halt o => simp
      | next s1 => simp only; exact ih b s1

theorem iterate_before {σ : Type} (body : σ → Option (Iter σ)) (j : Nat) (s0 sj : σ)
    (h : iterate body j s0 = some sj) (k : Nat) (hk : k < j) :
    ∃ sk sk', iterate body k s0 = some sk ∧ body sk = some (.next sk') ∧
      iterate body (j - k) sk = some sj := by
  have e : j = k + (j - k) := by omega
  rw [e, iterate_add] at h
  cases hk' : iterate body k s0 with
  | none => simp [hk'] at h
  | some sk =>
    simp only [hk', Option.some_bind] at h
    refine ⟨sk, ?_⟩
    obtain ⟨m, hm⟩ : ∃ m, j - k = m + 1 := ⟨j - k - 1, by omega⟩
    rw [hm] at h ⊢
    simp only [iterate] at h
    cases hs : body sk with
    | none => simp [hs] at h
    | some x =>
      cases x with
      | halt o => simp [hs] at h
      | next s1 =>
        exact ⟨s1, rfl, rfl, by simp [iterate, hs] at h ⊢; exact h⟩

theorem iterate_visited {σ κ : Type} (body : σ → Option (Iter σ)) (vis : σ → List κ)
    (key : σ → κ) (hstep : ∀ s s', body s = some (.next s') → vis s' = key s :: vis s) :
    ∀ (n : Nat) (s0 sn : σ), iterate body n s0 = some sn →
      ∀ k ∈ vis sn, k ∈ vis s0 ∨ ∃ i si, i < n ∧ iterate body i s0 = some si ∧ key si = k := by
  intro n
  induction n with
  | zero =>
    intro s0 sn h k hk
    simp only [iterate, Option.some.injEq] at h
    subst h
    exact Or.inl hk
  | succ n ih =>
    intro s0 sn h k hk
    simp only [iterate] at h
    cases hs : body s0 with
    | none => simp [hs] at h
    | some x =>
      cases x with
      | halt o => simp [hs] at h
      | next s1 =>
        simp only [hs] at h
        rcases ih s1 sn h k hk with h1 | ⟨i, si, hi, hit, hkey⟩
        · rw [hstep s0 s1 hs] at h1
          rcases List.mem_cons.1 h1 with rfl | h1'
          · exact Or.inr ⟨0, s0, Nat.succ_pos _, rfl, rfl⟩
          · exact Or.inl h1'
        · exact Or.inr ⟨i + 1, si, Nat.succ_lt_succ hi,
            by rw [iterate_succ_left body i s0 s1 hs]; exact hit, hkey⟩

theorem iterate_conf {σ γ : Type} (adv : σ → Option (Iter σ)) (conf : σ → γ)
    (hdet : ∀ a b a', conf a = conf b → adv a = some (.next a') →
      ∃ b', adv b = some (.next b') ∧ conf a' = conf b') :
    ∀ (m : Nat) (a b a' : σ), conf a = conf b → iterate adv m a = some a' →
      ∃ b', iterate adv m b = some b' ∧ conf a' = conf b' := by
  intro m
  induction m with
  | zero =>
    intro a b a' hc h
    simp only [iterate, Option.some.injEq] at h
    subst h
    exact ⟨b, rfl, hc⟩
  | succ m ih =>
    intro a b a' hc h
    simp only [iterate] at h
    cases hs : adv a with
    | none => simp [hs] at h
    | some x =>
      cases x with
      | halt o => simp [hs] at h
      | next a1 =>
        simp only [hs] at h
        obtain ⟨b1, hb1, hc1⟩ := hdet a b a1 hc hs
        obtain ⟨b', hb', hc'⟩ := ih a1 b1 a' hc1 h
        exact ⟨b', by rw [iterate_succ_left adv m b b1 hb1]; exact hb', hc'⟩

/-- A deterministic walk that comes back to a configuration met before never
leaves the configurations met so far. -/
theorem iterate_cycle_no_goal {σ γ : Type} (adv : σ → Option (Iter σ)) (conf : σ → γ)
    (goal : γ → Prop)
    (hdet : ∀ a b a', conf a = conf b → adv a = some (.next a') →
      ∃ b', adv b = some (.next b') ∧ conf a' = conf b')
    (i j : Nat) (hij : i < j) (s0 si sj : σ) (hi : iterate adv i s0 = some si)
    (hj : iterate adv j s0 = some sj) (hc : conf si = conf sj)
    (hpre : ∀ k s, k < j → iterate adv k s0 = some s → ¬ goal (conf s)) :
    ∀ n s, iterate adv n s0 = some s → ¬ goal (conf s) := by
  intro n
  induction n using Nat.strong_induction_on with
  | _ n ih =>
    intro s hn
    by_cases hlt : n < j
    · exact hpre n s hlt hn
    · have e : n = j + (n - j) := by omega
      rw [e, iterate_add, hj, Option.some_bind] at hn
      obtain ⟨s', hs', hc'⟩ := iterate_conf adv conf hdet (n - j) sj si s hc.symm hn
      have h2 : iterate adv (i + (n - j)) s0 = some s' := by
        rw [iterate_add, hi, Option.some_bind]; exact hs'
      rw [hc']
      exact ih (i + (n - j)) (by omega) s' h2

/-- Soundness of a visited test in front of a deterministic step.  The loop
`body` tests the goal, then the visited set, then does `adv`. -/
theorem cycle_sound {σ κ γ : Type} (body adv : σ → Option (Iter σ)) (vis : σ → List κ)
    (key : σ → κ) (conf : σ → γ) (goal : γ → Prop) (I : σ → Prop)
    (hnext : ∀ s s', body s = some (.next s') →
      adv s = some (.next s') ∧ ¬ goal (conf s) ∧ vis s' = key s :: vis s)
    (hcyc : ∀ s, body s = some (.halt .cycle) → key s ∈ vis s ∧ ¬ goal (conf s))
    (hstuck : ∀ s, body s = some (.halt .stuck) →
      ¬ goal (conf s) ∧ ∀ s', adv s ≠ some (.next s'))
    (hinv : ∀ s s', I s → body s = some (.next s') → I s')
    (hkey : ∀ s1 s2, I s1 → I s2 → key s1 = key s2 → conf s1 = conf s2)
    (hdet : ∀ a b a', conf a = conf b → adv a = some (.next a') →
      ∃ b', adv b = some (.next b') ∧ conf a' = conf b')
    (s0 : σ) (h0 : vis s0 = []) (hI0 : I s0) (fuel : Nat) :
    (drive body fuel s0 = some .cycle →
      ∃ i j si sj, i < j ∧ iterate body i s0 = some si ∧ iterate body j s0 = some sj ∧
        body sj = some (.halt .cycle) ∧ conf si = conf sj) ∧
    (∀ o, drive body fuel s0 = some o → o = .cycle ∨ o = .stuck →
      ∀ n s, iterate adv n s0 = some s → ¬ goal (conf s)) := by
  have hmono : ∀ n s, iterate body n s0 = some s → iterate adv n s0 = some s :=
    fun n s h => iterate_mono body adv (fun a b hab => (hnext a b hab).1) n s0 s h
  have hpre : ∀ j sj, iterate body j s0 = some sj →
      ∀ k s, k < j → iterate adv k s0 = some s → ¬ goal (conf s) := by
    intro j sj hj k s hk hs
    obtain ⟨sk, sk', h1, h2, _⟩ := iterate_before body j s0 sj hj k hk
    have := hmono k sk h1
    rw [hs] at this
    simp only [Option.some.injEq] at this
    rw [this]
    exact (hnext sk sk' h2).2.1
  have hcycle : drive body fuel s0 = some .cycle →
      ∃ i j si sj, i < j ∧ iterate body i s0 = some si ∧ iterate body j s0 = some sj ∧
        body sj = some (.halt .cycle) ∧ conf si = conf sj := by
    intro h
    obtain ⟨j, sj, _, hj, hb⟩ := drive_halts body fuel s0 .cycle h
    obtain ⟨hmem, _⟩ := hcyc sj hb
    rcases iterate_visited body vis key (fun a b hab => (hnext a b hab).2.2) j s0 sj hj _ hmem
      with h1 | ⟨i, si, hi, hit, hk⟩
    · rw [h0] at h1; simp at h1
    · refine ⟨i, j, si, sj, hi, hit, hj, hb, ?_⟩
      exact hkey si sj (iterate_inv body I hinv i s0 si hI0 hit)
        (iterate_inv body I hinv j s0 sj hI0 hj) hk
  refine ⟨hcycle, ?_⟩
  · intro o h ho n s hn
    rcases ho with rfl | rfl
    · obtain ⟨i, j, si, sj, hij, hi, hj, hb, hc⟩ := hcycle h
      exact iterate_cycle_no_goal adv conf goal hdet i j hij s0 si sj (hmono i si hi)
        (hmono j sj hj) hc (hpre j sj hj) n s hn
    · obtain ⟨j, sj, _, hj, hb⟩ := drive_halts body fuel s0 .stuck h
      obtain ⟨hng, hno⟩ := hstuck sj hb
      by_cases hlt : n < j
      · exact hpre j sj hj n s hlt hn
      · have e : n = j + (n - j) := by omega
        rw [e, iterate_add, hmono j sj hj, Option.some_bind] at hn
        cases hm : n - j with
        | zero =>
          rw [hm] at hn
          simp only [iterate, Option.some.injEq] at hn
          rw [← hn]
          exact hng
        | succ m =>
          rw [hm] at hn
          simp only [iterate] at hn
          cases hs : adv sj with
          | none => simp [hs] at hn
          | some x =>
            cases x with
            | halt o => simp [hs] at hn
            | next s1 => exact absurd hs (hno s1)

/-! ### grok: the key determines the configuration -/

theorem flatten_inj {H W : Nat} : ∀ (g1 g2 : Grid), Rect g1 H W → Rect g2 H W →
    g1.flatten = g2.flatten → g1 = g2 := by
  induction H with
  | zero =>
    intro g1 g2 h1 h2 _
    have e1 : g1 = [] := List.length_eq_zero.1 h1.1
    have e2 : g2 = [] := List.length_eq_zero.1 h2.1
    rw [e1, e2]
  | succ H ih =>
    intro g1 g2 h1 h2 hf
    cases g1 with
    | nil => exact absurd h1.1 (by simp)
    | cons r1 t1 =>
      cases g2 with
      | nil => exact absurd h2.1 (by simp)
      | cons r2 t2 =>
        simp only [List.flatten_cons] at hf
        have hl : r1.length = r2.length := by
          rw [h1.2 r1 (List.mem_cons_self _ _), h2.2 r2 (List.mem_cons_self _ _)]
        obtain ⟨e1, e2⟩ := List.append_inj hf hl
        have ht1 : Rect t1 H W :=
          ⟨by simpa using h1.1, fun row hr => h1.2 row (List.mem_cons_of_mem _ hr)⟩
        have ht2 : Rect t2 H W :=
          ⟨by simpa using h2.1, fun row hr => h2.2 row (List.mem_cons_of_mem _ hr)⟩
        rw [e1, ih t1 t2 ht1 ht2 e2]

theorem Grok.conf_of_state {H W : Nat} {v1 v2 : Grok.Vars} (h1 : Rect v1.grid H W)
    (h2 : Rect v2.grid H W) (hk : Grok.stateOf v1 = Grok.stateOf v2) :
    Grok.conf v1 = Grok.conf v2 := by
  simp only [Grok.stateOf, Grok.State.mk.injEq, Grok.gridKey] at hk
  obtain ⟨a, b, c, d, e, f⟩ := hk
  simp only [Grok.conf, Prod.mk.injEq]
  exact ⟨a, b, c, d, e, flatten_inj _ _ h1 h2 f⟩

theorem Grok.applyEffect_conf {H W : Nat} {a b a' : Grok.Vars} (hc : Grok.conf a = Grok.conf b)
    (h : Grok.applyEffect H W a = .ok a') :
    ∃ b', Grok.applyEffect H W b = .ok b' ∧ Grok.conf a' = Grok.conf b' := by
  obtain ⟨g, r, c, d, i, br, p1, vs1⟩ := a
  obtain ⟨g2, r2, c2, d2, i2, br2, p2, vs2⟩ := b
  simp only [Grok.conf, Prod.mk.injEq] at hc
  obtain ⟨rfl, rfl, rfl, rfl, rfl, rfl⟩ := hc
  unfold Grok.applyEffect at h ⊢
  simp only at h ⊢
  cases hcell : cellAt g r c with
  | none => simp [hcell] at h
  | some char =>
    simp only [hcell] at h ⊢
    by_cases hd : isTeleDigit char = true
    · simp only [hd, if_true] at h ⊢
      cases ht : Grok.teleScan g char r c (rowMajor H W) with
      | crash => simp [ht] at h
      | ok o =>
        cases o with
        | none =>
          simp only [ht, Res.ok.injEq] at h ⊢
          subst h
          exact ⟨_, rfl, rfl⟩
        | some q =>
          obtain ⟨rR, cC⟩ := q
          simp only [ht, Res.ok.injEq] at h ⊢
          subst h
          exact ⟨_, rfl, rfl⟩
    · have hd' : isTeleDigit char = false := by simpa using hd
      simp only [hd', Bool.false_eq_true, if_false] at h ⊢
      cases hdir : Grok.charToDir char with
      | some dIr =>
        simp only [hdir, Res.ok.injEq] at h ⊢
        subst h
        exact ⟨_, rfl, rfl⟩
      | none =>
        simp only [hdir] at h ⊢
        split_ifs at h ⊢ <;>
          (simp only [Res.ok.injEq] at h; subst h; exact ⟨_, rfl, rfl⟩)

theorem Grok.moveStep_conf {H W : Nat} {a b a' : Grok.Vars} (hc : Grok.conf a = Grok.conf b)
    (h : Grok.moveStep H W a = .next a') :
    ∃ b', Grok.moveStep H W b = .next b' ∧ Grok.conf a' = Grok.conf b' := by
  have hc0 := hc
  simp only [Grok.conf, Prod.mk.injEq] at hc
  obtain ⟨e1, e2, e3, e4, e5, e6⟩ := hc
  unfold Grok.moveStep at h ⊢
  rw [← e1, ← e2, ← e3, ← e4, ← e5, ← e6]
  cases hb : Grok.blockedAt a.grid H W a.curBreaker (a.curR + (Grok.deltas a.curDir).1)
      (a.curC + (Grok.deltas a.curDir).2) with
  | crash => simp [hb] at h
  | ok t =>
    cases t with
    | true =>
      simp only [hb] at h ⊢
      cases ht : Grok.turn a.grid H W a.curBreaker a.curR a.curC
          (if a.curInv = true then Grok.prioInv else Grok.prioNormal) with
      | crash => simp [ht] at h
      | ok o =>
        cases o with
        | none => simp [ht] at h
        | some nDir =>
          simp only [ht, Iter.next.injEq] at h ⊢
          subst h
          exact ⟨_, rfl, by simp [Grok.conf, e1, e2, e4, e5, e6]⟩
    | false =>
      simp only [hb, Grok.land] at h ⊢
      cases ha : Grok.applyEffect H W (Grok.moveTo a (a.curR + (Grok.deltas a.curDir).1)
          (a.curC + (Grok.deltas a.curDir).2)) with
      | crash => simp [ha] at h
      | ok a2 =>
        simp only [ha, Iter.next.injEq] at h
        subst h
        have hm : Grok.conf (Grok.moveTo a (a.curR + (Grok.deltas a.curDir).1)
              (a.curC + (Grok.deltas a.curDir).2)) =
            Grok.conf (Grok.moveTo b (a.curR + (Grok.deltas a.curDir).1)
              (a.curC + (Grok.deltas a.curDir).2)) := by
          simp [Grok.conf, Grok.moveTo, e3, e4, e5, e6]
        obtain ⟨b', hb', hcb⟩ := Grok.applyEffect_conf hm ha
        exact ⟨b', by simp [hb'], hcb⟩

theorem Grok.advance_conf_grok {H W : Nat} {a b a' : Grok.Vars} (hc : Grok.conf a = Grok.conf b)
    (h : Grok.advance H W a = .next a') :
    ∃ b', Grok.advance H W b = .next b' ∧ Grok.conf a' = Grok.conf b' := by
  unfold Grok.advance at h ⊢
  exact Grok.moveStep_conf (by simpa [Grok.conf] using hc) h

theorem Grok.findStart_rect {H W : Nat} :
    ∀ (l : List (Nat × Nat)) (g : Grid) (sr sc : Int) (g1 : Grid) (sr1 sc1 : Int),
      Rect g H W → Grok.findStart l (g, sr, sc) = .ok (g1, sr1, sc1) → Rect g1 H W := by
  intro l
  induction l with
  | nil =>
    intro g sr sc g1 sr1 sc1 hg h
    simp only [Grok.findStart, Res.ok.injEq, Prod.mk.injEq] at h
    rw [← h.1]; exact hg
  | cons q l ih =>
    intro g sr sc g1 sr1 sc1 hg h
    obtain ⟨r, c⟩ := q
    simp only [Grok.findStart] at h
    cases hc : cellAt g r c with
    | none => simp [hc] at h
    | some ch =>
      simp only [hc] at h
      by_cases hat : ch = '@'
      · simp only [hat, if_true] at h
        exact ih _ _ _ _ _ _ (rect_setCell hg _ _ _) h
      · simp only [hat, if_false] at h
        exact ih _ _ _ _ _ _ hg h

theorem Grok.advance_rect {H W : Nat} {v v' : Grok.Vars} (hg : Rect v.grid H W)
    (h : Grok.advance H W v = .next v') : Rect v'.grid H W := by
  rcases (Grok.advance_grid_grok h).2 with ⟨h1, _⟩ | ⟨_, h2⟩
  · rw [h1]; exact hg
  · exact wallStep_rect h2 hg

theorem Grok.body_stuck {H W : Nat} {v : Grok.Vars} (h : Grok.body H W v = .halt .stuck) :
    Grok.advance H W v = .halt .stuck := by
  unfold Grok.body at h
  cases hc : cellAt v.grid v.curR v.curC with
  | none => simp [hc] at h
  | some here =>
    simp only [hc] at h
    by_cases hgoal : here = '$'
    · simp [hgoal] at h
    by_cases hvis : Grok.stateOf v ∈ v.visited
    · simp [hgoal, hvis] at h
    simpa [hgoal, hvis] using h

/-- grok: the visited test is sound. -/
theorem Grok.cycle_sound_grok {H W : Nat} {g : Grid} (hg : Rect g H W) (sr sc : Int)
    (fuel : Nat) :
    (drive (fun v => some (Grok.body H W v)) fuel (Grok.initial g sr sc) = some .cycle →
      ∃ i j vi vj, i < j ∧
        iterate (fun v => some (Grok.body H W v)) i (Grok.initial g sr sc) = some vi ∧
        iterate (fun v => some (Grok.body H W v)) j (Grok.initial g sr sc) = some vj ∧
        Grok.body H W vj = .halt .cycle ∧ Grok.conf vi = Grok.conf vj) ∧
    (∀ o, drive (fun v => some (Grok.body H W v)) fuel (Grok.initial g sr sc) = some o →
      o = .cycle ∨ o = .stuck →
      ∀ n v, iterate (fun v => some (Grok.advance H W v)) n (Grok.initial g sr sc) = some v →
        cellAt v.grid v.curR v.curC ≠ some '$') := by
  have key := cycle_sound (fun v => some (Grok.body H W v))
    (fun v => some (Grok.advance H W v)) (fun v => v.visited) Grok.stateOf Grok.conf
    (fun c => cellAt c.2.2.2.2.2 c.1 c.2.1 = some '$') (fun v => Rect v.grid H W)
    (by
      intro s s' h
      simp only [Option.some.injEq] at h
      obtain ⟨h1, _, h3, _⟩ := Grok.body_next_grok h
      exact ⟨by simp only [h1], h3, (Grok.advance_grid_grok h1).1⟩)
    (by
      intro s h
      simp only [Option.some.injEq] at h
      obtain ⟨_, h2, _⟩ := Grok.body_halt_grok h
      exact ⟨(h2 rfl).2, (h2 rfl).1⟩)
    (by
      intro s h
      simp only [Option.some.injEq] at h
      obtain ⟨_, _, h3⟩ := Grok.body_halt_grok h
      refine ⟨(h3 rfl).1, ?_⟩
      intro s' hs'
      simp [Grok.body_stuck h] at hs')
    (by
      intro s s' hi h
      simp only [Option.some.injEq] at h
      exact Grok.advance_rect hi (Grok.body_next_grok h).1)
    (fun s1 s2 h1 h2 hk => Grok.conf_of_state h1 h2 hk)
    (by
      intro a b a' hc h
      simp only [Option.some.injEq] at h
      obtain ⟨b', hb', hcb⟩ := Grok.advance_conf_grok hc h
      exact ⟨b', by simp only [hb'], hcb⟩)
    (Grok.initial g sr sc) rfl hg fuel
  constructor
  · intro h
    obtain ⟨i, j, vi, vj, hij, hi, hj, hb, hc⟩ := key.1 h
    exact ⟨i, j, vi, vj, hij, hi, hj, by simpa using hb, hc⟩
  · intro o h ho n v hn
    exact key.2 o h ho n v hn

/-! ### chatgpt: the key determines the configuration -/

theorem grid_ext {H W : Nat} : ∀ (g1 g2 : Grid), Rect g1 H W → Rect g2 H W →
    (∀ r c : Int, InGrid H W r c → cellAt g1 r c = cellAt g2 r c) → g1 = g2 := by
  intro g1 g2 h1 h2 hcell
  apply List.ext_getElem?
  intro i
  by_cases hi : i < H
  · have l1 : i < g1.length := by rw [h1.1]; exact hi
    have l2 : i < g2.length := by rw [h2.1]; exact hi
    rw [List.getElem?_eq_getElem l1, List.getElem?_eq_getElem l2]
    congr 1
    apply List.ext_getElem?
    intro j
    have w1 : (g1[i]).length = W := h1.2 _ (List.getElem_mem _)
    have w2 : (g2[i]).length = W := h2.2 _ (List.getElem_mem _)
    by_cases hj : j < W
    · have := hcell (i : Int) (j : Int) ⟨by omega, by omega, by omega, by omega⟩
      rw [cellAt_nat, cellAt_nat, List.getElem?_eq_getElem l1, List.getElem?_eq_getElem l2] at this
      simpa using this
    · rw [List.getElem?_eq_none (by omega), List.getElem?_eq_none (by omega)]
  · rw [List.getElem?_eq_none (by rw [h1.1]; omega), List.getElem?_eq_none (by rw [h2.1]; omega)]

theorem index_inj {W : Nat} {r c r' c' : Int} (hc : 0 ≤ c) (hcw : c < (W : Int))
    (hc' : 0 ≤ c') (hcw' : c' < (W : Int)) (h : r * (W : Int) + c = r' * (W : Int) + c') :
    r = r' ∧ c = c' := by
  have hr : r = r' := by
    rcases lt_trichotomy r r' with hlt | heq | hgt
    · exfalso
      have : (r + 1) * (W : Int) ≤ r' * (W : Int) :=
        Int.mul_le_mul_of_nonneg_right (by omega) (by omega)
      nlinarith
    · exact heq
    · exfalso
      have : (r' + 1) * (W : Int) ≤ r * (W : Int) :=
        Int.mul_le_mul_of_nonneg_right (by omega) (by omega)
      nlinarith
  subst hr
  exact ⟨rfl, by omega⟩

theorem Chatgpt.conf_of_key {g0 : Grid} {H W : Nat} {s1 s2 : Chatgpt.St}
    (h1 : Chatgpt.Tracks g0 H W s1) (h2 : Chatgpt.Tracks g0 H W s2)
    (hk : Chatgpt.key s1 = Chatgpt.key s2) : Chatgpt.conf s1 = Chatgpt.conf s2 := by
  simp only [Chatgpt.key, Chatgpt.Key.mk.injEq, Chatgpt.makeDestroyedSig] at hk
  obtain ⟨a, b, c, d, e, f⟩ := hk
  have hmem : ∀ k, k ∈ s1.destroyed ↔ k ∈ s2.destroyed := by
    intro k
    rw [← List.mem_insertionSort (fun a b : Int => a ≤ b) (l := s1.destroyed),
      ← List.mem_insertionSort (fun a b : Int => a ≤ b) (l := s2.destroyed), f]
  have hpos : s1.pos = s2.pos := by
    cases hp1 : s1.pos
    cases hp2 : s2.pos
    rw [hp1] at a b
    rw [hp2] at a b
    simp only at a b
    rw [a, b]
  simp only [Chatgpt.conf, Prod.mk.injEq]
  refine ⟨hpos, c, d, e, ?_⟩
  apply grid_ext _ _ h1.1 h2.1
  intro r c hin
  rw [h1.2 r c hin, h2.2 r c hin]
  simp only [hmem]

theorem Chatgpt.applyTile_conf (tp : Chatgpt.Point → Chatgpt.Point) :
    ∀ (n : Nat) (a b a' : Chatgpt.St), Chatgpt.conf a = Chatgpt.conf b →
      Chatgpt.applyTile tp n a = some (.ok a') →
      ∃ b', Chatgpt.applyTile tp n b = some (.ok b') ∧ Chatgpt.conf a' = Chatgpt.conf b' := by
  intro n
  induction n with
  | zero => intro a b a' _ h; simp [Chatgpt.applyTile] at h
  | succ n ih =>
    intro a b a' hc h
    have hc0 := hc
    simp only [Chatgpt.conf, Prod.mk.injEq] at hc
    obtain ⟨e1, e2, e3, e4, e5⟩ := hc
    rw [Chatgpt.applyTile] at h ⊢
    rw [← e1, ← e5]
    cases hcell : cellAt a.grid a.pos.r a.pos.c with
    | none => simp [hcell] at h
    | some cell =>
      simp only [hcell] at h ⊢
      split_ifs at h ⊢
      all_goals first
        | (simp only [Option.some.injEq, Res.ok.injEq] at h
           subst h
           exact ⟨_, rfl, by simp [Chatgpt.conf, e1, e2, e3, e4, e5]⟩)
        | (exact ih _ _ a' (by simp [Chatgpt.conf, e1, e2, e3, e4, e5]) h)

theorem Chatgpt.resolve_conf {H W : Nat} {a b : Chatgpt.St}
    (hc : Chatgpt.conf a = Chatgpt.conf b) : Chatgpt.resolve H W a = Chatgpt.resolve H W b := by
  simp only [Chatgpt.conf, Prod.mk.injEq] at hc
  obtain ⟨e1, e2, e3, e4, e5⟩ := hc
  unfold Chatgpt.resolve
  rw [e1, e2, e3, e4, e5]

theorem Chatgpt.enter_conf {W : Nat} {a b : Chatgpt.St} (d : Dir) (next : Chatgpt.Point)
    (hc : Chatgpt.conf a = Chatgpt.conf b) :
    Chatgpt.conf (Chatgpt.enter W a d next) = Chatgpt.conf (Chatgpt.enter W b d next) := by
  simp only [Chatgpt.conf, Prod.mk.injEq] at hc
  obtain ⟨e1, e2, e3, e4, e5⟩ := hc
  unfold Chatgpt.enter
  rw [e3, e5]
  by_cases hx : cellAt b.grid next.r next.c = some 'X' ∧ b.breaker = true
  · simp [Chatgpt.conf, hx, e4]
  · simp only [hx, if_false]
    simp [Chatgpt.conf, e3, e4, e5]

theorem Chatgpt.advance_conf_chatgpt {tp : Chatgpt.Point → Chatgpt.Point} {tf H W : Nat}
    {a b a' : Chatgpt.St} (hc : Chatgpt.conf a = Chatgpt.conf b)
    (h : Chatgpt.advance tp tf H W a = some (.next a')) :
    ∃ b', Chatgpt.advance tp tf H W b = some (.next b') ∧ Chatgpt.conf a' = Chatgpt.conf b' := by
  have hc1 : Chatgpt.conf { a with visited := Chatgpt.key a :: a.visited } =
      Chatgpt.conf { b with visited := Chatgpt.key b :: b.visited } := by
    simpa [Chatgpt.conf] using hc
  unfold Chatgpt.advance at h ⊢
  simp only at h ⊢
  rw [← Chatgpt.resolve_conf hc1]
  cases hr : Chatgpt.resolve H W { a with visited := Chatgpt.key a :: a.visited } with
  | crash => simp [hr] at h
  | ok o =>
    cases o with
    | none => simp [hr] at h
    | some dn =>
      obtain ⟨d, next⟩ := dn
      simp only [hr, Chatgpt.land] at h ⊢
      cases ha : Chatgpt.applyTile tp tf (Chatgpt.enter W
          { a with visited := Chatgpt.key a :: a.visited } d next) with
      | none => simp [ha] at h
      | some x =>
        cases x with
        | crash => simp [ha] at h
        | ok a2 =>
          simp only [ha, Option.some.injEq, Iter.next.injEq] at h
          subst h
          obtain ⟨b', hb', hcb⟩ := Chatgpt.applyTile_conf tp tf _ _ a2
            (Chatgpt.enter_conf d next hc1) ha
          exact ⟨b', by simp [hb'], hcb⟩

theorem Chatgpt.body_stuck_chatgpt {tp : Chatgpt.Point → Chatgpt.Point} {tf H W : Nat}
    {s : Chatgpt.St} (h : Chatgpt.body tp tf H W s = some (.halt .stuck)) :
    Chatgpt.advance tp tf H W s = some (.halt .stuck) := by
  unfold Chatgpt.body at h
  cases hc : cellAt s.grid s.pos.r s.pos.c with
  | none => simp [hc] at h
  | some here =>
    simp only [hc] at h
    by_cases hgoal : here = '$'
    · simp [hgoal] at h
    by_cases hvis : Chatgpt.key s ∈ s.visited
    · simp [hgoal, hvis] at h
    simpa [hgoal, hvis] using h

theorem Chatgpt.enter_tracks {g0 : Grid} {H W : Nat} {s : Chatgpt.St}
    (ht : Chatgpt.Tracks g0 H W s) (d : Dir) (next : Chatgpt.Point)
    (hp : Passable s.grid H W s.breaker next.r next.c) :
    Chatgpt.Tracks g0 H W (Chatgpt.enter W s d next) := by
  obtain ⟨hrect, hcells⟩ := ht
  unfold Chatgpt.enter
  by_cases hx : cellAt s.grid next.r next.c = some 'X' ∧ s.breaker = true
  · simp only [hx, and_self, if_true]
    refine ⟨rect_setCell hrect _ _ _, ?_⟩
    intro r c hin
    simp only
    obtain ⟨hr0, hc0⟩ := cellAt_nonneg hx.1
    rw [cellAt_setCell s.grid next.r next.c ' ' hr0 hc0]
    simp only [List.mem_insert_iff]
    by_cases e : r = next.r ∧ c = next.c
    · obtain ⟨rfl, rfl⟩ := e
      simp [hx.1]
    · have hne : r * (W : Int) + c ≠ next.r * (W : Int) + next.c := by
        intro heq
        exact e (index_inj hin.2.2.1 hin.2.2.2 hp.1.2.2.1 hp.1.2.2.2 heq)
      simp only [e, if_false, hne, false_or]
      exact hcells r c hin
  · simp only [hx, if_false]
    exact ⟨hrect, hcells⟩

theorem Chatgpt.body_tracks {g0 : Grid} {tp : Chatgpt.Point → Chatgpt.Point} {tf H W : Nat}
    {s s' : Chatgpt.St} (ht : Chatgpt.Tracks g0 H W s)
    (h : Chatgpt.body tp tf H W s = some (.next s')) : Chatgpt.Tracks g0 H W s' := by
  obtain ⟨d, hp, ha⟩ := Chatgpt.advance_next_chatgpt (Chatgpt.body_next_chatgpt h).1
  obtain ⟨hg, _, _, hd⟩ := Chatgpt.applyTile_frame tp tf _ _ ha
  have ht0 : Chatgpt.Tracks g0 H W { s with visited := Chatgpt.key s :: s.visited } := ht
  have := Chatgpt.enter_tracks ht0 d ⟨(ahead s.pos.r s.pos.c d).1, (ahead s.pos.r s.pos.c d).2⟩ hp
  unfold Chatgpt.Tracks at this ⊢
  rw [hg, hd]
  exact this

/-- chatgpt: the visited test is sound. -/
theorem Chatgpt.cycle_sound_chatgpt {tf H W : Nat} {g : Grid} (hg : Rect g H W)
    (tp : Chatgpt.Point → Chatgpt.Point) (s0 : Chatgpt.St)
    (h0 : Chatgpt.applyTile tp tf (Chatgpt.initial g) = some (.ok s0)) (fuel : Nat) :
    (drive (Chatgpt.body tp tf H W) fuel s0 = some .cycle →
      ∃ i j si sj, i < j ∧
        iterate (Chatgpt.body tp tf H W) i s0 = some si ∧
        iterate (Chatgpt.body tp tf H W) j s0 = some sj ∧
        Chatgpt.body tp tf H W sj = some (.halt .cycle) ∧ Chatgpt.conf si = Chatgpt.conf sj) ∧
    (∀ o, drive (Chatgpt.body tp tf H W) fuel s0 = some o → o = .cycle ∨ o = .stuck →
      ∀ n s, iterate (Chatgpt.advance tp tf H W) n s0 = some s →
        cellAt s.grid s.pos.r s.pos.c ≠ some '$') := by
  obtain ⟨f1, _, f3, f4⟩ := Chatgpt.applyTile_frame tp tf _ _ h0
  have hI0 : Chatgpt.Tracks g H W s0 := by
    refine ⟨by rw [f1]; exact hg, ?_⟩
    intro r c _
    rw [f1, f4]
    simp [Chatgpt.initial]
  exact cycle_sound (Chatgpt.body tp tf H W) (Chatgpt.advance tp tf H W)
    (fun s => s.visited) Chatgpt.key Chatgpt.conf
    (fun c => cellAt c.2.2.2.2 c.1.r c.1.c = some '$') (Chatgpt.Tracks g H W)
    (by
      intro s s' h
      obtain ⟨h1, _, h3, _⟩ := Chatgpt.body_next_chatgpt h
      refine ⟨h1, h3, ?_⟩
      obtain ⟨d, _, ha⟩ := Chatgpt.advance_next_chatgpt h1
      obtain ⟨_, _, hv, _⟩ := Chatgpt.applyTile_frame tp tf _ _ ha
      show s'.visited = Chatgpt.key s :: s.visited
      rw [hv]
      unfold Chatgpt.enter
      simp only
      split_ifs <;> rfl)
    (by
      intro s h
      obtain ⟨_, h2, _⟩ := Chatgpt.body_halt_chatgpt h
      exact ⟨(h2 rfl).2, (h2 rfl).1⟩)
    (by
      intro s h
      obtain ⟨_, _, h3⟩ := Chatgpt.body_halt_chatgpt h
      refine ⟨(h3 rfl).1, ?_⟩
      intro s' hs'
      rw [Chatgpt.body_stuck_chatgpt h] at hs'
      simp at hs')
    (fun s s' hi h => Chatgpt.body_tracks hi h)
    (fun s1 s2 h1 h2 hk => Chatgpt.conf_of_key h1 h2 hk)
    (fun a b a' hc h => Chatgpt.advance_conf_chatgpt hc h)
    s0 (by show s0.visited = []; rw [f3]; rfl) hI0 fuel

/-- C6: in chatgpt and grok, on a rectangular grid, `LOOP` is printed at the
visited test (outcome `cycle`, at pass `j`) only when position, facing,
breaker, inverted and grid all equal those of an earlier pass `i` of the same
run; and whenever the run ends at the visited test or stuck, iterating the
solver's own rules from the initial configuration without the visited test
(and without the goal test, so for ever) never puts the robot on a `$` cell. -/
theorem visited_test_sound :
    (∀ (tf fuel H W : Nat) (g : Grid) (s0 : Chatgpt.St), Rect g H W →
      Chatgpt.applyTile (Chatgpt.telePair g) tf (Chatgpt.initial g) = some (.ok s0) →
      (Chatgpt.runSolver tf fuel H W g = some .cycle →
        ∃ i j si sj, i < j ∧
          iterate (Chatgpt.body (Chatgpt.telePair g) tf H W) i s0 = some si ∧
          iterate (Chatgpt.body (Chatgpt.telePair g) tf H W) j s0 = some sj ∧
          Chatgpt.body (Chatgpt.telePair g) tf H W sj = some (.halt .cycle) ∧
          Chatgpt.conf si = Chatgpt.conf sj) ∧
      (∀ o, Chatgpt.runSolver tf fuel H W g = some o → o = .cycle ∨ o = .stuck →
        ∀ n s, iterate (Chatgpt.advance (Chatgpt.telePair g) tf H W) n s0 = some s →
          cellAt s.grid s.pos.r s.pos.c ≠ some '$')) ∧
    (∀ (fuel H W : Nat) (g g1 : Grid) (sr sc : Int), Rect g H W →
      Grok.findStart (rowMajor H W) (g, 0, 0) = .ok (g1, sr, sc) →
      (Grok.main fuel H W g = some .cycle →
        ∃ i j vi vj, i < j ∧
          iterate (fun v => some (Grok.body H W v)) i (Grok.initial g1 sr sc) = some vi ∧
          iterate (fun v => some (Grok.body H W v)) j (Grok.initial g1 sr sc) = some vj ∧
          Grok.body H W vj = .halt .cycle ∧ Grok.conf vi = Grok.conf vj) ∧
      (∀ o, Grok.main fuel H W g = some o → o = .cycle ∨ o = .stuck →
        ∀ n v, iterate (fun v => some (Grok.advance H W v)) n (Grok.initial g1 sr sc) = some v →
          cellAt v.grid v.curR v.curC ≠ some '$')) := by
  constructor
  · intro tf fuel H W g s0 hg h0
    have hrun : Chatgpt.runSolver tf fuel H W g =
        drive (Chatgpt.body (Chatgpt.telePair g) tf H W) fuel s0 := by
      simp [Chatgpt.runSolver, h0]
    rw [hrun]
    exact Chatgpt.cycle_sound_chatgpt hg (Chatgpt.telePair g) s0 h0 fuel
  · intro fuel H W g g1 sr sc hg hf
    have hrun : Grok.main fuel H W g =
        drive (fun v => some (Grok.body H W v)) fuel (Grok.initial g1 sr sc) := by
      unfold Grok.main
      rw [hf]
    rw [hrun]
    exact Grok.cycle_sound_grok (Grok.findStart_rect _ _ _ _ _ _ _ hg hf) sr sc fuel

/-- Witness of C6 on test 6 of the harness, where both solvers end at the
visited test: the robot never reaches `$`, however long the rules are iterated. -/
theorem visited_test_sound_witness :
    (∀ n s, iterate (Chatgpt.advance (Chatgpt.telePair harnessTest6) 1 5 5) n
        (Chatgpt.initial harnessTest6) = some s → cellAt s.grid s.pos.r s.pos.c ≠ some '$') ∧
    (∀ n v, iterate (fun v => some (Grok.advance 5 5 v)) n
        (Grok.initial (setCell harnessTest6 3 2 ' ') 3 2) = some v →
      cellAt v.grid v.curR v.curC ≠ some '$') :=
  ⟨(visited_test_sound.1 1 20 5 5 harnessTest6 (Chatgpt.initial harnessTest6) (by decide)
      (by rfl)).2 .cycle (by decide) (Or.inl rfl),
   (visited_test_sound.2 20 5 5 harnessTest6 (setCell harnessTest6 3 2 ' ') 3 2 (by decide)
      (by decide)).2 .cycle (by decide) (Or.inl rfl)⟩

/-! ## Termination: a visited set inside a finite key space -/

theorem iterate_succ_right {σ : Type} (body : σ → Option (Iter σ)) (n : Nat) (s0 sn s' : σ)
    (h : iterate body n s0 = some sn) (hb : body sn = some (.next s')) :
    iterate body (n + 1) s0 = some s' := by
  rw [iterate_add, h, Option.some_bind]
  simp [iterate, hb]

theorem drive_progress {σ κ : Type} [DecidableEq κ] (body : σ → Option (Iter σ))
    (vis : σ → List κ) (key : σ → κ) (I : σ → Prop) (F : Finset κ)
    (hbody : ∀ s, I s → ∃ x, body s = some x)
    (hnext : ∀ s s', I s → body s = some (.next s') →
      I s' ∧ key s ∉ vis s ∧ vis s' = key s :: vis s ∧ key s ∈ F)
    (s0 : σ) (hI0 : I s0) (hv0 : vis s0 = []) :
    ∀ m : Nat,
      (∃ n sn o, n < m ∧ iterate body n s0 = some sn ∧ I sn ∧ body sn = some (.halt o) ∧
        (vis sn).length = n ∧ n ≤ F.card ∧ (vis sn).Nodup) ∨
      (∃ sm, iterate body m s0 = some sm ∧ I sm ∧ (vis sm).Nodup ∧ (∀ k ∈ vis sm, k ∈ F) ∧
        (vis sm).length = m) := by
  intro m
  induction m with
  | zero =>
    right
    exact ⟨s0, rfl, hI0, by rw [hv0]; exact List.nodup_nil, by rw [hv0]; simp, by rw [hv0]; rfl⟩
  | succ m ih =>
    rcases ih with ⟨n, sn, o, hn, h1, h2, h3, h4, h5, h6⟩ | ⟨sm, h1, h2, h3, h4, h5⟩
    · exact Or.inl ⟨n, sn, o, Nat.lt_succ_of_lt hn, h1, h2, h3, h4, h5, h6⟩
    · have hcard : m ≤ F.card := by
        rw [← h5, ← List.toFinset_card_of_nodup h3]
        apply Finset.card_le_card
        intro k hk
        exact h4 k (List.mem_toFinset.1 hk)
      obtain ⟨x, hx⟩ := hbody sm h2
      cases x with
      | halt o => exact Or.inl ⟨m, sm, o, Nat.lt_succ_self _, h1, h2, hx, h5, hcard, h3⟩
      | next s' =>
        obtain ⟨a, b, c, d⟩ := hnext sm s' h2 hx
        right
        refine ⟨s', iterate_succ_right body m s0 sm s' h1 hx, a, ?_, ?_, ?_⟩
        · rw [c]; exact List.nodup_cons.2 ⟨b, h3⟩
        · intro k hk
          rw [c] at hk
          rcases List.mem_cons.1 hk with rfl | hk'
          · exact d
          · exact h4 k hk'
        · rw [c, List.length_cons, h5]

/-- A loop that records a fresh key of a finite key space in every pass that
goes on halts after at most as many passes as there are keys. -/
theorem drive_terminates {σ κ : Type} [DecidableEq κ] (body : σ → Option (Iter σ))
    (vis : σ → List κ) (key : σ → κ) (I : σ → Prop) (F : Finset κ)
    (hbody : ∀ s, I s → ∃ x, body s = some x)
    (hnext : ∀ s s', I s → body s = some (.next s') →
      I s' ∧ key s ∉ vis s ∧ vis s' = key s :: vis s ∧ key s ∈ F)
    (s0 : σ) (hI0 : I s0) (hv0 : vis s0 = []) :
    ∃ n sn o, iterate body n s0 = some sn ∧ I sn ∧ body sn = some (.halt o) ∧
      (vis sn).length = n ∧ n ≤ F.card ∧ (vis sn).Nodup ∧
      ∀ fuel, F.card < fuel → drive body fuel s0 = some o := by
  rcases drive_progress body vis key I F hbody hnext s0 hI0 hv0 (F.card + 1) with
    ⟨n, sn, o, _, h1, h2, h3, h4, h5, h6⟩ | ⟨sm, _, _, h3, h4, h5⟩
  · exact ⟨n, sn, o, h1, h2, h3, h4, h5, h6,
      fun fuel hf => drive_of_iterate body n s0 sn o h1 h3 fuel (by omega)⟩
  · exfalso
    have hcard : F.card + 1 ≤ F.card := by
      rw [← h5, ← List.toFinset_card_of_nodup h3]
      apply Finset.card_le_card
      intro k hk
      exact h4 k (List.mem_toFinset.1 hk)
    omega

/-! ### claude: termination -/

theorem card_dir : Fintype.card Dir = 4 := by decide

theorem Claude.keySpace_card_claude (H W : Nat) : (Claude.keySpace H W).card ≤ H * W * 4 * 2 * 2 := by
  unfold Claude.keySpace
  refine le_trans Finset.card_image_le ?_
  simp only [Finset.card_product, Finset.card_range, Finset.card_univ, card_dir,
    Fintype.card_bool]
  apply le_of_eq
  ring

theorem Claude.mem_keySpace_claude {H W : Nat} {st : Claude.State}
    (h : InGrid H W st.pos.row st.pos.col) : st ∈ Claude.keySpace H W := by
  obtain ⟨h1, h2, h3, h4⟩ := h
  unfold Claude.keySpace
  rw [Finset.mem_image]
  refine ⟨(st.pos.row.toNat, st.pos.col.toNat, st.direction, st.inverted, st.breaker), ?_, ?_⟩
  · simp only [Finset.mem_product, Finset.mem_range, Finset.mem_univ, and_true]
    omega
  · obtain ⟨⟨r, c⟩, d, i, b⟩ := st
    simp only at h1 h2 h3 h4
    simp [Int.toNat_of_nonneg h1, Int.toNat_of_nonneg h3]

theorem Claude.special_sound {H W : Nat} {r : Claude.Robot} (hs : Claude.Sound H W r)
    (cell : Char) : Claude.Sound H W (Claude.special r cell) := by
  obtain ⟨h1, h2, h3, h4, h5⟩ := hs
  obtain ⟨f1, f2, f3, _, f5, _, _⟩ := Claude.special_frame r cell
  refine ⟨by rw [f1]; exact h1, by rw [f2]; exact h2, by rw [f3]; exact h3, ?_,
    by rw [f5]; exact h5⟩
  unfold Claude.special
  split_ifs with c1 c2 c3 c4 c5 c6 c7
  all_goals first
    | exact h4
    | skip
  cases hf : (r.teleporters cell).find? (fun tp => decide (tp ≠ r.state.pos)) with
  | none => exact h4
  | some tp => exact h5 cell c7 tp (List.mem_of_find?_eq_some hf)

theorem Claude.canMoveTo_total {H W : Nat} {r : Claude.Robot} (hg : Rect r.grid H W)
    (hh : r.height = H) (hw : r.width = W) (p : Claude.Position) :
    Claude.canMoveTo r p ≠ .crash := by
  rw [Claude.canMoveTo_eq, hh, hw]
  intro h
  rcases Chatgpt.canGo_total hg r.state.breaker ⟨p.row, p.col⟩ with ⟨h1, _⟩ | ⟨h1, _⟩ <;>
    (rw [h] at h1; cases h1)

theorem Claude.tryPriorities_total {H W : Nat} {r : Claude.Robot} (hg : Rect r.grid H W)
    (hh : r.height = H) (hw : r.width = W) :
    ∀ l, Claude.tryPriorities r l ≠ .crash := by
  intro l
  induction l with
  | nil => simp [Claude.tryPriorities]
  | cons d l ih =>
    simp only [Claude.tryPriorities]
    cases hc : Claude.canMoveTo r (Claude.getNextPosition r d) with
    | crash => exact absurd hc (Claude.canMoveTo_total hg hh hw _)
    | ok t => cases t <;> simp [ih]

theorem Claude.body_no_crash_claude {H W : Nat} {r : Claude.Robot} (hs : Claude.Sound H W r) :
    Claude.findPathBody r ≠ .halt .crash := by
  intro h
  unfold Claude.findPathBody at h
  by_cases hgoal : r.state.pos = r.destPos
  · simp [hgoal] at h
  by_cases hvis : Claude.getStateKey r ∈ r.visited
  · simp [hgoal, hvis] at h
  simp only [hgoal, hvis, if_false, Claude.advance] at h
  obtain ⟨ch, hc⟩ := cellAt_of_rect hs.1 hs.2.2.2.1
  simp only [hc] at h
  have hs1 : Claude.Sound H W { r with visited := Claude.getStateKey r :: r.visited } := hs
  have hs2 := Claude.special_sound hs1 ch
  generalize Claude.special { r with visited := Claude.getStateKey r :: r.visited } ch = r2
    at h hs2
  unfold Claude.moveStep at h
  cases hf : Claude.canMoveTo r2 (Claude.getNextPosition r2 r2.state.direction) with
  | crash => exact Claude.canMoveTo_total hs2.1 hs2.2.1 hs2.2.2.1 _ hf
  | ok t =>
    cases t with
    | true => simp [hf] at h
    | false =>
      simp only [hf] at h
      cases ht : Claude.tryPriorities r2 (Claude.getPriorityDirections r2) with
      | crash => exact Claude.tryPriorities_total hs2.1 hs2.2.1 hs2.2.2.1 _ ht
      | ok x => cases x <;> simp [ht] at h

theorem Claude.body_sound_claude {H W : Nat} {r r' : Claude.Robot} (hs : Claude.Sound H W r)
    (h : Claude.findPathBody r = .next r') :
    Claude.Sound H W r' ∧ Claude.getStateKey r ∉ r.visited ∧
      r'.visited = Claude.getStateKey r :: r.visited ∧
      Claude.getStateKey r ∈ Claude.keySpace H W := by
  obtain ⟨hadv, hvis, _⟩ := Claude.findPathBody_next h
  obtain ⟨cell, hc, hm⟩ := Claude.advance_next_claude hadv
  have hs1 : Claude.Sound H W { r with visited := Claude.getStateKey r :: r.visited } := hs
  have hs2 := Claude.special_sound hs1 cell
  obtain ⟨f1, f2, f3, f4, f5, f6, f7⟩ :=
    Claude.special_frame { r with visited := Claude.getStateKey r :: r.visited } cell
  generalize Claude.special { r with visited := Claude.getStateKey r :: r.visited } cell = r2
    at hm hs2 f1 f2 f3 f4 f5 f6 f7
  obtain ⟨d, hr', hp⟩ := Claude.moveStep_next_claude hm
  have hw := Claude.moveTo_grid_claude r2 ⟨(ahead r2.state.pos.row r2.state.pos.col d).1,
    (ahead r2.state.pos.row r2.state.pos.col d).2⟩ d hp
  rw [hs2.2.1, hs2.2.2.1] at hw hp
  refine ⟨?_, hvis, ?_, Claude.mem_keySpace_claude hs.2.2.2.1⟩
  · rw [hr']
    refine ⟨wallStep_rect hw hs2.1, ?_, ?_, ?_, ?_⟩
    · simp [Claude.moveTo, hs2.2.1]
    · simp [Claude.moveTo, hs2.2.2.1]
    · simpa [Claude.moveTo] using hp.1
    · simpa [Claude.moveTo] using hs2.2.2.2.2
  · rw [hr']
    simp [Claude.moveTo, f6]

theorem Claude.newRobotScan_ok (g : Grid) :
    ∀ (l : List (Nat × Nat)) (rb : Claude.Robot),
      (∀ q ∈ l, (cellAt g (q.1 : Int) (q.2 : Int)).isSome = true) →
      ∃ rb', Claude.newRobotScan g l rb = .ok rb' := by
  intro l
  induction l with
  | nil => intro rb _; exact ⟨rb, rfl⟩
  | cons q l ih =>
    intro rb hl
    obtain ⟨i, j⟩ := q
    have hq := hl (i, j) (List.mem_cons_self _ _)
    simp only at hq
    cases hc : cellAt g (i : Int) (j : Int) with
    | none => simp [hc] at hq
    | some cell =>
      simp only [Claude.newRobotScan, hc]
      exact ih _ (fun q hq => hl q (List.mem_cons_of_mem _ hq))

theorem Claude.newRobotScan_pos (g : Grid) :
    ∀ (l : List (Nat × Nat)) (rb rb' : Claude.Robot), Claude.newRobotScan g l rb = .ok rb' →
      rb'.state.pos = rb.state.pos ∨ ∃ q ∈ l, rb'.state.pos = ⟨(q.1 : Int), (q.2 : Int)⟩ := by
  intro l
  induction l with
  | nil =>
    intro rb rb' h
    simp only [Claude.newRobotScan, Res.ok.injEq] at h
    subst h
    exact Or.inl rfl
  | cons p l ih =>
    intro rb rb' h
    obtain ⟨i, j⟩ := p
    simp only [Claude.newRobotScan] at h
    cases hc : cellAt g i j with
    | none => simp [hc] at h
    | some cell =>
      simp only [hc] at h
      rcases ih _ _ h with h1 | ⟨q, hq, h1⟩
      · by_cases hat : cell = '@'
        · right
          refine ⟨(i, j), List.mem_cons_self _ _, ?_⟩
          rw [h1]
          simp [Claude.newRobotVisit, hat]
        · left
          rw [h1]
          unfold Claude.newRobotVisit
          split_ifs <;> rfl
      · exact Or.inr ⟨q, List.mem_cons_of_mem _ hq, h1⟩

theorem rowMajor_degenerate {H W : Nat} (h : H = 0 ∨ W = 0) : rowMajor H W = [] := by
  apply List.eq_nil_iff_forall_not_mem.2
  intro q hq
  obtain ⟨h1, h2⟩ := mem_rowMajor.1 hq
  omega

theorem configBound_ge (H W K : Nat) : H * W * 4 * 2 * 2 ≤ configBound H W K := by
  unfold configBound
  exact Nat.le_mul_of_pos_right _ (Nat.pos_pow_of_pos K (by decide))

/-- claude: on a rectangular grid `findPath` halts, not by a panic, after at
most `H·W·4·2·2` passes, each of which records a key not recorded before. -/
theorem Claude.terminates_claude {H W : Nat} {g : Grid} (hg : Rect g H W) :
    ∃ rb0 n r o, Claude.NewRobot g H W = .ok rb0 ∧
      iterate (fun r => some (Claude.findPathBody r)) n rb0 = some r ∧
      Claude.findPathBody r = .halt o ∧ o ≠ .crash ∧
      r.visited.length = n ∧ r.visited.Nodup ∧ n ≤ configBound H W (xCount g H W) ∧
      ∀ fuel, configBound H W (xCount g H W) < fuel → Claude.main fuel H W g = some o := by
  obtain ⟨rb0, hnew⟩ := Claude.newRobotScan_ok g (rowMajor H W)
    { grid := g, height := H, width := W, startPos := ⟨0, 0⟩, destPos := ⟨0, 0⟩,
      teleporters := fun _ => [], state := ⟨⟨0, 0⟩, .SOUTH, false, false⟩, visited := [],
      path := [] } (rect_readable hg)
  have hnew' : Claude.NewRobot g H W = .ok rb0 := hnew
  obtain ⟨f1, f2, f3, f4, f5, _, _⟩ := Claude.newRobotScan_frame g _ _ _ hnew
  simp only at f1 f2 f3 f4 f5
  by_cases hdeg : H = 0 ∨ W = 0
  · have hl := rowMajor_degenerate hdeg
    rw [hl] at hnew
    simp only [Claude.newRobotScan, Res.ok.injEq] at hnew
    refine ⟨rb0, 0, rb0, .success [], hnew', rfl, ?_, by simp, ?_, ?_, Nat.zero_le _, ?_⟩
    · rw [← hnew]; simp [Claude.findPathBody]
    · rw [f4]; rfl
    · rw [f4]; exact List.nodup_nil
    · intro fuel hf
      obtain ⟨k, rfl⟩ : ∃ k, fuel = k + 1 := ⟨fuel - 1, by omega⟩
      simp only [Claude.main, hnew', Claude.findPath, drive]
      rw [← hnew]
      simp [Claude.findPathBody]
  · have hH : 0 < H := by omega
    have hW : 0 < W := by omega
    have hsound : Claude.Sound H W rb0 := by
      refine ⟨by rw [f1]; exact hg, f2, f3, ?_, ?_⟩
      · rcases Claude.newRobotScan_pos g _ _ _ hnew with h | ⟨q, hq, h⟩
        · rw [h]
          exact ⟨by simp, by simpa using hH, by simp, by simpa using hW⟩
        · rw [h]
          obtain ⟨h1, h2⟩ := mem_rowMajor.1 hq
          exact ⟨by simp, by simpa using h1, by simp, by simpa using h2⟩
      · intro ch hch tp htp
        rw [Claude.newRobotScan_tele g _ _ _ hnew ch hch] at htp
        simp only [List.nil_append, List.mem_map, List.mem_filter] at htp
        obtain ⟨q, ⟨hq, _⟩, rfl⟩ := htp
        obtain ⟨h1, h2⟩ := mem_rowMajor.1 hq
        exact ⟨by simp, by simpa using h1, by simp, by simpa using h2⟩
    obtain ⟨n, r, o, h1, h2, h3, h4, h5, h6, h7⟩ :=
      drive_terminates (fun r => some (Claude.findPathBody r)) (fun r => r.visited)
        Claude.getStateKey (Claude.Sound H W) (Claude.keySpace H W)
        (fun s _ => ⟨_, rfl⟩)
        (by
          intro s s' hs h
          simp only [Option.some.injEq] at h
          exact Claude.body_sound_claude hs h)
        rb0 hsound f4
    simp only [Option.some.injEq] at h3
    have hb : (Claude.keySpace H W).card ≤ configBound H W (xCount g H W) :=
      le_trans (Claude.keySpace_card_claude H W) (configBound_ge H W _)
    refine ⟨rb0, n, r, o, hnew', h1, h3, ?_, h4, h6, le_trans h5 hb, ?_⟩
    · rintro rfl
      exact Claude.body_no_crash_claude h2 h3
    · intro fuel hf
      simp only [Claude.main, hnew', Claude.findPath]
      exact h7 fuel (by omega)

/-! ### grok: termination -/

theorem xCount_eq (g : Grid) (H W : Nat) : xCount g H W = (xCells g H W).card := rfl

theorem cellAt_blankSet (g : Grid) (S : Finset (Nat × Nat)) (i j : Nat) :
    cellAt (blankSet g S) (i : Int) (j : Int) =
      (cellAt g (i : Int) (j : Int)).map (fun ch => if (i, j) ∈ S then ' ' else ch) := by
  rw [cellAt_nat, cellAt_nat]
  unfold blankSet
  rw [List.getElem?_mapIdx]
  cases g[i]? with
  | none => rfl
  | some row =>
    simp only [Option.map_some', Option.some_bind]
    rw [List.getElem?_mapIdx]

theorem rect_blankSet {g : Grid} {H W : Nat} (hg : Rect g H W) (S : Finset (Nat × Nat)) :
    Rect (blankSet g S) H W := by
  obtain ⟨hlen, hrow⟩ := hg
  unfold blankSet
  refine ⟨by rw [List.length_mapIdx]; exact hlen, ?_⟩
  intro row hmem
  obtain ⟨n, hn⟩ := List.mem_iff_getElem?.1 hmem
  rw [List.getElem?_mapIdx] at hn
  cases hq : g[n]? with
  | none => simp [hq] at hn
  | some row0 =>
    simp only [hq, Option.map_some', Option.some.injEq] at hn
    rw [← hn, List.length_mapIdx]
    exact hrow row0 (List.mem_iff_getElem?.2 ⟨n, hq⟩)

theorem cellAt_int_nat (g : Grid) {r c : Int} (hr : 0 ≤ r) (hc : 0 ≤ c) :
    cellAt g r c = cellAt g (r.toNat : Int) (c.toNat : Int) := by
  rw [Int.toNat_of_nonneg hr, Int.toNat_of_nonneg hc]

theorem blankSet_empty {g : Grid} {H W : Nat} (hg : Rect g H W) : blankSet g ∅ = g := by
  apply grid_ext _ _ (rect_blankSet hg ∅) hg
  intro r c hin
  rw [cellAt_int_nat _ hin.1 hin.2.2.1, cellAt_blankSet, ← cellAt_int_nat _ hin.1 hin.2.2.1]
  cases cellAt g r c <;> simp

theorem setCell_blankSet {g : Grid} {H W : Nat} (hg : Rect g H W) (S : Finset (Nat × Nat))
    {r c : Int} (hin : InGrid H W r c) :
    setCell (blankSet g S) r c ' ' = blankSet g (insert (r.toNat, c.toNat) S) := by
  apply grid_ext _ _ (rect_setCell (rect_blankSet hg S) _ _ _) (rect_blankSet hg _)
  intro r' c' hin'
  rw [cellAt_setCell _ r c ' ' hin.1 hin.2.2.1]
  rw [cellAt_int_nat (blankSet g (insert (r.toNat, c.toNat) S)) hin'.1 hin'.2.2.1,
    cellAt_blankSet]
  obtain ⟨ch, hch⟩ := cellAt_of_rect hg hin'
  rw [← cellAt_int_nat g hin'.1 hin'.2.2.1, hch]
  by_cases e : r' = r ∧ c' = c
  · obtain ⟨rfl, rfl⟩ := e
    obtain ⟨ch2, hch2⟩ := cellAt_of_rect (rect_blankSet hg S) hin'
    simp [hch2]
  · have hne : (r'.toNat, c'.toNat) ≠ (r.toNat, c.toNat) := by
      intro h
      simp only [Prod.mk.injEq] at h
      apply e
      have h1 := hin.1
      have h2 := hin.2.2.1
      have h3 := hin'.1
      have h4 := hin'.2.2.1
      omega
    simp only [e, if_false, Finset.mem_insert, hne, false_or, Option.map_some']
    rw [cellAt_int_nat (blankSet g S) hin'.1 hin'.2.2.1, cellAt_blankSet,
      ← cellAt_int_nat g hin'.1 hin'.2.2.1, hch]
    rfl

theorem blankSet_wall {g : Grid} {H W : Nat} (S : Finset (Nat × Nat)) {r c : Int}
    (hin : InGrid H W r c) (hx : cellAt (blankSet g S) r c = some 'X') :
    (r.toNat, c.toNat) ∈ xCells g H W := by
  rw [cellAt_int_nat _ hin.1 hin.2.2.1, cellAt_blankSet] at hx
  unfold xCells
  simp only [Finset.mem_filter, Finset.mem_product, Finset.mem_range]
  have h1 := hin.1
  have h2 := hin.2.1
  have h3 := hin.2.2.1
  have h4 := hin.2.2.2
  refine ⟨⟨by omega, by omega⟩, ?_⟩
  cases hc : cellAt g (r.toNat : Int) (c.toNat : Int) with
  | none =>
    rw [hc] at hx
    exact absurd hx (by simp)
  | some ch =>
    rw [hc] at hx
    simp only [Option.map_some', Option.some.injEq] at hx
    by_cases hm : (r.toNat, c.toNat) ∈ S
    · rw [if_pos hm] at hx
      exact absurd hx (by decide)
    · rw [if_neg hm] at hx
      rw [hx]

theorem Grok.keySpace_card_grok (g1 : Grid) (H W : Nat) :
    (Grok.keySpace g1 H W).card ≤ configBound H W (xCount g1 H W) := by
  unfold Grok.keySpace configBound
  refine le_trans Finset.card_image_le ?_
  simp only [Finset.card_product, Finset.card_range, Finset.card_univ, card_dir,
    Fintype.card_bool, Finset.card_powerset, xCount_eq]
  apply le_of_eq
  ring

theorem Grok.mem_keySpace_grok {g1 : Grid} {H W : Nat} {v : Grok.Vars}
    (hs : Grok.Sound g1 H W v) : Grok.stateOf v ∈ Grok.keySpace g1 H W := by
  obtain ⟨_, ⟨h1, h2, h3, h4⟩, S, hS, hg⟩ := hs
  unfold Grok.keySpace
  rw [Finset.mem_image]
  refine ⟨(v.curR.toNat, v.curC.toNat, v.curDir, v.curInv, v.curBreaker, S), ?_, ?_⟩
  · simp only [Finset.mem_product, Finset.mem_range, Finset.mem_univ, Finset.mem_powerset,
      true_and]
    exact ⟨by omega, by omega, hS⟩
  · simp [Grok.stateOf, Int.toNat_of_nonneg h1, Int.toNat_of_nonneg h3, hg]

theorem Grok.blockedAt_total {g : Grid} {H W : Nat} (hg : Rect g H W) (b : Bool) (r c : Int) :
    Grok.blockedAt g H W b r c ≠ .crash := by
  rw [Grok.blockedAt_eq]
  rcases Chatgpt.canGo_total hg b ⟨r, c⟩ with ⟨h1, _⟩ | ⟨h1, _⟩ <;> simp [h1]

theorem Grok.turn_total {g : Grid} {H W : Nat} (hg : Rect g H W) (b : Bool) (r c : Int) :
    ∀ l, Grok.turn g H W b r c l ≠ .crash := by
  intro l
  induction l with
  | nil => simp [Grok.turn]
  | cons d l ih =>
    simp only [Grok.turn]
    cases hc : Grok.blockedAt g H W b (r + (Grok.deltas d).1) (c + (Grok.deltas d).2) with
    | crash => exact absurd hc (Grok.blockedAt_total hg b _ _)
    | ok t => cases t <;> simp [ih]

/-- grok: on a rectangular grid the effect of the cell the robot stands on is
applied without a panic and leaves the robot inside the grid. -/
theorem Grok.applyEffect_sound {H W : Nat} {v : Grok.Vars} (hg : Rect v.grid H W)
    (hin : InGrid H W v.curR v.curC) :
    ∃ v', Grok.applyEffect H W v = .ok v' ∧ InGrid H W v'.curR v'.curC := by
  obtain ⟨ch, hc⟩ := cellAt_of_rect hg hin
  by_cases hd : isTeleDigit ch = true
  · obtain ⟨dr, dc, ht, he⟩ := Grok.applyEffect_digit hg hc hd
    refine ⟨_, he, ?_⟩
    rcases ht with ⟨r, c, hr, hc', e1, e2, _⟩ | ⟨e1, e2, _⟩
    · simp only [e1, e2]
      exact ⟨by omega, by omega, by omega, by omega⟩
    · simp only [e1, e2]
      exact hin
  · have hd' : isTeleDigit ch = false := by simpa using hd
    unfold Grok.applyEffect
    simp only [hc, hd', Bool.false_eq_true, if_false]
    cases Grok.charToDir ch with
    | some dIr => exact ⟨_, rfl, hin⟩
    | none =>
      simp only
      split_ifs <;> exact ⟨_, rfl, hin⟩

theorem Grok.body_no_crash_grok {g1 : Grid} {H W : Nat} {v : Grok.Vars}
    (hs : Grok.Sound g1 H W v) : Grok.body H W v ≠ .halt .crash := by
  obtain ⟨hg, hin, _⟩ := hs
  intro h
  unfold Grok.body at h
  obtain ⟨ch, hc⟩ := cellAt_of_rect hg hin
  simp only [hc] at h
  by_cases hgoal : ch = '$'
  · simp [hgoal] at h
  by_cases hvis : Grok.stateOf v ∈ v.visited
  · simp [hgoal, hvis] at h
  simp only [hgoal, hvis, if_false, Grok.advance, Grok.moveStep] at h
  cases hb : Grok.blockedAt v.grid H W v.curBreaker (v.curR + (Grok.deltas v.curDir).1)
      (v.curC + (Grok.deltas v.curDir).2) with
  | crash => exact Grok.blockedAt_total hg _ _ _ hb
  | ok t =>
    cases t with
    | true =>
      simp only [hb] at h
      cases ht : Grok.turn v.grid H W v.curBreaker v.curR v.curC
          (if v.curInv = true then Grok.prioInv else Grok.prioNormal) with
      | crash => exact Grok.turn_total hg _ _ _ _ ht
      | ok x => cases x <;> simp [ht] at h
    | false =>
      simp only [hb, Grok.land] at h
      have hp := Grok.blockedAt_false hb
      have hw := Grok.moveTo_grid_grok { v with visited := Grok.stateOf v :: v.visited } H W _ _ hp
      obtain ⟨v', hv', _⟩ := Grok.applyEffect_sound
        (v := Grok.moveTo { v with visited := Grok.stateOf v :: v.visited }
          (v.curR + (Grok.deltas v.curDir).1) (v.curC + (Grok.deltas v.curDir).2))
        (wallStep_rect hw hg) (by simpa [Grok.moveTo] using hp.1)
      simp [hv'] at h

theorem Grok.body_sound_grok {g1 : Grid} {H W : Nat} {v v' : Grok.Vars} (hg1 : Rect g1 H W)
    (hs : Grok.Sound g1 H W v) (h : Grok.body H W v = .next v') :
    Grok.Sound g1 H W v' ∧ Grok.stateOf v ∉ v.visited ∧
      v'.visited = Grok.stateOf v :: v.visited ∧ Grok.stateOf v ∈ Grok.keySpace g1 H W := by
  obtain ⟨hadv, hvis, _, _⟩ := Grok.body_next_grok h
  refine ⟨?_, hvis, (Grok.advance_grid_grok hadv).1, Grok.mem_keySpace_grok hs⟩
  obtain ⟨hg, hin, S, hS, hgS⟩ := hs
  unfold Grok.advance at hadv
  rcases Grok.moveStep_next_grok hadv with ⟨_, nDir, _, hv⟩ | ⟨ho, ha⟩
  · subst hv
    exact ⟨hg, hin, S, hS, hgS⟩
  · simp only at ho ha
    have hw := Grok.moveTo_grid_grok { v with visited := Grok.stateOf v :: v.visited } H W _ _ ho
    obtain ⟨v2, hv2, hin2⟩ := Grok.applyEffect_sound
      (v := Grok.moveTo { v with visited := Grok.stateOf v :: v.visited }
        (ahead v.curR v.curC v.curDir).1 (ahead v.curR v.curC v.curDir).2)
      (wallStep_rect hw hg) (by simpa [Grok.moveTo] using ho.1)
    rw [ha] at hv2
    simp only [Res.ok.injEq] at hv2
    subst hv2
    obtain ⟨f1, _, _⟩ := Grok.applyEffect_frame ha
    refine ⟨by rw [f1]; exact wallStep_rect hw hg, hin2, ?_⟩
    rw [f1]
    rcases hw with hw | ⟨_, hin3, hx, hw⟩
    · exact ⟨S, hS, by rw [hw]; exact hgS⟩
    · refine ⟨insert ((ahead v.curR v.curC v.curDir).1.toNat,
        (ahead v.curR v.curC v.curDir).2.toNat) S, ?_, ?_⟩
      · intro p hp
        rcases Finset.mem_insert.1 hp with rfl | hp'
        · simp only at hx
          rw [hgS] at hx
          exact blankSet_wall S hin3 hx
        · exact hS hp'
      · rw [hw]
        simp only
        rw [hgS]
        exact setCell_blankSet hg1 S hin3

theorem cellAt_setCell_wall (g : Grid) {r c : Int} (hat : cellAt g r c = some '@')
    (r' c' : Int) : cellAt (setCell g r c ' ') r' c' = some 'X' ↔ cellAt g r' c' = some 'X' := by
  obtain ⟨hr, hc⟩ := cellAt_nonneg hat
  rw [cellAt_setCell g r c ' ' hr hc]
  by_cases e : r' = r ∧ c' = c
  · obtain ⟨rfl, rfl⟩ := e
    simp [hat]
  · simp [e]

theorem Grok.findStart_sound {H W : Nat} :
    ∀ (l : List (Nat × Nat)) (g : Grid) (sr sc : Int), Rect g H W → InGrid H W sr sc →
      (∀ q ∈ l, q.1 < H ∧ q.2 < W) →
      ∃ g1 sr1 sc1, Grok.findStart l (g, sr, sc) = .ok (g1, sr1, sc1) ∧ Rect g1 H W ∧
        InGrid H W sr1 sc1 ∧ xCells g1 H W = xCells g H W := by
  intro l
  induction l with
  | nil =>
    intro g sr sc hg hin _
    exact ⟨g, sr, sc, rfl, hg, hin, rfl⟩
  | cons q l ih =>
    intro g sr sc hg hin hl
    obtain ⟨r, c⟩ := q
    obtain ⟨hr, hc⟩ := hl (r, c) (List.mem_cons_self _ _)
    simp only at hr hc
    have hinq : InGrid H W (r : Int) (c : Int) := ⟨by omega, by omega, by omega, by omega⟩
    obtain ⟨ch, hch⟩ := cellAt_of_rect hg hinq
    simp only [Grok.findStart, hch]
    by_cases hat : ch = '@'
    · simp only [hat, if_true]
      obtain ⟨g1, sr1, sc1, h1, h2, h3, h4⟩ := ih (setCell g r c ' ') r c
        (rect_setCell hg _ _ _) hinq (fun q hq => hl q (List.mem_cons_of_mem _ hq))
      refine ⟨g1, sr1, sc1, h1, h2, h3, ?_⟩
      rw [h4]
      unfold xCells
      apply Finset.filter_congr
      intro p _
      exact cellAt_setCell_wall g (by rw [hch, hat]) _ _
    · simp only [hat, if_false]
      exact ih g sr sc hg hin (fun q hq => hl q (List.mem_cons_of_mem _ hq))

/-- grok: on a rectangular grid with at least one row and one column the
simulation loop halts, not by a panic, after at most `H·W·4·2·2·2^K` passes,
each of which records a key not recorded before. -/
theorem Grok.terminates_grok {H W : Nat} {g : Grid} (hg : Rect g H W) (hH : 0 < H) (hW : 0 < W) :
    ∃ g1 sr sc n v o, Grok.findStart (rowMajor H W) (g, 0, 0) = .ok (g1, sr, sc) ∧
      iterate (fun v => some (Grok.body H W v)) n (Grok.initial g1 sr sc) = some v ∧
      Grok.body H W v = .halt o ∧ o ≠ .crash ∧
      v.visited.length = n ∧ v.visited.Nodup ∧ n ≤ configBound H W (xCount g H W) ∧
      ∀ fuel, configBound H W (xCount g H W) < fuel → Grok.main fuel H W g = some o := by
  obtain ⟨g1, sr, sc, hf, hg1, hin, hx⟩ := Grok.findStart_sound (rowMajor H W) g 0 0 hg
    ⟨by simp, by simpa using hH, by simp, by simpa using hW⟩ (fun q hq => mem_rowMajor.1 hq)
  have hsound : Grok.Sound g1 H W (Grok.initial g1 sr sc) :=
    ⟨hg1, hin, ∅, Finset.empty_subset _, (blankSet_empty hg1).symm⟩
  obtain ⟨n, v, o, h1, h2, h3, h4, h5, h6, h7⟩ :=
    drive_terminates (fun v => some (Grok.body H W v)) (fun v => v.visited)
      Grok.stateOf (Grok.Sound g1 H W) (Grok.keySpace g1 H W)
      (fun s _ => ⟨_, rfl⟩)
      (by
        intro s s' hs h
        simp only [Option.some.injEq] at h
        exact Grok.body_sound_grok hg1 hs h)
      (Grok.initial g1 sr sc) hsound rfl
  simp only [Option.some.injEq] at h3
  have hK : xCount g1 H W = xCount g H W := by rw [xCount_eq, xCount_eq, hx]
  have hb : (Grok.keySpace g1 H W).card ≤ configBound H W (xCount g H W) := by
    rw [← hK]; exact Grok.keySpace_card_grok g1 H W
  refine ⟨g1, sr, sc, n, v, o, hf, h1, h3, ?_, h4, h6, le_trans h5 hb, ?_⟩
  · rintro rfl
    exact Grok.body_no_crash_grok h2 h3
  · intro fuel hfu
    unfold Grok.main
    rw [hf]
    exact h7 fuel (by omega)

theorem drive_fuel_mono {σ : Type} (body : σ → Option (Iter σ)) :
    ∀ (fuel : Nat) (s : σ) (o : Outcome), drive body fuel s = some o →
      ∀ k, drive body (fuel + k) s = some o := by
  intro fuel
  induction fuel with
  | zero => intro s o h; simp [drive] at h
  | succ n ih =>
    intro s o h k
    rw [Nat.add_right_comm]
    simp only [drive] at h ⊢
    cases hb : body s with
    | none => simp [hb] at h
    | some x =>
      cases x with
      | halt o' => simpa [hb] using h
      | next s1 =>
        simp only [hb] at h ⊢
        exact ih s1 o h k

theorem Chatgpt.body_mono_any (tp : Chatgpt.Point → Chatgpt.Point) (n k H W : Nat)
    (s : Chatgpt.St) (x : Iter Chatgpt.St) (h : Chatgpt.body tp n H W s = some x) :
    Chatgpt.body tp (n + k) H W s = some x := by
  unfold Chatgpt.body at h ⊢
  cases hc : cellAt s.grid s.pos.r s.pos.c with
  | none => simpa [hc] using h
  | some here =>
    simp only [hc] at h ⊢
    by_cases hgoal : here = '$'
    · simpa [hgoal] using h
    by_cases hvis : Chatgpt.key s ∈ s.visited
    · simpa [hgoal, hvis] using h
    simp only [hgoal, hvis, if_false] at h ⊢
    unfold Chatgpt.advance at h ⊢
    simp only at h ⊢
    cases hr : Chatgpt.resolve H W { s with visited := Chatgpt.key s :: s.visited } with
    | crash => simpa [hr] using h
    | ok o =>
      cases o with
      | none => simpa [hr] using h
      | some dn =>
        obtain ⟨d, next⟩ := dn
        simp only [hr] at h ⊢
        unfold Chatgpt.land at h ⊢
        cases ha : Chatgpt.applyTile tp n
            (Chatgpt.enter W { s with visited := Chatgpt.key s :: s.visited } d next) with
        | none => simp [ha] at h
        | some y =>
          rw [Chatgpt.applyTile_mono_add tp _ y n ha k]
          simpa [ha] using h

theorem Chatgpt.drive_mono (tp : Chatgpt.Point → Chatgpt.Point) (n k H W : Nat) :
    ∀ (fuel : Nat) (s : Chatgpt.St) (o : Outcome),
      drive (Chatgpt.body tp n H W) fuel s = some o →
      ∀ j, drive (Chatgpt.body tp (n + k) H W) (fuel + j) s = some o := by
  intro fuel
  induction fuel with
  | zero => intro s o h; simp [drive] at h
  | succ m ih =>
    intro s o h j
    rw [Nat.add_right_comm]
    simp only [drive] at h ⊢
    cases hb : Chatgpt.body tp n H W s with
    | none => simp [hb] at h
    | some x =>
      rw [Chatgpt.body_mono_any tp n k H W s x hb]
      cases x with
      | halt o' => simpa [hb] using h
      | next s1 =>
        simp only [hb] at h ⊢
        exact ih s1 o h j

theorem Chatgpt.runSolver_mono {tf fuel H W : Nat} {g : Grid} {o : Outcome}
    (h : Chatgpt.runSolver tf fuel H W g = some o) (k j : Nat) :
    Chatgpt.runSolver (tf + k) (fuel + j) H W g = some o := by
  unfold Chatgpt.runSolver at h ⊢
  cases ha : Chatgpt.applyTile (Chatgpt.telePair g) tf (Chatgpt.initial g) with
  | none => simp [ha] at h
  | some x =>
    rw [Chatgpt.applyTile_mono_add _ _ x tf ha k]
    cases x with
    | crash => simpa [ha] using h
    | ok s =>
      simp only [ha] at h ⊢
      exact Chatgpt.drive_mono _ tf k H W fuel s o h j

theorem Claude.main_mono_claude {fuel H W : Nat} {g : Grid} {o : Outcome}
    (h : Claude.main fuel H W g = some o) (j : Nat) : Claude.main (fuel + j) H W g = some o := by
  unfold Claude.main at h ⊢
  cases hn : Claude.NewRobot g H W with
  | crash => simpa [hn] using h
  | ok rb =>
    simp only [hn] at h ⊢
    exact drive_fuel_mono _ fuel rb o h j

theorem Grok.main_mono_grok {fuel H W : Nat} {g : Grid} {o : Outcome}
    (h : Grok.main fuel H W g = some o) (j : Nat) : Grok.main (fuel + j) H W g = some o := by
  unfold Grok.main at h ⊢
  cases hn : Grok.findStart (rowMajor H W) (g, 0, 0) with
  | crash => rw [hn] at h; exact h
  | ok x =>
    obtain ⟨g1, sr, sc⟩ := x
    rw [hn] at h
    exact drive_fuel_mono _ fuel _ o h j

/-! ## Scenario A -/

/-- C11: on the 5 by 6 grid of scenario A (rows `######`, `#@E $#`, `# N  #`,
`#X   #`, `######`) each of the three solvers ends in success with the moves
SOUTH, EAST, NORTH, EAST, EAST, which is then exactly what it prints: chatgpt
as soon as `applyTile` may make one pass and the main loop six, claude after
six passes of `findPath`, grok after seven passes of its loop (one of them is
spent on the turn to EAST).  The three load loops turn the five input lines
into that grid. -/
theorem scenario_a_path :
    (∀ k j : Nat, Chatgpt.runSolver (1 + k) (6 + j) 5 6 scenarioA =
      some (.success ["SOUTH", "EAST", "NORTH", "EAST", "EAST"])) ∧
    (∀ j : Nat, Claude.main (6 + j) 5 6 scenarioA =
      some (.success ["SOUTH", "EAST", "NORTH", "EAST", "EAST"])) ∧
    (∀ j : Nat, Grok.main (7 + j) 5 6 scenarioA =
      some (.success ["SOUTH", "EAST", "NORTH", "EAST", "EAST"])) ∧
    (Outcome.success ["SOUTH", "EAST", "NORTH", "EAST", "EAST"]).output =
      some ["SOUTH", "EAST", "NORTH", "EAST", "EAST"] ∧
    Chatgpt.loadGrid 5 6 scenarioALines = scenarioA ∧
    Claude.loadGrid 5 6 scenarioALines = scenarioA ∧
    Grok.loadGrid 5 scenarioALines = scenarioA := by
  refine ⟨fun k j => Chatgpt.runSolver_mono (by decide) k j,
    fun j => Claude.main_mono_claude (by decide) j, fun j => Grok.main_mono_grok (by decide) j,
    rfl, by decide, by decide, by decide⟩

/-! ## Scenario B: the enclosed box -/

theorem cellAt_boxGrid (a d : Nat × Nat) {r c : Nat} (hr : r < 5) (hc : c < 5) :
    cellAt (boxGrid a d) (r : Int) (c : Int) = some (boxCell a d r c) := by
  rw [cellAt_nat]
  simp [boxGrid, List.getElem?_map, List.getElem?_range, hr, hc]

theorem rect_boxGrid (a d : Nat × Nat) : Rect (boxGrid a d) 5 5 := by
  constructor
  · simp [boxGrid]
  · intro row hrow
    simp only [boxGrid, List.mem_map] at hrow
    obtain ⟨r, _, rfl⟩ := hrow
    simp

theorem enclosedBox_eq {g : Grid} {a d : Nat × Nat} (h : EnclosedBox g a d) :
    g = boxGrid a d := by
  obtain ⟨hg, _, _, _, hcell⟩ := h
  refine grid_ext g (boxGrid a d) hg (rect_boxGrid a d) ?_
  intro r c hin
  obtain ⟨hr0, hr1, hc0, hc1⟩ := hin
  rw [cellAt_int_nat g hr0 hc0, cellAt_int_nat (boxGrid a d) hr0 hc0]
  have h1 : r.toNat < 5 := by omega
  have h2 : c.toNat < 5 := by omega
  rw [hcell _ _ h1 h2, cellAt_boxGrid a d h1 h2]

/-- C12, as stated, fails: on the enclosed box with `@` at `(1, 2)` directly
above `$` at `(2, 2)` the robot, which starts facing SOUTH, steps onto `$` with
its first move, and each of the three solvers prints the single line SOUTH,
not LOOP. -/
theorem start_above_goal_reaches :
    EnclosedBox startAboveGoal (1, 2) (2, 2) ∧
    Chatgpt.runSolver 1 2 5 5 startAboveGoal = some (.success ["SOUTH"]) ∧
    Claude.main 2 5 5 startAboveGoal = some (.success ["SOUTH"]) ∧
    Grok.main 2 5 5 startAboveGoal = some (.success ["SOUTH"]) ∧
    (Outcome.success ["SOUTH"]).output ≠ some ["LOOP"] := by
  refine ⟨⟨by decide, by decide, by decide, by decide, ?_⟩, by decide, by decide, by decide,
    by decide⟩
  intro r c hr hc
  interval_cases r <;> interval_cases c <;> decide

/-- C12, amended: on every 5 by 5 grid whose border cells are all `#` and whose
3 by 3 interior is blank except for one `@` and one `$`, with `$` in the cell
directly above `@` and `@` not in the last interior column, each of the three
solvers ends at its visited test and prints LOOP (the robot runs up and down
the last interior column); with `@` directly above `$`, as the claim has it,
each of them prints the single line SOUTH. -/
theorem enclosed_box_outputs (g : Grid) (a d : Nat × Nat) (hbox : EnclosedBox g a d) :
    (d.1 + 1 = a.1 → d.2 = a.2 → a.2 ≤ 2 →
      (∀ k j : Nat, Chatgpt.runSolver (1 + k) (20 + j) 5 5 g = some .cycle) ∧
      (∀ j : Nat, Claude.main (20 + j) 5 5 g = some .cycle) ∧
      (∀ j : Nat, Grok.main (20 + j) 5 5 g = some .cycle) ∧
      Outcome.cycle.output = some ["LOOP"]) ∧
    (a.1 + 1 = d.1 → a.2 = d.2 →
      (∀ k j : Nat, Chatgpt.runSolver (1 + k) (2 + j) 5 5 g = some (.success ["SOUTH"])) ∧
      (∀ j : Nat, Claude.main (2 + j) 5 5 g = some (.success ["SOUTH"])) ∧
      (∀ j : Nat, Grok.main (2 + j) 5 5 g = some (.success ["SOUTH"])) ∧
      (Outcome.success ["SOUTH"]).output = some ["SOUTH"]) := by
  have hg := enclosedBox_eq hbox
  obtain ⟨_, ⟨ha1, ha2, ha3, ha4⟩, ⟨hd1, hd2, hd3, hd4⟩, _, _⟩ := hbox
  obtain ⟨a1, a2⟩ := a
  obtain ⟨d1, d2⟩ := d
  simp only at ha1 ha2 ha3 ha4 hd1 hd2 hd3 hd4
  subst hg
  constructor
  · intro h1 h2 h3
    simp only at h1 h2 h3
    subst h2
    subst h1
    refine ⟨fun k j => Chatgpt.runSolver_mono ?_ k j, fun j => Claude.main_mono_claude ?_ j,
      fun j => Grok.main_mono_grok ?_ j, rfl⟩ <;>
    interval_cases d1 <;> interval_cases d2 <;> first | omega | decide
  · intro h1 h2
    simp only at h1 h2
    subst h2
    subst h1
    refine ⟨fun k j => Chatgpt.runSolver_mono ?_ k j, fun j => Claude.main_mono_claude ?_ j,
      fun j => Grok.main_mono_grok ?_ j, rfl⟩ <;>
    interval_cases a1 <;> interval_cases a2 <;> first | omega | decide

/-- Witness of the amended C12: test 6 of the chatgpt harness, the enclosed box
with `$` at `(2, 2)` directly above `@` at `(3, 2)`, on which the three solvers
print LOOP. -/
theorem enclosed_box_outputs_witness :
    Chatgpt.runSolver 1 20 5 5 harnessTest6 = some .cycle ∧
    Claude.main 20 5 5 harnessTest6 = some .cycle ∧
    Grok.main 20 5 5 harnessTest6 = some .cycle ∧
    Outcome.cycle.output = some ["LOOP"] :=
  have hbox : EnclosedBox harnessTest6 (3, 2) (2, 2) :=
    ⟨by decide, by decide, by decide, by decide, fun r c hr hc => by
      interval_cases r <;> interval_cases c <;> decide⟩
  have h := (enclosed_box_outputs harnessTest6 (3, 2) (2, 2) hbox).1 rfl rfl (by decide)
  ⟨h.1 0 0, h.2.1 0, h.2.2.1 0, h.2.2.2⟩

/-! ## Where the three runs start on a grid with one `@` -/

theorem rect_inGrid {g : Grid} {H W : Nat} (hg : Rect g H W) {r c : Int} {ch : Char}
    (h : cellAt g r c = some ch) : InGrid H W r c := by
  obtain ⟨h0r, h0c⟩ := cellAt_nonneg h
  obtain ⟨hlen, hrow⟩ := hg
  unfold cellAt at h
  rw [if_pos ⟨h0r, h0c⟩] at h
  cases hr : g[r.toNat]? with
  | none => simp [hr] at h
  | some row =>
    simp only [hr, Option.some_bind] at h
    obtain ⟨h1, h2⟩ := List.getElem?_eq_some_iff.1 hr
    obtain ⟨h3, _⟩ := List.getElem?_eq_some_iff.1 h
    have h4 : row.length = W := hrow row (by rw [← h2]; exact List.getElem_mem _)
    exact ⟨h0r, by omega, h0c, by omega⟩

theorem uniqueStart_pos {g : Grid} {H W : Nat} {sr sc : Int} (hu : UniqueStart g H W sr sc) :
    0 < H ∧ 0 < W ∧ (sr.toNat, sc.toNat) ∈ rowMajor H W ∧ ((sr.toNat : Nat) : Int) = sr ∧
      ((sc.toNat : Nat) : Int) = sc := by
  obtain ⟨⟨h1, h2, h3, h4⟩, _, _⟩ := hu
  refine ⟨by omega, by omega, mem_rowMajor.2 ⟨by simp only; omega, by simp only; omega⟩,
    by omega, by omega⟩

theorem Grok.findStart_blank :
    ∀ (l : List (Nat × Nat)) (g : Grid) (a b : Int) (g1 : Grid) (a1 b1 : Int),
      Grok.findStart l (g, a, b) = .ok (g1, a1, b1) →
      (∀ x y : Int, cellAt g1 x y = cellAt g x y ∨
        (cellAt g x y = some '@' ∧ cellAt g1 x y = some ' ')) ∧
      (∀ q ∈ l, cellAt g1 (q.1 : Int) (q.2 : Int) ≠ some '@') ∧
      ((a1 = a ∧ b1 = b ∧ ∀ q ∈ l, cellAt g (q.1 : Int) (q.2 : Int) ≠ some '@') ∨
        ∃ q ∈ l, cellAt g (q.1 : Int) (q.2 : Int) = some '@' ∧ a1 = (q.1 : Int) ∧
          b1 = (q.2 : Int)) := by
  intro l
  induction l with
  | nil =>
    intro g a b g1 a1 b1 h
    simp only [Grok.findStart, Res.ok.injEq, Prod.mk.injEq] at h
    obtain ⟨rfl, rfl, rfl⟩ := h
    exact ⟨fun _ _ => Or.inl rfl, by simp, Or.inl ⟨rfl, rfl, by simp⟩⟩
  | cons q l ih =>
    intro g a b g1 a1 b1 h
    obtain ⟨r, c⟩ := q
    simp only [Grok.findStart] at h
    cases hc : cellAt g (r : Int) (c : Int) with
    | none => simp [hc] at h
    | some ch =>
      simp only [hc] at h
      by_cases hat : ch = '@'
      · subst hat
        simp only [if_true] at h
        obtain ⟨h1, h2, h3⟩ := ih _ _ _ _ _ _ h
        have hset : ∀ x y : Int, cellAt (setCell g r c ' ') x y =
            if x = (r : Int) ∧ y = (c : Int) then some ' ' else cellAt g x y := by
          intro x y
          rw [cellAt_setCell _ _ _ _ (by omega) (by omega), hc]
          rfl
        have hblank : ∀ x y : Int, cellAt g1 x y = cellAt g x y ∨
            (cellAt g x y = some '@' ∧ cellAt g1 x y = some ' ') := by
          intro x y
          have hxy := h1 x y
          rw [hset] at hxy
          by_cases he : x = (r : Int) ∧ y = (c : Int)
          · obtain ⟨rfl, rfl⟩ := he
            simp only [and_self, if_true] at hxy
            right
            rcases hxy with h' | ⟨h', _⟩
            · exact ⟨hc, h'⟩
            · exact absurd h' (by decide)
          · simp only [he, if_false] at hxy
            exact hxy
        refine ⟨hblank, ?_, ?_⟩
        · intro q hq
          rcases List.mem_cons.1 hq with rfl | hq
          · rcases hblank (r : Int) (c : Int) with h' | ⟨_, h'⟩
            · simp only
              have hxy := h1 (r : Int) (c : Int)
              rw [hset] at hxy
              simp only [and_self, if_true] at hxy
              rcases hxy with h'' | ⟨h'', _⟩
              · rw [h'']; decide
              · exact absurd h'' (by decide)
            · simp only
              rw [h']; decide
          · exact h2 q hq
        · right
          rcases h3 with ⟨ha, hb, _⟩ | ⟨q, hq, hq1, hq2, hq3⟩
          · exact ⟨(r, c), List.mem_cons_self _ _, hc, ha, hb⟩
          · refine ⟨q, List.mem_cons_of_mem _ hq, ?_, hq2, hq3⟩
            rw [hset] at hq1
            split_ifs at hq1 with he
            · exact absurd hq1 (by decide)
            · exact hq1
      · simp only [hat, if_false] at h
        obtain ⟨h1, h2, h3⟩ := ih _ _ _ _ _ _ h
        refine ⟨h1, ?_, ?_⟩
        · intro q hq
          rcases List.mem_cons.1 hq with rfl | hq
          · simp only
            rcases h1 (r : Int) (c : Int) with h' | ⟨_, h'⟩
            · rw [h', hc]
              simpa using hat
            · rw [h']; decide
          · exact h2 q hq
        · rcases h3 with ⟨ha, hb, hno⟩ | ⟨q, hq, hq1, hq2, hq3⟩
          · left
            refine ⟨ha, hb, ?_⟩
            intro q hq
            rcases List.mem_cons.1 hq with rfl | hq
            · simp only
              rw [hc]
              simpa using hat
            · exact hno q hq
          · exact Or.inr ⟨q, List.mem_cons_of_mem _ hq, hq1, hq2, hq3⟩

/-- grok on a rectangular grid with one `@`: the start scan returns the grid
with that cell blanked and its coordinates. -/
theorem Grok.findStart_unique_grok {g : Grid} {H W : Nat} {sr sc : Int} (hg : Rect g H W)
    (hu : UniqueStart g H W sr sc) :
    ∃ g1, Grok.findStart (rowMajor H W) (g, 0, 0) = .ok (g1, sr, sc) ∧ Rect g1 H W ∧
      ∀ x y : Int, cellAt g1 x y = (cellAt g x y).map deAt := by
  obtain ⟨hH, hW, hmem, hsr, hsc⟩ := uniqueStart_pos hu
  obtain ⟨g1, sr1, sc1, hf, hg1, _, _⟩ := Grok.findStart_sound (rowMajor H W) g 0 0 hg
    ⟨le_refl _, by exact_mod_cast hH, le_refl _, by exact_mod_cast hW⟩
    (fun q hq => mem_rowMajor.1 hq)
  obtain ⟨h1, h2, h3⟩ := Grok.findStart_blank _ _ _ _ _ _ _ hf
  obtain ⟨_, hat, huniq⟩ := hu
  have hstart : sr1 = sr ∧ sc1 = sc := by
    rcases h3 with ⟨_, _, hno⟩ | ⟨q, _, hq1, hq2, hq3⟩
    · exact absurd (by rw [hsr, hsc]; exact hat) (hno _ hmem)
    · obtain ⟨e1, e2⟩ := huniq _ _ hq1
      exact ⟨by rw [hq2, e1], by rw [hq3, e2]⟩
  obtain ⟨rfl, rfl⟩ := hstart
  refine ⟨g1, hf, hg1, ?_⟩
  intro x y
  rcases h1 x y with h' | ⟨h', h''⟩
  · rw [h']
    cases hc : cellAt g x y with
    | none => rfl
    | some ch =>
      have hne : ch ≠ '@' := by
        rintro rfl
        obtain ⟨rfl, rfl⟩ := huniq _ _ hc
        have := h2 _ hmem
        rw [hsr, hsc, h', hc] at this
        exact this rfl
      simp [deAt, hne]
  · rw [h', h'']
    rfl

theorem Claude.newRobotScan_start (g : Grid) :
    ∀ (l : List (Nat × Nat)) (rb rb' : Claude.Robot), Claude.newRobotScan g l rb = .ok rb' →
      (rb'.state = rb.state ∧ ∀ q ∈ l, cellAt g (q.1 : Int) (q.2 : Int) ≠ some '@') ∨
      ∃ q ∈ l, cellAt g (q.1 : Int) (q.2 : Int) = some '@' ∧
        rb'.state = { rb.state with pos := ⟨(q.1 : Int), (q.2 : Int)⟩, direction := .SOUTH } := by
  intro l
  induction l with
  | nil =>
    intro rb rb' h
    simp only [Claude.newRobotScan, Res.ok.injEq] at h
    subst h
    exact Or.inl ⟨rfl, by simp⟩
  | cons p l ih =>
    intro rb rb' h
    obtain ⟨i, j⟩ := p
    simp only [Claude.newRobotScan] at h
    cases hc : cellAt g i j with
    | none => simp [hc] at h
    | some cell =>
      simp only [hc] at h
      by_cases hat : cell = '@'
      · right
        subst hat
        rcases ih _ _ h with ⟨h1, _⟩ | ⟨q, hq, hq1, h1⟩
        · refine ⟨(i, j), List.mem_cons_self _ _, hc, ?_⟩
          rw [h1]
          simp [Claude.newRobotVisit]
        · refine ⟨q, List.mem_cons_of_mem _ hq, hq1, ?_⟩
          rw [h1]
          simp [Claude.newRobotVisit]
      · have hsame : (Claude.newRobotVisit rb i j cell).state = rb.state := by
          unfold Claude.newRobotVisit
          rw [if_neg hat]
          split_ifs <;> rfl
        rcases ih _ _ h with ⟨h1, hno⟩ | ⟨q, hq, hq1, h1⟩
        · left
          refine ⟨by rw [h1, hsame], ?_⟩
          intro q hq
          rcases List.mem_cons.1 hq with rfl | hq
          · simp only
            rw [hc]
            simpa using hat
          · exact hno q hq
        · right
          exact ⟨q, List.mem_cons_of_mem _ hq, hq1, by rw [h1, hsame]⟩

/-- claude on a rectangular grid with one `@`: the robot that `NewRobot` returns. -/
theorem Claude.newRobot_unique {g : Grid} {H W : Nat} {sr sc : Int} (hg : Rect g H W)
    (hu : UniqueStart g H W sr sc) :
    ∃ rb0, Claude.NewRobot g H W = .ok rb0 ∧ rb0.grid = g ∧ rb0.height = H ∧ rb0.width = W ∧
      rb0.visited = [] ∧ rb0.path = [] ∧ rb0.state = ⟨⟨sr, sc⟩, .SOUTH, false, false⟩ ∧
      (∀ ch ∈ teleDigits, rb0.teleporters ch =
        ((rowMajor H W).filter (fun q => decide (cellAt g (q.1 : Int) (q.2 : Int) = some ch))).map
          (fun q => (⟨(q.1 : Int), (q.2 : Int)⟩ : Claude.Position))) ∧
      ((∃ q ∈ rowMajor H W, cellAt g (q.1 : Int) (q.2 : Int) = some '$') →
        cellAt g rb0.destPos.row rb0.destPos.col = some '$') := by
  obtain ⟨hH, hW, hmem, hsr, hsc⟩ := uniqueStart_pos hu
  obtain ⟨rb0, hnew⟩ := Claude.newRobotScan_ok g (rowMajor H W)
    { grid := g, height := H, width := W, startPos := ⟨0, 0⟩, destPos := ⟨0, 0⟩,
      teleporters := fun _ => [], state := ⟨⟨0, 0⟩, .SOUTH, false, false⟩, visited := [],
      path := [] } (rect_readable hg)
  obtain ⟨f1, f2, f3, f4, f5, _, _⟩ := Claude.newRobotScan_frame g _ _ _ hnew
  simp only at f1 f2 f3 f4 f5
  obtain ⟨_, hat, huniq⟩ := hu
  refine ⟨rb0, hnew, f1, f2, f3, f4, f5, ?_, ?_, ?_⟩
  · rcases Claude.newRobotScan_start g _ _ _ hnew with ⟨_, hno⟩ | ⟨q, _, hq1, h1⟩
    · exact absurd (by rw [hsr, hsc]; exact hat) (hno _ hmem)
    · obtain ⟨e1, e2⟩ := huniq _ _ hq1
      rw [h1, e1, e2]
  · intro ch hch
    rw [Claude.newRobotScan_tele g _ _ _ hnew ch hch]
    simp
  · intro hd
    exact Claude.newRobotScan_dest g _ _ _ hnew (Or.inr hd)

/-! ## chatgpt: what the load loop records -/

theorem enum_eq_map_range {α : Type} (l : List α) (x : α) :
    l.enum = (List.range l.length).map (fun i => (i, l.getD i x)) := by
  apply List.ext_getElem?
  intro n
  rw [List.getElem?_enum, List.getElem?_map]
  by_cases hn : n < l.length
  · simp [hn, List.getElem?_eq_getElem, List.getD_eq_getElem?_getD, List.getElem?_range]
  · have h1 : l[n]? = none := List.getElem?_eq_none (Nat.le_of_not_lt hn)
    have h2 : (List.range l.length)[n]? = none :=
      List.getElem?_eq_none (by simpa using Nat.le_of_not_lt hn)
    rw [h1, h2]
    rfl

theorem flatMap_congr_mem {α β : Type} {l : List α} {f f' : α → List β}
    (h : ∀ a ∈ l, f a = f' a) : l.flatMap f = l.flatMap f' := by
  rw [List.flatMap_def, List.flatMap_def, List.map_congr_left h]

theorem Chatgpt.cells_eq {g : Grid} {H W : Nat} (hg : Rect g H W) :
    Chatgpt.cells g = (rowMajor H W).map (fun q =>
      ((⟨(q.1 : Int), (q.2 : Int)⟩ : Chatgpt.Point),
        (cellAt g (q.1 : Int) (q.2 : Int)).getD ' ')) := by
  obtain ⟨hlen, hrow⟩ := hg
  unfold Chatgpt.cells rowMajor
  rw [List.map_flatMap, enum_eq_map_range g [], List.flatMap_map, hlen]
  apply flatMap_congr_mem
  intro i hi
  have hi' : i < g.length := by rw [hlen]; exact List.mem_range.1 hi
  have hrowi : (g.getD i []).length = W := by
    rw [List.getD_eq_getElem?_getD, List.getElem?_eq_getElem hi']
    exact hrow _ (List.getElem_mem _)
  simp only [List.map_map]
  rw [enum_eq_map_range (g.getD i []) ' ', hrowi, List.map_map]
  apply List.map_congr_left
  intro j _
  simp only [Function.comp, cellAt_nat, Prod.mk.injEq, true_and]
  rw [List.getD_eq_getElem?_getD g, List.getD_eq_getElem?_getD, List.getElem?_eq_getElem hi']
  simp

theorem Chatgpt.findStart_fold (l : List (Chatgpt.Point × Char)) :
    ∀ init : Chatgpt.Point,
      (l.foldl (fun st pc => if pc.2 = '@' then pc.1 else st) init = init ∧
        ∀ pc ∈ l, pc.2 ≠ '@') ∨
      ∃ pc ∈ l, pc.2 = '@' ∧
        l.foldl (fun st pc => if pc.2 = '@' then pc.1 else st) init = pc.1 := by
  induction l with
  | nil => intro init; exact Or.inl ⟨rfl, by simp⟩
  | cons pc l ih =>
    intro init
    simp only [List.foldl_cons]
    by_cases hat : pc.2 = '@'
    · right
      simp only [hat, if_true]
      rcases ih pc.1 with ⟨h1, _⟩ | ⟨pc', hpc', h1, h2⟩
      · exact ⟨pc, List.mem_cons_self _ _, hat, h1⟩
      · exact ⟨pc', List.mem_cons_of_mem _ hpc', h1, h2⟩
    · simp only [hat, if_false]
      rcases ih init with ⟨h1, hno⟩ | ⟨pc', hpc', h1, h2⟩
      · left
        refine ⟨h1, ?_⟩
        intro pc' hpc'
        rcases List.mem_cons.1 hpc' with rfl | hpc'
        · exact hat
        · exact hno pc' hpc'
      · exact Or.inr ⟨pc', List.mem_cons_of_mem _ hpc', h1, h2⟩

/-- chatgpt on a rectangular grid with one `@`: the variable `start`. -/
theorem Chatgpt.findStart_unique_chatgpt {g : Grid} {H W : Nat} {sr sc : Int} (hg : Rect g H W)
    (hu : UniqueStart g H W sr sc) : Chatgpt.findStart g = ⟨sr, sc⟩ := by
  obtain ⟨_, _, hmem, hsr, hsc⟩ := uniqueStart_pos hu
  obtain ⟨_, hat, huniq⟩ := hu
  unfold Chatgpt.findStart
  rw [Chatgpt.cells_eq hg]
  rcases Chatgpt.findStart_fold ((rowMajor H W).map (fun q =>
      ((⟨(q.1 : Int), (q.2 : Int)⟩ : Chatgpt.Point),
        (cellAt g (q.1 : Int) (q.2 : Int)).getD ' '))) ⟨-1, -1⟩ with ⟨_, hno⟩ | ⟨pc, hpc, h1, h2⟩
  · exfalso
    refine hno _ (List.mem_map.2 ⟨_, hmem, rfl⟩) ?_
    simp only
    rw [hsr, hsc, hat]
    rfl
  · rw [h2]
    obtain ⟨q, _, rfl⟩ := List.mem_map.1 hpc
    simp only at h1 ⊢
    cases hc : cellAt g (q.1 : Int) (q.2 : Int) with
    | none => rw [hc] at h1; exact absurd h1 (by decide)
    | some ch =>
      rw [hc] at h1
      simp only [Option.getD_some] at h1
      subst h1
      obtain ⟨e1, e2⟩ := huniq _ _ hc
      rw [e1, e2]

theorem Chatgpt.teleByDigit_fold (d : Char) (hd : isTeleDigit d = true) :
    ∀ (l : List (Chatgpt.Point × Char)) (m : Char → List Chatgpt.Point),
      (l.foldl
        (fun m pc => if isTeleDigit pc.2 then
          (fun ch => if ch = pc.2 then m ch ++ [pc.1] else m ch) else m) m) d =
        m d ++ (l.filter (fun pc => decide (pc.2 = d))).map (fun pc => pc.1) := by
  intro l
  induction l with
  | nil => intro m; simp
  | cons pc l ih =>
    intro m
    simp only [List.foldl_cons]
    rw [ih]
    by_cases hpc : pc.2 = d
    · simp [hpc, hd, List.filter_cons]
    · have hne : ¬ d = pc.2 := fun h => hpc h.symm
      simp only [List.filter_cons, hpc, decide_False, Bool.false_eq_true, if_false]
      split_ifs <;> simp [hne]

/-- chatgpt on a rectangular grid: the entry of `teleByDigit` for a digit
lists the cells that hold it, in row-major order. -/
theorem Chatgpt.teleByDigit_eq {g : Grid} {H W : Nat} (hg : Rect g H W) {d : Char}
    (hd : isTeleDigit d = true) :
    Chatgpt.teleByDigit g d =
      (cellsWith g H W d).map (fun q => (⟨(q.1 : Int), (q.2 : Int)⟩ : Chatgpt.Point)) := by
  unfold Chatgpt.teleByDigit cellsWith
  rw [Chatgpt.teleByDigit_fold d hd, Chatgpt.cells_eq hg, List.nil_append, List.filter_map,
    List.map_map]
  have hf : (fun q : Nat × Nat => decide (cellAt g (q.1 : Int) (q.2 : Int) = some d)) =
      ((fun pc : Chatgpt.Point × Char => decide (pc.2 = d)) ∘ fun q : Nat × Nat =>
        ((⟨(q.1 : Int), (q.2 : Int)⟩ : Chatgpt.Point),
          (cellAt g (q.1 : Int) (q.2 : Int)).getD ' ')) := by
    funext q
    simp only [Function.comp]
    have key : ∀ o : Option Char, (o = some d) = (o.getD ' ' = d) := by
      intro o
      cases o with
      | none =>
        have : ¬ ' ' = d := by rintro rfl; revert hd; decide
        simp [this]
      | some ch => simp
    simp only [key]
  rw [hf]
  rfl

/-! ## chatgpt: the map `telePair` -/

theorem findSome_only {α β : Type} (f : α → Option β) (a : α) (b : β) (hfa : f a = some b) :
    ∀ l : List α, a ∈ l → (∀ x ∈ l, x ≠ a → f x = none) → l.findSome? f = some b := by
  intro l
  induction l with
  | nil => intro h; simp at h
  | cons x l ih =>
    intro hmem hne
    by_cases hx : x = a
    · subst hx
      simp [List.findSome?, hfa]
    · have hfx : f x = none := hne x (List.mem_cons_self _ _) hx
      simp only [List.findSome?, hfx]
      rcases List.mem_cons.1 hmem with rfl | hmem
      · exact absurd rfl hx
      · exact ih hmem (fun y hy => hne y (List.mem_cons_of_mem _ hy))

theorem mem_cellsWith {g : Grid} {H W : Nat} {d : Char} {q : Nat × Nat} :
    q ∈ cellsWith g H W d ↔ q.1 < H ∧ q.2 < W ∧ cellAt g (q.1 : Int) (q.2 : Int) = some d := by
  unfold cellsWith
  rw [List.mem_filter, mem_rowMajor]
  simp [and_assoc]

/-- chatgpt on a rectangular grid with a row and a column: every value of
`telePair`, the zero value of a missing key included, lies inside the grid. -/
theorem Chatgpt.telePair_inGrid {g : Grid} {H W : Nat} (hg : Rect g H W) (hH : 0 < H)
    (hW : 0 < W) (p : Chatgpt.Point) :
    InGrid H W (Chatgpt.telePair g p).r (Chatgpt.telePair g p).c := by
  unfold Chatgpt.telePair
  split
  next q hf =>
    obtain ⟨d, hd, hq⟩ := List.exists_of_findSome?_eq_some hf
    have hmem : q ∈ Chatgpt.teleByDigit g d := by
      revert hq
      cases Chatgpt.teleByDigit g d with
      | nil => intro hq; simp at hq
      | cons a t =>
        cases t with
        | nil => intro hq; simp at hq
        | cons b t =>
          cases t with
          | nil =>
            intro hq
            simp only at hq
            split_ifs at hq <;> simp_all
          | cons c t => intro hq; simp at hq
    rw [Chatgpt.teleByDigit_eq hg ((mem_teleDigits_iff d).1 hd)] at hmem
    obtain ⟨q', hq', rfl⟩ := List.mem_map.1 hmem
    obtain ⟨h1, h2, _⟩ := mem_cellsWith.1 hq'
    exact ⟨by simp, by simpa using h1, by simp, by simpa using h2⟩
  next =>
    refine ⟨le_refl _, ?_, le_refl _, ?_⟩
    · show (0 : Int) < (H : Int)
      exact_mod_cast hH
    · show (0 : Int) < (W : Int)
      exact_mod_cast hW

/-! ## Replaying a path -/

theorem parsePath_names (name : Dir → String)
    (hname : ∀ d, nameToDir (name d) = some d) :
    ∀ dirs : List Dir, parsePath (dirs.map name) = some dirs := by
  intro dirs
  induction dirs with
  | nil => rfl
  | cons d ds ih => simp [parsePath, hname d, ih]

theorem nameToDir_chatgpt (d : Dir) : nameToDir (Chatgpt.dirToName d) = some d := by
  cases d <;> decide

theorem nameToDir_claude (d : Dir) : nameToDir (Claude.Direction.String d) = some d := by
  cases d <;> decide

theorem nameToDir_grok (d : Dir) : nameToDir (Grok.dirNames d) = some d := by
  cases d <;> decide

theorem replay_snoc (H W : Nat) (w : Walk) (dirs : List Dir) (d : Dir) :
    replay H W w (dirs ++ [d]) = Walk.move H W (Walk.effect H W (replay H W w dirs)) d := by
  simp [replay, List.foldl_append]

theorem Walk.effect_frame (H W : Nat) (w : Walk) :
    (Walk.effect H W w).grid = w.grid ∧ (Walk.effect H W w).destroyed = w.destroyed ∧
    (Walk.effect H W w).legal = w.legal := by
  unfold Walk.effect
  cases cellAt w.grid w.r w.c with
  | none => exact ⟨rfl, rfl, rfl⟩
  | some ch =>
    simp only
    split_ifs <;> exact ⟨rfl, rfl, rfl⟩

/-- The walls a replay has destroyed are the cells that held `X` on the grid
it started from and are blank on its grid now. -/
theorem replay_destroyed (H W : Nat) (g0 : Grid) (sr sc : Int) :
    ∀ dirs : List Dir,
      Eroded g0 (replay H W (Walk.start g0 sr sc) dirs).grid ∧
      ∀ x y : Int, (x, y) ∈ (replay H W (Walk.start g0 sr sc) dirs).destroyed ↔
        (cellAt g0 x y = some 'X' ∧
          cellAt (replay H W (Walk.start g0 sr sc) dirs).grid x y = some ' ') := by
  intro dirs
  induction dirs using List.reverseRecOn with
  | nil =>
    refine ⟨eroded_refl g0, ?_⟩
    intro x y
    simp only [replay, List.foldl_nil, Walk.start, List.not_mem_nil, false_iff, not_and]
    intro h1 h2
    rw [h1] at h2
    revert h2
    decide
  | append_singleton ds d ih =>
    rw [replay_snoc]
    obtain ⟨hero, hmem⟩ := ih
    obtain ⟨hg, hd, _⟩ := Walk.effect_frame H W (replay H W (Walk.start g0 sr sc) ds)
    generalize Walk.effect H W (replay H W (Walk.start g0 sr sc) ds) = w at hg hd
    rw [← hg] at hero hmem
    rw [← hd] at hmem
    clear hg hd
    unfold Walk.move
    by_cases hx : cellAt w.grid (ahead w.r w.c d).1 (ahead w.r w.c d).2 = some 'X' ∧
        w.breaker = true
    · simp only [hx, and_self, if_true]
      obtain ⟨h0r, h0c⟩ := cellAt_nonneg hx.1
      refine ⟨eroded_trans hero (eroded_setCell _ _ _ hx.1), ?_⟩
      intro x y
      rw [cellAt_setCell _ _ _ _ h0r h0c]
      simp only [List.mem_cons, Prod.mk.injEq]
      by_cases hxy : x = (ahead w.r w.c d).1 ∧ y = (ahead w.r w.c d).2
      · simp only [hxy, and_self, true_or, if_true, hx.1, Option.map_some', and_true, true_iff]
        exact eroded_back hero (by decide) hx.1
      · simp only [hxy, false_or, if_false]
        exact hmem x y
    · simp only [hx, if_false]
      exact ⟨hero, hmem⟩

/-! ## claude: a run is a replay of its path -/

theorem Claude.teleporters_find (r : Claude.Robot) (g0 : Grid) (H W : Nat) (d : Char)
    (hd : isTeleDigit d = true)
    (htele : r.teleporters d =
      (cellsWith g0 H W d).map (fun q => (⟨(q.1 : Int), (q.2 : Int)⟩ : Claude.Position)))
    (hero : Eroded g0 r.grid) :
    (r.teleporters d).find? (fun tp => decide (tp ≠ r.state.pos)) =
      ((rowMajor H W).find? (fun q => decide (cellAt r.grid (q.1 : Int) (q.2 : Int) = some d ∧
        ((q.1 : Int) ≠ r.state.pos.row ∨ (q.2 : Int) ≠ r.state.pos.col)))).map
        (fun q => (⟨(q.1 : Int), (q.2 : Int)⟩ : Claude.Position)) := by
  have hcell : ∀ q : Nat × Nat, cellAt g0 (q.1 : Int) (q.2 : Int) = some d ↔
      cellAt r.grid (q.1 : Int) (q.2 : Int) = some d := by
    intro q
    constructor
    · exact eroded_keeps hero (isTeleDigit_ne_wall hd).2
    · exact eroded_back hero (by rintro rfl; revert hd; decide)
  rw [htele]
  unfold cellsWith
  rw [List.find?_map, List.find?_filter]
  congr 2
  funext q
  simp only [Function.comp, decide_eq_true_eq, hcell q]
  congr 1
  apply propext
  constructor
  · rintro ⟨a, b⟩
    refine ⟨a, ?_⟩
    by_contra hn
    simp only [not_or, not_not] at hn
    apply b
    cases hp : r.state.pos
    rw [hp] at hn
    simp only at hn
    rw [hn.1, hn.2]
  · rintro ⟨a, b⟩
    refine ⟨a, ?_⟩
    intro hp
    rw [← hp] at b
    simp at b

/-- The `switch` of claude on the current cell does to the robot what the tile
effect of the replay does to the walk. -/
theorem Claude.special_effect {g0 : Grid} {H W : Nat} {r : Claude.Robot} {w : Walk} {cell : Char}
    (htele : ∀ ch ∈ teleDigits, r.teleporters ch =
      (cellsWith g0 H W ch).map (fun q => (⟨(q.1 : Int), (q.2 : Int)⟩ : Claude.Position)))
    (hero : Eroded g0 r.grid) (hg : w.grid = r.grid) (hr : w.r = r.state.pos.row)
    (hc : w.c = r.state.pos.col) (hb : w.breaker = r.state.breaker)
    (hi : w.inverted = r.state.inverted)
    (hcell : cellAt r.grid r.state.pos.row r.state.pos.col = some cell) :
    (Walk.effect H W w).r = (Claude.special r cell).state.pos.row ∧
    (Walk.effect H W w).c = (Claude.special r cell).state.pos.col ∧
    (Walk.effect H W w).breaker = (Claude.special r cell).state.breaker ∧
    (Walk.effect H W w).inverted = (Claude.special r cell).state.inverted := by
  have hcw : cellAt w.grid w.r w.c = some cell := by rw [hg, hr, hc]; exact hcell
  unfold Walk.effect
  rw [hcw]
  simp only
  by_cases hd : isTeleDigit cell = true
  · obtain ⟨h1, h2, h3, h4, h5, h6⟩ := isTeleDigit_ne_letters hd
    have hmem := (mem_teleDigits_iff cell).2 hd
    have hfind := Claude.teleporters_find r g0 H W cell hd (htele cell hmem) hero
    simp only [Claude.special, h1, h2, h3, h4, h5, h6, hmem, hd, if_true, if_false, hfind,
      teleDest, hg, hr, hc]
    cases (rowMajor H W).find? (fun q => decide (cellAt r.grid (q.1 : Int) (q.2 : Int) = some cell ∧
        ((q.1 : Int) ≠ r.state.pos.row ∨ (q.2 : Int) ≠ r.state.pos.col))) with
    | none => exact ⟨rfl, rfl, hb, hi⟩
    | some q => exact ⟨rfl, rfl, hb, hi⟩
  · have hmem : cell ∉ teleDigits := fun h => hd ((mem_teleDigits_iff cell).1 h)
    simp only [hd, Bool.false_eq_true, if_false]
    unfold Claude.special
    by_cases hB : cell = 'B'
    · subst hB
      simp only [if_true]
      exact ⟨hr, hc, by simp [hb], hi⟩
    by_cases hI : cell = 'I'
    · subst hI
      simp only [if_true]
      refine ⟨hr, hc, hb, by simp [hi]⟩
    simp only [hB, hI, hmem, if_false]
    split_ifs <;> exact ⟨hr, hc, hb, hi⟩

theorem Claude.replays_step_claude {g0 : Grid} {H W : Nat} {sr sc : Int} {r r' : Claude.Robot}
    (hinv : Claude.Replays g0 H W sr sc r) (h : Claude.findPathBody r = .next r') :
    Claude.Replays g0 H W sr sc r' := by
  obtain ⟨hh, hw, htele, hlegal, hg, hr, hc, hf, hb, hi⟩ := hinv
  have hero : Eroded g0 r.grid := by
    rw [← hg]
    exact (replay_destroyed H W g0 sr sc r.path).1
  obtain ⟨hadv, _, _⟩ := Claude.findPathBody_next h
  obtain ⟨cell, hcell, hms⟩ := Claude.advance_next_claude hadv
  rw [Claude.special_visited] at hms
  obtain ⟨d, hr', hpass⟩ := Claude.moveStep_next_claude hms
  obtain ⟨e1, e2, e3, e4⟩ := Claude.special_effect htele hero hg hr hc hb hi hcell
  obtain ⟨f1, f2, f3, _, f5, _, f7⟩ := Claude.special_frame r cell
  obtain ⟨k1, _, k3⟩ := Walk.effect_frame H W (replay H W (Walk.start g0 sr sc) r.path)
  simp only at hpass
  rw [f1, f2, f3, hh, hw] at hpass
  have hpath : r'.path = r.path ++ [d] := by
    rw [hr']
    simp [Claude.moveTo, f7]
  have hpass' : Passable (Walk.effect H W (replay H W (Walk.start g0 sr sc) r.path)).grid H W
      (Walk.effect H W (replay H W (Walk.start g0 sr sc) r.path)).breaker
      (ahead (Walk.effect H W (replay H W (Walk.start g0 sr sc) r.path)).r
        (Walk.effect H W (replay H W (Walk.start g0 sr sc) r.path)).c d).1
      (ahead (Walk.effect H W (replay H W (Walk.start g0 sr sc) r.path)).r
        (Walk.effect H W (replay H W (Walk.start g0 sr sc) r.path)).c d).2 := by
    rw [k1, hg, e1, e2, e3]
    exact hpass
  unfold Claude.Replays
  rw [hpath, replay_snoc]
  generalize Walk.effect H W (replay H W (Walk.start g0 sr sc) r.path) = w at *
  rw [hg] at k1
  have hlegal' : w.legal = true := by rw [k3]; exact hlegal
  subst hr'
  refine ⟨hh.symm ▸ f2 ▸ rfl, hw.symm ▸ f3 ▸ rfl, ?_, ?_, ?_, ?_, ?_, rfl, ?_, ?_⟩
  · intro ch hch
    rw [← htele ch hch, ← f5]
    rfl
  · simp only [Walk.move, hlegal', Bool.true_and, decide_eq_true_eq]
    exact hpass'
  · simp only [Walk.move, Claude.moveTo, f1, ← k1, ← e1, ← e2, ← e3]
    split_ifs <;> rfl
  · simp only [Walk.move, Claude.moveTo, ← e1, ← e2]
  · simp only [Walk.move, Claude.moveTo, ← e1, ← e2]
  · simp only [Walk.move, Claude.moveTo, ← e3]
    split_ifs <;> rfl
  · simp only [Walk.move, Claude.moveTo, ← e4]
    split_ifs <;> rfl

/-! ## grok: a run is a replay of its path -/

theorem deAt_eq_iff {ch x : Char} (hx : x ≠ ' ') (hx' : x ≠ '@') : deAt ch = x ↔ ch = x := by
  unfold deAt
  split_ifs with h
  · subst h
    constructor
    · intro h'; exact absurd h'.symm hx
    · intro h'; exact absurd h'.symm hx'
  · rfl

theorem cellAt_deAt_iff {g g' : Grid}
    (hrel : ∀ x y : Int, cellAt g' x y = (cellAt g x y).map deAt) {x : Char} (hx : x ≠ ' ')
    (hx' : x ≠ '@') (r c : Int) : cellAt g' r c = some x ↔ cellAt g r c = some x := by
  rw [hrel]
  cases cellAt g r c with
  | none => simp
  | some ch => simp [deAt_eq_iff hx hx']

theorem passable_deAt {g g' : Grid} (hrel : ∀ x y : Int, cellAt g' x y = (cellAt g x y).map deAt)
    (H W : Nat) (b : Bool) (r c : Int) : Passable g' H W b r c ↔ Passable g H W b r c := by
  unfold Passable
  have h1 := cellAt_deAt_iff hrel (show '#' ≠ ' ' by decide) (by decide) r c
  have h2 := cellAt_deAt_iff hrel (show 'X' ≠ ' ' by decide) (by decide) r c
  have h3 : (cellAt g' r c).isSome = (cellAt g r c).isSome := by
    rw [hrel]
    cases cellAt g r c <;> rfl
  simp only [ne_eq, h1, h2, h3]

theorem teleDest_cell {g : Grid} {H W : Nat} {d : Char} {r c : Int}
    (h : cellAt g r c = some d) :
    cellAt g (teleDest g H W d r c).1 (teleDest g H W d r c).2 = some d := by
  unfold teleDest
  cases hf : (rowMajor H W).find? (fun q => decide (cellAt g (q.1 : Int) (q.2 : Int) = some d ∧
      ((q.1 : Int) ≠ r ∨ (q.2 : Int) ≠ c))) with
  | none => exact h
  | some q =>
    have := List.find?_some hf
    simp only [decide_eq_true_eq] at this
    exact this.1

theorem Walk.effect_stay {H W : Nat} {w : Walk} {ch : Char}
    (hc : cellAt w.grid w.r w.c = some ch) (hd : isTeleDigit ch = false) :
    (Walk.effect H W w).r = w.r ∧ (Walk.effect H W w).c = w.c := by
  unfold Walk.effect
  rw [hc]
  simp only [hd, Bool.false_eq_true, if_false]
  split_ifs <;> exact ⟨rfl, rfl⟩

/-- The effect block of grok does to its variables what the tile effect of
the replay does to the walk. -/
theorem Grok.applyEffect_effect {H W : Nat} {v v' : Grok.Vars} {w : Walk}
    (hg : Rect v.grid H W)
    (hrel : ∀ x y : Int, cellAt v.grid x y = (cellAt w.grid x y).map deAt)
    (hr : w.r = v.curR) (hc : w.c = v.curC) (hb : w.breaker = v.curBreaker)
    (hi : w.inverted = v.curInv) (h : Grok.applyEffect H W v = .ok v') :
    (Walk.effect H W w).r = v'.curR ∧ (Walk.effect H W w).c = v'.curC ∧
    (Walk.effect H W w).breaker = v'.curBreaker ∧ (Walk.effect H W w).inverted = v'.curInv := by
  unfold Grok.applyEffect at h
  cases hcv : cellAt v.grid v.curR v.curC with
  | none => simp [hcv] at h
  | some char =>
    simp only [hcv] at h
    have hcw0 := hcv
    rw [hrel, ← hr, ← hc] at hcw0
    cases hcw : cellAt w.grid w.r w.c with
    | none => simp [hcw] at hcw0
    | some ch =>
      rw [hcw] at hcw0
      simp only [Option.map_some', Option.some.injEq] at hcw0
      unfold Walk.effect
      rw [hcw]
      simp only
      by_cases hd : isTeleDigit char = true
      · have hch : ch = char := by
          have h1 : char ≠ ' ' := by rintro rfl; revert hd; decide
          have h2 : char ≠ '@' := by rintro rfl; revert hd; decide
          exact (deAt_eq_iff h1 h2).1 hcw0
        subst hch
        obtain ⟨h1, h2, h3, h4, h5, h6⟩ := isTeleDigit_ne_letters hd
        simp only [hd, if_true, h5, h6, if_false] at h ⊢
        rw [Grok.teleScan_eq _ (rect_readable hg)] at h
        have hpred : (fun q : Nat × Nat => decide (cellAt v.grid (q.1 : Int) (q.2 : Int) = some ch ∧
            ((q.1 : Int) ≠ v.curR ∨ (q.2 : Int) ≠ v.curC))) =
            (fun q : Nat × Nat => decide (cellAt w.grid (q.1 : Int) (q.2 : Int) = some ch ∧
              ((q.1 : Int) ≠ w.r ∨ (q.2 : Int) ≠ w.c))) := by
          funext q
          have e := cellAt_deAt_iff hrel (x := ch) (by rintro rfl; revert hd; decide)
            (by rintro rfl; revert hd; decide) (q.1 : Int) (q.2 : Int)
          simp only [e, hr, hc]
        rw [hpred] at h
        unfold teleDest
        cases hf : (rowMajor H W).find? (fun q : Nat × Nat =>
            decide (cellAt w.grid (q.1 : Int) (q.2 : Int) = some ch ∧
              ((q.1 : Int) ≠ w.r ∨ (q.2 : Int) ≠ w.c))) with
        | none =>
          simp only [hf, Res.ok.injEq] at h
          subst h
          exact ⟨hr, hc, hb, hi⟩
        | some q =>
          obtain ⟨rR, cC⟩ := q
          simp only [hf, Res.ok.injEq] at h
          subst h
          exact ⟨rfl, rfl, hb, hi⟩
      · have hd' : isTeleDigit char = false := by simpa using hd
        have hdw : isTeleDigit ch = false := by
          unfold deAt at hcw0
          split_ifs at hcw0 with hat
          · subst hat; decide
          · rw [hcw0]; exact hd'
        simp only [hd', Bool.false_eq_true, if_false] at h
        simp only [hdw, Bool.false_eq_true, if_false]
        by_cases hB : char = 'B'
        · have : ch = 'B' := (deAt_eq_iff (by decide) (by decide)).1 (hcw0.trans hB)
          subst hB
          subst this
          simp only [Grok.charToDir] at h
          simp only [show ¬ ('B' = 'N') by decide, show ¬ ('B' = 'S') by decide,
            show ¬ ('B' = 'E') by decide, show ¬ ('B' = 'W') by decide,
            show ¬ ('B' = 'I') by decide, if_false, if_true, Res.ok.injEq] at h
          subst h
          simp [hr, hc, hb, hi]
        by_cases hI : char = 'I'
        · have : ch = 'I' := (deAt_eq_iff (by decide) (by decide)).1 (hcw0.trans hI)
          subst hI
          subst this
          simp only [Grok.charToDir] at h
          simp only [show ¬ ('I' = 'N') by decide, show ¬ ('I' = 'S') by decide,
            show ¬ ('I' = 'E') by decide, show ¬ ('I' = 'W') by decide,
            show ¬ ('I' = 'B') by decide, if_false, if_true, Res.ok.injEq] at h
          subst h
          simp [hr, hc, hb, hi]
        have hBw : ch ≠ 'B' := fun e => hB (by rw [← hcw0, e]; rfl)
        have hIw : ch ≠ 'I' := fun e => hI (by rw [← hcw0, e]; rfl)
        simp only [hBw, hIw, if_false]
        cases hdir : Grok.charToDir char with
        | some dIr =>
          simp only [hdir, Res.ok.injEq] at h
          subst h
          exact ⟨hr, hc, hb, hi⟩
        | none =>
          simp only [hdir, hB, hI, if_false, Res.ok.injEq] at h
          subst h
          exact ⟨hr, hc, hb, hi⟩

/-! ## chatgpt: a run is a replay of its moves -/

theorem Chatgpt.applyTile_plain {tp : Chatgpt.Point → Chatgpt.Point} {n : Nat}
    {s s' : Chatgpt.St} {cell : Char} (hc : cellAt s.grid s.pos.r s.pos.c = some cell)
    (hd : isTeleDigit cell = false) (h : Chatgpt.applyTile tp n s = some (.ok s')) :
    s'.pos = s.pos ∧ s'.grid = s.grid ∧ s'.moves = s.moves ∧ s'.destroyed = s.destroyed ∧
    s'.breaker = (if cell = 'B' then !s.breaker else s.breaker) ∧
    s'.inverted = (if cell = 'I' then !s.inverted else s.inverted) := by
  cases n with
  | zero => simp [Chatgpt.applyTile] at h
  | succ n =>
    rw [Chatgpt.applyTile] at h
    simp only [hc, hd, Bool.false_eq_true, if_false] at h
    by_cases hB : cell = 'B'
    · subst hB
      simp only [show ¬ ('B' = 'S') by decide, show ¬ ('B' = 'E') by decide,
        show ¬ ('B' = 'N') by decide, show ¬ ('B' = 'W') by decide, if_false, if_true,
        Option.some.injEq, Res.ok.injEq] at h
      subst h
      simp
    by_cases hI : cell = 'I'
    · subst hI
      simp only [show ¬ ('I' = 'S') by decide, show ¬ ('I' = 'E') by decide,
        show ¬ ('I' = 'N') by decide, show ¬ ('I' = 'W') by decide,
        show ¬ ('I' = 'B') by decide, if_false, if_true, Option.some.injEq, Res.ok.injEq] at h
      subst h
      simp
    simp only [hB, hI, if_false] at h ⊢
    split_ifs at h <;>
      (simp only [Option.some.injEq, Res.ok.injEq] at h; subst h; exact ⟨rfl, rfl, rfl, rfl, rfl, rfl⟩)

theorem Walk.effect_plain {H W : Nat} {w : Walk} {cell : Char}
    (hc : cellAt w.grid w.r w.c = some cell) (hd : isTeleDigit cell = false) :
    (Walk.effect H W w).breaker = (if cell = 'B' then !w.breaker else w.breaker) ∧
    (Walk.effect H W w).inverted = (if cell = 'I' then !w.inverted else w.inverted) := by
  unfold Walk.effect
  rw [hc]
  simp only [hd, Bool.false_eq_true, if_false]
  by_cases hB : cell = 'B'
  · subst hB
    simp
  by_cases hI : cell = 'I'
  · subst hI
    simp
  simp [hB, hI]

theorem Chatgpt.enter_move {H W : Nat} {s : Chatgpt.St} {we : Walk} (d : Dir)
    (hg : we.grid = s.grid) (hr : we.r = s.pos.r) (hc : we.c = s.pos.c)
    (hb : we.breaker = s.breaker) (hlegal : we.legal = true)
    (hpass : Passable s.grid H W s.breaker (ahead s.pos.r s.pos.c d).1
      (ahead s.pos.r s.pos.c d).2)
    (hdes : ∀ i : Int, i ∈ s.destroyed ↔ ∃ q ∈ we.destroyed, i = q.1 * (W : Int) + q.2) :
    (Walk.move H W we d).grid =
      (Chatgpt.enter W s d ⟨(ahead s.pos.r s.pos.c d).1, (ahead s.pos.r s.pos.c d).2⟩).grid ∧
    (Walk.move H W we d).r = (ahead s.pos.r s.pos.c d).1 ∧
    (Walk.move H W we d).c = (ahead s.pos.r s.pos.c d).2 ∧
    (Walk.move H W we d).breaker = s.breaker ∧
    (Walk.move H W we d).inverted = we.inverted ∧
    (Walk.move H W we d).legal = true ∧
    (∀ i : Int,
      i ∈ (Chatgpt.enter W s d
        ⟨(ahead s.pos.r s.pos.c d).1, (ahead s.pos.r s.pos.c d).2⟩).destroyed ↔
      ∃ q ∈ (Walk.move H W we d).destroyed, i = q.1 * (W : Int) + q.2) := by
  obtain ⟨grid, r, c, facing, breaker, inverted, destroyed, legal⟩ := we
  simp only at hg hr hc hb hlegal hdes
  subst hg hr hc hb hlegal
  unfold Walk.move Chatgpt.enter
  simp only
  by_cases hX : cellAt s.grid (ahead s.pos.r s.pos.c d).1 (ahead s.pos.r s.pos.c d).2 = some 'X' ∧
      s.breaker = true
  · rw [if_pos hX, if_pos hX]
    simp only [Bool.true_and, decide_eq_true_eq]
    refine ⟨trivial, trivial, trivial, trivial, trivial, hpass, ?_⟩
    intro i
    simp only [List.mem_insert_iff, List.mem_cons, exists_eq_or_imp, hdes i]
  · rw [if_neg hX, if_neg hX]
    simp only [Bool.true_and, decide_eq_true_eq]
    exact ⟨trivial, trivial, trivial, trivial, trivial, hpass, hdes⟩

/-! ## The round trip: a successful run is a replay of its path -/

theorem uniqueStart_of_cells {g : Grid} {H W : Nat} {a b : Nat} (hg : Rect g H W)
    (h : cellsWith g H W '@' = [(a, b)]) : UniqueStart g H W (a : Int) (b : Int) := by
  have hmem : (a, b) ∈ cellsWith g H W '@' := by rw [h]; simp
  obtain ⟨h1, h2, h3⟩ := mem_cellsWith.1 hmem
  refine ⟨⟨by simp, by simpa using h1, by simp, by simpa using h2⟩, h3, ?_⟩
  intro r c hc
  obtain ⟨k1, k2, k3, k4⟩ := rect_inGrid hg hc
  have hq : (r.toNat, c.toNat) ∈ cellsWith g H W '@' := by
    refine mem_cellsWith.2 ⟨by simp only; omega, by simp only; omega, ?_⟩
    simp only
    rw [Int.toNat_of_nonneg k1, Int.toNat_of_nonneg k3]
    exact hc
  rw [h] at hq
  simp only [List.mem_singleton, Prod.mk.injEq] at hq
  omega

theorem replayNames_some {H W : Nat} {w0 w : Walk} {p : List String}
    (h : replayNames H W w0 p = some w) : ∃ dirs, w = replay H W w0 dirs := by
  unfold replayNames at h
  cases hp : parsePath p with
  | none => simp [hp] at h
  | some dirs =>
    simp only [hp, Option.map_some', Option.some.injEq] at h
    exact ⟨dirs, h.symm⟩

/-! ## Reading the grid -/

theorem byteLen_oneByte {c : Char} (h : c.toNat < 128) : byteLen c = 1 := by
  simp [byteLen, h]

theorem textLen_oneByte : ∀ (l : List Char), (∀ c ∈ l, c.toNat < 128) → textLen l = l.length := by
  intro l
  induction l with
  | nil => intro _; rfl
  | cons c l ih =>
    intro h
    have h1 := byteLen_oneByte (h c (List.mem_cons_self _ _))
    have h2 := ih (fun x hx => h x (List.mem_cons_of_mem _ hx))
    simp only [textLen, List.map_cons, List.sum_cons, List.length_cons] at h2 ⊢
    omega

theorem runesOfBytes_oneByte : ∀ (l : List Char) (n : Nat), (∀ c ∈ l, c.toNat < 128) →
    runesOfBytes l n = l.take n := by
  intro l
  induction l with
  | nil => intro n _; simp [runesOfBytes]
  | cons c l ih =>
    intro n h
    have h1 := byteLen_oneByte (h c (List.mem_cons_self _ _))
    cases n with
    | zero => simp [runesOfBytes]
    | succ n =>
      simp only [runesOfBytes, h1, Nat.add_one_ne_zero, if_false, Nat.le_add_left, if_true,
        Nat.add_sub_cancel, List.take_succ_cons]
      rw [ih n (fun x hx => h x (List.mem_cons_of_mem _ hx))]

theorem oneByte_padded {l : List Char} (h : ∀ c ∈ l, c.toNat < 128) (k : Nat) :
    ∀ c ∈ l ++ List.replicate k ' ', c.toNat < 128 := by
  intro c hc
  rcases List.mem_append.1 hc with h1 | h1
  · exact h c h1
  · rw [List.eq_of_mem_replicate h1]
    decide

theorem length_padOrCut (W : Nat) (l : List Char) : (padOrCut W l).length = W := by
  simp only [padOrCut, List.length_take, List.length_append, List.length_replicate]
  omega

/-- chatgpt on a line of one-byte characters: the row is the line padded or cut. -/
theorem Chatgpt.loadRow_oneByte_chatgpt (W : Nat) (line : String) (h : OneByte line) :
    Chatgpt.loadRow W line = padOrCut W line.toList := by
  unfold Chatgpt.loadRow padOrCut
  simp only
  rw [textLen_oneByte _ h]
  split_ifs with hlt
  · rw [runesOfBytes_oneByte _ _ (oneByte_padded h _)]
  · rw [runesOfBytes_oneByte _ _ h]
    have : W - line.toList.length = 0 := by omega
    rw [this]
    simp

/-- claude on a line of one-byte characters: the row is the line padded or cut. -/
theorem Claude.loadRow_oneByte_claude (width : Nat) (line : String) (h : OneByte line) :
    Claude.loadRow width line = padOrCut width line.toList := by
  unfold Claude.loadRow padOrCut
  simp only
  rw [textLen_oneByte _ h, textLen_oneByte _ (oneByte_padded h _)]
  split_ifs with hgt
  · rw [runesOfBytes_oneByte _ _ (oneByte_padded h _)]
  · rw [List.take_of_length_le]
    simp only [List.length_append, List.length_replicate] at hgt ⊢
    omega

/-- grok on a line of one-byte characters: the row is the line, as it is. -/
theorem Grok.loadRow_oneByte_grok (line : String) (h : OneByte line) :
    Grok.loadRow line = line.toList := by
  unfold Grok.loadRow
  have : ∀ l : List Char, (∀ c ∈ l, c.toNat < 128) → l.flatMap utf8Bytes = l := by
    intro l
    induction l with
    | nil => intro _; rfl
    | cons c l ih =>
      intro hl
      have hc := hl c (List.mem_cons_self _ _)
      simp only [List.flatMap_cons, utf8Bytes, hc, if_true, List.singleton_append]
      rw [ih (fun x hx => hl x (List.mem_cons_of_mem _ hx))]
  exact this _ h

/-- C14: chatgpt and claude load, from lines of one-byte characters, `H` rows
of exactly `W` cells, each the line extended with trailing blanks or cut to
its first `W` characters (a missing line reads as empty).  grok loads every
line as it is: a line shorter than `W` gives a row shorter than `W`, and on
the input `2 3`, `@`, `  $` its start scan reads `grid[0][1]` beyond the end of
the first row and ends in an index panic, where chatgpt and claude pad the row
and print SOUTH, EAST, EAST.  (chatgpt and claude count bytes: a line with a
two-byte character and `W = 2` is left as one cell.) -/
theorem grid_load :
    (∀ (H W : Nat) (lines : List String), (∀ i, i < H → OneByte (lines.getD i "")) →
      Rect (Chatgpt.loadGrid H W lines) H W ∧
      Chatgpt.loadGrid H W lines =
        (List.range H).map (fun i => padOrCut W (lines.getD i "").toList) ∧
      Claude.loadGrid H W lines = Chatgpt.loadGrid H W lines ∧
      Grok.loadGrid H lines = (List.range H).map (fun i => (lines.getD i "").toList)) ∧
    (∀ (W : Nat) (line : List Char), (padOrCut W line).length = W ∧
      (line.length ≤ W → padOrCut W line = line ++ List.replicate (W - line.length) ' ') ∧
      (W ≤ line.length → padOrCut W line = line.take W)) ∧
    Grok.loadGrid 2 shortLineInput = [['@'], [' ', ' ', '$']] ∧
    ¬ Rect (Grok.loadGrid 2 shortLineInput) 2 3 ∧
    (∀ fuel : Nat, Grok.run fuel 2 3 shortLineInput = some .crash) ∧
    Chatgpt.loadGrid 2 3 shortLineInput = [['@', ' ', ' '], [' ', ' ', '$']] ∧
    Claude.loadGrid 2 3 shortLineInput = [['@', ' ', ' '], [' ', ' ', '$']] ∧
    Chatgpt.run 1 4 2 3 shortLineInput = some (.success ["SOUTH", "EAST", "EAST"]) ∧
    Claude.run 4 2 3 shortLineInput = some (.success ["SOUTH", "EAST", "EAST"]) ∧
    Chatgpt.loadGrid 1 2 ["é"] = [['é']] ∧ Claude.loadGrid 1 2 ["é"] = [['é']] := by
  refine ⟨?_, ?_, by decide, by decide, ?_, by decide, by decide, by decide, by decide,
    by decide, by decide⟩
  · intro H W lines hone
    have hc : Chatgpt.loadGrid H W lines =
        (List.range H).map (fun i => padOrCut W (lines.getD i "").toList) := by
      unfold Chatgpt.loadGrid
      apply List.map_congr_left
      intro i hi
      exact Chatgpt.loadRow_oneByte_chatgpt W _ (hone i (List.mem_range.1 hi))
    refine ⟨?_, hc, ?_, ?_⟩
    · rw [hc]
      constructor
      · simp
      · intro row hrow
        obtain ⟨i, _, rfl⟩ := List.mem_map.1 hrow
        exact length_padOrCut W _
    · rw [hc]
      unfold Claude.loadGrid
      apply List.map_congr_left
      intro i hi
      exact Claude.loadRow_oneByte_claude W _ (hone i (List.mem_range.1 hi))
    · unfold Grok.loadGrid
      apply List.map_congr_left
      intro i hi
      exact Grok.loadRow_oneByte_grok _ (hone i (List.mem_range.1 hi))
  · intro W line
    refine ⟨length_padOrCut W line, ?_, ?_⟩
    · intro h
      unfold padOrCut
      rw [List.take_of_length_le]
      simp only [List.length_append, List.length_replicate]
      omega
    · intro h
      unfold padOrCut
      have : W - line.length = 0 := by omega
      rw [this]
      simp
  · intro fuel
    have h : Grok.findStart (rowMajor 2 3) (Grok.loadGrid 2 shortLineInput, 0, 0) = .crash := by
      decide
    unfold Grok.run Grok.main
    rw [h]

/-- Witness of C14 on the five lines of scenario A, which are one-byte lines
of exactly six characters: the three load loops give the same 5 by 6 grid. -/
theorem grid_load_witness :
    Rect (Chatgpt.loadGrid 5 6 scenarioALines) 5 6 ∧
    Claude.loadGrid 5 6 scenarioALines = Chatgpt.loadGrid 5 6 scenarioALines ∧
    Grok.loadGrid 5 scenarioALines = (List.range 5).map (fun i => (scenarioALines.getD i "").toList) :=
  have h := grid_load.1 5 6 scenarioALines (by
    intro i hi
    interval_cases i <;> decide)
  ⟨h.1, h.2.2.1, h.2.2.2⟩

/-! ## chatgpt: every read is inside the grid -/

theorem Chatgpt.applyTile_safe {tp : Chatgpt.Point → Chatgpt.Point} {H W : Nat}
    (htp : ∀ p, InGrid H W (tp p).r (tp p).c) :
    ∀ (n : Nat) (s : Chatgpt.St), Rect s.grid H W → InGrid H W s.pos.r s.pos.c →
      Chatgpt.applyTile tp n s ≠ some .crash ∧
      ∀ s', Chatgpt.applyTile tp n s = some (.ok s') → InGrid H W s'.pos.r s'.pos.c := by
  intro n
  induction n with
  | zero =>
    intro s _ _
    simp [Chatgpt.applyTile]
  | succ n ih =>
    intro s hg hin
    obtain ⟨cell, hc⟩ := cellAt_of_rect hg hin
    rw [Chatgpt.applyTile]
    simp only [hc]
    split_ifs
    all_goals first
      | exact ih _ hg (htp s.pos)
      | (refine ⟨by simp, ?_⟩
         intro s' h
         simp only [Option.some.injEq, Res.ok.injEq] at h
         subst h
         exact hin)

theorem Chatgpt.scan_total {g : Grid} {H W : Nat} (hg : Rect g H W) (b : Bool)
    (pos : Chatgpt.Point) : ∀ l : List Dir, Chatgpt.scan g H W b pos l ≠ .crash := by
  intro l
  induction l with
  | nil => simp [Chatgpt.scan]
  | cons d l ih =>
    unfold Chatgpt.scan
    rcases Chatgpt.canGo_total hg b (Chatgpt.neighbour pos d) with ⟨h, _⟩ | ⟨h, _⟩
    · simp [h]
    · simpa [h] using ih

theorem Chatgpt.resolve_total {H W : Nat} {s : Chatgpt.St} (hg : Rect s.grid H W) :
    Chatgpt.resolve H W s ≠ .crash := by
  unfold Chatgpt.resolve
  rcases Chatgpt.canGo_total hg s.breaker (Chatgpt.neighbour s.pos s.dir) with ⟨h, _⟩ | ⟨h, _⟩
  · simp [h]
  · simpa [h] using Chatgpt.scan_total hg s.breaker s.pos _

theorem Chatgpt.enter_rect {H W : Nat} {s : Chatgpt.St} (hg : Rect s.grid H W) (d : Dir)
    (next : Chatgpt.Point) :
    Rect (Chatgpt.enter W s d next).grid H W ∧ (Chatgpt.enter W s d next).pos = next := by
  unfold Chatgpt.enter
  simp only
  split_ifs
  · exact ⟨rect_setCell hg _ _ _, trivial⟩
  · exact ⟨hg, trivial⟩

/-- chatgpt: on a rectangular grid, with the robot inside it and `telePair`
mapping into it, a pass of the main loop does not end in a panic, and after it
the robot is inside the grid again. -/
theorem Chatgpt.body_safe {tp : Chatgpt.Point → Chatgpt.Point} {tf H W : Nat}
    (htp : ∀ p, InGrid H W (tp p).r (tp p).c) {s : Chatgpt.St} (hg : Rect s.grid H W)
    (hin : InGrid H W s.pos.r s.pos.c) :
    Chatgpt.body tp tf H W s ≠ some (.halt .crash) ∧
    ∀ s', Chatgpt.body tp tf H W s = some (.next s') →
      Rect s'.grid H W ∧ InGrid H W s'.pos.r s'.pos.c := by
  obtain ⟨here, hc⟩ := cellAt_of_rect hg hin
  unfold Chatgpt.body
  simp only [hc]
  by_cases hgoal : here = '$'
  · simp [hgoal]
  by_cases hvis : Chatgpt.key s ∈ s.visited
  · simp [hgoal, hvis]
  simp only [hgoal, hvis, if_false]
  unfold Chatgpt.advance
  simp only
  have hg1 : Rect ({ s with visited := Chatgpt.key s :: s.visited } : Chatgpt.St).grid H W := hg
  cases hr : Chatgpt.resolve H W { s with visited := Chatgpt.key s :: s.visited } with
  | crash => exact absurd hr (Chatgpt.resolve_total hg1)
  | ok o =>
    cases o with
    | none => simp
    | some dn =>
      obtain ⟨d, next⟩ := dn
      simp only
      obtain ⟨_, hgo⟩ := Chatgpt.resolve_some hr
      have hpass := (Chatgpt.canGo_iff _ _ _ _ _).1 hgo
      obtain ⟨e1, e2⟩ := Chatgpt.enter_rect hg1 d next
      have hin' : InGrid H W (Chatgpt.enter W { s with visited := Chatgpt.key s :: s.visited }
          d next).pos.r (Chatgpt.enter W { s with visited := Chatgpt.key s :: s.visited }
          d next).pos.c := by
        rw [e2]
        exact hpass.1
      obtain ⟨k1, k2⟩ := Chatgpt.applyTile_safe htp tf _ e1 hin'
      unfold Chatgpt.land
      cases ha : Chatgpt.applyTile tp tf
          (Chatgpt.enter W { s with visited := Chatgpt.key s :: s.visited } d next) with
      | none => simp
      | some x =>
        cases x with
        | crash => exact absurd ha k1
        | ok s2 =>
          refine ⟨by simp, ?_⟩
          intro s' h
          simp only [Option.some.injEq, Iter.next.injEq] at h
          subst h
          obtain ⟨f1, _, _, _⟩ := Chatgpt.applyTile_frame tp tf _ _ ha
          exact ⟨by rw [f1]; exact e1, k2 _ ha⟩

/-! ## Two loops that walk the same way print the same -/

theorem iterate_stops {σ : Type} (G : σ → Option (Iter σ)) {m : Nat} {s0 v : σ} {o : Outcome}
    (hm : iterate G m s0 = some v) (hh : G v = some (.halt o)) :
    ∀ (k : Nat) (s : σ), iterate G k s0 = some s → k ≤ m := by
  intro k s hk
  by_contra hlt
  obtain ⟨sk, sk', h1, h2, _⟩ := iterate_before G k s0 s hk m (by omega)
  rw [hm] at h1
  simp only [Option.some.injEq] at h1
  subst h1
  rw [hh] at h2
  simp at h2

theorem iterate_halt_unique {σ : Type} (G : σ → Option (Iter σ)) {m m' : Nat} {s0 v v' : σ}
    {o o' : Outcome} (hm : iterate G m s0 = some v) (hh : G v = some (.halt o))
    (hm' : iterate G m' s0 = some v') (hh' : G v' = some (.halt o')) : o = o' := by
  have h1 := iterate_stops G hm hh m' v' hm'
  have h2 := iterate_stops G hm' hh' m v hm
  have he : m = m' := by omega
  subst he
  rw [hm] at hm'
  simp only [Option.some.injEq] at hm'
  subst hm'
  rw [hh] at hh'
  simpa using hh'

/-- A deterministic loop that comes back to a configuration runs for ever. -/
theorem iterate_forever {σ γ : Type} (G : σ → Option (Iter σ)) (conf : σ → γ)
    (hdet : ∀ a b a', conf a = conf b → G a = some (.next a') →
      ∃ b', G b = some (.next b') ∧ conf a' = conf b')
    {i j : Nat} (hij : i < j) {s0 si sj : σ} (hi : iterate G i s0 = some si)
    (hj : iterate G j s0 = some sj) (hc : conf si = conf sj) :
    ∀ n, ∃ s, iterate G n s0 = some s := by
  intro n
  induction n using Nat.strong_induction_on with
  | _ n ih =>
    by_cases hn : n ≤ j
    · by_cases he : n = j
      · subst he
        exact ⟨sj, hj⟩
      · obtain ⟨sk, _, h1, _, _⟩ := iterate_before G j s0 sj hj n (by omega)
        exact ⟨sk, h1⟩
    · obtain ⟨t, rfl⟩ : ∃ t, n = j + t := ⟨n - j, by omega⟩
      obtain ⟨s, hs⟩ := ih (i + t) (by omega)
      rw [iterate_add, hi] at hs
      simp only [Option.some_bind] at hs
      obtain ⟨b', hb', _⟩ := iterate_conf G conf hdet t si sj s hc hs
      refine ⟨b', ?_⟩
      rw [iterate_add, hj]
      exact hb'

/-- Two loops `bA` and `bB` with visited tests.  If both terminate, a cycle
report of either means that its loop without the visited test (`GA`, `GB`)
runs for ever, and `GB` follows `GA` (each pass of `GA` is matched by passes of
`GB`, and where `GA` halts `GB` halts with the same output), then the two loops
end with the same output. -/
theorem same_output {σ τ : Type} (bA GA : σ → Option (Iter σ)) (bB GB : τ → Option (Iter τ))
    (R : σ → τ → Prop) (a0 : σ) (b0 : τ)
    (hAn : ∀ s s', bA s = some (.next s') → GA s = some (.next s'))
    (hAh : ∀ s o, bA s = some (.halt o) → o ≠ .cycle → GA s = some (.halt o))
    (hBn : ∀ s s', bB s = some (.next s') → GB s = some (.next s'))
    (hBh : ∀ s o, bB s = some (.halt o) → o ≠ .cycle → GB s = some (.halt o))
    (hAc : ∀ n sn, iterate bA n a0 = some sn → bA sn = some (.halt .cycle) →
      ∀ m, ∃ s, iterate GA m a0 = some s)
    (hBc : ∀ n sn, iterate bB n b0 = some sn → bB sn = some (.halt .cycle) →
      ∀ m, ∃ s, iterate GB m b0 = some s)
    (hsim : ∀ n s, iterate GA n a0 = some s →
      ∃ m v, n ≤ m ∧ iterate GB m b0 = some v ∧ R s v)
    (hhalt : ∀ s v o, R s v → GA s = some (.halt o) → o ≠ .crash →
      ∃ o', GB v = some (.halt o') ∧ o'.output = o.output)
    {nA : Nat} {sA : σ} {oA : Outcome} (hA : iterate bA nA a0 = some sA)
    (hA' : bA sA = some (.halt oA)) (hAk : oA ≠ .crash)
    {nB : Nat} {sB : τ} {oB : Outcome} (hB : iterate bB nB b0 = some sB)
    (hB' : bB sB = some (.halt oB)) :
    oA.output = oB.output := by
  have hGA := iterate_mono bA GA hAn nA a0 sA hA
  have hGB := iterate_mono bB GB hBn nB b0 sB hB
  by_cases hcA : oA = .cycle
  · subst hcA
    by_cases hcB : oB = .cycle
    · subst hcB; rfl
    · exfalso
      obtain ⟨s, hs⟩ := hAc nA sA hA hA' (nB + 1)
      obtain ⟨m, v, hm, hv, _⟩ := hsim _ _ hs
      have := iterate_stops GB hGB (hBh sB oB hB' hcB) m v hv
      omega
  · have hGA' := hAh sA oA hA' hcA
    obtain ⟨m, v, _, hv, hR⟩ := hsim _ _ hGA
    obtain ⟨o', ho', hout⟩ := hhalt sA v oA hR hGA' hAk
    by_cases hcB : oB = .cycle
    · exfalso
      subst hcB
      obtain ⟨s, hs⟩ := hBc nB sB hB hB' (m + 1)
      have := iterate_stops GB hv ho' (m + 1) s hs
      omega
    · have := iterate_halt_unique GB hGB (hBh sB oB hB' hcB) hv ho'
      rw [this, hout]

/-! ## chatgpt: termination on a grid without digits -/

theorem noDigits_cell {g : Grid} {H W : Nat} (hg : Rect g H W) (hn : NoDigits g H W)
    {r c : Int} {ch : Char} (hc : cellAt g r c = some ch) : isTeleDigit ch = false := by
  by_contra hd
  have hd' : isTeleDigit ch = true := by simpa using hd
  obtain ⟨h1, h2, h3, h4⟩ := rect_inGrid hg hc
  have hq : (r.toNat, c.toNat) ∈ cellsWith g H W ch := by
    refine mem_cellsWith.2 ⟨by simp only; omega, by simp only; omega, ?_⟩
    simp only
    rw [Int.toNat_of_nonneg h1, Int.toNat_of_nonneg h3]
    exact hc
  rw [hn ch ((mem_teleDigits_iff ch).2 hd')] at hq
  simp at hq

theorem Chatgpt.tracks_noDigit {g0 : Grid} {H W : Nat} (hg0 : Rect g0 H W)
    (hn : NoDigits g0 H W) {s : Chatgpt.St} (ht : Chatgpt.Tracks g0 H W s) {r c : Int}
    {ch : Char} (hc : cellAt s.grid r c = some ch) : isTeleDigit ch = false := by
  have hin := rect_inGrid ht.1 hc
  rw [ht.2 r c hin] at hc
  split_ifs at hc
  · simp only [Option.some.injEq] at hc
    subst hc
    decide
  · exact noDigits_cell hg0 hn hc

theorem Chatgpt.sig_eq {l : List Int} (hl : l.Nodup) :
    Chatgpt.makeDestroyedSig l = l.toFinset.sort (fun a b => a ≤ b) := by
  unfold Chatgpt.makeDestroyedSig
  apply List.eq_of_perm_of_sorted (r := fun a b : Int => a ≤ b)
  · refine (List.perm_insertionSort _ l).trans ?_
    apply Multiset.coe_eq_coe.1
    rw [Finset.sort_eq, List.toFinset_val, List.Nodup.dedup hl]
  · exact List.sorted_insertionSort _ l
  · exact Finset.sort_sorted _ _

theorem Chatgpt.mem_keySpace_chatgpt {g0 : Grid} {H W : Nat} {s : Chatgpt.St}
    (hs : Chatgpt.Steady g0 H W s) : Chatgpt.key s ∈ Chatgpt.keySpace H W := by
  obtain ⟨_, ⟨h1, h2, h3, h4⟩, hnd, hrange⟩ := hs
  unfold Chatgpt.keySpace
  rw [Finset.mem_image]
  refine ⟨(s.pos.r.toNat, s.pos.c.toNat, s.dir, s.breaker, s.inverted, s.destroyed.toFinset),
    ?_, ?_⟩
  · simp only [Finset.mem_product, Finset.mem_range, Finset.mem_univ, Finset.mem_powerset,
      and_true, true_and]
    refine ⟨by omega, by omega, ?_⟩
    intro i hi
    rw [List.mem_toFinset] at hi
    rw [Finset.mem_Ico]
    exact hrange i hi
  · simp only [Chatgpt.key, Chatgpt.sig_eq hnd, Int.toNat_of_nonneg h1, Int.toNat_of_nonneg h3]

theorem Chatgpt.enter_steady {g0 : Grid} {H W : Nat} {s : Chatgpt.St}
    (hs : Chatgpt.Steady g0 H W s) (d : Dir) (next : Chatgpt.Point)
    (hp : Passable s.grid H W s.breaker next.r next.c) :
    Chatgpt.Steady g0 H W (Chatgpt.enter W s d next) := by
  obtain ⟨ht, _, hnd, hrange⟩ := hs
  refine ⟨Chatgpt.enter_tracks ht d next hp, ?_, ?_, ?_⟩
  · rw [(Chatgpt.enter_rect ht.1 d next).2]
    exact hp.1
  · unfold Chatgpt.enter
    simp only
    split_ifs
    · exact hnd.insert
    · exact hnd
  · unfold Chatgpt.enter
    simp only
    split_ifs
    · intro i hi
      rcases List.mem_insert_iff.1 hi with rfl | hi
      · obtain ⟨h1, h2, h3, h4⟩ := hp.1
        constructor
        · positivity
        · have : next.r + 1 ≤ (H : Int) := by omega
          nlinarith [mul_le_mul_of_nonneg_right this (by omega : (0 : Int) ≤ (W : Int))]
      · exact hrange i hi
    · exact hrange

theorem Chatgpt.applyTile_once {tp : Chatgpt.Point → Chatgpt.Point} {s : Chatgpt.St}
    {cell : Char} (hc : cellAt s.grid s.pos.r s.pos.c = some cell)
    (hd : isTeleDigit cell = false) (n : Nat) :
    ∃ s', Chatgpt.applyTile tp (n + 1) s = some (.ok s') := by
  rw [Chatgpt.applyTile]
  simp only [hc, hd, Bool.false_eq_true, if_false]
  split_ifs <;> exact ⟨_, rfl⟩

/-- chatgpt on a grid without digits: a pass of the main loop keeps the
variables well placed and records a key not recorded before. -/
theorem Chatgpt.body_steady {g0 : Grid} {H W : Nat} (hg0 : Rect g0 H W)
    {tp : Chatgpt.Point → Chatgpt.Point} {tf : Nat} {s s' : Chatgpt.St}
    (hn : NoDigits g0 H W) (hs : Chatgpt.Steady g0 H W s)
    (h : Chatgpt.body tp tf H W s = some (.next s')) :
    Chatgpt.Steady g0 H W s' ∧ Chatgpt.key s ∉ s.visited ∧
      s'.visited = Chatgpt.key s :: s.visited ∧ Chatgpt.key s ∈ Chatgpt.keySpace H W := by
  obtain ⟨hadv, hvis, _, _⟩ := Chatgpt.body_next_chatgpt h
  obtain ⟨d, hp, ha⟩ := Chatgpt.advance_next_chatgpt hadv
  have hs1 : Chatgpt.Steady g0 H W { s with visited := Chatgpt.key s :: s.visited } := hs
  have he := Chatgpt.enter_steady hs1 d
    ⟨(ahead s.pos.r s.pos.c d).1, (ahead s.pos.r s.pos.c d).2⟩ hp
  have hev : (Chatgpt.enter W { s with visited := Chatgpt.key s :: s.visited } d
      ⟨(ahead s.pos.r s.pos.c d).1, (ahead s.pos.r s.pos.c d).2⟩).visited =
      Chatgpt.key s :: s.visited := by
    unfold Chatgpt.enter
    simp only
    split_ifs <;> rfl
  generalize Chatgpt.enter W { s with visited := Chatgpt.key s :: s.visited } d
      ⟨(ahead s.pos.r s.pos.c d).1, (ahead s.pos.r s.pos.c d).2⟩ = e at *
  obtain ⟨cell, hcell⟩ := cellAt_of_rect he.1.1 he.2.1
  have hd := Chatgpt.tracks_noDigit hg0 hn he.1 hcell
  obtain ⟨a1, a2, _, a4, _, _⟩ := Chatgpt.applyTile_plain hcell hd ha
  obtain ⟨_, _, a3, _⟩ := Chatgpt.applyTile_frame tp tf _ _ ha
  refine ⟨?_, hvis, by rw [a3, hev], Chatgpt.mem_keySpace_chatgpt hs⟩
  obtain ⟨⟨t1, t2⟩, t3, t4, t5⟩ := he
  exact ⟨⟨by rw [a2]; exact t1, by rw [a2, a4]; exact t2⟩, by rw [a1]; exact t3,
    by rw [a4]; exact t4, by rw [a4]; exact t5⟩

theorem Chatgpt.body_returns {g0 : Grid} {H W : Nat} (hg0 : Rect g0 H W)
    (tp : Chatgpt.Point → Chatgpt.Point) (n : Nat) {s : Chatgpt.St}
    (hn : NoDigits g0 H W) (hs : Chatgpt.Steady g0 H W s) :
    ∃ x, Chatgpt.body tp (n + 1) H W s = some x := by
  unfold Chatgpt.body
  cases cellAt s.grid s.pos.r s.pos.c with
  | none => exact ⟨_, rfl⟩
  | some here =>
    simp only
    split_ifs
    · exact ⟨_, rfl⟩
    · exact ⟨_, rfl⟩
    · unfold Chatgpt.advance
      simp only
      cases hr : Chatgpt.resolve H W { s with visited := Chatgpt.key s :: s.visited } with
      | crash => exact ⟨_, rfl⟩
      | ok o =>
        cases o with
        | none => exact ⟨_, rfl⟩
        | some dn =>
          obtain ⟨d, next⟩ := dn
          simp only
          obtain ⟨_, hgo⟩ := Chatgpt.resolve_some hr
          have hp := (Chatgpt.canGo_iff _ _ _ _ _).1 hgo
          have hs1 : Chatgpt.Steady g0 H W { s with visited := Chatgpt.key s :: s.visited } := hs
          have he := Chatgpt.enter_steady hs1 d next hp
          obtain ⟨cell, hcell⟩ := cellAt_of_rect he.1.1 he.2.1
          have hd := Chatgpt.tracks_noDigit hg0 hn he.1 hcell
          obtain ⟨s2, hs2⟩ := @Chatgpt.applyTile_once tp _ _ hcell hd n
          exact ⟨.next s2, by simp [Chatgpt.land, hs2]⟩

/-- chatgpt on a rectangular grid with one `@` and no digit: the variables
with which the main loop starts. -/
theorem Chatgpt.initial_steady {g : Grid} {H W : Nat} {sr sc : Int} (hg : Rect g H W)
    (hu : UniqueStart g H W sr sc) (tp : Chatgpt.Point → Chatgpt.Point) (n : Nat) :
    Chatgpt.applyTile tp (n + 1) (Chatgpt.initial g) = some (.ok (Chatgpt.initial g)) ∧
    (Chatgpt.initial g).pos = ⟨sr, sc⟩ ∧ Chatgpt.Steady g H W (Chatgpt.initial g) := by
  have hstart := Chatgpt.findStart_unique_chatgpt hg hu
  have hpos : (Chatgpt.initial g).pos = ⟨sr, sc⟩ := by simp [Chatgpt.initial, hstart]
  have hcell : cellAt (Chatgpt.initial g).grid (Chatgpt.initial g).pos.r
      (Chatgpt.initial g).pos.c = some '@' := by
    rw [hpos]
    exact hu.2.1
  refine ⟨?_, hpos, ⟨hg, ?_⟩, ?_, List.nodup_nil, by simp [Chatgpt.initial]⟩
  · rw [Chatgpt.applyTile]
    simp only [hcell]
    rfl
  · intro r c _
    simp [Chatgpt.initial]
  · rw [hpos]
    exact hu.1

/-- chatgpt on a rectangular grid with one `@` and no digit: the main loop
halts, not by a panic, and `runSolver` returns its outcome as soon as
`applyTile` may make one pass and the main loop enough passes. -/
theorem Chatgpt.terminates_chatgpt {g : Grid} {H W : Nat} {sr sc : Int} (hg : Rect g H W)
    (hu : UniqueStart g H W sr sc) (hn : NoDigits g H W) :
    ∃ n s o, iterate (Chatgpt.body (Chatgpt.telePair g) 1 H W) n (Chatgpt.initial g) = some s ∧
      Chatgpt.body (Chatgpt.telePair g) 1 H W s = some (.halt o) ∧ o ≠ .crash ∧
      ∀ k j : Nat, Chatgpt.runSolver (1 + k) (n + 1 + j) H W g = some o := by
  obtain ⟨h0, _, hst⟩ := Chatgpt.initial_steady hg hu (Chatgpt.telePair g) 0
  obtain ⟨hH, hW, _, _, _⟩ := uniqueStart_pos hu
  obtain ⟨n, s, o, h1, h2, h3, _, _, _, _⟩ :=
    drive_terminates (Chatgpt.body (Chatgpt.telePair g) 1 H W) (fun s => s.visited)
      Chatgpt.key (Chatgpt.Steady g H W) (Chatgpt.keySpace H W)
      (fun s hs => Chatgpt.body_returns hg _ 0 hn hs)
      (fun s s' hs h => Chatgpt.body_steady hg hn hs h)
      (Chatgpt.initial g) hst rfl
  have hsafe := (@Chatgpt.body_safe _ 1 H W (Chatgpt.telePair_inGrid hg hH hW) _ h2.1.1 h2.2.1).1
  refine ⟨n, s, o, h1, h3, ?_, ?_⟩
  · rintro rfl
    exact hsafe h3
  · intro k j
    have hrun : Chatgpt.runSolver 1 (n + 1) H W g = some o := by
      unfold Chatgpt.runSolver
      rw [h0]
      exact drive_of_iterate _ n _ s o h1 h3 (n + 1) (by omega)
    exact Chatgpt.runSolver_mono hrun k j

/-! ## The loops without their visited test -/

theorem iterate_succ_inv {σ : Type} (G : σ → Option (Iter σ)) {n : Nat} {s0 s' : σ}
    (h : iterate G (n + 1) s0 = some s') :
    ∃ s, iterate G n s0 = some s ∧ G s = some (.next s') := by
  obtain ⟨sk, sk', h1, h2, h3⟩ := iterate_before G (n + 1) s0 s' h n (by omega)
  have : n + 1 - n = 1 := by omega
  rw [this] at h3
  simp only [iterate, h2, Option.some.injEq] at h3
  subst h3
  exact ⟨sk, h1, h2⟩

/-- When every pass of `GA` is matched by one or more passes of `GB`, every
run of `GA` is matched by a run of `GB` that is at least as long. -/
theorem iterate_follow {σ τ : Type} (GA : σ → Option (Iter σ)) (GB : τ → Option (Iter τ))
    (R : σ → τ → Prop) (a0 : σ) (b0 : τ) (h0 : R a0 b0)
    (hstep : ∀ s v s', R s v → GA s = some (.next s') →
      ∃ k v', 1 ≤ k ∧ iterate GB k v = some v' ∧ R s' v') :
    ∀ n s, iterate GA n a0 = some s → ∃ m v, n ≤ m ∧ iterate GB m b0 = some v ∧ R s v := by
  intro n
  induction n with
  | zero =>
    intro s h
    simp only [iterate, Option.some.injEq] at h
    subst h
    exact ⟨0, b0, le_refl _, rfl, h0⟩
  | succ n ih =>
    intro s' h
    obtain ⟨s, h1, h2⟩ := iterate_succ_inv GA h
    obtain ⟨m, v, hm, hv, hR⟩ := ih s h1
    obtain ⟨k, v', hk, hv', hR'⟩ := hstep s v s' hR h2
    refine ⟨m + k, v', by omega, ?_, hR'⟩
    rw [iterate_add, hv]
    exact hv'

/-! ### chatgpt -/

theorem Chatgpt.plain_of_next_chatgpt {tp : Chatgpt.Point → Chatgpt.Point} {tf H W : Nat}
    {s s' : Chatgpt.St} (h : Chatgpt.body tp tf H W s = some (.next s')) :
    Chatgpt.plainBody tp tf H W s = some (.next s') := by
  obtain ⟨hadv, _, hgoal, hsome⟩ := Chatgpt.body_next_chatgpt h
  unfold Chatgpt.plainBody
  cases hc : cellAt s.grid s.pos.r s.pos.c with
  | none => simp [hc] at hsome
  | some here =>
    have : here ≠ '$' := fun e => hgoal (by rw [hc, e])
    simp only [this, if_false]
    exact hadv

theorem Chatgpt.plain_of_halt_chatgpt {tp : Chatgpt.Point → Chatgpt.Point} {tf H W : Nat}
    {s : Chatgpt.St} {o : Outcome} (h : Chatgpt.body tp tf H W s = some (.halt o))
    (ho : o ≠ .cycle) : Chatgpt.plainBody tp tf H W s = some (.halt o) := by
  unfold Chatgpt.body at h
  unfold Chatgpt.plainBody
  cases hc : cellAt s.grid s.pos.r s.pos.c with
  | none => simpa [hc] using h
  | some here =>
    simp only [hc] at h ⊢
    by_cases hgoal : here = '$'
    · simpa [hgoal] using h
    · simp only [hgoal, if_false] at h ⊢
      by_cases hvis : Chatgpt.key s ∈ s.visited
      · simp only [hvis, if_true, Option.some.injEq, Iter.halt.injEq] at h
        exact absurd h.symm ho
      · simpa [hvis] using h

theorem Chatgpt.plain_conf_chatgpt {tp : Chatgpt.Point → Chatgpt.Point} {tf H W : Nat}
    {a b a' : Chatgpt.St} (hc : Chatgpt.conf a = Chatgpt.conf b)
    (h : Chatgpt.plainBody tp tf H W a = some (.next a')) :
    ∃ b', Chatgpt.plainBody tp tf H W b = some (.next b') ∧
      Chatgpt.conf a' = Chatgpt.conf b' := by
  have hc' := hc
  simp only [Chatgpt.conf, Prod.mk.injEq] at hc'
  obtain ⟨e1, _, _, _, e5⟩ := hc'
  unfold Chatgpt.plainBody at h ⊢
  rw [← e1, ← e5]
  cases hcell : cellAt a.grid a.pos.r a.pos.c with
  | none => simp [hcell] at h
  | some here =>
    simp only [hcell] at h ⊢
    by_cases hgoal : here = '$'
    · simp [hgoal] at h
    · simp only [hgoal, if_false] at h ⊢
      exact Chatgpt.advance_conf_chatgpt hc h

/-- chatgpt: when the visited test ends the run, the loop without that test
runs for ever. -/
theorem Chatgpt.cycle_forever_chatgpt {tf H W : Nat} {g : Grid} (hg : Rect g H W)
    (tp : Chatgpt.Point → Chatgpt.Point) {s0 : Chatgpt.St}
    (h0 : Chatgpt.applyTile tp tf (Chatgpt.initial g) = some (.ok s0)) {n : Nat}
    {sn : Chatgpt.St} (hn : iterate (Chatgpt.body tp tf H W) n s0 = some sn)
    (hc : Chatgpt.body tp tf H W sn = some (.halt .cycle)) :
    ∀ m, ∃ s, iterate (Chatgpt.plainBody tp tf H W) m s0 = some s := by
  have hd := drive_of_iterate _ n s0 sn .cycle hn hc (n + 1) (by omega)
  obtain ⟨i, j, si, sj, hij, hi, hj, _, hconf⟩ :=
    (Chatgpt.cycle_sound_chatgpt hg tp s0 h0 (n + 1)).1 hd
  exact iterate_forever (Chatgpt.plainBody tp tf H W) Chatgpt.conf
    (fun a b a' hc h => Chatgpt.plain_conf_chatgpt hc h) hij
    (iterate_mono _ _ (fun s s' h => Chatgpt.plain_of_next_chatgpt h) i s0 si hi)
    (iterate_mono _ _ (fun s s' h => Chatgpt.plain_of_next_chatgpt h) j s0 sj hj) hconf

/-! ### grok -/

theorem Grok.plain_of_next_grok {H W : Nat} {v v' : Grok.Vars} (h : Grok.body H W v = .next v') :
    Grok.plainBody H W v = .next v' := by
  obtain ⟨hadv, _, hgoal, hsome⟩ := Grok.body_next_grok h
  unfold Grok.plainBody
  cases hc : cellAt v.grid v.curR v.curC with
  | none => simp [hc] at hsome
  | some here =>
    have : here ≠ '$' := fun e => hgoal (by rw [hc, e])
    simp only [this, if_false]
    exact hadv

theorem Grok.plain_of_halt_grok {H W : Nat} {v : Grok.Vars} {o : Outcome}
    (h : Grok.body H W v = .halt o) (ho : o ≠ .cycle) : Grok.plainBody H W v = .halt o := by
  unfold Grok.body at h
  unfold Grok.plainBody
  cases hc : cellAt v.grid v.curR v.curC with
  | none => simpa [hc] using h
  | some here =>
    simp only [hc] at h ⊢
    by_cases hgoal : here = '$'
    · simpa [hgoal] using h
    · simp only [hgoal, if_false] at h ⊢
      by_cases hvis : Grok.stateOf v ∈ v.visited
      · simp only [hvis, if_true, Iter.halt.injEq] at h
        exact absurd h.symm ho
      · simpa [hvis] using h

theorem Grok.plain_conf_grok {H W : Nat} {a b a' : Grok.Vars} (hc : Grok.conf a = Grok.conf b)
    (h : Grok.plainBody H W a = .next a') :
    ∃ b', Grok.plainBody H W b = .next b' ∧ Grok.conf a' = Grok.conf b' := by
  have hc' := hc
  simp only [Grok.conf, Prod.mk.injEq] at hc'
  obtain ⟨e1, e2, _, _, _, e6⟩ := hc'
  unfold Grok.plainBody at h ⊢
  rw [← e1, ← e2, ← e6]
  cases hcell : cellAt a.grid a.curR a.curC with
  | none => simp [hcell] at h
  | some here =>
    simp only [hcell] at h ⊢
    by_cases hgoal : here = '$'
    · simp [hgoal] at h
    · simp only [hgoal, if_false] at h ⊢
      exact Grok.advance_conf_grok hc h

/-- grok: when the visited test ends the run, the loop without that test runs
for ever. -/
theorem Grok.cycle_forever_grok {H W : Nat} {g : Grid} (hg : Rect g H W) (sr sc : Int) {n : Nat}
    {vn : Grok.Vars}
    (hn : iterate (fun v => some (Grok.body H W v)) n (Grok.initial g sr sc) = some vn)
    (hc : Grok.body H W vn = .halt .cycle) :
    ∀ m, ∃ v, iterate (fun v => some (Grok.plainBody H W v)) m (Grok.initial g sr sc) =
      some v := by
  have hd := drive_of_iterate (fun v => some (Grok.body H W v)) n _ vn .cycle hn
    (by simp only [hc]) (n + 1) (by omega)
  obtain ⟨i, j, vi, vj, hij, hi, hj, _, hconf⟩ := (Grok.cycle_sound_grok hg sr sc (n + 1)).1 hd
  have hmono : ∀ s s', (fun v => some (Grok.body H W v)) s = some (.next s') →
      (fun v => some (Grok.plainBody H W v)) s = some (.next s') := by
    intro s s' h
    simp only [Option.some.injEq] at h
    simp only [Grok.plain_of_next_grok h]
  exact iterate_forever (fun v => some (Grok.plainBody H W v)) Grok.conf
    (by
      intro a b a' hc h
      simp only [Option.some.injEq] at h
      obtain ⟨b', hb', hcb⟩ := Grok.plain_conf_grok hc h
      exact ⟨b', by simp only [hb'], hcb⟩) hij
    (iterate_mono _ _ hmono i _ vi hi) (iterate_mono _ _ hmono j _ vj hj) hconf

/-! ## grok follows chatgpt on a grid without digits -/

theorem Chatgpt.scan_firstOf {g : Grid} {H W : Nat} (hg : Rect g H W) {b : Bool}
    {pos : Chatgpt.Point} :
    ∀ (l : List Dir) (d : Dir) (next : Chatgpt.Point),
      Chatgpt.scan g H W b pos l = .ok (some (d, next)) →
      FirstOf l (OpenTo g H W b pos.r pos.c) d := by
  intro l
  induction l with
  | nil => intro d next h; simp [Chatgpt.scan] at h
  | cons e l ih =>
    intro d next h
    unfold Chatgpt.scan at h
    have hopen : OpenTo g H W b pos.r pos.c e ↔
        Passable g H W b (Chatgpt.neighbour pos e).r (Chatgpt.neighbour pos e).c := by
      rw [Chatgpt.neighbour_eq]
      rfl
    rcases Chatgpt.canGo_total hg b (Chatgpt.neighbour pos e) with ⟨hgo, hp⟩ | ⟨hgo, hp⟩
    · simp only [hgo, Res.ok.injEq, Option.some.injEq, Prod.mk.injEq] at h
      obtain ⟨rfl, _⟩ := h
      exact ⟨[], l, rfl, hopen.2 hp, by simp⟩
    · simp only [hgo] at h
      obtain ⟨pre, post, h1, h2, h3⟩ := ih d next h
      refine ⟨e :: pre, post, by rw [h1]; rfl, h2, ?_⟩
      intro x hx
      rcases List.mem_cons.1 hx with rfl | hx
      · exact fun ho => hp (hopen.1 ho)
      · exact h3 x hx

/-- chatgpt on a rectangular grid: the direction travelled is the facing when
the cell ahead is open, else the first open direction of the priority order. -/
theorem Chatgpt.resolve_cases {H W : Nat} {s : Chatgpt.St} (hg : Rect s.grid H W) {d : Dir}
    {next : Chatgpt.Point} (h : Chatgpt.resolve H W s = .ok (some (d, next))) :
    (OpenTo s.grid H W s.breaker s.pos.r s.pos.c s.dir ∧ d = s.dir) ∨
    (¬ OpenTo s.grid H W s.breaker s.pos.r s.pos.c s.dir ∧
      FirstOf (priorityOrder s.inverted) (OpenTo s.grid H W s.breaker s.pos.r s.pos.c) d) := by
  by_cases ho : OpenTo s.grid H W s.breaker s.pos.r s.pos.c s.dir
  · left
    rw [Chatgpt.resolve_open s ho] at h
    simp only [Res.ok.injEq, Option.some.injEq, Prod.mk.injEq] at h
    exact ⟨ho, h.1.symm⟩
  · right
    refine ⟨ho, ?_⟩
    have hno : ¬ Passable s.grid H W s.breaker (Chatgpt.neighbour s.pos s.dir).r
        (Chatgpt.neighbour s.pos s.dir).c := by
      rw [Chatgpt.neighbour_eq]
      exact ho
    unfold Chatgpt.resolve at h
    rcases Chatgpt.canGo_total hg s.breaker (Chatgpt.neighbour s.pos s.dir) with
      ⟨_, hp⟩ | ⟨hgo, _⟩
    · exact absurd hp hno
    · simp only [hgo] at h
      rw [priorityOrder_chatgpt] at h
      exact Chatgpt.scan_firstOf hg _ _ _ h

theorem openTo_deAt {g g' : Grid} (hrel : ∀ x y : Int, cellAt g' x y = (cellAt g x y).map deAt)
    (H W : Nat) (b : Bool) (r c : Int) (d : Dir) :
    OpenTo g' H W b r c d ↔ OpenTo g H W b r c d :=
  passable_deAt hrel H W b _ _

/-- The tile that chatgpt applies on landing and the effect that grok applies
after its move change the variables alike. -/
theorem Chatgpt.tile_match {tp : Chatgpt.Point → Chatgpt.Point} {tf H W : Nat}
    {e s' : Chatgpt.St} {v2 : Grok.Vars} (hm : Chatgpt.Matches H W e v2)
    (h : Chatgpt.applyTile tp tf e = some (.ok s')) :
    ∃ v', Grok.applyEffect H W v2 = .ok v' ∧ Chatgpt.Matches H W s' v' := by
  obtain ⟨hge, hgv, hin, hrel, hnd, hr, hc, hd, hb, hi, hp⟩ := hm
  obtain ⟨cell, hcell⟩ := cellAt_of_rect hge hin
  have hdig := hnd _ _ _ hcell
  have hcv : cellAt v2.grid v2.curR v2.curC = some (deAt cell) := by
    rw [hr, hc, hrel, hcell]
    rfl
  have hdig' : isTeleDigit (deAt cell) = false := by
    unfold deAt
    split_ifs
    · decide
    · exact hdig
  cases tf with
  | zero => simp [Chatgpt.applyTile] at h
  | succ n =>
    rw [Chatgpt.applyTile] at h
    simp only [hcell, hdig, Bool.false_eq_true, if_false] at h
    unfold Grok.applyEffect
    simp only [hcv, hdig', Bool.false_eq_true, if_false]
    have hfin : ∀ (s'' : Chatgpt.St) (v'' : Grok.Vars), s''.grid = e.grid → s''.pos = e.pos →
        s''.moves = e.moves → v''.grid = v2.grid → v''.curR = v2.curR → v''.curC = v2.curC →
        v''.path = v2.path → v''.curDir = s''.dir → v''.curBreaker = s''.breaker →
        v''.curInv = s''.inverted → Chatgpt.Matches H W s'' v'' := by
      intro s'' v'' a1 a2 a3 a4 a5 a6 a7 a8 a9 a10
      exact ⟨by rw [a1]; exact hge, by rw [a4]; exact hgv, by rw [a2]; exact hin,
        by rw [a1, a4]; exact hrel, by rw [a1]; exact hnd, by rw [a5, a2]; exact hr,
        by rw [a6, a2]; exact hc, a8, a9, a10, by rw [a7, a3]; exact hp⟩
    by_cases h1 : cell = 'S'
    · subst h1
      simp only [if_true, Option.some.injEq, Res.ok.injEq] at h
      subst h
      exact ⟨{ v2 with curDir := .SOUTH }, by simp [deAt, Grok.charToDir],
        hfin _ _ rfl rfl rfl rfl rfl rfl rfl rfl hb hi⟩
    by_cases h2 : cell = 'E'
    · subst h2
      simp only [h1, if_false, if_true, Option.some.injEq, Res.ok.injEq] at h
      subst h
      exact ⟨{ v2 with curDir := .EAST }, by simp [deAt, Grok.charToDir],
        hfin _ _ rfl rfl rfl rfl rfl rfl rfl rfl hb hi⟩
    by_cases h3 : cell = 'N'
    · subst h3
      simp only [h1, h2, if_false, if_true, Option.some.injEq, Res.ok.injEq] at h
      subst h
      exact ⟨{ v2 with curDir := .NORTH }, by simp [deAt, Grok.charToDir],
        hfin _ _ rfl rfl rfl rfl rfl rfl rfl rfl hb hi⟩
    by_cases h4 : cell = 'W'
    · subst h4
      simp only [h1, h2, h3, if_false, if_true, Option.some.injEq, Res.ok.injEq] at h
      subst h
      exact ⟨{ v2 with curDir := .WEST }, by simp [deAt, Grok.charToDir],
        hfin _ _ rfl rfl rfl rfl rfl rfl rfl rfl hb hi⟩
    by_cases h5 : cell = 'B'
    · subst h5
      simp only [h1, h2, h3, h4, if_false, if_true, Option.some.injEq, Res.ok.injEq] at h
      subst h
      exact ⟨{ v2 with curBreaker := !v2.curBreaker }, by simp [deAt, Grok.charToDir],
        hfin _ _ rfl rfl rfl rfl rfl rfl rfl hd (by simp [hb]) hi⟩
    by_cases h6 : cell = 'I'
    · subst h6
      simp only [h1, h2, h3, h4, h5, if_false, if_true, Option.some.injEq, Res.ok.injEq] at h
      subst h
      exact ⟨{ v2 with curInv := !v2.curInv }, by simp [deAt, Grok.charToDir],
        hfin _ _ rfl rfl rfl rfl rfl rfl rfl hd hb (by simp [hi])⟩
    simp only [h1, h2, h3, h4, h5, h6, if_false, Option.some.injEq, Res.ok.injEq] at h
    subst h
    have hk : ∀ x : Char, x ≠ ' ' → x ≠ '@' → cell ≠ x → deAt cell ≠ x := by
      intro x hx hx' hne he
      exact hne ((deAt_eq_iff hx hx').1 he)
    have k1 := hk 'S' (by decide) (by decide) h1
    have k2 := hk 'E' (by decide) (by decide) h2
    have k3 := hk 'N' (by decide) (by decide) h3
    have k4 := hk 'W' (by decide) (by decide) h4
    have k5 := hk 'B' (by decide) (by decide) h5
    have k6 := hk 'I' (by decide) (by decide) h6
    exact ⟨v2, by simp [Grok.charToDir, k1, k2, k3, k4, k5, k6],
      hfin _ _ rfl rfl rfl rfl rfl rfl rfl hd hb hi⟩

theorem Chatgpt.enter_dir (W : Nat) (s : Chatgpt.St) (d0 d : Dir) (next : Chatgpt.Point) :
    Chatgpt.enter W { s with dir := d0 } d next = Chatgpt.enter W s d next := by
  unfold Chatgpt.enter
  simp only
  split_ifs <;> rfl

/-- The move of chatgpt and the move of grok, in the same direction into a
passable cell, leave the two solvers standing alike. -/
theorem Chatgpt.move_match {tp : Chatgpt.Point → Chatgpt.Point} {tf H W : Nat}
    {s s' : Chatgpt.St} {v : Grok.Vars} (hm : Chatgpt.Matches H W s v)
    (hopen : OpenTo s.grid H W s.breaker s.pos.r s.pos.c s.dir)
    (h : Chatgpt.applyTile tp tf (Chatgpt.enter W s s.dir
      ⟨(ahead s.pos.r s.pos.c s.dir).1, (ahead s.pos.r s.pos.c s.dir).2⟩) = some (.ok s')) :
    ∃ v', Grok.land H W (Grok.moveTo v (ahead v.curR v.curC v.curDir).1
        (ahead v.curR v.curC v.curDir).2) = .next v' ∧ Chatgpt.Matches H W s' v' := by
  obtain ⟨hgs, hgv, hin, hrel, hnd, hr, hc, hd, hb, hi, hp⟩ := hm
  have hpass : Passable s.grid H W s.breaker (ahead s.pos.r s.pos.c s.dir).1
      (ahead s.pos.r s.pos.c s.dir).2 := hopen
  obtain ⟨⟨h0r, h1r, h0c, h1c⟩, _, _, hxb⟩ := hpass
  have hx : cellAt v.grid (ahead s.pos.r s.pos.c s.dir).1 (ahead s.pos.r s.pos.c s.dir).2 =
      some 'X' ↔
      cellAt s.grid (ahead s.pos.r s.pos.c s.dir).1 (ahead s.pos.r s.pos.c s.dir).2 = some 'X' :=
    cellAt_deAt_iff hrel (by decide) (by decide) _ _
  have hmatch : Chatgpt.Matches H W (Chatgpt.enter W s s.dir
      ⟨(ahead s.pos.r s.pos.c s.dir).1, (ahead s.pos.r s.pos.c s.dir).2⟩)
      (Grok.moveTo v (ahead v.curR v.curC v.curDir).1 (ahead v.curR v.curC v.curDir).2) := by
    rw [hr, hc, hd]
    unfold Chatgpt.enter Grok.moveTo
    simp only
    by_cases hX : cellAt s.grid (ahead s.pos.r s.pos.c s.dir).1
        (ahead s.pos.r s.pos.c s.dir).2 = some 'X'
    · have hbt : s.breaker = true := by
        rcases hxb with h' | h'
        · exact absurd hX h'
        · exact h'
      rw [if_pos ⟨hX, hbt⟩, if_pos (hx.2 hX)]
      refine ⟨rect_setCell hgs _ _ _, rect_setCell hgv _ _ _, ⟨h0r, h1r, h0c, h1c⟩, ?_, ?_,
        rfl, rfl, hd, hb, hi, ?_⟩
      · intro x y
        simp only
        rw [cellAt_setCell _ _ _ _ h0r h0c, cellAt_setCell _ _ _ _ h0r h0c, hrel x y, hX,
          hx.2 hX]
        split_ifs <;> rfl
      · intro x y ch hch
        simp only at hch
        rw [cellAt_setCell _ _ _ _ h0r h0c] at hch
        split_ifs at hch
        · rw [hX] at hch
          simp only [Option.map_some', Option.some.injEq] at hch
          subst hch
          decide
        · exact hnd x y ch hch
      · simp only
        rw [hp, hd]
        cases s.dir <;> rfl
    · have hX' : ¬ (cellAt s.grid (ahead s.pos.r s.pos.c s.dir).1
          (ahead s.pos.r s.pos.c s.dir).2 = some 'X' ∧ s.breaker = true) := fun e => hX e.1
      have hX'' : ¬ cellAt v.grid (ahead s.pos.r s.pos.c s.dir).1
          (ahead s.pos.r s.pos.c s.dir).2 = some 'X' := fun e => hX (hx.1 e)
      rw [if_neg hX', if_neg hX'']
      refine ⟨hgs, hgv, ⟨h0r, h1r, h0c, h1c⟩, hrel, hnd, rfl, rfl, hd, hb, hi, ?_⟩
      simp only
      rw [hp, hd]
      cases s.dir <;> rfl
  obtain ⟨v', hv', hm'⟩ := Chatgpt.tile_match hmatch h
  exact ⟨v', by simp [Grok.land, hv'], hm'⟩

/-- Every pass of chatgpt without the visited test is matched by one pass of
grok, or by two when the robot turns. -/
theorem Chatgpt.plain_step {tp : Chatgpt.Point → Chatgpt.Point} {tf H W : Nat}
    {s s' : Chatgpt.St} {v : Grok.Vars} (hm : Chatgpt.Matches H W s v)
    (h : Chatgpt.plainBody tp tf H W s = some (.next s')) :
    ∃ k v', 1 ≤ k ∧ iterate (fun v => some (Grok.plainBody H W v)) k v = some v' ∧
      Chatgpt.Matches H W s' v' := by
  have hm0 := hm
  obtain ⟨hgs, hgv, hin, hrel, hnd, hr, hc, hd, hb, hi, hp⟩ := hm
  obtain ⟨here, hcell⟩ := cellAt_of_rect hgs hin
  unfold Chatgpt.plainBody at h
  simp only [hcell] at h
  by_cases hgoal : here = '$'
  · simp [hgoal] at h
  simp only [hgoal, if_false] at h
  have hcv : cellAt v.grid v.curR v.curC = some (deAt here) := by
    rw [hr, hc, hrel, hcell]
    rfl
  have hgoalv : deAt here ≠ '$' := fun e => hgoal ((deAt_eq_iff (by decide) (by decide)).1 e)
  -- what a pass of grok is, here
  have hplain : ∀ u : Grok.Vars, u.grid = v.grid → u.curR = v.curR → u.curC = v.curC →
      Grok.plainBody H W u = Grok.advance H W u := by
    intro u e1 e2 e3
    unfold Grok.plainBody
    rw [e1, e2, e3, hcv]
    simp only [hgoalv, if_false]
  unfold Chatgpt.advance at h
  simp only at h
  cases hres : Chatgpt.resolve H W { s with visited := Chatgpt.key s :: s.visited } with
  | crash => simp [hres] at h
  | ok o =>
    cases o with
    | none => simp [hres] at h
    | some dn =>
      obtain ⟨d, next⟩ := dn
      simp only [hres] at h
      obtain ⟨hnext, _⟩ := Chatgpt.resolve_some hres
      rw [Chatgpt.neighbour_eq] at hnext
      simp only at hnext
      subst hnext
      have hland : Chatgpt.applyTile tp tf (Chatgpt.enter W
          { s with visited := Chatgpt.key s :: s.visited } d
          ⟨(ahead s.pos.r s.pos.c d).1, (ahead s.pos.r s.pos.c d).2⟩) = some (.ok s') := by
        unfold Chatgpt.land at h
        split at h <;> simp_all
      rcases Chatgpt.resolve_cases (s := { s with visited := Chatgpt.key s :: s.visited }) hgs
        hres with ⟨hopen, hdd⟩ | ⟨hblocked, hfirst⟩
      · -- the cell ahead is open: one pass of grok
        simp only at hopen hdd
        subst hdd
        have hm1 : Chatgpt.Matches H W { s with visited := Chatgpt.key s :: s.visited }
            { v with visited := Grok.stateOf v :: v.visited } :=
          ⟨hgs, hgv, hin, hrel, hnd, hr, hc, hd, hb, hi, hp⟩
        obtain ⟨v', hv', hm'⟩ := Chatgpt.move_match hm1 hopen hland
        refine ⟨1, v', le_refl _, ?_, hm'⟩
        have hopenv : OpenTo v.grid H W v.curBreaker v.curR v.curC v.curDir := by
          rw [hr, hc, hd, hb]
          exact (openTo_deAt hrel H W _ _ _ _).2 hopen
        have hadv : Grok.advance H W v = .next v' := by
          unfold Grok.advance Grok.moveStep
          simp only
          rw [Grok.blockedAt_open hopenv]
          simp only
          have e1 : v.curR + (Grok.deltas v.curDir).1 = (ahead v.curR v.curC v.curDir).1 :=
            congrArg Prod.fst (Grok.deltas_eq v.curR v.curC v.curDir)
          have e2 : v.curC + (Grok.deltas v.curDir).2 = (ahead v.curR v.curC v.curDir).2 :=
            congrArg Prod.snd (Grok.deltas_eq v.curR v.curC v.curDir)
          rw [e1, e2]
          exact hv'
        simp only [iterate, hplain v rfl rfl rfl, hadv]
      · -- the cell ahead is blocked: grok turns, then moves
        simp only at hblocked hfirst
        obtain ⟨pre, post, hl, hgood, hbad⟩ := hfirst
        have hblockedv : ¬ OpenTo v.grid H W v.curBreaker v.curR v.curC v.curDir := by
          rw [hr, hc, hd, hb]
          exact fun e => hblocked ((openTo_deAt hrel H W _ _ _ _).1 e)
        have hturn : Grok.advance H W v =
            .next { v with visited := Grok.stateOf v :: v.visited, curDir := d } := by
          unfold Grok.advance Grok.moveStep
          simp only
          rw [Grok.blockedAt_blocked hgv hblockedv]
          simp only
          rw [priorityOrder_grok, hi, hl, Grok.turn_first hgv _ _ _ d pre post]
          · rw [hr, hc, hb]
            exact (openTo_deAt hrel H W _ _ _ _).2 hgood
          · intro e he
            rw [hr, hc, hb]
            exact fun ho => hbad e he ((openTo_deAt hrel H W _ _ _ _).1 ho)
        have hm1 : ∀ vis : List Grok.State, Chatgpt.Matches H W
            { s with visited := Chatgpt.key s :: s.visited, dir := d }
            { v with visited := vis, curDir := d } :=
          fun _ => ⟨hgs, hgv, hin, hrel, hnd, hr, hc, rfl, hb, hi, hp⟩
        have hland' : Chatgpt.applyTile tp tf (Chatgpt.enter W
            { s with visited := Chatgpt.key s :: s.visited, dir := d } d
            ⟨(ahead s.pos.r s.pos.c d).1, (ahead s.pos.r s.pos.c d).2⟩) = some (.ok s') := by
          rw [← hland]
          exact congrArg _ (Chatgpt.enter_dir W { s with visited := Chatgpt.key s :: s.visited } d d _)
        obtain ⟨v', hv', hm'⟩ := Chatgpt.move_match (hm1 (Grok.stateOf
          { v with visited := Grok.stateOf v :: v.visited, curDir := d } ::
            Grok.stateOf v :: v.visited)) hgood hland'
        refine ⟨2, v', by omega, ?_, hm'⟩
        have hopenv : OpenTo v.grid H W v.curBreaker v.curR v.curC d := by
          rw [hr, hc, hb]
          exact (openTo_deAt hrel H W _ _ _ _).2 hgood
        have hadv2 : Grok.advance H W
            { v with visited := Grok.stateOf v :: v.visited, curDir := d } = .next v' := by
          unfold Grok.advance Grok.moveStep
          simp only
          rw [Grok.blockedAt_open hopenv]
          simp only
          have e1 : v.curR + (Grok.deltas d).1 = (ahead v.curR v.curC d).1 :=
            congrArg Prod.fst (Grok.deltas_eq v.curR v.curC d)
          have e2 : v.curC + (Grok.deltas d).2 = (ahead v.curR v.curC d).2 :=
            congrArg Prod.snd (Grok.deltas_eq v.curR v.curC d)
          rw [e1, e2]
          exact hv'
        simp only [iterate, hplain v rfl rfl rfl, hturn]
        rw [hplain { v with visited := Grok.stateOf v :: v.visited, curDir := d } rfl rfl rfl,
          hadv2]

/-- Where chatgpt without the visited test halts, on `$` or stuck, grok halts
the same way. -/
theorem Chatgpt.plain_halt {tp : Chatgpt.Point → Chatgpt.Point} {tf H W : Nat}
    {s : Chatgpt.St} {v : Grok.Vars} {o : Outcome} (hm : Chatgpt.Matches H W s v)
    (h : Chatgpt.plainBody tp tf H W s = some (.halt o)) (ho : o ≠ .crash) :
    Grok.plainBody H W v = .halt o := by
  obtain ⟨hgs, hgv, hin, hrel, hnd, hr, hc, hd, hb, hi, hp⟩ := hm
  obtain ⟨here, hcell⟩ := cellAt_of_rect hgs hin
  have hcv : cellAt v.grid v.curR v.curC = some (deAt here) := by
    rw [hr, hc, hrel, hcell]
    rfl
  unfold Chatgpt.plainBody at h
  unfold Grok.plainBody
  simp only [hcell] at h
  simp only [hcv]
  by_cases hgoal : here = '$'
  · subst hgoal
    simp only [if_true, Option.some.injEq, Iter.halt.injEq] at h
    subst h
    simp [deAt, hp]
  have hgoalv : deAt here ≠ '$' := fun e => hgoal ((deAt_eq_iff (by decide) (by decide)).1 e)
  simp only [hgoal, if_false] at h
  simp only [hgoalv, if_false]
  unfold Chatgpt.advance at h
  simp only at h
  cases hres : Chatgpt.resolve H W { s with visited := Chatgpt.key s :: s.visited } with
  | crash =>
    simp only [hres, Option.some.injEq, Iter.halt.injEq] at h
    exact absurd h.symm ho
  | ok x =>
    cases x with
    | some dn =>
      obtain ⟨d, next⟩ := dn
      simp only [hres, Chatgpt.land] at h
      split at h
      · simp at h
      · simp only [Option.some.injEq, Iter.halt.injEq] at h
        exact absurd h.symm ho
      · simp at h
    | none =>
      simp only [hres, Option.some.injEq, Iter.halt.injEq] at h
      subst h
      -- no direction is open
      have hnone : ∀ d, ¬ OpenTo s.grid H W s.breaker s.pos.r s.pos.c d := by
        intro d hopen
        by_cases hf : OpenTo s.grid H W s.breaker s.pos.r s.pos.c s.dir
        · have := Chatgpt.resolve_open (H := H) (W := W)
            { s with visited := Chatgpt.key s :: s.visited } hf
          rw [hres] at this
          simp at this
        · unfold Chatgpt.resolve at hres
          have hno : ¬ Passable s.grid H W s.breaker (Chatgpt.neighbour s.pos s.dir).r
              (Chatgpt.neighbour s.pos s.dir).c := by
            rw [Chatgpt.neighbour_eq]
            exact hf
          rcases Chatgpt.canGo_total hgs s.breaker (Chatgpt.neighbour s.pos s.dir) with
            ⟨_, hp'⟩ | ⟨hgo, _⟩
          · exact hno hp'
          · simp only [hgo] at hres
            rw [priorityOrder_chatgpt] at hres
            exact Chatgpt.scan_none _ hres d (mem_priorityOrder _ d) hopen
      have hnonev : ∀ d, ¬ OpenTo v.grid H W v.curBreaker v.curR v.curC d := by
        intro d
        rw [hr, hc, hb]
        exact fun e => hnone d ((openTo_deAt hrel H W _ _ _ _).1 e)
      unfold Grok.advance Grok.moveStep
      simp only
      rw [Grok.blockedAt_blocked hgv (hnonev _)]
      simp only
      cases ht : Grok.turn v.grid H W v.curBreaker v.curR v.curC
          (if v.curInv = true then Grok.prioInv else Grok.prioNormal) with
      | crash => exact absurd ht (Grok.turn_total hgv _ _ _ _)
      | ok y =>
        cases y with
        | none => rfl
        | some nDir => exact absurd (Grok.turn_some _ _ ht).2 (hnonev nDir)

theorem Chatgpt.initial_matches {g g1 : Grid} {H W : Nat} {sr sc : Int} (hg : Rect g H W)
    (hu : UniqueStart g H W sr sc) (hn : NoDigits g H W) (hg1 : Rect g1 H W)
    (hrel : ∀ x y : Int, cellAt g1 x y = (cellAt g x y).map deAt) :
    Chatgpt.Matches H W (Chatgpt.initial g) (Grok.initial g1 sr sc) := by
  have hpos : (Chatgpt.initial g).pos = ⟨sr, sc⟩ := Chatgpt.findStart_unique_chatgpt hg hu
  refine ⟨hg, hg1, ?_, hrel, fun x y ch h => noDigits_cell hg hn h, ?_, ?_, rfl, rfl, rfl, rfl⟩
  · rw [hpos]
    exact hu.1
  · rw [hpos]
    rfl
  · rw [hpos]
    rfl

/-- C15: on a rectangular grid with exactly one `@` and no digit cell, chatgpt
and grok both return when given enough fuel, neither panics, and they print
the same lines; whatever fuel they are given, any two results print the same
lines. -/
theorem chatgpt_grok_agree (g : Grid) (H W : Nat) (sr sc : Int) (hg : Rect g H W)
    (hu : UniqueStart g H W sr sc) (hn : NoDigits g H W) :
    ∃ (N : Nat) (oc og : Outcome),
      (∀ k j : Nat, Chatgpt.runSolver (1 + k) (N + j) H W g = some oc) ∧
      (∀ j : Nat, Grok.main (N + j) H W g = some og) ∧
      oc ≠ .crash ∧ og ≠ .crash ∧ oc.output = og.output ∧
      (∀ (tf fuel : Nat) (o : Outcome), Chatgpt.runSolver tf fuel H W g = some o → o = oc) ∧
      (∀ (fuel : Nat) (o : Outcome), Grok.main fuel H W g = some o → o = og) := by
  obtain ⟨hH, hW, _, _, _⟩ := uniqueStart_pos hu
  obtain ⟨nA, sA, oA, hA, hA', hAk, hrunA⟩ := Chatgpt.terminates_chatgpt hg hu hn
  obtain ⟨g1, hf, hg1, hrel⟩ := Grok.findStart_unique_grok hg hu
  obtain ⟨g1', sr', sc', nB, vB, oB, hf', hB, hB', hBk, _, _, _, hrunB⟩ :=
    Grok.terminates_grok hg hH hW
  rw [hf] at hf'
  simp only [Res.ok.injEq, Prod.mk.injEq] at hf'
  obtain ⟨e1, e2, e3⟩ := hf'
  subst e1 e2 e3
  have h0 := (Chatgpt.initial_steady hg hu (Chatgpt.telePair g) 0).1
  have hout : oA.output = oB.output :=
    same_output (Chatgpt.body (Chatgpt.telePair g) 1 H W)
      (Chatgpt.plainBody (Chatgpt.telePair g) 1 H W)
      (fun v => some (Grok.body H W v)) (fun v => some (Grok.plainBody H W v))
      (Chatgpt.Matches H W) (Chatgpt.initial g) (Grok.initial g1 sr sc)
      (fun _ _ h => Chatgpt.plain_of_next_chatgpt h)
      (fun _ _ h ho => Chatgpt.plain_of_halt_chatgpt h ho)
      (fun _ _ h => congrArg some (Grok.plain_of_next_grok (Option.some.inj h)))
      (fun _ _ h ho => congrArg some (Grok.plain_of_halt_grok (Option.some.inj h) ho))
      (fun n sn hn' hc => Chatgpt.cycle_forever_chatgpt hg (Chatgpt.telePair g) h0 hn' hc)
      (fun n vn hn' hc => Grok.cycle_forever_grok hg1 sr sc hn' (Option.some.inj hc))
      (iterate_follow _ _ _ _ _ (Chatgpt.initial_matches hg hu hn hg1 hrel)
        (fun _ _ _ hm h => Chatgpt.plain_step hm h))
      (fun s v o hm h ho => ⟨o, congrArg some (Chatgpt.plain_halt hm h ho), rfl⟩)
      hA hA' hAk hB (congrArg some hB')
  refine ⟨nA + 1 + (configBound H W (xCount g H W) + 1), oA, oB, ?_, ?_, hAk, hBk, hout, ?_, ?_⟩
  · intro k j
    rw [Nat.add_assoc (nA + 1)]
    exact hrunA k _
  · intro j
    exact hrunB _ (by omega)
  · intro tf fuel o h
    have h1 := Chatgpt.runSolver_mono h 1 (nA + 1)
    have h2 := hrunA tf fuel
    rw [Nat.add_comm tf 1, Nat.add_comm fuel (nA + 1)] at h1
    rw [h2] at h1
    exact (Option.some.inj h1).symm
  · intro fuel o h
    have h1 := Grok.main_mono_grok h (configBound H W (xCount g H W) + 1)
    rw [hrunB _ (by omega)] at h1
    exact (Option.some.inj h1).symm

theorem chatgpt_grok_agree_witness :
    ∃ (N : Nat) (oc og : Outcome),
      (∀ k j : Nat, Chatgpt.runSolver (1 + k) (N + j) 10 10 harnessTest3 = some oc) ∧
      (∀ j : Nat, Grok.main (N + j) 10 10 harnessTest3 = some og) ∧
      oc ≠ .crash ∧ og ≠ .crash ∧ oc.output = og.output ∧
      (∀ (tf fuel : Nat) (o : Outcome),
        Chatgpt.runSolver tf fuel 10 10 harnessTest3 = some o → o = oc) ∧
      (∀ (fuel : Nat) (o : Outcome), Grok.main fuel 10 10 harnessTest3 = some o → o = og) :=
  chatgpt_grok_agree harnessTest3 10 10 1 2 (by decide)
    (uniqueStart_of_cells (a := 1) (b := 2) (by decide) (by decide)) (by decide)

/-! ## claude and grok on a grid without breakable walls -/

theorem noWalls_cell {g : Grid} {H W : Nat} (hg : Rect g H W) (hn : NoWalls g H W)
    (r c : Int) : cellAt g r c ≠ some 'X' := by
  intro hc
  obtain ⟨h1, h2, h3, h4⟩ := rect_inGrid hg hc
  have hq : (r.toNat, c.toNat) ∈ cellsWith g H W 'X' := by
    refine mem_cellsWith.2 ⟨by simp only; omega, by simp only; omega, ?_⟩
    simp only
    rw [Int.toNat_of_nonneg h1, Int.toNat_of_nonneg h3]
    exact hc
  rw [hn] at hq
  simp at hq

theorem uniqueGoal_of_cells {g : Grid} {H W : Nat} {a b : Nat} (hg : Rect g H W)
    (h : cellsWith g H W '$' = [(a, b)]) : UniqueGoal g H W (a : Int) (b : Int) := by
  have hmem : (a, b) ∈ cellsWith g H W '$' := by rw [h]; simp
  obtain ⟨h1, h2, h3⟩ := mem_cellsWith.1 hmem
  refine ⟨⟨by simp, by simpa using h1, by simp, by simpa using h2⟩, h3, ?_⟩
  intro r c hc
  obtain ⟨k1, k2, k3, k4⟩ := rect_inGrid hg hc
  have hq : (r.toNat, c.toNat) ∈ cellsWith g H W '$' := by
    refine mem_cellsWith.2 ⟨by simp only; omega, by simp only; omega, ?_⟩
    simp only
    rw [Int.toNat_of_nonneg k1, Int.toNat_of_nonneg k3]
    exact hc
  rw [h] at hq
  simp only [List.mem_singleton, Prod.mk.injEq] at hq
  omega

theorem Claude.plain_of_next_claude {r r' : Claude.Robot}
    (h : Claude.findPathBody r = .next r') : Claude.plainBody r = .next r' := by
  obtain ⟨hadv, _, hgoal⟩ := Claude.findPathBody_next h
  unfold Claude.plainBody
  rw [if_neg hgoal]
  exact hadv

theorem Claude.plain_of_halt_claude {r : Claude.Robot} {o : Outcome}
    (h : Claude.findPathBody r = .halt o) (ho : o ≠ .cycle) : Claude.plainBody r = .halt o := by
  unfold Claude.findPathBody at h
  unfold Claude.plainBody
  by_cases hgoal : r.state.pos = r.destPos
  · simpa [hgoal] using h
  · simp only [hgoal, if_false] at h ⊢
    by_cases hvis : Claude.getStateKey r ∈ r.visited
    · simp only [hvis, if_true, Iter.halt.injEq] at h
      exact absurd h.symm ho
    · simpa [hvis] using h

theorem Claude.special_whole {a b : Claude.Robot} (hc : Claude.whole a = Claude.whole b)
    (cell : Char) : Claude.whole (Claude.special a cell) = Claude.whole (Claude.special b cell) := by
  obtain ⟨g1, h1, w1, sp1, dp1, tp1, st1, vis1, path1⟩ := a
  obtain ⟨g2, h2, w2, sp2, dp2, tp2, st2, vis2, path2⟩ := b
  simp only [Claude.whole, Prod.mk.injEq] at hc
  obtain ⟨e1, e2, e3, e4, e5, e6⟩ := hc
  subst e1 e2 e3 e4 e5 e6
  unfold Claude.special
  simp only
  split_ifs
  all_goals first
    | rfl
    | (cases List.find? (fun tp => decide (tp ≠ st1.pos)) (tp1 cell) <;> rfl)

theorem Claude.moveTo_whole {a b : Claude.Robot} (hc : Claude.whole a = Claude.whole b)
    (p : Claude.Position) (d : Dir) :
    Claude.whole (Claude.moveTo a p d) = Claude.whole (Claude.moveTo b p d) := by
  obtain ⟨g1, h1, w1, sp1, dp1, tp1, st1, vis1, path1⟩ := a
  obtain ⟨g2, h2, w2, sp2, dp2, tp2, st2, vis2, path2⟩ := b
  simp only [Claude.whole, Prod.mk.injEq] at hc
  obtain ⟨e1, e2, e3, e4, e5, e6⟩ := hc
  subst e1 e2 e3 e4 e5 e6
  rfl

theorem Claude.canMoveTo_whole {a b : Claude.Robot} (hc : Claude.whole a = Claude.whole b)
    (p : Claude.Position) : Claude.canMoveTo a p = Claude.canMoveTo b p := by
  simp only [Claude.whole, Prod.mk.injEq] at hc
  obtain ⟨e1, e2, e3, e4, _, _⟩ := hc
  rw [Claude.canMoveTo_eq, Claude.canMoveTo_eq, e1, e2, e3, e4]

theorem Claude.getNextPosition_whole {a b : Claude.Robot}
    (hc : Claude.whole a = Claude.whole b) (d : Dir) :
    Claude.getNextPosition a d = Claude.getNextPosition b d := by
  simp only [Claude.whole, Prod.mk.injEq] at hc
  rw [Claude.getNextPosition_eq, Claude.getNextPosition_eq, hc.1]

theorem Claude.tryPriorities_whole {a b : Claude.Robot} (hc : Claude.whole a = Claude.whole b) :
    ∀ (l : List Dir) (a' : Claude.Robot), Claude.tryPriorities a l = .ok (some a') →
      ∃ b', Claude.tryPriorities b l = .ok (some b') ∧ Claude.whole a' = Claude.whole b' := by
  intro l
  induction l with
  | nil => intro a' h; simp [Claude.tryPriorities] at h
  | cons e l ih =>
    intro a' h
    simp only [Claude.tryPriorities] at h ⊢
    rw [← Claude.getNextPosition_whole hc, ← Claude.canMoveTo_whole hc]
    cases hm : Claude.canMoveTo a (Claude.getNextPosition a e) with
    | crash => simp [hm] at h
    | ok t =>
      cases t with
      | true =>
        simp only [hm, Res.ok.injEq, Option.some.injEq] at h
        subst h
        exact ⟨_, rfl, Claude.moveTo_whole hc _ _⟩
      | false =>
        simp only [hm] at h
        exact ih a' h

theorem Claude.moveStep_whole {a b a' : Claude.Robot} (hc : Claude.whole a = Claude.whole b)
    (h : Claude.moveStep a = .next a') :
    ∃ b', Claude.moveStep b = .next b' ∧ Claude.whole a' = Claude.whole b' := by
  have hst : a.state = b.state := by
    simp only [Claude.whole, Prod.mk.injEq] at hc
    exact hc.1
  unfold Claude.moveStep at h ⊢
  rw [← hst, ← Claude.getNextPosition_whole hc, ← Claude.canMoveTo_whole hc]
  cases hm : Claude.canMoveTo a (Claude.getNextPosition a a.state.direction) with
  | crash => simp [hm] at h
  | ok t =>
    cases t with
    | true =>
      simp only [hm, Iter.next.injEq] at h
      subst h
      exact ⟨_, rfl, Claude.moveTo_whole hc _ _⟩
    | false =>
      simp only [hm] at h
      have hp : Claude.getPriorityDirections b = Claude.getPriorityDirections a := by
        unfold Claude.getPriorityDirections
        rw [hst]
      simp only [hp]
      cases ht : Claude.tryPriorities a (Claude.getPriorityDirections a) with
      | crash => simp [ht] at h
      | ok o =>
        cases o with
        | none => simp [ht] at h
        | some r3 =>
          simp only [ht, Iter.next.injEq] at h
          subst h
          obtain ⟨b', hb', hw⟩ := Claude.tryPriorities_whole hc _ _ ht
          exact ⟨b', by simp only [hb'], hw⟩

theorem Claude.advance_whole {a b a' : Claude.Robot} (hc : Claude.whole a = Claude.whole b)
    (h : Claude.advance a = .next a') :
    ∃ b', Claude.advance b = .next b' ∧ Claude.whole a' = Claude.whole b' := by
  obtain ⟨cell, hcell, hm⟩ := Claude.advance_next_claude h
  have hc' := hc
  simp only [Claude.whole, Prod.mk.injEq] at hc'
  obtain ⟨e1, e2, _, _, _, _⟩ := hc'
  have hw : Claude.whole
      (Claude.special { a with visited := Claude.getStateKey a :: a.visited } cell) =
      Claude.whole
        (Claude.special { b with visited := Claude.getStateKey b :: b.visited } cell) :=
    Claude.special_whole (by simpa [Claude.whole] using hc) cell
  obtain ⟨b', hb', hw'⟩ := Claude.moveStep_whole hw hm
  refine ⟨b', ?_, hw'⟩
  have hcellb : cellAt b.grid b.state.pos.row b.state.pos.col = some cell := by
    rw [← e1, ← e2]
    exact hcell
  unfold Claude.advance
  simp only [hcellb]
  exact hb'

theorem Claude.plain_whole {a b a' : Claude.Robot} (hc : Claude.whole a = Claude.whole b)
    (h : Claude.plainBody a = .next a') :
    ∃ b', Claude.plainBody b = .next b' ∧ Claude.whole a' = Claude.whole b' := by
  have hc' := hc
  simp only [Claude.whole, Prod.mk.injEq] at hc'
  obtain ⟨e1, _, _, _, e5, _⟩ := hc'
  unfold Claude.plainBody at h ⊢
  rw [← e1, ← e5]
  by_cases hgoal : a.state.pos = a.destPos
  · simp [hgoal] at h
  · simp only [hgoal, if_false] at h ⊢
    exact Claude.advance_whole hc h

/-- claude: on a grid without breakable walls a pass of the loop leaves the
grid, the size, the destination and the teleporter table as they are. -/
theorem Claude.advance_fixed {rb0 r r' : Claude.Robot}
    (hx : ∀ x y : Int, cellAt rb0.grid x y ≠ some 'X') (hf : Claude.Fixed rb0 r)
    (h : Claude.advance r = .next r') :
    Claude.Fixed rb0 r' ∧ r'.visited = Claude.getStateKey r :: r.visited := by
  obtain ⟨cell, d, _, _, f1, f2, f3, f4, f5, _, hw⟩ := Claude.advance_grid_claude h
  obtain ⟨g1, g2, g3, g4, g5⟩ := hf
  refine ⟨⟨?_, by rw [f1, g2], by rw [f2, g3], by rw [f3, g4], by rw [f4, g5]⟩, f5⟩
  rcases hw with hw | ⟨_, _, hX, _⟩
  · rw [hw, g1]
  · rw [g1] at hX
    exact absurd hX (hx _ _)

/-- claude: on a grid without breakable walls, when the visited test ends the
run, the loop without that test runs for ever. -/
theorem Claude.cycle_forever_claude {rb0 : Claude.Robot}
    (hx : ∀ x y : Int, cellAt rb0.grid x y ≠ some 'X') (hv0 : rb0.visited = []) {n : Nat}
    {rn : Claude.Robot}
    (hn : iterate (fun r => some (Claude.findPathBody r)) n rb0 = some rn)
    (hc : Claude.findPathBody rn = .halt .cycle) :
    ∀ m, ∃ r, iterate (fun r => some (Claude.plainBody r)) m rb0 = some r := by
  have hd := drive_of_iterate (fun r => some (Claude.findPathBody r)) n _ rn .cycle hn
    (by simp only [hc]) (n + 1) (by omega)
  have key := (cycle_sound (fun r => some (Claude.findPathBody r))
    (fun r => some (Claude.advance r)) (fun r => r.visited) Claude.getStateKey Claude.whole
    (fun c => c.1.pos = c.2.2.2.2.1) (Claude.Fixed rb0)
    (by
      intro s s' h
      simp only [Option.some.injEq] at h
      obtain ⟨h1, _, h3⟩ := Claude.findPathBody_next h
      obtain ⟨cell, d, _, _, _, _, _, _, f5, _, _⟩ := Claude.advance_grid_claude h1
      exact ⟨by simp only [h1], h3, f5⟩)
    (by
      intro s h
      simp only [Option.some.injEq] at h
      obtain ⟨_, h2, _⟩ := Claude.findPathBody_halt h
      obtain ⟨h3, h4⟩ := h2 rfl
      exact ⟨h4, h3⟩)
    (by
      intro s h
      simp only [Option.some.injEq] at h
      unfold Claude.findPathBody at h
      by_cases hgoal : s.state.pos = s.destPos
      · simp [hgoal] at h
      by_cases hvis : Claude.getStateKey s ∈ s.visited
      · simp [hgoal, hvis] at h
      simp only [hgoal, hvis, if_false] at h
      refine ⟨hgoal, ?_⟩
      intro s' hs'
      simp only [Option.some.injEq] at hs'
      rw [h] at hs'
      cases hs')
    (by
      intro s s' hI h
      simp only [Option.some.injEq] at h
      exact (Claude.advance_fixed hx hI (Claude.findPathBody_next h).1).1)
    (by
      intro s1 s2 h1 h2 hk
      obtain ⟨a1, a2, a3, a4, a5⟩ := h1
      obtain ⟨b1, b2, b3, b4, b5⟩ := h2
      have hk' : s1.state = s2.state := hk
      simp only [Claude.whole, hk', a1, a2, a3, a4, a5, b1, b2, b3, b4, b5])
    (by
      intro a b a' hc h
      simp only [Option.some.injEq] at h
      obtain ⟨b', hb', hw⟩ := Claude.advance_whole hc h
      exact ⟨b', by simp only [hb'], hw⟩)
    rb0 hv0 ⟨rfl, rfl, rfl, rfl, rfl⟩ (n + 1)).1 hd
  obtain ⟨i, j, ri, rj, hij, hi, hj, _, hconf⟩ := key
  have hmono : ∀ s s', (fun r => some (Claude.findPathBody r)) s = some (.next s') →
      (fun r => some (Claude.plainBody r)) s = some (.next s') := by
    intro s s' h
    simp only [Option.some.injEq] at h
    simp only [Claude.plain_of_next_claude h]
  exact iterate_forever (fun r => some (Claude.plainBody r)) Claude.whole
    (by
      intro a b a' hc h
      simp only [Option.some.injEq] at h
      obtain ⟨b', hb', hcb⟩ := Claude.plain_whole hc h
      exact ⟨b', by simp only [hb'], hcb⟩) hij
    (iterate_mono _ _ hmono i _ ri hi) (iterate_mono _ _ hmono j _ rj hj) hconf

theorem Walk.effect_cell {H W : Nat} {w : Walk} {ch : Char}
    (hc : cellAt w.grid w.r w.c = some ch) :
    cellAt w.grid (Walk.effect H W w).r (Walk.effect H W w).c = some ch := by
  by_cases hd : isTeleDigit ch = true
  · obtain ⟨_, _, _, _, h5, h6⟩ := isTeleDigit_ne_letters hd
    unfold Walk.effect
    rw [hc]
    simp only [h5, h6, hd, if_false, if_true]
    exact teleDest_cell hc
  · have hd' : isTeleDigit ch = false := by simpa using hd
    obtain ⟨e1, e2⟩ := Walk.effect_stay (H := H) (W := W) hc hd'
    rw [e1, e2]
    exact hc

/-- claude: the cell the robot stands on after the effect of the cell `cell`
it stood on holds `cell` too (a teleporter leads to its own digit). -/
theorem Claude.special_cell {g : Grid} {H W : Nat} {r : Claude.Robot} {cell : Char}
    (hrg : r.grid = g)
    (htele : ∀ ch ∈ teleDigits, r.teleporters ch =
      (cellsWith g H W ch).map (fun q => (⟨(q.1 : Int), (q.2 : Int)⟩ : Claude.Position)))
    (hcell : cellAt g r.state.pos.row r.state.pos.col = some cell) :
    cellAt g (Claude.special r cell).state.pos.row (Claude.special r cell).state.pos.col =
      some cell := by
  obtain ⟨e1, e2, _, _⟩ := @Claude.special_effect g H W r
    ⟨g, r.state.pos.row, r.state.pos.col, .SOUTH, r.state.breaker, r.state.inverted, [], true⟩
    cell htele (by rw [hrg]; exact eroded_refl g) hrg.symm rfl rfl rfl rfl
    (by rw [hrg]; exact hcell)
  rw [← e1, ← e2]
  exact @Walk.effect_cell H W
    ⟨g, r.state.pos.row, r.state.pos.col, .SOUTH, r.state.breaker, r.state.inverted, [], true⟩
    cell hcell

theorem Claude.special_direction (r : Claude.Robot) (cell : Char) :
    (Claude.special r cell).state.direction = (Grok.charToDir cell).getD r.state.direction := by
  unfold Claude.special Grok.charToDir
  by_cases h1 : cell = 'S'
  · subst h1
    simp
  by_cases h2 : cell = 'E'
  · subst h2
    simp
  by_cases h3 : cell = 'N'
  · subst h3
    simp
  by_cases h4 : cell = 'W'
  · subst h4
    simp
  simp only [h1, h2, h3, h4, if_false, Option.getD_none]
  split_ifs
  all_goals first
    | rfl
    | (split <;> rfl)

theorem Grok.applyEffect_direction {H W : Nat} {v v' : Grok.Vars} {c : Char}
    (h : Grok.applyEffect H W v = .ok v') (hc : cellAt v.grid v.curR v.curC = some c) :
    v'.curDir = (Grok.charToDir c).getD v.curDir := by
  unfold Grok.applyEffect at h
  rw [hc] at h
  simp only at h
  by_cases hd : isTeleDigit c = true
  · obtain ⟨h1, h2, h3, h4, _, _⟩ := isTeleDigit_ne_letters hd
    have hcd : Grok.charToDir c = none := by simp [Grok.charToDir, h1, h2, h3, h4]
    rw [hcd]
    simp only [hd, if_true] at h
    split at h
    · cases h
    · simp only [Res.ok.injEq] at h
      subst h
      rfl
    · simp only [Res.ok.injEq] at h
      subst h
      rfl
  · have hd' : isTeleDigit c = false := by simpa using hd
    simp only [hd', Bool.false_eq_true, if_false] at h
    cases hcd : Grok.charToDir c with
    | some dIr =>
      simp only [hcd, Res.ok.injEq] at h
      subst h
      rfl
    | none =>
      simp only [hcd] at h
      split_ifs at h <;> (simp only [Res.ok.injEq] at h; subst h; rfl)

theorem charToDir_deAt (c : Char) : Grok.charToDir (deAt c) = Grok.charToDir c := by
  unfold deAt
  split_ifs with h
  · subst h
    decide
  · rfl

theorem dirNames_claude (d : Dir) : Grok.dirNames d = Claude.Direction.String d := by
  cases d <;> rfl

/-- The effect that grok applies after a move is the effect that claude
applies at the head of its next pass. -/
theorem Claude.effect_match {g g1 : Grid} {H W : Nat} (hg1 : Rect g1 H W)
    (hrel : ∀ x y : Int, cellAt g1 x y = (cellAt g x y).map deAt)
    {r : Claude.Robot} {v : Grok.Vars} {cell : Char} (hrg : r.grid = g)
    (htele : ∀ ch ∈ teleDigits, r.teleporters ch =
      (cellsWith g H W ch).map (fun q => (⟨(q.1 : Int), (q.2 : Int)⟩ : Claude.Position)))
    (hin : InGrid H W r.state.pos.row r.state.pos.col)
    (hcell : cellAt g r.state.pos.row r.state.pos.col = some cell)
    (hvg : v.grid = g1) (h1 : v.curR = r.state.pos.row) (h2 : v.curC = r.state.pos.col)
    (h3 : v.curDir = r.state.direction) (h4 : v.curInv = r.state.inverted)
    (h5 : v.curBreaker = r.state.breaker) :
    ∃ v', Grok.applyEffect H W v = .ok v' ∧ v'.grid = g1 ∧ v'.path = v.path ∧
      v'.curR = (Claude.special r cell).state.pos.row ∧
      v'.curC = (Claude.special r cell).state.pos.col ∧
      v'.curDir = (Claude.special r cell).state.direction ∧
      v'.curInv = (Claude.special r cell).state.inverted ∧
      v'.curBreaker = (Claude.special r cell).state.breaker := by
  have hgv : Rect v.grid H W := by rw [hvg]; exact hg1
  obtain ⟨v', hv', _⟩ := Grok.applyEffect_sound hgv (by rw [h1, h2]; exact hin)
  obtain ⟨f1, f2, _⟩ := Grok.applyEffect_frame hv'
  obtain ⟨a1, a2, a3, a4⟩ := @Claude.special_effect g H W r
    ⟨g, r.state.pos.row, r.state.pos.col, .SOUTH, r.state.breaker, r.state.inverted, [], true⟩
    cell htele (by rw [hrg]; exact eroded_refl g) hrg.symm rfl rfl rfl rfl
    (by rw [hrg]; exact hcell)
  obtain ⟨b1, b2, b3, b4⟩ := @Grok.applyEffect_effect H W v v'
    ⟨g, r.state.pos.row, r.state.pos.col, .SOUTH, r.state.breaker, r.state.inverted, [], true⟩
    hgv (by rw [hvg]; exact hrel) h1.symm h2.symm h5.symm h4.symm hv'
  have hcv : cellAt v.grid v.curR v.curC = some (deAt cell) := by
    rw [hvg, h1, h2, hrel, hcell]
    rfl
  refine ⟨v', hv', by rw [f1, hvg], f2, by rw [← b1, a1], by rw [← b2, a2], ?_,
    by rw [← b4, a4], by rw [← b3, a3]⟩
  rw [Grok.applyEffect_direction hv' hcv, charToDir_deAt, h3, Claude.special_direction]

theorem Claude.tryPriorities_firstOf (r : Claude.Robot) :
    ∀ (l : List Dir) (r3 : Claude.Robot), Claude.tryPriorities r l = .ok (some r3) →
      ∃ d, FirstOf l (OpenTo r.grid r.height r.width r.state.breaker r.state.pos.row
          r.state.pos.col) d ∧ r3 = Claude.moveTo r (Claude.getNextPosition r d) d := by
  intro l
  induction l with
  | nil => intro r3 h; simp [Claude.tryPriorities] at h
  | cons e l ih =>
    intro r3 h
    simp only [Claude.tryPriorities] at h
    cases hc : Claude.canMoveTo r (Claude.getNextPosition r e) with
    | crash => simp [hc] at h
    | ok t =>
      cases t with
      | true =>
        simp only [hc, Res.ok.injEq, Option.some.injEq] at h
        refine ⟨e, ⟨[], l, rfl, ?_, by simp⟩, h.symm⟩
        rw [Claude.canMoveTo_eq, Claude.getNextPosition_eq] at hc
        exact (Chatgpt.canGo_iff _ _ _ _ _).1 hc
      | false =>
        simp only [hc] at h
        obtain ⟨d, ⟨pre, post, k1, k2, k3⟩, hd⟩ := ih r3 h
        refine ⟨d, ⟨e :: pre, post, by rw [k1]; rfl, k2, ?_⟩, hd⟩
        intro x hx
        rcases List.mem_cons.1 hx with rfl | hx
        · intro ho
          rw [Claude.canMoveTo_open r x ho] at hc
          cases hc
        · exact k3 x hx

/-- claude: the direction travelled is the facing when the cell ahead is open,
else the first open direction of the priority order. -/
theorem Claude.moveStep_cases {r r' : Claude.Robot} (h : Claude.moveStep r = .next r') :
    ∃ d, r' = Claude.moveTo r (Claude.getNextPosition r d) d ∧
      ((OpenTo r.grid r.height r.width r.state.breaker r.state.pos.row r.state.pos.col
          r.state.direction ∧ d = r.state.direction) ∨
       (¬ OpenTo r.grid r.height r.width r.state.breaker r.state.pos.row r.state.pos.col
          r.state.direction ∧
        FirstOf (priorityOrder r.state.inverted) (OpenTo r.grid r.height r.width
          r.state.breaker r.state.pos.row r.state.pos.col) d)) := by
  unfold Claude.moveStep at h
  cases hc : Claude.canMoveTo r (Claude.getNextPosition r r.state.direction) with
  | crash => simp [hc] at h
  | ok t =>
    cases t with
    | true =>
      simp only [hc, Iter.next.injEq] at h
      refine ⟨r.state.direction, h.symm, Or.inl ⟨?_, rfl⟩⟩
      rw [Claude.canMoveTo_eq, Claude.getNextPosition_eq] at hc
      exact (Chatgpt.canGo_iff _ _ _ _ _).1 hc
    | false =>
      simp only [hc] at h
      cases ht : Claude.tryPriorities r (Claude.getPriorityDirections r) with
      | crash => simp [ht] at h
      | ok o =>
        cases o with
        | none => simp [ht] at h
        | some r3 =>
          simp only [ht, Iter.next.injEq] at h
          subst h
          rw [priorityOrder_claude] at ht
          obtain ⟨d, hf, hd⟩ := Claude.tryPriorities_firstOf r _ _ ht
          refine ⟨d, hd, Or.inr ⟨?_, hf⟩⟩
          intro ho
          rw [Claude.canMoveTo_open r _ ho] at hc
          cases hc

/-- The move of claude and the move of grok, in the same direction into an
open cell, followed by the effect that grok applies at once, leave the two
solvers standing alike. -/
theorem Claude.land_match {g g1 : Grid} {H W : Nat} {dr dc : Int} (hg : Rect g H W)
    (hg1 : Rect g1 H W) (hrel : ∀ x y : Int, cellAt g1 x y = (cellAt g x y).map deAt)
    (hx : ∀ x y : Int, cellAt g x y ≠ some 'X') {r : Claude.Robot} {v : Grok.Vars} (d : Dir)
    (hrg : r.grid = g) (hrh : r.height = H) (hrw : r.width = W) (hrd : r.destPos = ⟨dr, dc⟩)
    (htele : ∀ ch ∈ teleDigits, r.teleporters ch =
      (cellsWith g H W ch).map (fun q => (⟨(q.1 : Int), (q.2 : Int)⟩ : Claude.Position)))
    (hvg : v.grid = g1) (hvp : v.path = r.path.map Claude.Direction.String)
    (h1 : v.curR = r.state.pos.row) (h2 : v.curC = r.state.pos.col) (h3 : v.curDir = d)
    (h4 : v.curInv = r.state.inverted) (h5 : v.curBreaker = r.state.breaker)
    (hopen : OpenTo g H W r.state.breaker r.state.pos.row r.state.pos.col d) :
    ∃ v'', Grok.land H W (Grok.moveTo v (ahead v.curR v.curC v.curDir).1
        (ahead v.curR v.curC v.curDir).2) = .next v'' ∧
      Claude.Agrees g g1 H W dr dc (Claude.moveTo r (Claude.getNextPosition r d) d) v'' := by
  have hin : InGrid H W (ahead r.state.pos.row r.state.pos.col d).1
      (ahead r.state.pos.row r.state.pos.col d).2 := hopen.1
  obtain ⟨cell, hcell⟩ := cellAt_of_rect hg hin
  have hr2 : Claude.moveTo r (Claude.getNextPosition r d) d =
      { r with
        state := { r.state with
          pos := ⟨(ahead r.state.pos.row r.state.pos.col d).1,
            (ahead r.state.pos.row r.state.pos.col d).2⟩,
          direction := d },
        path := r.path ++ [d] } := by
    unfold Claude.moveTo
    rw [Claude.getNextPosition_eq]
    simp only
    rw [if_neg (fun e => hx _ _ (by rw [← hrg]; exact e.1))]
  have hv2 : Grok.moveTo v (ahead v.curR v.curC v.curDir).1
      (ahead v.curR v.curC v.curDir).2 =
      { v with curR := (ahead r.state.pos.row r.state.pos.col d).1,
                curC := (ahead r.state.pos.row r.state.pos.col d).2,
                path := v.path ++ [Grok.dirNames d] } := by
    unfold Grok.moveTo
    rw [h1, h2, h3]
    simp only
    rw [if_neg (fun e => hx _ _ ((cellAt_deAt_iff hrel (by decide) (by decide) _ _).1
      (by rw [← hvg]; exact e)))]
  rw [hr2, hv2]
  obtain ⟨v'', e0, e1, e2, e3, e4, e5, e6, e7⟩ := Claude.effect_match (H := H) (W := W) hg1 hrel
    (r := { r with
      state := { r.state with
        pos := ⟨(ahead r.state.pos.row r.state.pos.col d).1,
          (ahead r.state.pos.row r.state.pos.col d).2⟩,
        direction := d },
      path := r.path ++ [d] })
    (v := { v with
      curR := (ahead r.state.pos.row r.state.pos.col d).1,
      curC := (ahead r.state.pos.row r.state.pos.col d).2,
      path := v.path ++ [Grok.dirNames d] })
    hrg htele hin hcell hvg rfl rfl h3 h4 h5
  refine ⟨v'', by simp only [Grok.land, e0], hrg, hrh, hrw, hrd, htele, hin, e1, ?_, cell, hcell,
    e3, e4, e5, e6, e7⟩
  rw [e2]
  simp only [List.map_append, List.map_cons, List.map_nil, hvp, dirNames_claude]

/-- The cell grok stands on at the head of a pass is not the goal unless claude
stands on the goal. -/
theorem Claude.agrees_off_goal {g g1 : Grid} {H W : Nat} {dr dc : Int}
    (hrel : ∀ x y : Int, cellAt g1 x y = (cellAt g x y).map deAt)
    (hgoal : ∀ x y : Int, cellAt g x y = some '$' → x = dr ∧ y = dc)
    {r : Claude.Robot} {v : Grok.Vars} (ha : Claude.Agrees g g1 H W dr dc r v)
    (hoff : r.state.pos ≠ r.destPos) :
    ∃ c, cellAt v.grid v.curR v.curC = some c ∧ c ≠ '$' := by
  obtain ⟨hrg, _, _, hrd, htele, _, hvg, _, cell, hcell, c1, c2, _, _, _⟩ := ha
  have hne : cell ≠ '$' := by
    intro e
    rw [e] at hcell
    obtain ⟨k1, k2⟩ := hgoal _ _ hcell
    apply hoff
    rw [hrd]
    have : r.state.pos = ⟨r.state.pos.row, r.state.pos.col⟩ := rfl
    rw [this, k1, k2]
  refine ⟨deAt cell, ?_, fun e => hne ((deAt_eq_iff (by decide) (by decide)).1 e)⟩
  rw [hvg, c1, c2, hrel, Claude.special_cell hrg htele hcell]
  rfl

/-- Every pass of claude without the visited test is matched by one pass of
grok, or by two when the robot turns. -/
theorem Claude.agree_step {g g1 : Grid} {H W : Nat} {dr dc : Int} (hg : Rect g H W)
    (hg1 : Rect g1 H W) (hrel : ∀ x y : Int, cellAt g1 x y = (cellAt g x y).map deAt)
    (hx : ∀ x y : Int, cellAt g x y ≠ some 'X')
    (hgoal : ∀ x y : Int, cellAt g x y = some '$' → x = dr ∧ y = dc)
    {r r'' : Claude.Robot} {v : Grok.Vars} (ha : Claude.Agrees g g1 H W dr dc r v)
    (h : Claude.plainBody r = .next r'') :
    ∃ k v'', 1 ≤ k ∧ iterate (fun v => some (Grok.plainBody H W v)) k v = some v'' ∧
      Claude.Agrees g g1 H W dr dc r'' v'' := by
  unfold Claude.plainBody at h
  by_cases hoff : r.state.pos = r.destPos
  · simp [hoff] at h
  rw [if_neg hoff] at h
  obtain ⟨c, hcv, hcne⟩ := Claude.agrees_off_goal hrel hgoal ha hoff
  obtain ⟨hrg, hrh, hrw, hrd, htele, hin, hvg, hvp, cell, hcell, c1, c2, c3, c4, c5⟩ := ha
  have hplain : ∀ u : Grok.Vars, u.grid = v.grid → u.curR = v.curR → u.curC = v.curC →
      Grok.plainBody H W u = Grok.advance H W u := by
    intro u e1 e2 e3
    unfold Grok.plainBody
    rw [e1, e2, e3, hcv]
    simp only [hcne, if_false]
  obtain ⟨cell', hcell', hm⟩ := Claude.advance_next_claude h
  rw [hrg, hcell] at hcell'
  simp only [Option.some.injEq] at hcell'
  subst hcell'
  rw [Claude.special_visited] at hm
  obtain ⟨f1, f2, f3, f4, f5, _, f7⟩ := Claude.special_frame r cell
  obtain ⟨d, hr'', hcases⟩ := Claude.moveStep_cases hm
  simp only at hcases
  rw [f1, f2, f3, hrg, hrh, hrw] at hcases
  have hgv : Rect v.grid H W := by rw [hvg]; exact hg1
  have hrelv : ∀ x y : Int, cellAt v.grid x y = (cellAt g x y).map deAt := by
    rw [hvg]
    exact hrel
  rcases hcases with ⟨hopen, hdd⟩ | ⟨hblocked, hfirst⟩
  · -- the cell ahead is open: one pass of grok
    obtain ⟨v'', hv'', ha''⟩ := Claude.land_match hg hg1 hrel hx
      (r := { Claude.special r cell with visited := Claude.getStateKey r :: r.visited })
      (v := { v with visited := Grok.stateOf v :: v.visited }) d
      (by rw [← hrg, ← f1]) (by rw [← hrh, ← f2]) (by rw [← hrw, ← f3]) (by rw [← hrd, ← f4])
      (by intro ch hch; rw [← htele ch hch]; exact congrFun f5 ch)
      hvg (by rw [hvp, ← f7]) c1 c2 (by rw [hdd]; exact c3) c4 c5 (by rw [hdd]; exact hopen)
    rw [← hr''] at ha''
    refine ⟨1, v'', le_refl _, ?_, ha''⟩
    have hopenv : OpenTo v.grid H W v.curBreaker v.curR v.curC v.curDir := by
      rw [c1, c2, c3, c5]
      exact (openTo_deAt hrelv H W _ _ _ _).2 hopen
    have hadv : Grok.advance H W v = .next v'' := by
      unfold Grok.advance Grok.moveStep
      simp only
      rw [Grok.blockedAt_open hopenv]
      simp only
      have e1 : v.curR + (Grok.deltas v.curDir).1 = (ahead v.curR v.curC v.curDir).1 :=
        congrArg Prod.fst (Grok.deltas_eq v.curR v.curC v.curDir)
      have e2 : v.curC + (Grok.deltas v.curDir).2 = (ahead v.curR v.curC v.curDir).2 :=
        congrArg Prod.snd (Grok.deltas_eq v.curR v.curC v.curDir)
      rw [e1, e2]
      exact hv''
    simp only [iterate, hplain v rfl rfl rfl, hadv]
  · -- the cell ahead is blocked: grok turns, then moves
    obtain ⟨pre, post, hl, hgood, hbad⟩ := hfirst
    have hblockedv : ¬ OpenTo v.grid H W v.curBreaker v.curR v.curC v.curDir := by
      rw [c1, c2, c3, c5]
      exact fun e => hblocked ((openTo_deAt hrelv H W _ _ _ _).1 e)
    have hturn : Grok.advance H W v =
        .next { v with visited := Grok.stateOf v :: v.visited, curDir := d } := by
      unfold Grok.advance Grok.moveStep
      simp only
      rw [Grok.blockedAt_blocked hgv hblockedv]
      simp only
      rw [priorityOrder_grok, c4, hl, Grok.turn_first hgv _ _ _ d pre post]
      · rw [c1, c2, c5]
        exact (openTo_deAt hrelv H W _ _ _ _).2 hgood
      · intro e he
        rw [c1, c2, c5]
        exact fun ho => hbad e he ((openTo_deAt hrelv H W _ _ _ _).1 ho)
    obtain ⟨v'', hv'', ha''⟩ := Claude.land_match hg hg1 hrel hx
      (r := { Claude.special r cell with visited := Claude.getStateKey r :: r.visited })
      (v := { v with
        visited := Grok.stateOf { v with visited := Grok.stateOf v :: v.visited, curDir := d } ::
          Grok.stateOf v :: v.visited,
        curDir := d }) d
      (by rw [← hrg, ← f1]) (by rw [← hrh, ← f2]) (by rw [← hrw, ← f3]) (by rw [← hrd, ← f4])
      (by intro ch hch; rw [← htele ch hch]; exact congrFun f5 ch)
      hvg (by rw [hvp, ← f7]) c1 c2 rfl c4 c5 hgood
    rw [← hr''] at ha''
    refine ⟨2, v'', by omega, ?_, ha''⟩
    have hopenv : OpenTo v.grid H W v.curBreaker v.curR v.curC d := by
      rw [c1, c2, c5]
      exact (openTo_deAt hrelv H W _ _ _ _).2 hgood
    have hadv2 : Grok.advance H W
        { v with visited := Grok.stateOf v :: v.visited, curDir := d } = .next v'' := by
      unfold Grok.advance Grok.moveStep
      simp only
      rw [Grok.blockedAt_open hopenv]
      simp only
      have e1 : v.curR + (Grok.deltas d).1 = (ahead v.curR v.curC d).1 :=
        congrArg Prod.fst (Grok.deltas_eq v.curR v.curC d)
      have e2 : v.curC + (Grok.deltas d).2 = (ahead v.curR v.curC d).2 :=
        congrArg Prod.snd (Grok.deltas_eq v.curR v.curC d)
      rw [e1, e2]
      exact hv''
    simp only [iterate, hplain v rfl rfl rfl, hturn]
    rw [hplain { v with visited := Grok.stateOf v :: v.visited, curDir := d } rfl rfl rfl,
      hadv2]

/-- Where claude without the visited test halts, on the goal or stuck, grok
halts the same way. -/
theorem Claude.agree_halt {g g1 : Grid} {H W : Nat} {dr dc : Int} (hg1 : Rect g1 H W)
    (hrel : ∀ x y : Int, cellAt g1 x y = (cellAt g x y).map deAt)
    (hgoal : ∀ x y : Int, cellAt g x y = some '$' → x = dr ∧ y = dc)
    (hdest : cellAt g dr dc = some '$')
    {r : Claude.Robot} {v : Grok.Vars} {o : Outcome} (ha : Claude.Agrees g g1 H W dr dc r v)
    (h : Claude.plainBody r = .halt o) (ho : o ≠ .crash) : Grok.plainBody H W v = .halt o := by
  unfold Claude.plainBody at h
  by_cases hoff : r.state.pos = r.destPos
  · rw [if_pos hoff] at h
    simp only [Iter.halt.injEq] at h
    subst h
    obtain ⟨hrg, _, _, hrd, _, _, hvg, hvp, cell, hcell, c1, c2, _, _, _⟩ := ha
    have hpos : r.state.pos.row = dr ∧ r.state.pos.col = dc := by
      rw [hoff, hrd]
      exact ⟨rfl, rfl⟩
    rw [hpos.1, hpos.2, hdest] at hcell
    simp only [Option.some.injEq] at hcell
    subst hcell
    have hsp : Claude.special r '$' = r := by
      unfold Claude.special
      simp [teleDigits]
    rw [hsp] at c1 c2
    unfold Grok.plainBody
    rw [hvg, c1, c2, hrel, hpos.1, hpos.2, hdest]
    simp [deAt, hvp]
  rw [if_neg hoff] at h
  obtain ⟨c, hcv, hcne⟩ := Claude.agrees_off_goal hrel hgoal ha hoff
  obtain ⟨hrg, hrh, hrw, hrd, htele, hin, hvg, hvp, cell, hcell, c1, c2, c3, c4, c5⟩ := ha
  unfold Grok.plainBody
  rw [hcv]
  simp only [hcne, if_false]
  have hcell' : cellAt r.grid r.state.pos.row r.state.pos.col = some cell := by
    rw [hrg]
    exact hcell
  unfold Claude.advance at h
  simp only [hcell'] at h
  rw [Claude.special_visited] at h
  obtain ⟨f1, f2, f3, _, _, _, _⟩ := Claude.special_frame r cell
  unfold Claude.moveStep at h
  have hgv : Rect v.grid H W := by rw [hvg]; exact hg1
  have hrelv : ∀ x y : Int, cellAt v.grid x y = (cellAt g x y).map deAt := by
    rw [hvg]
    exact hrel
  cases hc : Claude.canMoveTo
      { Claude.special r cell with visited := Claude.getStateKey r :: r.visited }
      (Claude.getNextPosition
        { Claude.special r cell with visited := Claude.getStateKey r :: r.visited }
        (Claude.special r cell).state.direction) with
  | crash =>
    simp only [hc, Iter.halt.injEq] at h
    exact absurd h.symm ho
  | ok t =>
    cases t with
    | true => simp [hc] at h
    | false =>
      simp only [hc] at h
      cases ht : Claude.tryPriorities
          { Claude.special r cell with visited := Claude.getStateKey r :: r.visited }
          (Claude.getPriorityDirections
            { Claude.special r cell with visited := Claude.getStateKey r :: r.visited }) with
      | crash =>
        simp only [ht, Iter.halt.injEq] at h
        exact absurd h.symm ho
      | ok x =>
        cases x with
        | some r3 => simp [ht] at h
        | none =>
          simp only [ht, Iter.halt.injEq] at h
          subst h
          rw [priorityOrder_claude] at ht
          have hnone := Claude.tryPriorities_none _ _ ht
          simp only at hnone
          rw [f1, f2, f3, hrg, hrh, hrw] at hnone
          have hnonev : ∀ d, ¬ OpenTo v.grid H W v.curBreaker v.curR v.curC d := by
            intro d
            rw [c1, c2, c5]
            exact fun e => hnone d (mem_priorityOrder _ d) ((openTo_deAt hrelv H W _ _ _ _).1 e)
          unfold Grok.advance Grok.moveStep
          simp only
          rw [Grok.blockedAt_blocked hgv (hnonev _)]
          simp only
          cases htu : Grok.turn v.grid H W v.curBreaker v.curR v.curC
              (if v.curInv = true then Grok.prioInv else Grok.prioNormal) with
          | crash => exact absurd htu (Grok.turn_total hgv _ _ _ _)
          | ok y =>
            cases y with
            | none => rfl
            | some nDir => exact absurd (Grok.turn_some _ _ htu).2 (hnonev nDir)

theorem Claude.initial_agrees {g g1 : Grid} {H W : Nat} {sr sc dr dc : Int} {rb0 : Claude.Robot}
    (hu : UniqueStart g H W sr sc) (hd : UniqueGoal g H W dr dc)
    (h1 : rb0.grid = g) (h2 : rb0.height = H) (h3 : rb0.width = W) (h5 : rb0.path = [])
    (h6 : rb0.state = ⟨⟨sr, sc⟩, .SOUTH, false, false⟩)
    (h7 : ∀ ch ∈ teleDigits, rb0.teleporters ch =
      ((rowMajor H W).filter (fun q => decide (cellAt g (q.1 : Int) (q.2 : Int) = some ch))).map
        (fun q => (⟨(q.1 : Int), (q.2 : Int)⟩ : Claude.Position)))
    (h8 : cellAt g rb0.destPos.row rb0.destPos.col = some '$') :
    Claude.Agrees g g1 H W dr dc rb0 (Grok.initial g1 sr sc) := by
  obtain ⟨k1, k2⟩ := hd.2.2 _ _ h8
  have hdp : rb0.destPos = ⟨dr, dc⟩ := by
    have : rb0.destPos = ⟨rb0.destPos.row, rb0.destPos.col⟩ := rfl
    rw [this, k1, k2]
  have hsp : Claude.special rb0 '@' = rb0 := by
    unfold Claude.special
    simp [teleDigits]
  refine ⟨h1, h2, h3, hdp, h7, by rw [h6]; exact hu.1, rfl, by rw [h5]; rfl, '@',
    by rw [h6]; exact hu.2.1, ?_, ?_, ?_, ?_, ?_⟩ <;> rw [hsp, h6] <;> rfl

/-- C16: on a rectangular grid with exactly one `@`, exactly one `$` and no
`X`, claude and grok both return when given enough fuel, neither panics, and
they print the same lines; whatever fuel they are given, any two results print
the same lines. -/
theorem claude_grok_agree (g : Grid) (H W : Nat) (sr sc dr dc : Int) (hg : Rect g H W)
    (hu : UniqueStart g H W sr sc) (hd : UniqueGoal g H W dr dc) (hn : NoWalls g H W) :
    ∃ (N : Nat) (oc og : Outcome),
      (∀ j : Nat, Claude.main (N + j) H W g = some oc) ∧
      (∀ j : Nat, Grok.main (N + j) H W g = some og) ∧
      oc ≠ .crash ∧ og ≠ .crash ∧ oc.output = og.output ∧
      (∀ (fuel : Nat) (o : Outcome), Claude.main fuel H W g = some o → o = oc) ∧
      (∀ (fuel : Nat) (o : Outcome), Grok.main fuel H W g = some o → o = og) := by
  obtain ⟨hH, hW, _, _, _⟩ := uniqueStart_pos hu
  have hx := noWalls_cell hg hn
  obtain ⟨rb0, hnew, n1, n2, n3, n4, n5, n6, n7, n8⟩ := Claude.newRobot_unique hg hu
  have hgoalmem : ∃ q ∈ rowMajor H W, cellAt g (q.1 : Int) (q.2 : Int) = some '$' := by
    obtain ⟨⟨a1, a2, a3, a4⟩, hat, _⟩ := hd
    refine ⟨(dr.toNat, dc.toNat), mem_rowMajor.2 ⟨by simp only; omega, by simp only; omega⟩, ?_⟩
    simp only
    rw [Int.toNat_of_nonneg a1, Int.toNat_of_nonneg a3]
    exact hat
  obtain ⟨rb0', nA, rA, oA, hnew', hA, hA', hAk, _, _, _, hrunA⟩ := Claude.terminates_claude hg
  rw [hnew] at hnew'
  simp only [Res.ok.injEq] at hnew'
  subst hnew'
  obtain ⟨g1, hf, hg1, hrel⟩ := Grok.findStart_unique_grok hg hu
  obtain ⟨g1', sr', sc', nB, vB, oB, hf', hB, hB', hBk, _, _, _, hrunB⟩ :=
    Grok.terminates_grok hg hH hW
  rw [hf] at hf'
  simp only [Res.ok.injEq, Prod.mk.injEq] at hf'
  obtain ⟨e1, e2, e3⟩ := hf'
  subst e1 e2 e3
  have hout : oA.output = oB.output :=
    same_output (fun r => some (Claude.findPathBody r)) (fun r => some (Claude.plainBody r))
      (fun v => some (Grok.body H W v)) (fun v => some (Grok.plainBody H W v))
      (Claude.Agrees g g1 H W dr dc) rb0 (Grok.initial g1 sr sc)
      (fun _ _ h => congrArg some (Claude.plain_of_next_claude (Option.some.inj h)))
      (fun _ _ h ho => congrArg some (Claude.plain_of_halt_claude (Option.some.inj h) ho))
      (fun _ _ h => congrArg some (Grok.plain_of_next_grok (Option.some.inj h)))
      (fun _ _ h ho => congrArg some (Grok.plain_of_halt_grok (Option.some.inj h) ho))
      (fun n rn hn' hc => Claude.cycle_forever_claude (by rw [n1]; exact hx) n4 hn'
        (Option.some.inj hc))
      (fun n vn hn' hc => Grok.cycle_forever_grok hg1 sr sc hn' (Option.some.inj hc))
      (iterate_follow _ _ _ _ _
        (Claude.initial_agrees hu hd n1 n2 n3 n5 n6 n7 (n8 hgoalmem))
        (fun _ _ _ ha h => Claude.agree_step hg hg1 hrel hx hd.2.2 ha (Option.some.inj h)))
      (fun r v o ha h ho =>
        ⟨o, congrArg some (Claude.agree_halt hg1 hrel hd.2.2 hd.2.1 ha (Option.some.inj h) ho),
          rfl⟩)
      hA (congrArg some hA') hAk hB (congrArg some hB')
  refine ⟨configBound H W (xCount g H W) + 1, oA, oB, ?_, ?_, hAk, hBk, hout, ?_, ?_⟩
  · intro j
    exact hrunA _ (by omega)
  · intro j
    exact hrunB _ (by omega)
  · intro fuel o h
    have h1 := Claude.main_mono_claude h (configBound H W (xCount g H W) + 1)
    rw [hrunA _ (by omega)] at h1
    exact (Option.some.inj h1).symm
  · intro fuel o h
    have h1 := Grok.main_mono_grok h (configBound H W (xCount g H W) + 1)
    rw [hrunB _ (by omega)] at h1
    exact (Option.some.inj h1).symm

theorem claude_grok_agree_witness :
    ∃ (N : Nat) (oc og : Outcome),
      (∀ j : Nat, Claude.main (N + j) 10 10 harnessTest5 = some oc) ∧
      (∀ j : Nat, Grok.main (N + j) 10 10 harnessTest5 = some og) ∧
      oc ≠ .crash ∧ og ≠ .crash ∧ oc.output = og.output ∧
      (∀ (fuel : Nat) (o : Outcome), Claude.main fuel 10 10 harnessTest5 = some o → o = oc) ∧
      (∀ (fuel : Nat) (o : Outcome), Grok.main fuel 10 10 harnessTest5 = some o → o = og) :=
  claude_grok_agree harnessTest5 10 10 5 1 8 8 (by decide)
    (uniqueStart_of_cells (a := 5) (b := 1) (by decide) (by decide))
    (uniqueGoal_of_cells (a := 8) (b := 8) (by decide) (by decide)) (by decide)

/-! ## The robot stays inside the grid -/

/-- A loop whose body, under an invariant, never panics never ends in a panic. -/
theorem drive_safe {σ : Type} (body : σ → Option (Iter σ)) (I : σ → Prop)
    (hsafe : ∀ s, I s → body s ≠ some (.halt .crash))
    (hstep : ∀ s s', I s → body s = some (.next s') → I s') (fuel : Nat) (s0 : σ)
    (h0 : I s0) : drive body fuel s0 ≠ some .crash := by
  intro h
  obtain ⟨j, sj, _, hj, hb⟩ := drive_halts body fuel s0 .crash h
  exact hsafe sj (iterate_inv body I hstep j s0 sj h0 hj) hb

/-- chatgpt: when the grid holds an `@`, the start is a cell of the grid that
holds `@`. -/
theorem Chatgpt.findStart_cell {g : Grid} {H W : Nat} {ar ac : Int} (hg : Rect g H W)
    (hat : cellAt g ar ac = some '@') :
    InGrid H W (Chatgpt.findStart g).r (Chatgpt.findStart g).c ∧
      cellAt g (Chatgpt.findStart g).r (Chatgpt.findStart g).c = some '@' := by
  obtain ⟨a1, a2, a3, a4⟩ := rect_inGrid hg hat
  have hmem : (ar.toNat, ac.toNat) ∈ rowMajor H W :=
    mem_rowMajor.2 ⟨by simp only; omega, by simp only; omega⟩
  unfold Chatgpt.findStart
  rw [Chatgpt.cells_eq hg]
  rcases Chatgpt.findStart_fold ((rowMajor H W).map (fun q =>
      ((⟨(q.1 : Int), (q.2 : Int)⟩ : Chatgpt.Point),
        (cellAt g (q.1 : Int) (q.2 : Int)).getD ' '))) ⟨-1, -1⟩ with ⟨_, hno⟩ | ⟨pc, hpc, h1, h2⟩
  · exfalso
    refine hno _ (List.mem_map.2 ⟨_, hmem, rfl⟩) ?_
    simp only
    rw [Int.toNat_of_nonneg a1, Int.toNat_of_nonneg a3, hat]
    rfl
  · rw [h2]
    obtain ⟨q, hq, rfl⟩ := List.mem_map.1 hpc
    obtain ⟨k1, k2⟩ := mem_rowMajor.1 hq
    simp only at h1 ⊢
    refine ⟨⟨by omega, by omega, by omega, by omega⟩, ?_⟩
    cases hc : cellAt g (q.1 : Int) (q.2 : Int) with
    | none => rw [hc] at h1; exact absurd h1 (by decide)
    | some ch =>
      rw [hc] at h1
      simp only [Option.getD_some] at h1
      rw [h1]

/-- claude: on a rectangular grid with a row and a column `NewRobot` returns a
robot that stands inside the grid, with all its teleporter cells inside. -/
theorem Claude.newRobot_sound {g : Grid} {H W : Nat} (hg : Rect g H W) (hH : 0 < H)
    (hW : 0 < W) : ∃ rb0, Claude.NewRobot g H W = .ok rb0 ∧ Claude.Sound H W rb0 := by
  obtain ⟨rb0, hnew⟩ := Claude.newRobotScan_ok g (rowMajor H W)
    { grid := g, height := H, width := W, startPos := ⟨0, 0⟩, destPos := ⟨0, 0⟩,
      teleporters := fun _ => [], state := ⟨⟨0, 0⟩, .SOUTH, false, false⟩, visited := [],
      path := [] } (rect_readable hg)
  obtain ⟨f1, f2, f3, _, _, _, _⟩ := Claude.newRobotScan_frame g _ _ _ hnew
  simp only at f1 f2 f3
  refine ⟨rb0, hnew, by rw [f1]; exact hg, f2, f3, ?_, ?_⟩
  · rcases Claude.newRobotScan_pos g _ _ _ hnew with h | ⟨q, hq, h⟩
    · rw [h]
      exact ⟨by simp, by simpa using hH, by simp, by simpa using hW⟩
    · rw [h]
      obtain ⟨h1, h2⟩ := mem_rowMajor.1 hq
      exact ⟨by simp, by simpa using h1, by simp, by simpa using h2⟩
  · intro ch hch tp htp
    rw [Claude.newRobotScan_tele g _ _ _ hnew ch hch] at htp
    simp only [List.nil_append, List.mem_map, List.mem_filter] at htp
    obtain ⟨q, ⟨hq, _⟩, rfl⟩ := htp
    obtain ⟨h1, h2⟩ := mem_rowMajor.1 hq
    exact ⟨by simp, by simpa using h1, by simp, by simpa using h2⟩

/-- C17: on a rectangular grid that holds an `@`, in each solver the robot is
inside the grid at the head of every pass of the loop (in claude also after
the effect of the cell it stands on, in chatgpt and grok that effect is
applied before the next pass, and every teleport of chatgpt leads into the
grid), the grid stays rectangular, and no pass and no run ends in an index
panic. -/
theorem position_in_bounds (g : Grid) (H W : Nat) (ar ac : Int) (hg : Rect g H W)
    (hat : cellAt g ar ac = some '@') :
    ((∀ tf : Nat, Chatgpt.applyTile (Chatgpt.telePair g) (tf + 1) (Chatgpt.initial g) =
        some (.ok (Chatgpt.initial g))) ∧
      InGrid H W (Chatgpt.initial g).pos.r (Chatgpt.initial g).pos.c ∧
      (∀ p, InGrid H W (Chatgpt.telePair g p).r (Chatgpt.telePair g p).c) ∧
      (∀ (tf n : Nat) (s : Chatgpt.St),
        iterate (Chatgpt.body (Chatgpt.telePair g) tf H W) n (Chatgpt.initial g) = some s →
          Rect s.grid H W ∧ InGrid H W s.pos.r s.pos.c ∧
          Chatgpt.body (Chatgpt.telePair g) tf H W s ≠ some (.halt .crash)) ∧
      ∀ tf fuel : Nat, Chatgpt.runSolver tf fuel H W g ≠ some .crash) ∧
    (∃ rb0, Claude.NewRobot g H W = .ok rb0 ∧
      (∀ (n : Nat) (r : Claude.Robot),
        iterate (fun r => some (Claude.findPathBody r)) n rb0 = some r →
          Rect r.grid H W ∧ InGrid H W r.state.pos.row r.state.pos.col ∧
          (∀ cell, InGrid H W (Claude.special r cell).state.pos.row
            (Claude.special r cell).state.pos.col) ∧
          Claude.findPathBody r ≠ .halt .crash) ∧
      ∀ fuel : Nat, Claude.main fuel H W g ≠ some .crash) ∧
    (∃ g1 sr sc, Grok.findStart (rowMajor H W) (g, 0, 0) = .ok (g1, sr, sc) ∧
      (∀ (n : Nat) (v : Grok.Vars),
        iterate (fun v => some (Grok.body H W v)) n (Grok.initial g1 sr sc) = some v →
          Rect v.grid H W ∧ InGrid H W v.curR v.curC ∧ Grok.body H W v ≠ .halt .crash) ∧
      ∀ fuel : Nat, Grok.main fuel H W g ≠ some .crash) := by
  obtain ⟨a1, a2, a3, a4⟩ := rect_inGrid hg hat
  have hH : 0 < H := by omega
  have hW : 0 < W := by omega
  refine ⟨?_, ?_, ?_⟩
  · -- chatgpt
    obtain ⟨hin, hcell⟩ := Chatgpt.findStart_cell hg hat
    have htp := Chatgpt.telePair_inGrid hg hH hW
    have h0 : ∀ tf : Nat, Chatgpt.applyTile (Chatgpt.telePair g) (tf + 1) (Chatgpt.initial g) =
        some (.ok (Chatgpt.initial g)) := by
      intro tf
      rw [Chatgpt.applyTile]
      have hc : cellAt (Chatgpt.initial g).grid (Chatgpt.initial g).pos.r
          (Chatgpt.initial g).pos.c = some '@' := hcell
      rw [hc]
      simp [isTeleDigit]
    have hinv : ∀ (tf : Nat) (s s' : Chatgpt.St),
        (Rect s.grid H W ∧ InGrid H W s.pos.r s.pos.c) →
        Chatgpt.body (Chatgpt.telePair g) tf H W s = some (.next s') →
        (Rect s'.grid H W ∧ InGrid H W s'.pos.r s'.pos.c) :=
      fun tf s s' hs h => (Chatgpt.body_safe htp hs.1 hs.2).2 s' h
    refine ⟨h0, hin, htp, ?_, ?_⟩
    · intro tf n s hn
      have hs := iterate_inv _ (fun s => Rect s.grid H W ∧ InGrid H W s.pos.r s.pos.c)
        (hinv tf) n _ s ⟨hg, hin⟩ hn
      exact ⟨hs.1, hs.2, (Chatgpt.body_safe htp hs.1 hs.2).1⟩
    · intro tf fuel
      cases tf with
      | zero => simp [Chatgpt.runSolver, Chatgpt.applyTile]
      | succ k =>
        unfold Chatgpt.runSolver
        rw [h0 k]
        exact drive_safe _ (fun s => Rect s.grid H W ∧ InGrid H W s.pos.r s.pos.c)
          (fun s hs => (Chatgpt.body_safe htp hs.1 hs.2).1) (hinv (k + 1)) fuel _ ⟨hg, hin⟩
  · -- claude
    obtain ⟨rb0, hnew, hsound⟩ := Claude.newRobot_sound hg hH hW
    have hinv : ∀ (s s' : Claude.Robot), Claude.Sound H W s →
        (fun r => some (Claude.findPathBody r)) s = some (.next s') → Claude.Sound H W s' := by
      intro s s' hs h
      simp only [Option.some.injEq] at h
      exact (Claude.body_sound_claude hs h).1
    refine ⟨rb0, hnew, ?_, ?_⟩
    · intro n r hn
      have hs := iterate_inv _ (Claude.Sound H W) hinv n _ r hsound hn
      exact ⟨hs.1, hs.2.2.2.1, fun cell => (Claude.special_sound hs cell).2.2.2.1,
        Claude.body_no_crash_claude hs⟩
    · intro fuel
      simp only [Claude.main, hnew, Claude.findPath]
      exact drive_safe _ (Claude.Sound H W)
        (fun s hs h => Claude.body_no_crash_claude hs (Option.some.inj h)) hinv fuel _ hsound
  · -- grok
    obtain ⟨g1, sr, sc, hf, hg1, hin, _⟩ := Grok.findStart_sound (rowMajor H W) g 0 0 hg
      ⟨le_refl _, by exact_mod_cast hH, le_refl _, by exact_mod_cast hW⟩
      (fun q hq => mem_rowMajor.1 hq)
    have hsound : Grok.Sound g1 H W (Grok.initial g1 sr sc) :=
      ⟨hg1, hin, ∅, Finset.empty_subset _, (blankSet_empty hg1).symm⟩
    have hinv : ∀ (s s' : Grok.Vars), Grok.Sound g1 H W s →
        (fun v => some (Grok.body H W v)) s = some (.next s') → Grok.Sound g1 H W s' := by
      intro s s' hs h
      simp only [Option.some.injEq] at h
      exact (Grok.body_sound_grok hg1 hs h).1
    refine ⟨g1, sr, sc, hf, ?_, ?_⟩
    · intro n v hn
      have hs := iterate_inv _ (Grok.Sound g1 H W) hinv n _ v hsound hn
      exact ⟨hs.1, hs.2.1, Grok.body_no_crash_grok hs⟩
    · intro fuel
      simp only [Grok.main, hf]
      exact drive_safe _ (Grok.Sound g1 H W)
        (fun s hs h => Grok.body_no_crash_grok hs (Option.some.inj h)) hinv fuel _ hsound

theorem position_in_bounds_witness :
    (∀ tf fuel : Nat, Chatgpt.runSolver tf fuel 5 6 scenarioA ≠ some .crash) ∧
    (∀ fuel : Nat, Claude.main fuel 5 6 scenarioA ≠ some .crash) ∧
    (∀ fuel : Nat, Grok.main fuel 5 6 scenarioA ≠ some .crash) := by
  obtain ⟨⟨_, _, _, _, h1⟩, ⟨_, _, _, h2⟩, ⟨_, _, _, _, _, h3⟩⟩ :=
    position_in_bounds scenarioA 5 6 1 1 (by decide) (by decide)
  exact ⟨h1, h2, h3⟩

/-! ## Grids with a readable window -/

theorem readable_cell {g : Grid} {H W : Nat} (hg : Readable g H W) {r c : Int}
    (h : InGrid H W r c) : ∃ ch, cellAt g r c = some ch := by
  obtain ⟨h1, h2, h3, h4⟩ := h
  have hq := hg (r.toNat, c.toNat) (mem_rowMajor.2 ⟨by simp only; omega, by simp only; omega⟩)
  simp only at hq
  rw [Int.toNat_of_nonneg h1, Int.toNat_of_nonneg h3] at hq
  cases hc : cellAt g r c with
  | none => simp [hc] at hq
  | some ch => exact ⟨ch, rfl⟩

theorem readable_of_eroded {g g' : Grid} {H W : Nat} (h : Eroded g g') (hg : Readable g H W) :
    Readable g' H W := by
  intro q hq
  rcases h (q.1 : Int) (q.2 : Int) with e | ⟨_, e⟩
  · rw [e]
    exact hg q hq
  · rw [e]
    rfl

theorem readable_of_blanked {g g' : Grid} {H W : Nat} (h : Blanked g g') (hg : Readable g H W) :
    Readable g' H W := by
  intro q hq
  rcases h (q.1 : Int) (q.2 : Int) with e | ⟨_, e⟩
  · rw [e]
    exact hg q hq
  · rw [e]
    rfl

theorem Grok.findStart_blanked {l : List (Nat × Nat)} {g g1 : Grid} {a b a1 b1 : Int}
    (h : Grok.findStart l (g, a, b) = .ok (g1, a1, b1)) : Blanked g g1 :=
  (Grok.findStart_blank l g a b g1 a1 b1 h).1

/-- grok: the start scan reads every cell it is given, so when it returns all
of them are cells of the grid. -/
theorem Grok.findStart_reads :
    ∀ (l : List (Nat × Nat)) (g : Grid) (a b : Int) (g1 : Grid) (a1 b1 : Int),
      Grok.findStart l (g, a, b) = .ok (g1, a1, b1) →
      ∀ q ∈ l, (cellAt g (q.1 : Int) (q.2 : Int)).isSome = true := by
  intro l
  induction l with
  | nil => intro g a b g1 a1 b1 _ q hq; simp at hq
  | cons p l ih =>
    intro g a b g1 a1 b1 h q hq
    obtain ⟨r, c⟩ := p
    simp only [Grok.findStart] at h
    cases hc : cellAt g (r : Int) (c : Int) with
    | none => simp [hc] at h
    | some ch =>
      simp only [hc] at h
      rcases List.mem_cons.1 hq with rfl | hq'
      · simp only
        rw [hc]
        rfl
      · by_cases hat : ch = '@'
        · simp only [hat, if_true] at h
          have := ih _ _ _ _ _ _ h q hq'
          rw [cellAt_setCell _ _ _ _ (by omega) (by omega)] at this
          split_ifs at this with he
          · rw [he.1, he.2, hc]
            rfl
          · exact this
        · simp only [hat, if_false] at h
          exact ih _ _ _ _ _ _ h q hq'

theorem Grok.findStart_readable {H W : Nat} {g g1 : Grid} {sr sc : Int}
    (h : Grok.findStart (rowMajor H W) (g, 0, 0) = .ok (g1, sr, sc)) :
    Readable g H W ∧ Readable g1 H W :=
  ⟨Grok.findStart_reads _ _ _ _ _ _ _ h,
    readable_of_blanked (Grok.findStart_blanked h) (Grok.findStart_reads _ _ _ _ _ _ _ h)⟩

theorem Grok.moveTo_eroded (v : Grok.Vars) (nR nC : Int) :
    Eroded v.grid (Grok.moveTo v nR nC).grid := by
  unfold Grok.moveTo
  simp only
  split_ifs with hx
  · exact eroded_setCell _ _ _ hx
  · exact eroded_refl _

theorem Grok.body_eroded {H W : Nat} {v v' : Grok.Vars} (h : Grok.body H W v = .next v') :
    Eroded v.grid v'.grid := by
  rcases (Grok.advance_grid_grok (Grok.body_next_grok h).1).2 with ⟨e, _⟩ | ⟨_, hw⟩
  · rw [e]
    exact eroded_refl _
  · exact wallStep_eroded hw

/-- grok: along a run the grid is the grid after the start scan with some of
its breakable walls blanked. -/
theorem Grok.run_eroded {H W : Nat} {g1 : Grid} {sr sc : Int} {n : Nat} {v : Grok.Vars}
    (h : iterate (fun v => some (Grok.body H W v)) n (Grok.initial g1 sr sc) = some v) :
    Eroded g1 v.grid :=
  iterate_rel (fun v => some (Grok.body H W v)) (fun a b => Eroded a.grid b.grid)
    (fun _ => eroded_refl _) (fun _ _ _ hab hbc => eroded_trans hab hbc)
    (fun _ _ hab => Grok.body_eroded (Option.some.inj hab)) n _ v h

theorem Grok.applyEffect_window {H W : Nat} {v : Grok.Vars} (hg : Readable v.grid H W)
    {d : Char} (hc : cellAt v.grid v.curR v.curC = some d) (hd : isTeleDigit d = true) :
    ∃ destR destC, TeleTarget v.grid H W d v.curR v.curC destR destC ∧
      Grok.applyEffect H W v = .ok { v with curR := destR, curC := destC } := by
  unfold Grok.applyEffect
  simp only [hc, hd, if_true]
  rw [Grok.teleScan_eq _ hg]
  cases hf : (rowMajor H W).find? (fun q => decide (cellAt v.grid (q.1 : Int) (q.2 : Int) = some d ∧
          ((q.1 : Int) ≠ v.curR ∨ (q.2 : Int) ≠ v.curC))) with
  | none => exact ⟨v.curR, v.curC, teleTarget_of_find.2 hf, rfl⟩
  | some q =>
    obtain ⟨rR, cC⟩ := q
    exact ⟨rR, cC, teleTarget_of_find.1 _ hf, rfl⟩

/-! ## Teleporters: the claim -/

/-- C4: in claude (for every grid and every robot reached from `NewRobot` by
passes of the loop) and in grok (for variables whose grid has a readable `H`
by `W` window, which is so for the variables of every run when the effect is
applied: the start scan has read every cell of the window), when the robot is
on a cell holding a digit `d`, the effect puts it on the first cell in
row-major order that holds `d` and is not its own cell, or leaves it where it
is when there is no such cell; facing, breaker, inverted, grid and path are as
before, and the move of the pass (claude) or of the next pass (grok) is
resolved from the destination without applying the destination's effect. -/
theorem teleport_first_other :
    (∀ (g0 : Grid) (H W n : Nat) (rb0 r : Claude.Robot) (d : Char),
      Claude.NewRobot g0 H W = .ok rb0 →
      iterate (fun r => some (Claude.findPathBody r)) n rb0 = some r →
      isTeleDigit d = true →
      cellAt r.grid r.state.pos.row r.state.pos.col = some d →
      ∃ dest : Claude.Position,
        TeleTarget r.grid H W d r.state.pos.row r.state.pos.col dest.row dest.col ∧
        Claude.special r d = { r with state := { r.state with pos := dest } } ∧
        Claude.advance r = Claude.moveStep
          { r with visited := Claude.getStateKey r :: r.visited,
                   state := { r.state with pos := dest } }) ∧
    (∀ (H W : Nat) (v : Grok.Vars) (d : Char), Readable v.grid H W →
      isTeleDigit d = true → cellAt v.grid v.curR v.curC = some d →
      ∃ destR destC : Int, TeleTarget v.grid H W d v.curR v.curC destR destC ∧
        Grok.applyEffect H W v = .ok { v with curR := destR, curC := destC } ∧
        Grok.land H W v = .next { v with curR := destR, curC := destC }) ∧
    (∀ (g : Grid) (H W n : Nat) (g1 : Grid) (sr sc : Int) (v : Grok.Vars),
      Grok.findStart (rowMajor H W) (g, 0, 0) = .ok (g1, sr, sc) →
      iterate (fun v => some (Grok.body H W v)) n (Grok.initial g1 sr sc) = some v →
      Readable v.grid H W ∧
      ∀ (u : Grok.Vars) (nR nC : Int), u.grid = v.grid →
        Readable (Grok.moveTo u nR nC).grid H W) ∧
    (∀ (g : Grid) (H W n : Nat) (g1 : Grid) (sr sc : Int) (v : Grok.Vars) (d : Char),
      Grok.findStart (rowMajor H W) (g, 0, 0) = .ok (g1, sr, sc) →
      iterate (fun v => some (Grok.body H W v)) n (Grok.initial g1 sr sc) = some v →
      OpenTo v.grid H W v.curBreaker v.curR v.curC v.curDir →
      isTeleDigit d = true →
      cellAt v.grid (ahead v.curR v.curC v.curDir).1 (ahead v.curR v.curC v.curDir).2 = some d →
      ∃ destR destC : Int,
        TeleTarget v.grid H W d (ahead v.curR v.curC v.curDir).1
          (ahead v.curR v.curC v.curDir).2 destR destC ∧
        Grok.advance H W v = .next
          { v with visited := Grok.stateOf v :: v.visited, curR := destR, curC := destC,
                   path := v.path ++ [Grok.dirNames v.curDir] }) := by
  refine ⟨?_, ?_, ?_, ?_⟩
  · intro g0 H W n rb0 r d hnew hit hd hcell
    have hg0 : rb0.grid = g0 := (Claude.newRobotScan_frame g0 _ _ _ hnew).1
    have ht0 := Claude.newRobotScan_tele g0 _ _ _ hnew d ((mem_teleDigits_iff d).2 hd)
    simp only [List.nil_append] at ht0
    have hinv : r.teleporters = rb0.teleporters ∧ Eroded rb0.grid r.grid := by
      refine iterate_rel (fun r => some (Claude.findPathBody r))
        (fun a b => b.teleporters = a.teleporters ∧ Eroded a.grid b.grid)
        (fun a => ⟨rfl, eroded_refl _⟩)
        (fun a b c hab hbc => ⟨hbc.1.trans hab.1, eroded_trans hab.2 hbc.2⟩) ?_ n rb0 r hit
      intro a b hab
      simp only [Option.some.injEq] at hab
      obtain ⟨cell, d, _, _, _, _, _, htp, _, _, hw⟩ :=
        Claude.advance_grid_claude (Claude.findPathBody_next hab).1
      exact ⟨htp, wallStep_eroded hw⟩
    obtain ⟨dest, htarget, hsp⟩ := Claude.special_digit r g0 H W d hd
      (by rw [hinv.1, ht0]) (by rw [← hg0]; exact hinv.2)
    refine ⟨dest, htarget, hsp, ?_⟩
    unfold Claude.advance
    simp only [hcell]
    rw [Claude.special_visited, hsp]
  · intro H W v d hg hd hcell
    obtain ⟨destR, destC, h1, h2⟩ := Grok.applyEffect_window hg hcell hd
    exact ⟨destR, destC, h1, h2, by simp [Grok.land, h2]⟩
  · intro g H W n g1 sr sc v hf hit
    have hv : Readable v.grid H W :=
      readable_of_eroded (Grok.run_eroded hit) (Grok.findStart_readable hf).2
    refine ⟨hv, ?_⟩
    intro u nR nC hu
    exact readable_of_eroded (Grok.moveTo_eroded u nR nC) (by rw [hu]; exact hv)
  · intro g H W n g1 sr sc v d hf hit hopen hd hcell
    have hv : Readable v.grid H W :=
      readable_of_eroded (Grok.run_eroded hit) (Grok.findStart_readable hf).2
    have hne : d ≠ 'X' := (isTeleDigit_ne_wall hd).2
    have hnx : ¬ cellAt v.grid (ahead v.curR v.curC v.curDir).1
        (ahead v.curR v.curC v.curDir).2 = some 'X' := by
      rw [hcell]
      exact fun e => hne (Option.some.inj e)
    have hmv : Grok.moveTo { v with visited := Grok.stateOf v :: v.visited }
        (ahead v.curR v.curC v.curDir).1 (ahead v.curR v.curC v.curDir).2 =
        { v with visited := Grok.stateOf v :: v.visited,
                 curR := (ahead v.curR v.curC v.curDir).1,
                 curC := (ahead v.curR v.curC v.curDir).2,
                 path := v.path ++ [Grok.dirNames v.curDir] } := by
      unfold Grok.moveTo
      simp only
      rw [if_neg hnx]
    obtain ⟨destR, destC, h1, h2⟩ := @Grok.applyEffect_window H W
      { v with visited := Grok.stateOf v :: v.visited,
               curR := (ahead v.curR v.curC v.curDir).1,
               curC := (ahead v.curR v.curC v.curDir).2,
               path := v.path ++ [Grok.dirNames v.curDir] } hv d hcell hd
    refine ⟨destR, destC, h1, ?_⟩
    have e1 : v.curR + (Grok.deltas v.curDir).1 = (ahead v.curR v.curC v.curDir).1 :=
      congrArg Prod.fst (Grok.deltas_eq v.curR v.curC v.curDir)
    have e2 : v.curC + (Grok.deltas v.curDir).2 = (ahead v.curR v.curC v.curDir).2 :=
      congrArg Prod.snd (Grok.deltas_eq v.curR v.curC v.curDir)
    unfold Grok.advance Grok.moveStep
    simp only
    rw [Grok.blockedAt_open hopen, e1, e2]
    simp only
    rw [hmv]
    unfold Grok.land
    rw [h2]

/-- Witness of C4 on test 5 of the harness: the robot has entered the cell `1`
at `(8, 5)`; claude is there after seven passes, grok in `Grok.sampleOnTele`. -/
theorem teleport_first_other_witness :
    (∃ (r : Claude.Robot) (dest : Claude.Position),
      Claude.runChecked 7 harnessTest5 10 10 = some r ∧
      TeleTarget r.grid 10 10 '1' r.state.pos.row r.state.pos.col dest.row dest.col ∧
      Claude.special r '1' = { r with state := { r.state with pos := dest } }) ∧
    (∃ destR destC : Int, TeleTarget Grok.sampleOnTele.grid 10 10 '1' 8 5 destR destC ∧
      Grok.applyEffect 10 10 Grok.sampleOnTele =
        .ok { Grok.sampleOnTele with curR := destR, curC := destC }) := by
  constructor
  · have hv : (Claude.runChecked 7 harnessTest5 10 10).map Claude.view =
        some (⟨⟨8, 5⟩, .EAST, false, false⟩, harnessTest5) := by decide
    unfold Claude.runChecked at hv ⊢
    cases hn : Claude.NewRobot harnessTest5 10 10 with
    | crash => simp [hn] at hv
    | ok rb0 =>
      simp only [hn] at hv ⊢
      cases hi : iterate (fun r => some (Claude.findPathBody r)) 7 rb0 with
      | none => simp [hi] at hv
      | some r =>
        simp only [hi, Option.map_some', Option.some.injEq, Claude.view, Prod.mk.injEq] at hv
        obtain ⟨dest, h1, h2, _⟩ := teleport_first_other.1 harnessTest5 10 10 7 rb0 r '1' hn hi
          (by decide) (by rw [hv.1, hv.2]; decide)
        exact ⟨r, dest, rfl, h1, h2⟩
  · obtain ⟨destR, destC, h1, h2, _⟩ := teleport_first_other.2.1 10 10 Grok.sampleOnTele '1'
      (by decide) (by decide) (by decide)
    exact ⟨destR, destC, h1, h2⟩

/-! ## Move resolution on every grid -/

theorem probed_of_readable {g : Grid} {H W : Nat} (hg : Readable g H W) (r c : Int)
    (l : List Dir) : Probed g H W r c l := by
  intro e _ hin
  obtain ⟨ch, hc⟩ := readable_cell hg hin
  rw [hc]
  rfl

theorem Chatgpt.canGo_closed {g : Grid} {H W : Nat} {breaker : Bool} {p : Chatgpt.Point}
    (hp : ¬ Passable g H W breaker p.r p.c)
    (hex : InGrid H W p.r p.c → (cellAt g p.r p.c).isSome = true) :
    Chatgpt.canGo g H W breaker p = .ok false := by
  have hne : Chatgpt.canGo g H W breaker p ≠ .ok true :=
    fun h => hp ((Chatgpt.canGo_iff g H W breaker p).1 h)
  unfold Chatgpt.canGo Chatgpt.canStep at hne ⊢
  by_cases hin : Chatgpt.canInside p H W = true
  · have hin2 : InGrid H W p.r p.c := by
      simpa [Chatgpt.canInside, InGrid] using hin
    have hs := hex hin2
    cases hc : cellAt g p.r p.c with
    | none => simp [hc] at hs
    | some ch =>
      simp only [hin, hc, if_true] at hne ⊢
      by_cases h1 : ch = '#'
      · simp [h1]
      · by_cases h2 : ch = 'X' ∧ breaker = false
        · simp [h1, h2]
        · simp [h1, h2] at hne
  · simp [hin]

theorem Chatgpt.canGo_crash {g : Grid} {H W : Nat} {breaker : Bool} {p : Chatgpt.Point}
    (hin : InGrid H W p.r p.c) (hc : cellAt g p.r p.c = none) :
    Chatgpt.canGo g H W breaker p = .crash := by
  have hin2 : Chatgpt.canInside p H W = true := by
    simpa [Chatgpt.canInside, InGrid] using hin
  simp [Chatgpt.canGo, Chatgpt.canStep, hin2, hc]

theorem Chatgpt.scan_probed {g : Grid} {H W : Nat} (breaker : Bool)
    (pos : Chatgpt.Point) (d : Dir) :
    ∀ (pre post : List Dir), OpenTo g H W breaker pos.r pos.c d →
      (∀ e ∈ pre, ¬ OpenTo g H W breaker pos.r pos.c e) →
      Probed g H W pos.r pos.c pre →
      Chatgpt.scan g H W breaker pos (pre ++ d :: post) =
        .ok (some (d, Chatgpt.neighbour pos d)) := by
  intro pre
  induction pre with
  | nil =>
    intro post hd _ _
    have h := (Chatgpt.canGo_iff g H W breaker (Chatgpt.neighbour pos d)).2
      (by rw [Chatgpt.neighbour_eq]; exact hd)
    simp [Chatgpt.scan, h]
  | cons e pre ih =>
    intro post hd hpre hpr
    have he : ¬ OpenTo g H W breaker pos.r pos.c e := hpre e (List.mem_cons_self _ _)
    have h : Chatgpt.canGo g H W breaker (Chatgpt.neighbour pos e) = .ok false := by
      apply Chatgpt.canGo_closed
      · rw [Chatgpt.neighbour_eq]; exact he
      · rw [Chatgpt.neighbour_eq]; exact hpr e (List.mem_cons_self _ _)
    simp only [List.cons_append, Chatgpt.scan, h]
    exact ih post hd (fun x hx => hpre x (List.mem_cons_of_mem _ hx))
      (fun x hx => hpr x (List.mem_cons_of_mem _ hx))

theorem Chatgpt.scan_crash {g : Grid} {H W : Nat} (breaker : Bool)
    (pos : Chatgpt.Point) (d : Dir) :
    ∀ (pre post : List Dir),
      InGrid H W (ahead pos.r pos.c d).1 (ahead pos.r pos.c d).2 →
      cellAt g (ahead pos.r pos.c d).1 (ahead pos.r pos.c d).2 = none →
      (∀ e ∈ pre, ¬ OpenTo g H W breaker pos.r pos.c e) →
      Probed g H W pos.r pos.c pre →
      Chatgpt.scan g H W breaker pos (pre ++ d :: post) = .crash := by
  intro pre
  induction pre with
  | nil =>
    intro post hin hc _ _
    have h : Chatgpt.canGo g H W breaker (Chatgpt.neighbour pos d) = .crash := by
      apply Chatgpt.canGo_crash
      · rw [Chatgpt.neighbour_eq]; exact hin
      · rw [Chatgpt.neighbour_eq]; exact hc
    simp [Chatgpt.scan, h]
  | cons e pre ih =>
    intro post hin hc hpre hpr
    have he : ¬ OpenTo g H W breaker pos.r pos.c e := hpre e (List.mem_cons_self _ _)
    have h : Chatgpt.canGo g H W breaker (Chatgpt.neighbour pos e) = .ok false := by
      apply Chatgpt.canGo_closed
      · rw [Chatgpt.neighbour_eq]; exact he
      · rw [Chatgpt.neighbour_eq]; exact hpr e (List.mem_cons_self _ _)
    simp only [List.cons_append, Chatgpt.scan, h]
    exact ih post hin hc (fun x hx => hpre x (List.mem_cons_of_mem _ hx))
      (fun x hx => hpr x (List.mem_cons_of_mem _ hx))

theorem Claude.canMoveTo_closed (r : Claude.Robot) (d : Dir)
    (h : ¬ OpenTo r.grid r.height r.width r.state.breaker r.state.pos.row r.state.pos.col d)
    (hex : Probed r.grid r.height r.width r.state.pos.row r.state.pos.col [d]) :
    Claude.canMoveTo r (Claude.getNextPosition r d) = .ok false := by
  rw [Claude.canMoveTo_eq, Claude.getNextPosition_eq]
  exact Chatgpt.canGo_closed h (hex d (List.mem_singleton.2 rfl))

theorem Claude.tryPriorities_probed (r : Claude.Robot) (d : Dir) :
    ∀ (pre post : List Dir),
      OpenTo r.grid r.height r.width r.state.breaker r.state.pos.row r.state.pos.col d →
      (∀ e ∈ pre,
        ¬ OpenTo r.grid r.height r.width r.state.breaker r.state.pos.row r.state.pos.col e) →
      Probed r.grid r.height r.width r.state.pos.row r.state.pos.col pre →
      Claude.tryPriorities r (pre ++ d :: post) =
        .ok (some (Claude.moveTo r (Claude.getNextPosition r d) d)) := by
  intro pre
  induction pre with
  | nil =>
    intro post hd _ _
    simp [Claude.tryPriorities, Claude.canMoveTo_open r d hd]
  | cons e pre ih =>
    intro post hd hpre hpr
    have he := Claude.canMoveTo_closed r e (hpre e (List.mem_cons_self _ _))
      (fun x hx => hpr x (by rw [List.mem_singleton.1 hx]; exact List.mem_cons_self _ _))
    simp only [List.cons_append, Claude.tryPriorities, he]
    exact ih post hd (fun x hx => hpre x (List.mem_cons_of_mem _ hx))
      (fun x hx => hpr x (List.mem_cons_of_mem _ hx))

theorem Grok.blockedAt_closed {g : Grid} {H W : Nat} {breaker : Bool}
    {r c : Int} {d : Dir} (h : ¬ OpenTo g H W breaker r c d) (hex : Probed g H W r c [d]) :
    Grok.blockedAt g H W breaker (r + (Grok.deltas d).1) (c + (Grok.deltas d).2) = .ok true := by
  have e := Grok.deltas_eq r c d
  have e1 : r + (Grok.deltas d).1 = (ahead r c d).1 := congrArg Prod.fst e
  have e2 : c + (Grok.deltas d).2 = (ahead r c d).2 := congrArg Prod.snd e
  rw [Grok.blockedAt_eq, e1, e2,
    @Chatgpt.canGo_closed g H W breaker ⟨(ahead r c d).1, (ahead r c d).2⟩ h
      (hex d (List.mem_singleton.2 rfl))]
  rfl

theorem Grok.turn_probed {g : Grid} {H W : Nat} (breaker : Bool)
    (r c : Int) (d : Dir) :
    ∀ (pre post : List Dir), OpenTo g H W breaker r c d →
      (∀ e ∈ pre, ¬ OpenTo g H W breaker r c e) → Probed g H W r c pre →
      Grok.turn g H W breaker r c (pre ++ d :: post) = .ok (some d) := by
  intro pre
  induction pre with
  | nil =>
    intro post hd _ _
    simp [Grok.turn, Grok.blockedAt_open hd]
  | cons e pre ih =>
    intro post hd hpre hpr
    have he := Grok.blockedAt_closed (hpre e (List.mem_cons_self _ _))
      (fun x hx => hpr x (by rw [List.mem_singleton.1 hx]; exact List.mem_cons_self _ _))
    simp only [List.cons_append, Grok.turn, he]
    exact ih post hd (fun x hx => hpre x (List.mem_cons_of_mem _ hx))
      (fun x hx => hpr x (List.mem_cons_of_mem _ hx))

theorem Chatgpt.resolve_probed {H W : Nat} (s : Chatgpt.St)
    (h : ¬ OpenTo s.grid H W s.breaker s.pos.r s.pos.c s.dir) (d : Dir) (pre post : List Dir)
    (hord : priorityOrder s.inverted = pre ++ d :: post)
    (hpre : ∀ e ∈ pre, ¬ OpenTo s.grid H W s.breaker s.pos.r s.pos.c e)
    (hpr : Probed s.grid H W s.pos.r s.pos.c (s.dir :: pre)) :
    (OpenTo s.grid H W s.breaker s.pos.r s.pos.c d →
      Chatgpt.resolve H W s = .ok (some (d, Chatgpt.neighbour s.pos d))) ∧
    (InGrid H W (ahead s.pos.r s.pos.c d).1 (ahead s.pos.r s.pos.c d).2 →
      cellAt s.grid (ahead s.pos.r s.pos.c d).1 (ahead s.pos.r s.pos.c d).2 = none →
      Chatgpt.resolve H W s = .crash) := by
  have h1 : Chatgpt.canGo s.grid H W s.breaker (Chatgpt.neighbour s.pos s.dir) = .ok false := by
    apply Chatgpt.canGo_closed
    · rw [Chatgpt.neighbour_eq]; exact h
    · rw [Chatgpt.neighbour_eq]; exact hpr s.dir (List.mem_cons_self _ _)
  have hpr' : Probed s.grid H W s.pos.r s.pos.c pre :=
    fun x hx => hpr x (List.mem_cons_of_mem _ hx)
  constructor
  · intro hgood
    simp only [Chatgpt.resolve, h1, priorityOrder_chatgpt, hord]
    exact Chatgpt.scan_probed s.breaker s.pos d pre post hgood hpre hpr'
  · intro hin hc
    simp only [Chatgpt.resolve, h1, priorityOrder_chatgpt, hord]
    exact Chatgpt.scan_crash s.breaker s.pos d pre post hin hc hpre hpr'

theorem Chatgpt.resolve_crash {H W : Nat} (s : Chatgpt.St)
    (hin : InGrid H W (ahead s.pos.r s.pos.c s.dir).1 (ahead s.pos.r s.pos.c s.dir).2)
    (hc : cellAt s.grid (ahead s.pos.r s.pos.c s.dir).1 (ahead s.pos.r s.pos.c s.dir).2 = none) :
    Chatgpt.resolve H W s = .crash := by
  have h1 : Chatgpt.canGo s.grid H W s.breaker (Chatgpt.neighbour s.pos s.dir) = .crash := by
    apply Chatgpt.canGo_crash
    · rw [Chatgpt.neighbour_eq]; exact hin
    · rw [Chatgpt.neighbour_eq]; exact hc
  simp only [Chatgpt.resolve, h1]

/-- claude: `NewRobot` reads every cell of the window, so when it returns the
window is readable. -/
theorem Claude.newRobotScan_reads (g : Grid) :
    ∀ (l : List (Nat × Nat)) (rb rb' : Claude.Robot), Claude.newRobotScan g l rb = .ok rb' →
      ∀ q ∈ l, (cellAt g (q.1 : Int) (q.2 : Int)).isSome = true := by
  intro l
  induction l with
  | nil => intro rb rb' _ q hq; simp at hq
  | cons p l ih =>
    intro rb rb' h q hq
    obtain ⟨i, j⟩ := p
    simp only [Claude.newRobotScan] at h
    cases hc : cellAt g (i : Int) (j : Int) with
    | none => simp [hc] at h
    | some ch =>
      simp only [hc] at h
      rcases List.mem_cons.1 hq with rfl | hq'
      · simp only
        rw [hc]
        rfl
      · exact ih _ _ h q hq'

/-- claude: every robot of a run has the size the run was started with and a
grid whose window is readable. -/
theorem Claude.run_readable {g : Grid} {H W n : Nat} {rb0 r : Claude.Robot}
    (hnew : Claude.NewRobot g H W = .ok rb0)
    (hit : iterate (fun r => some (Claude.findPathBody r)) n rb0 = some r) :
    r.height = H ∧ r.width = W ∧ Readable r.grid H W := by
  obtain ⟨hg0, hh0, hw0, _⟩ := Claude.newRobotScan_frame g _ _ _ hnew
  have hread : Readable g H W := Claude.newRobotScan_reads g _ _ _ hnew
  have hinv : (r.height = rb0.height ∧ r.width = rb0.width) ∧ Eroded rb0.grid r.grid := by
    refine iterate_rel (fun r => some (Claude.findPathBody r))
      (fun a b => (b.height = a.height ∧ b.width = a.width) ∧ Eroded a.grid b.grid)
      (fun a => ⟨⟨rfl, rfl⟩, eroded_refl _⟩)
      (fun a b c hab hbc => ⟨⟨hbc.1.1.trans hab.1.1, hbc.1.2.trans hab.1.2⟩,
        eroded_trans hab.2 hbc.2⟩) ?_ n rb0 r hit
    intro a b hab
    simp only [Option.some.injEq] at hab
    obtain ⟨cell, d, _, _, hh, hw, _, _, _, _, hws⟩ :=
      Claude.advance_grid_claude (Claude.findPathBody_next hab).1
    exact ⟨⟨hh, hw⟩, wallStep_eroded hws⟩
  refine ⟨hinv.1.1.trans hh0, hinv.1.2.trans hw0, ?_⟩
  exact readable_of_eroded hinv.2 (by rw [hg0]; exact hread)

/-- C1, as stated, fails for chatgpt.  On the input `1 3` / `@é$` the loader
keeps the first three bytes of the line, which are the two characters `@é`, so
the one row of the grid has two cells while `W` is 3.  The first pass moves
the robot EAST to `(0, 1)`.  There the cell ahead, `(0, 2)`, is not passable
(it is no cell of the grid), and WEST is the first direction of SOUTH, EAST,
NORTH, WEST whose neighbour is passable; but the pass does not turn WEST: the
test of the cell ahead reads `grid[0][2]`, inside the bounds `H`, `W` and past
the end of the row, and the run ends in an index panic. -/
theorem chatgpt_short_row_no_turn :
    Chatgpt.loadGrid 1 3 shortRowLines = [['@', 'é']] ∧
    Chatgpt.applyTile (Chatgpt.telePair [['@', 'é']]) 1 (Chatgpt.initial [['@', 'é']]) =
      some (.ok (Chatgpt.initial [['@', 'é']])) ∧
    Chatgpt.body (Chatgpt.telePair [['@', 'é']]) 1 1 3 (Chatgpt.initial [['@', 'é']]) =
      some (.next Chatgpt.shortRowSt) ∧
    ¬ OpenTo Chatgpt.shortRowSt.grid 1 3 Chatgpt.shortRowSt.breaker
      Chatgpt.shortRowSt.pos.r Chatgpt.shortRowSt.pos.c Chatgpt.shortRowSt.dir ∧
    FirstOf (priorityOrder Chatgpt.shortRowSt.inverted)
      (OpenTo Chatgpt.shortRowSt.grid 1 3 Chatgpt.shortRowSt.breaker
        Chatgpt.shortRowSt.pos.r Chatgpt.shortRowSt.pos.c) .WEST ∧
    Chatgpt.advance (Chatgpt.telePair [['@', 'é']]) 1 1 3 Chatgpt.shortRowSt =
      some (.halt .crash) ∧
    Chatgpt.body (Chatgpt.telePair [['@', 'é']]) 1 1 3 Chatgpt.shortRowSt =
      some (.halt .crash) ∧
    Chatgpt.run 1 3 1 3 shortRowLines = some .crash := by
  refine ⟨by decide, rfl, rfl, by decide,
    ⟨[.SOUTH, .EAST, .NORTH], [], rfl, by decide, by decide⟩, rfl, rfl, by decide⟩

/-- C1 (amended).  claude and grok, for every grid and every state `u` whose
grid and size are those of a robot reached from the start by passes of the
loop (the pass resolves its move for such a state: the robot with its key
recorded and, in claude, the effect of its cell applied): if the cell ahead in
the current facing is passable the robot moves into it keeping its facing; if
it is not, the facing becomes the first direction of SOUTH, EAST, NORTH, WEST
(inverted off) or WEST, NORTH, EAST, SOUTH (inverted on) whose neighbouring
cell is passable and the next move is one cell in that direction (grok turns
in one pass and moves in the next).  chatgpt, for every grid and every state:
the same when the cell ahead is passable; when it is not, the same provided
the cell ahead and the neighbours in the directions tried before the chosen
one are cells of the grid whenever they lie inside the bounds `H`, `W`; and
when one of these cells lies inside the bounds and is no cell of the grid, the
pass ends in an index panic.  On a grid all of whose rows hold `W` cells every
cell inside the bounds is a cell of the grid.  A move records the direction
moved in. -/
theorem move_resolution :
    (∀ (tp : Chatgpt.Point → Chatgpt.Point) (tf H W : Nat) (s : Chatgpt.St),
      (OpenTo s.grid H W s.breaker s.pos.r s.pos.c s.dir →
        Chatgpt.advance tp tf H W s =
          Chatgpt.land tp tf (Chatgpt.enter W { s with visited := Chatgpt.key s :: s.visited }
            s.dir ⟨(ahead s.pos.r s.pos.c s.dir).1, (ahead s.pos.r s.pos.c s.dir).2⟩)) ∧
      (¬ OpenTo s.grid H W s.breaker s.pos.r s.pos.c s.dir →
        ∀ d pre post, priorityOrder s.inverted = pre ++ d :: post →
          (∀ e ∈ pre, ¬ OpenTo s.grid H W s.breaker s.pos.r s.pos.c e) →
          Probed s.grid H W s.pos.r s.pos.c (s.dir :: pre) →
          (OpenTo s.grid H W s.breaker s.pos.r s.pos.c d →
            Chatgpt.advance tp tf H W s =
              Chatgpt.land tp tf
                (Chatgpt.enter W { s with visited := Chatgpt.key s :: s.visited }
                  d ⟨(ahead s.pos.r s.pos.c d).1, (ahead s.pos.r s.pos.c d).2⟩)) ∧
          (InGrid H W (ahead s.pos.r s.pos.c d).1 (ahead s.pos.r s.pos.c d).2 →
            cellAt s.grid (ahead s.pos.r s.pos.c d).1 (ahead s.pos.r s.pos.c d).2 = none →
            Chatgpt.advance tp tf H W s = some (.halt .crash))) ∧
      (InGrid H W (ahead s.pos.r s.pos.c s.dir).1 (ahead s.pos.r s.pos.c s.dir).2 →
        cellAt s.grid (ahead s.pos.r s.pos.c s.dir).1 (ahead s.pos.r s.pos.c s.dir).2 = none →
        Chatgpt.advance tp tf H W s = some (.halt .crash)) ∧
      (∀ d next, (Chatgpt.enter W s d next).pos = next ∧ (Chatgpt.enter W s d next).dir = d ∧
        (Chatgpt.enter W s d next).moves = s.moves ++ [Chatgpt.dirToName d])) ∧
    (∀ (g : Grid) (H W n : Nat) (rb0 r u : Claude.Robot),
      Claude.NewRobot g H W = .ok rb0 →
      iterate (fun r => some (Claude.findPathBody r)) n rb0 = some r →
      u.grid = r.grid → u.height = r.height → u.width = r.width →
      (OpenTo u.grid u.height u.width u.state.breaker u.state.pos.row u.state.pos.col
          u.state.direction →
        Claude.moveStep u = .next (Claude.moveTo u
          ⟨(ahead u.state.pos.row u.state.pos.col u.state.direction).1,
           (ahead u.state.pos.row u.state.pos.col u.state.direction).2⟩ u.state.direction)) ∧
      (¬ OpenTo u.grid u.height u.width u.state.breaker u.state.pos.row u.state.pos.col
          u.state.direction →
        ∀ d, FirstOf (priorityOrder u.state.inverted)
            (OpenTo u.grid u.height u.width u.state.breaker u.state.pos.row u.state.pos.col) d →
          Claude.moveStep u = .next (Claude.moveTo u
            ⟨(ahead u.state.pos.row u.state.pos.col d).1,
             (ahead u.state.pos.row u.state.pos.col d).2⟩ d)) ∧
      (∀ p d, (Claude.moveTo u p d).state.pos = p ∧ (Claude.moveTo u p d).state.direction = d ∧
        (Claude.moveTo u p d).path = u.path ++ [d]) ∧
      (∀ cell, cellAt r.grid r.state.pos.row r.state.pos.col = some cell →
        Claude.advance r =
          Claude.moveStep (Claude.special
            { r with visited := Claude.getStateKey r :: r.visited } cell) ∧
        (Claude.special { r with visited := Claude.getStateKey r :: r.visited } cell).grid =
          r.grid ∧
        (Claude.special { r with visited := Claude.getStateKey r :: r.visited } cell).height =
          r.height ∧
        (Claude.special { r with visited := Claude.getStateKey r :: r.visited } cell).width =
          r.width)) ∧
    (∀ (g : Grid) (H W n : Nat) (g1 : Grid) (sr sc : Int) (v u : Grok.Vars),
      Grok.findStart (rowMajor H W) (g, 0, 0) = .ok (g1, sr, sc) →
      iterate (fun v => some (Grok.body H W v)) n (Grok.initial g1 sr sc) = some v →
      u.grid = v.grid →
      (OpenTo u.grid H W u.curBreaker u.curR u.curC u.curDir →
        Grok.moveStep H W u = Grok.land H W (Grok.moveTo u
          (ahead u.curR u.curC u.curDir).1 (ahead u.curR u.curC u.curDir).2)) ∧
      (¬ OpenTo u.grid H W u.curBreaker u.curR u.curC u.curDir →
        ∀ d, FirstOf (priorityOrder u.curInv) (OpenTo u.grid H W u.curBreaker u.curR u.curC) d →
          Grok.moveStep H W u = .next { u with curDir := d } ∧
          Grok.moveStep H W { u with curDir := d } = Grok.land H W
            (Grok.moveTo { u with curDir := d } (ahead u.curR u.curC d).1 (ahead u.curR u.curC d).2)) ∧
      (∀ nR nC, (Grok.moveTo u nR nC).curR = nR ∧ (Grok.moveTo u nR nC).curC = nC ∧
        (Grok.moveTo u nR nC).curDir = u.curDir ∧
        (Grok.moveTo u nR nC).path = u.path ++ [Grok.dirNames u.curDir]) ∧
      Grok.advance H W v = Grok.moveStep H W { v with visited := Grok.stateOf v :: v.visited }) ∧
    (∀ (g : Grid) (H W : Nat), Rect g H W → ∀ (r c : Int) (l : List Dir), Probed g H W r c l) := by
  refine ⟨?_, ?_, ?_, fun g H W hg r c l => probed_of_readable (rect_readable hg) r c l⟩
  · intro tp tf H W s
    refine ⟨?_, ?_, ?_, ?_⟩
    · intro h
      have := @Chatgpt.resolve_open H W
        ({ s with visited := Chatgpt.key s :: s.visited }) h
      simp only [Chatgpt.advance, this, Chatgpt.neighbour_eq]
    · intro h d pre post hord hpre hpr
      obtain ⟨ha, hb⟩ := @Chatgpt.resolve_probed H W
        ({ s with visited := Chatgpt.key s :: s.visited }) h d pre post hord hpre hpr
      constructor
      · intro hgood
        have := ha hgood
        simp only [Chatgpt.advance, this, Chatgpt.neighbour_eq]
      · intro hin hc
        have := hb hin hc
        simp only [Chatgpt.advance, this]
    · intro hin hc
      have := @Chatgpt.resolve_crash H W
        ({ s with visited := Chatgpt.key s :: s.visited }) hin hc
      simp only [Chatgpt.advance, this]
    · intro d next
      unfold Chatgpt.enter
      split <;> simp
  · intro g H W n rb0 r u hnew hit hug huh huw
    obtain ⟨hh, hw, hread⟩ := Claude.run_readable hnew hit
    have hru : Readable u.grid u.height u.width := by
      rw [hug, huh, huw, hh, hw]; exact hread
    refine ⟨?_, ?_, ?_, ?_⟩
    · intro h
      unfold Claude.moveStep
      rw [Claude.canMoveTo_open u _ h]
      simp only [Claude.getNextPosition_eq]
    · intro h d hd
      obtain ⟨pre, post, hord, hgood, hpre⟩ := hd
      unfold Claude.moveStep
      rw [Claude.canMoveTo_closed u _ h (probed_of_readable hru _ _ _), priorityOrder_claude,
        hord, Claude.tryPriorities_probed u d pre post hgood hpre (probed_of_readable hru _ _ _)]
      simp only [Claude.getNextPosition_eq]
    · intro p d
      simp [Claude.moveTo]
    · intro cell hcell
      obtain ⟨f1, f2, f3, _⟩ :=
        Claude.special_frame { r with visited := Claude.getStateKey r :: r.visited } cell
      refine ⟨?_, f1, f2, f3⟩
      unfold Claude.advance
      simp only [hcell]
  · intro g H W n g1 sr sc v u hf hit hug
    have hv : Readable u.grid H W := by
      rw [hug]
      exact readable_of_eroded (Grok.run_eroded hit) (Grok.findStart_readable hf).2
    refine ⟨?_, ?_, ?_, rfl⟩
    · intro h
      have e := Grok.deltas_eq u.curR u.curC u.curDir
      have e1 := congrArg Prod.fst e
      have e2 := congrArg Prod.snd e
      simp only at e1 e2
      unfold Grok.moveStep
      rw [Grok.blockedAt_open h]
      simp only [e1, e2]
    · intro h d hd
      obtain ⟨pre, post, hord, hgood, hpre⟩ := hd
      constructor
      · unfold Grok.moveStep
        rw [Grok.blockedAt_closed h (probed_of_readable hv _ _ _), priorityOrder_grok, hord,
          Grok.turn_probed u.curBreaker u.curR u.curC d pre post hgood hpre
            (probed_of_readable hv _ _ _)]
      · have e := Grok.deltas_eq u.curR u.curC d
        have e1 := congrArg Prod.fst e
        have e2 := congrArg Prod.snd e
        simp only at e1 e2
        unfold Grok.moveStep
        simp only []
        rw [Grok.blockedAt_open hgood]
        simp only [e1, e2]
    · intro nR nC
      simp [Grok.moveTo]

/-- Witness of C1 on scenario A with the robot at `(2, 1)` facing SOUTH, where
each solver is after its first move: the breakable wall ahead is not passable
and EAST is the first passable direction. -/
theorem move_resolution_witness :
    Chatgpt.advance (Chatgpt.telePair scenarioA) 1 5 6 Chatgpt.sampleSt =
      Chatgpt.land (Chatgpt.telePair scenarioA) 1
        (Chatgpt.enter 6 { Chatgpt.sampleSt with
            visited := Chatgpt.key Chatgpt.sampleSt :: Chatgpt.sampleSt.visited } .EAST ⟨2, 2⟩) ∧
    Claude.moveStep Claude.sampleRobot = .next (Claude.moveTo Claude.sampleRobot ⟨2, 2⟩ .EAST) ∧
    Grok.moveStep 5 6 Grok.sampleVars = .next { Grok.sampleVars with curDir := .EAST } := by
  refine ⟨?_, ?_, ?_⟩
  · exact ((move_resolution.1 (Chatgpt.telePair scenarioA) 1 5 6 Chatgpt.sampleSt).2.1
      (by decide) .EAST [.SOUTH] [.NORTH, .WEST] rfl (by decide) (by decide)).1 (by decide)
  · have hv : (Claude.runChecked 1 scenarioA 5 6).map Claude.view =
        some (⟨⟨2, 1⟩, .SOUTH, false, false⟩, scenarioA) := by decide
    unfold Claude.runChecked at hv
    cases hn : Claude.NewRobot scenarioA 5 6 with
    | crash => simp [hn] at hv
    | ok rb0 =>
      simp only [hn] at hv
      cases hi : iterate (fun r => some (Claude.findPathBody r)) 1 rb0 with
      | none => simp [hi] at hv
      | some r =>
        simp only [hi, Option.map_some', Option.some.injEq, Claude.view, Prod.mk.injEq] at hv
        obtain ⟨hh, hw, _⟩ := Claude.run_readable hn hi
        exact (move_resolution.2.1 scenarioA 5 6 1 rb0 r Claude.sampleRobot hn hi hv.2.symm
          hh.symm hw.symm).2.1 (by decide) .EAST
          ⟨[.SOUTH], [.NORTH, .WEST], rfl, by decide, by decide⟩
  · exact ((move_resolution.2.2.1 scenarioA 5 6 0 (setCell scenarioA 1 1 ' ') 1 1
      (Grok.initial (setCell scenarioA 1 1 ' ') 1 1) Grok.sampleVars (by decide) rfl rfl).2.1
      (by decide) .EAST ⟨[.SOUTH], [.NORTH, .WEST], rfl, by decide, by decide⟩).1

/-! ## What is printed -/

theorem Claude.newRobotScan_nodest (g : Grid) :
    ∀ (l : List (Nat × Nat)) (rb rb' : Claude.Robot), Claude.newRobotScan g l rb = .ok rb' →
      (∀ p ∈ l, cellAt g (p.1 : Int) (p.2 : Int) ≠ some '$') → rb'.destPos = rb.destPos := by
  intro l
  induction l with
  | nil =>
    intro rb rb' h _
    simp only [Claude.newRobotScan, Res.ok.injEq] at h
    subst h
    rfl
  | cons p l ih =>
    intro rb rb' h hno
    obtain ⟨i, j⟩ := p
    simp only [Claude.newRobotScan] at h
    cases hc : cellAt g i j with
    | none => simp [hc] at h
    | some cell =>
      simp only [hc] at h
      rw [ih _ _ h (fun q hq => hno q (List.mem_cons_of_mem _ hq))]
      have hne : cell ≠ '$' := by
        intro e
        have := hno (i, j) (List.mem_cons_self _ _)
        simp only at this
        rw [hc, e] at this
        exact this rfl
      unfold Claude.newRobotVisit
      split_ifs <;> rfl

/-- C10 (amended): in each solver a run that ends at the visited test or with
no passable neighbour prints the single line `LOOP` and none of the directions
recorded so far.  Direction names are printed only when the loop halts on its
goal test, and then the output is the list of recorded moves, to which every
pass that moves appends the direction travelled.  The goal test of chatgpt and
grok is that the robot's cell holds `$`.  The goal test of claude, on every
grid, is that the position equals `destPos`, which keeps the value `NewRobot`
gave it: a cell that holds `$`, where the robot then stands, when the scanned
grid holds one, and `(0, 0)` when it holds none. -/
theorem output_lines :
    (∀ (tf fuel H W : Nat) (g : Grid) (o : Outcome),
      Chatgpt.runSolver tf fuel H W g = some o → o ≠ .crash →
      ∃ s0 n s, Chatgpt.applyTile (Chatgpt.telePair g) tf (Chatgpt.initial g) = some (.ok s0) ∧
        iterate (Chatgpt.body (Chatgpt.telePair g) tf H W) n s0 = some s ∧
        Chatgpt.body (Chatgpt.telePair g) tf H W s = some (.halt o) ∧
        (∀ p, o = .success p → cellAt s.grid s.pos.r s.pos.c = some '$' ∧ p = s.moves ∧
          o.output = some s.moves) ∧
        (o = .cycle → Chatgpt.key s ∈ s.visited ∧ o.output = some ["LOOP"]) ∧
        (o = .stuck → (∀ d, ¬ OpenTo s.grid H W s.breaker s.pos.r s.pos.c d) ∧
          o.output = some ["LOOP"])) ∧
    (∀ (tp : Chatgpt.Point → Chatgpt.Point) (tf H W : Nat) (s s' : Chatgpt.St),
      Chatgpt.body tp tf H W s = some (.next s') →
      ∃ d, s'.moves = s.moves ++ [Chatgpt.dirToName d]) ∧
    (∀ (fuel H W : Nat) (g : Grid) (o : Outcome),
      Claude.main fuel H W g = some o → o ≠ .crash →
      ∃ rb0 n r, Claude.NewRobot g H W = .ok rb0 ∧
        iterate (fun r => some (Claude.findPathBody r)) n rb0 = some r ∧
        Claude.findPathBody r = .halt o ∧ r.destPos = rb0.destPos ∧
        ((∃ i j : Nat, i < H ∧ j < W ∧ cellAt g (i : Int) (j : Int) = some '$') →
          cellAt g rb0.destPos.row rb0.destPos.col = some '$') ∧
        ((¬ ∃ i j : Nat, i < H ∧ j < W ∧ cellAt g (i : Int) (j : Int) = some '$') →
          rb0.destPos = ⟨0, 0⟩) ∧
        (∀ p, o = .success p →
          r.state.pos = r.destPos ∧
          p = r.path.map Claude.Direction.String ∧
          o.output = some (r.path.map Claude.Direction.String) ∧
          ((∃ i j : Nat, i < H ∧ j < W ∧ cellAt g (i : Int) (j : Int) = some '$') →
            cellAt r.grid r.state.pos.row r.state.pos.col = some '$')) ∧
        (o = .cycle → r.state.pos ≠ r.destPos ∧ Claude.getStateKey r ∈ r.visited ∧
          o.output = some ["LOOP"]) ∧
        (o = .stuck → r.state.pos ≠ r.destPos ∧
          (∃ cell, cellAt r.grid r.state.pos.row r.state.pos.col = some cell ∧
            ∀ d, ¬ OpenTo r.grid r.height r.width (Claude.special r cell).state.breaker
              (Claude.special r cell).state.pos.row (Claude.special r cell).state.pos.col d) ∧
          o.output = some ["LOOP"])) ∧
    (∀ (r r' : Claude.Robot), Claude.findPathBody r = .next r' →
      ∃ d, r'.path = r.path ++ [d]) ∧
    (∀ (fuel H W : Nat) (g : Grid) (o : Outcome),
      Grok.main fuel H W g = some o → o ≠ .crash →
      ∃ g1 sr sc n v, Grok.findStart (rowMajor H W) (g, 0, 0) = .ok (g1, sr, sc) ∧
        iterate (fun v => some (Grok.body H W v)) n (Grok.initial g1 sr sc) = some v ∧
        Grok.body H W v = .halt o ∧
        (∀ p, o = .success p → cellAt v.grid v.curR v.curC = some '$' ∧ p = v.path ∧
          o.output = some v.path) ∧
        (o = .cycle → Grok.stateOf v ∈ v.visited ∧ o.output = some ["LOOP"]) ∧
        (o = .stuck → (∀ d, ¬ OpenTo v.grid H W v.curBreaker v.curR v.curC d) ∧
          o.output = some ["LOOP"])) ∧
    (∀ (H W : Nat) (v v' : Grok.Vars), Grok.body H W v = .next v' →
      v'.path = v.path ∨ v'.path = v.path ++ [Grok.dirNames v.curDir]) := by
  refine ⟨?_, ?_, ?_, ?_, ?_, ?_⟩
  · intro tf fuel H W g o h hne
    unfold Chatgpt.runSolver at h
    cases ha : Chatgpt.applyTile (Chatgpt.telePair g) tf (Chatgpt.initial g) with
    | none => simp [ha] at h
    | some x =>
      cases x with
      | crash =>
        simp only [ha, Option.some.injEq] at h
        exact absurd h.symm hne
      | ok s0 =>
        simp only [ha] at h
        obtain ⟨n, s, _, hit, hb⟩ := drive_halts _ fuel s0 o h
        obtain ⟨h1, h2, h3⟩ := Chatgpt.body_halt_chatgpt hb
        refine ⟨s0, n, s, rfl, hit, hb, ?_, ?_, ?_⟩
        · intro p hp
          obtain ⟨a, b⟩ := h1 p hp
          exact ⟨a, b, by rw [hp, b]; rfl⟩
        · intro hc
          exact ⟨(h2 hc).2, by rw [hc]; rfl⟩
        · intro hs
          exact ⟨(h3 hs).2, by rw [hs]; rfl⟩
  · intro tp tf H W s s' h
    obtain ⟨d, hd, _⟩ := Chatgpt.advance_grid_chatgpt (Chatgpt.body_next_chatgpt h).1
    exact ⟨d, hd⟩
  · intro fuel H W g o h hne
    unfold Claude.main at h
    cases hn : Claude.NewRobot g H W with
    | crash =>
      simp only [hn, Option.some.injEq] at h
      exact absurd h.symm hne
    | ok rb0 =>
      simp only [hn, Claude.findPath] at h
      obtain ⟨n, r, _, hit, hb⟩ := drive_halts _ fuel rb0 o h
      simp only [Option.some.injEq] at hb
      obtain ⟨h1, h2, h3⟩ := Claude.findPathBody_halt hb
      have hg0 : rb0.grid = g := (Claude.newRobotScan_frame g _ _ _ hn).1
      have hd0 : (∃ i j : Nat, i < H ∧ j < W ∧ cellAt g (i : Int) (j : Int) = some '$') →
          cellAt g rb0.destPos.row rb0.destPos.col = some '$' := by
        intro hgoal
        apply Claude.newRobotScan_dest g _ _ _ hn
        right
        obtain ⟨i, j, hi, hj, hc⟩ := hgoal
        exact ⟨(i, j), mem_rowMajor.2 ⟨hi, hj⟩, hc⟩
      have hd1 : (¬ ∃ i j : Nat, i < H ∧ j < W ∧ cellAt g (i : Int) (j : Int) = some '$') →
          rb0.destPos = ⟨0, 0⟩ := by
        intro hno
        refine Claude.newRobotScan_nodest g _ _ _ hn ?_
        intro p hp hc
        obtain ⟨k1, k2⟩ := mem_rowMajor.1 hp
        exact hno ⟨p.1, p.2, k1, k2, hc⟩
      have hinv : r.destPos = rb0.destPos ∧ Eroded rb0.grid r.grid := by
        refine iterate_rel (fun r => some (Claude.findPathBody r))
          (fun a b => b.destPos = a.destPos ∧ Eroded a.grid b.grid)
          (fun a => ⟨rfl, eroded_refl _⟩)
          (fun a b c hab hbc => ⟨hbc.1.trans hab.1, eroded_trans hab.2 hbc.2⟩) ?_ n rb0 r hit
        intro a b hab
        simp only [Option.some.injEq] at hab
        obtain ⟨cell, d, _, _, _, _, hdp, _, _, _, hw⟩ :=
          Claude.advance_grid_claude (Claude.findPathBody_next hab).1
        exact ⟨hdp, wallStep_eroded hw⟩
      refine ⟨rb0, n, r, rfl, hit, hb, hinv.1, hd0, hd1, ?_, ?_, ?_⟩
      · intro p hp
        obtain ⟨a, b⟩ := h1 p hp
        refine ⟨a, b, by rw [hp, b]; rfl, ?_⟩
        intro hgoal
        rw [a, hinv.1]
        apply eroded_keeps hinv.2 (by decide)
        rw [hg0]
        exact hd0 hgoal
      · intro hc
        exact ⟨(h2 hc).1, (h2 hc).2, by rw [hc]; rfl⟩
      · intro hs
        exact ⟨(h3 hs).1, (h3 hs).2, by rw [hs]; rfl⟩
  · intro r r' h
    obtain ⟨cell, d, _, hp, _⟩ := Claude.advance_grid_claude (Claude.findPathBody_next h).1
    exact ⟨d, hp⟩
  · intro fuel H W g o h hne
    unfold Grok.main at h
    cases hf : Grok.findStart (rowMajor H W) (g, 0, 0) with
    | crash =>
      simp only [hf, Option.some.injEq] at h
      exact absurd h.symm hne
    | ok x =>
      obtain ⟨g1, sr, sc⟩ := x
      simp only [hf] at h
      obtain ⟨n, v, _, hit, hb⟩ := drive_halts _ fuel _ o h
      simp only [Option.some.injEq] at hb
      obtain ⟨h1, h2, h3⟩ := Grok.body_halt_grok hb
      refine ⟨g1, sr, sc, n, v, rfl, hit, hb, ?_, ?_, ?_⟩
      · intro p hp
        obtain ⟨a, b⟩ := h1 p hp
        exact ⟨a, b, by rw [hp, b]; rfl⟩
      · intro hc
        exact ⟨(h2 hc).2, by rw [hc]; rfl⟩
      · intro hs
        exact ⟨(h3 hs).2, by rw [hs]; rfl⟩
  · intro H W v v' h
    rcases (Grok.advance_grid_grok (Grok.body_next_grok h).1).2 with ⟨_, h2, _⟩ | ⟨h1, _⟩
    · exact Or.inl h2
    · exact Or.inr h1

/-- Witness of the amended C10: on scenario A, which holds a `$`, claude ends
on its goal test standing on a `$` cell; on the grid ` @`, which holds none,
claude ends on its goal test at `destPos = (0, 0)`. -/
theorem output_lines_witness :
    (∃ rb0 n r, Claude.NewRobot scenarioA 5 6 = .ok rb0 ∧
      iterate (fun r => some (Claude.findPathBody r)) n rb0 = some r ∧
      Claude.findPathBody r = .halt (.success ["SOUTH", "EAST", "NORTH", "EAST", "EAST"]) ∧
      cellAt r.grid r.state.pos.row r.state.pos.col = some '$') ∧
    (∃ rb0 n r, Claude.NewRobot noGoalGrid 1 2 = .ok rb0 ∧
      iterate (fun r => some (Claude.findPathBody r)) n rb0 = some r ∧
      Claude.findPathBody r = .halt (.success ["WEST"]) ∧
      r.state.pos = ⟨0, 0⟩ ∧ (Outcome.success ["WEST"]).output = some ["WEST"]) := by
  constructor
  · obtain ⟨rb0, n, r, h1, h2, h3, _, _, _, h4, _, _⟩ := output_lines.2.2.1 6 5 6 scenarioA
      (.success ["SOUTH", "EAST", "NORTH", "EAST", "EAST"]) (by decide) (by decide)
    exact ⟨rb0, n, r, h1, h2, h3, (h4 _ rfl).2.2.2 ⟨1, 4, by decide, by decide, by decide⟩⟩
  · obtain ⟨rb0, n, r, h1, h2, h3, h4, _, h5, h6, _, _⟩ := output_lines.2.2.1 2 1 2 noGoalGrid
      (.success ["WEST"]) (by decide) (by decide)
    refine ⟨rb0, n, r, h1, h2, h3, ?_, rfl⟩
    rw [(h6 _ rfl).1, h4]
    apply h5
    rintro ⟨i, j, hi, hj, hc⟩
    have hi0 : i = 0 := by omega
    subst hi0
    have hj' : j = 0 ∨ j = 1 := by omega
    rcases hj' with rfl | rfl
    · revert hc; decide
    · revert hc; decide

/-! ## chatgpt: the cells met by the load loop -/

theorem Chatgpt.mem_cells {g : Grid} {p : Chatgpt.Point} {ch : Char} :
    (p, ch) ∈ Chatgpt.cells g ↔ cellAt g p.r p.c = some ch := by
  obtain ⟨r, c⟩ := p
  unfold Chatgpt.cells cellAt
  simp only [List.mem_flatMap, List.mem_map, Prod.mk.injEq, Chatgpt.Point.mk.injEq, Prod.exists,
    List.mk_mem_enum_iff_getElem?]
  constructor
  · rintro ⟨i, row, hrow, j, x, hx, ⟨rfl, rfl⟩, rfl⟩
    simp [hrow, hx]
  · intro h
    split_ifs at h with hnn
    · cases hrow : g[r.toNat]? with
      | none => simp [hrow] at h
      | some row =>
        simp only [hrow, Option.some_bind] at h
        exact ⟨r.toNat, row, hrow, c.toNat, ch, h,
          ⟨Int.toNat_of_nonneg hnn.1, Int.toNat_of_nonneg hnn.2⟩, rfl⟩

theorem Chatgpt.cells_symbols (g : Grid) : (Chatgpt.cells g).map Prod.snd = g.flatten := by
  unfold Chatgpt.cells
  rw [List.map_flatMap]
  have hrow : ∀ ir : Nat × List Char,
      List.map Prod.snd (List.map (fun jc : Nat × Char =>
        ((⟨(ir.1 : Int), (jc.1 : Int)⟩ : Chatgpt.Point), jc.2)) ir.2.enum) = ir.2 := by
    intro ir
    rw [List.map_map]
    exact List.enum_map_snd ir.2
  rw [show (fun ir : Nat × List Char => List.map Prod.snd (List.map (fun jc : Nat × Char =>
        ((⟨(ir.1 : Int), (jc.1 : Int)⟩ : Chatgpt.Point), jc.2)) ir.2.enum)) =
      (fun ir : Nat × List Char => ir.2) from funext hrow]
  rw [← List.flatMap_map Prod.snd (fun row : List Char => row), List.enum_map_snd]
  exact List.flatMap_id g

/-- chatgpt: the entry of the map `teleByDigit` for a digit lists the cells
that hold the digit, as many as the digit has occurrences in the grid. -/
theorem Chatgpt.teleByDigit_cells {g : Grid} {d : Char} (hd : isTeleDigit d = true) :
    (∀ p, p ∈ Chatgpt.teleByDigit g d ↔ cellAt g p.r p.c = some d) ∧
    (Chatgpt.teleByDigit g d).length = g.flatten.count d := by
  unfold Chatgpt.teleByDigit
  rw [Chatgpt.teleByDigit_fold d hd, List.nil_append]
  constructor
  · intro p
    simp only [List.mem_map, List.mem_filter, decide_eq_true_eq, Prod.exists]
    constructor
    · rintro ⟨q, x, ⟨hm, rfl⟩, rfl⟩
      exact Chatgpt.mem_cells.1 hm
    · intro h
      exact ⟨p, d, ⟨Chatgpt.mem_cells.2 h, rfl⟩, rfl⟩
  · rw [List.length_map, ← Chatgpt.cells_symbols, List.count, List.countP_map,
      List.countP_eq_length_filter]
    congr 1

/-- chatgpt on a grid whose digits come in pairs: `telePair` maps a cell that
holds a digit to a cell that holds the same digit, and that cell back to the
first. -/
theorem Chatgpt.telePair_pair {g : Grid} (hp : PairedDigits g) {p : Chatgpt.Point} {d : Char}
    (hd : isTeleDigit d = true) (hc : cellAt g p.r p.c = some d) :
    cellAt g (Chatgpt.telePair g p).r (Chatgpt.telePair g p).c = some d ∧
    Chatgpt.telePair g (Chatgpt.telePair g p) = p := by
  have hdm := (mem_teleDigits_iff d).2 hd
  obtain ⟨hmem, hlen0⟩ := @Chatgpt.teleByDigit_cells g d hd
  have hpq : p ∈ Chatgpt.teleByDigit g d := (hmem p).2 hc
  have hlen : (Chatgpt.teleByDigit g d).length = 2 := by
    rcases hp d hdm with h | h
    · rw [h] at hlen0
      rw [List.length_eq_zero.1 hlen0] at hpq
      simp at hpq
    · rw [hlen0, h]
  obtain ⟨q1, q2, htb⟩ := List.length_eq_two.1 hlen
  have hq1 : cellAt g q1.r q1.c = some d := (hmem q1).1 (by rw [htb]; simp)
  have hq2 : cellAt g q2.r q2.c = some d := (hmem q2).1 (by rw [htb]; simp)
  -- a cell holding `d` is in the entry of no other digit
  have hnot : ∀ (x : Chatgpt.Point), cellAt g x.r x.c = some d →
      ∀ d' ∈ teleDigits, d' ≠ d → x ∉ Chatgpt.teleByDigit g d' := by
    intro x hx d' hd' hne hmem'
    have := (@Chatgpt.teleByDigit_cells g d' ((mem_teleDigits_iff d').1 hd')).1 x |>.1 hmem'
    rw [hx] at this
    exact hne (Option.some.inj this).symm
  have hval : ∀ (x : Chatgpt.Point), cellAt g x.r x.c = some d → ∀ y,
      (if x = q1 then some q2 else if x = q2 then some q1 else none) = some y →
      Chatgpt.telePair g x = y := by
    intro x hx y hy
    unfold Chatgpt.telePair
    rw [findSome_only _ d y ?_ teleDigits hdm ?_]
    · rw [htb]
      exact hy
    · intro d' hd' hne
      have hn := hnot x hx d' hd' hne
      revert hn
      cases Chatgpt.teleByDigit g d' with
      | nil => intro _; rfl
      | cons a t =>
        cases t with
        | nil => intro _; rfl
        | cons b t =>
          cases t with
          | nil =>
            intro hn
            simp only [List.mem_cons, List.mem_singleton, List.not_mem_nil, or_false,
              not_or] at hn
            simp [hn.1, hn.2]
          | cons c t => intro _; rfl
  have hp12 : p = q1 ∨ p = q2 := by
    rw [htb] at hpq
    simpa using hpq
  by_cases hpa : p = q1
  · have e1 : Chatgpt.telePair g p = q2 := hval p hc _ (by simp [hpa])
    rw [e1]
    refine ⟨hq2, ?_⟩
    rw [hpa]
    apply hval _ hq2
    split_ifs with h h2
    · rw [h]
    · rfl
    · exact absurd rfl h2
  · have hpb : p = q2 := hp12.resolve_left hpa
    have e1 : Chatgpt.telePair g p = q1 := hval p hc _ (by rw [if_neg hpa, if_pos hpb])
    rw [e1]
    refine ⟨hq1, ?_⟩
    rw [hpb]
    apply hval _ hq1
    simp

/-- chatgpt on a grid whose digits come in pairs: `applyTile` does not return
when the robot stands on a digit. -/
theorem Chatgpt.applyTile_hangs {g0 : Grid} (hp : PairedDigits g0) {s : Chatgpt.St}
    (hero : Eroded g0 s.grid) {d : Char}
    (hc : cellAt s.grid s.pos.r s.pos.c = some d) (hd : isTeleDigit d = true) (n : Nat) :
    Chatgpt.applyTile (Chatgpt.telePair g0) n s = none := by
  have hne : d ≠ ' ' := by rintro rfl; revert hd; decide
  have hc0 : cellAt g0 s.pos.r s.pos.c = some d := eroded_back hero hne hc
  obtain ⟨h1, h2⟩ := Chatgpt.telePair_pair hp hd hc0
  exact Chatgpt.applyTile_pair_diverges _ n s d d hc hd
    (eroded_keeps hero (isTeleDigit_ne_wall hd).2 h1) hd h2

/-- chatgpt: the start is a cell that holds `@` when the grid has one, else `{-1, -1}`. -/
theorem Chatgpt.findStart_at (g : Grid) :
    (Chatgpt.findStart g = ⟨-1, -1⟩ ∧ ∀ r c : Int, cellAt g r c ≠ some '@') ∨
    cellAt g (Chatgpt.findStart g).r (Chatgpt.findStart g).c = some '@' := by
  unfold Chatgpt.findStart
  rcases Chatgpt.findStart_fold (Chatgpt.cells g) ⟨-1, -1⟩ with ⟨h0, hno⟩ | ⟨pc, hpc, h1, h2⟩
  · left
    refine ⟨h0, ?_⟩
    intro r c hrc
    exact hno (⟨r, c⟩, '@') (Chatgpt.mem_cells.2 hrc) rfl
  · right
    rw [h2]
    obtain ⟨q, ch⟩ := pc
    simp only at h1
    subst h1
    exact Chatgpt.mem_cells.1 hpc

/-! ## chatgpt: a successful run replays -/

theorem Chatgpt.replays_step_chatgpt {g0 : Grid} {H W : Nat} {sr sc : Int}
    (hp : PairedDigits g0) {tf : Nat} {s s' : Chatgpt.St}
    (hinv : Chatgpt.Replays g0 H W sr sc s)
    (h : Chatgpt.body (Chatgpt.telePair g0) tf H W s = some (.next s')) :
    Chatgpt.Replays g0 H W sr sc s' := by
  obtain ⟨dirs, hmoves, hlegal, hg, hr, hc, ⟨ch, hch, hchd⟩, hb, hi, hdes⟩ := hinv
  obtain ⟨hadv, _, _, _⟩ := Chatgpt.body_next_chatgpt h
  obtain ⟨d, hpass, htile⟩ := Chatgpt.advance_next_chatgpt hadv
  obtain ⟨k1, k2, k3⟩ := Walk.effect_frame H W (replay H W (Walk.start g0 sr sc) dirs)
  obtain ⟨k4, k5⟩ := @Walk.effect_stay H W _ _
    (show cellAt (replay H W (Walk.start g0 sr sc) dirs).grid
      (replay H W (Walk.start g0 sr sc) dirs).r (replay H W (Walk.start g0 sr sc) dirs).c =
      some ch by rw [hg, hr, hc]; exact hch) hchd
  obtain ⟨m1, m2, m3, m4, m5, m6, m7⟩ := @Chatgpt.enter_move H W
    { s with visited := Chatgpt.key s :: s.visited }
    (Walk.effect H W (replay H W (Walk.start g0 sr sc) dirs)) d
    (by rw [k1, hg]) (by rw [k4, hr]) (by rw [k5, hc]) hb (by rw [k3, hlegal]) hpass
    (by rw [k2]; exact hdes)
  simp only at m1 m2 m3 m4 m5 m6 m7 htile
  have hero : Eroded g0 (Chatgpt.enter W { s with visited := Chatgpt.key s :: s.visited } d
      ⟨(ahead s.pos.r s.pos.c d).1, (ahead s.pos.r s.pos.c d).2⟩).grid := by
    rw [← m1, ← replay_snoc]
    exact (replay_destroyed H W g0 sr sc _).1
  have hepos : (Chatgpt.enter W { s with visited := Chatgpt.key s :: s.visited } d
      ⟨(ahead s.pos.r s.pos.c d).1, (ahead s.pos.r s.pos.c d).2⟩).pos =
      ⟨(ahead s.pos.r s.pos.c d).1, (ahead s.pos.r s.pos.c d).2⟩ := by
    simp only [Chatgpt.enter]
  have hebr : (Chatgpt.enter W { s with visited := Chatgpt.key s :: s.visited } d
      ⟨(ahead s.pos.r s.pos.c d).1, (ahead s.pos.r s.pos.c d).2⟩).breaker = s.breaker := by
    simp only [Chatgpt.enter]
    split_ifs <;> rfl
  have heinv : (Chatgpt.enter W { s with visited := Chatgpt.key s :: s.visited } d
      ⟨(ahead s.pos.r s.pos.c d).1, (ahead s.pos.r s.pos.c d).2⟩).inverted = s.inverted := by
    simp only [Chatgpt.enter]
    split_ifs <;> rfl
  have hemoves : (Chatgpt.enter W { s with visited := Chatgpt.key s :: s.visited } d
      ⟨(ahead s.pos.r s.pos.c d).1, (ahead s.pos.r s.pos.c d).2⟩).moves =
      s.moves ++ [Chatgpt.dirToName d] := by
    simp only [Chatgpt.enter]
    split_ifs <;> rfl
  generalize Chatgpt.enter W { s with visited := Chatgpt.key s :: s.visited } d
      ⟨(ahead s.pos.r s.pos.c d).1, (ahead s.pos.r s.pos.c d).2⟩ = e at *
  cases hcell : cellAt e.grid e.pos.r e.pos.c with
  | none =>
    cases tf with
    | zero => simp [Chatgpt.applyTile] at htile
    | succ n => simp [Chatgpt.applyTile, hcell] at htile
  | some cell =>
    by_cases hd : isTeleDigit cell = true
    · rw [Chatgpt.applyTile_hangs hp hero hcell hd] at htile
      cases htile
    · have hd' : isTeleDigit cell = false := by simpa using hd
      obtain ⟨a1, a2, a3, a4, a5, a6⟩ := Chatgpt.applyTile_plain hcell hd' htile
      have hwcell : cellAt (Walk.move H W (Walk.effect H W
          (replay H W (Walk.start g0 sr sc) dirs)) d).grid
          (Walk.move H W (Walk.effect H W (replay H W (Walk.start g0 sr sc) dirs)) d).r
          (Walk.move H W (Walk.effect H W (replay H W (Walk.start g0 sr sc) dirs)) d).c =
          some cell := by
        rw [m1, m2, m3]
        rw [hepos] at hcell
        exact hcell
      obtain ⟨b1, b2⟩ := @Walk.effect_plain H W _ _ hwcell hd'
      refine ⟨dirs ++ [d], ?_, ?_, ?_, ?_, ?_, ⟨cell, ?_, hd'⟩, ?_, ?_, ?_⟩
      · rw [a3, hemoves, hmoves]
        simp
      · rw [replay_snoc]; exact m6
      · rw [replay_snoc, m1, a2]
      · rw [replay_snoc, m2, a1, hepos]
      · rw [replay_snoc, m3, a1, hepos]
      · rw [a1, a2]; exact hcell
      · rw [replay_snoc, b1, a5, m4, hebr]
      · rw [replay_snoc, b2, a6, m5, hi, heinv]
      · intro i
        rw [replay_snoc, a4]
        exact m7 i


/-- chatgpt on a grid whose digits come in pairs: a run that ends in success
started on a cell `@` and replays, from that cell, to the `$` cell the run
ended on, along passable cells, with the same grid at the end and with the
walls whose indices are in `destroyed` destroyed. -/
theorem Chatgpt.replay_chatgpt {g : Grid} {H W : Nat} (hp : PairedDigits g) {tf fuel : Nat}
    {p : List String} (hrun : Chatgpt.runSolver tf fuel H W g = some (.success p)) :
    cellAt g (Chatgpt.findStart g).r (Chatgpt.findStart g).c = some '@' ∧
    ∃ s0 n s w, Chatgpt.applyTile (Chatgpt.telePair g) tf (Chatgpt.initial g) = some (.ok s0) ∧
      iterate (Chatgpt.body (Chatgpt.telePair g) tf H W) n s0 = some s ∧
      Chatgpt.body (Chatgpt.telePair g) tf H W s = some (.halt (.success p)) ∧
      replayNames H W (Walk.start g (Chatgpt.findStart g).r (Chatgpt.findStart g).c) p = some w ∧
      w.legal = true ∧
      w.r = s.pos.r ∧ w.c = s.pos.c ∧ cellAt g w.r w.c = some '$' ∧ w.grid = s.grid ∧
      ∀ i : Int, i ∈ s.destroyed ↔ ∃ q ∈ w.destroyed, i = q.1 * (W : Int) + q.2 := by
  unfold Chatgpt.runSolver at hrun
  cases h0 : Chatgpt.applyTile (Chatgpt.telePair g) tf (Chatgpt.initial g) with
  | none => simp [h0] at hrun
  | some x =>
    cases x with
    | crash => simp [h0] at hrun
    | ok s0 =>
      simp only [h0] at hrun
      have hat : cellAt g (Chatgpt.findStart g).r (Chatgpt.findStart g).c = some '@' := by
        rcases Chatgpt.findStart_at g with ⟨hs, _⟩ | hs
        · exfalso
          have hnone : cellAt (Chatgpt.initial g).grid (Chatgpt.initial g).pos.r
              (Chatgpt.initial g).pos.c = none := by
            simp only [Chatgpt.initial, hs]
            simp [cellAt]
          cases tf with
          | zero => simp [Chatgpt.applyTile] at h0
          | succ n => simp [Chatgpt.applyTile, hnone] at h0
        · exact hs
      refine ⟨hat, ?_⟩
      have hcell0 : cellAt (Chatgpt.initial g).grid (Chatgpt.initial g).pos.r
          (Chatgpt.initial g).pos.c = some '@' := by
        simp only [Chatgpt.initial]
        exact hat
      obtain ⟨a1, a2, a3, a4, a5, a6⟩ := Chatgpt.applyTile_plain hcell0 (by decide) h0
      simp only [Chatgpt.initial, show ¬ ('@' = 'B') by decide,
        show ¬ ('@' = 'I') by decide, if_false] at a1 a2 a3 a4 a5 a6
      have hinv0 : Chatgpt.Replays g H W (Chatgpt.findStart g).r (Chatgpt.findStart g).c s0 := by
        refine ⟨[], by rw [a3]; rfl, rfl, by rw [a2]; rfl, by rw [a1]; rfl, by rw [a1]; rfl,
          ⟨'@', by rw [a1, a2]; exact hat, by decide⟩, ?_, ?_, ?_⟩
        · rw [a5]
          simp [replay, Walk.effect, Walk.start, hat, isTeleDigit]
        · rw [a6]
          simp [replay, Walk.effect, Walk.start, hat, isTeleDigit]
        · intro i
          rw [a4]
          simp [replay, Walk.start]
      obtain ⟨j, sj, _, hit, hhalt⟩ := drive_halts _ _ _ _ hrun
      have hinvj : Chatgpt.Replays g H W (Chatgpt.findStart g).r (Chatgpt.findStart g).c sj :=
        iterate_inv _ (Chatgpt.Replays g H W (Chatgpt.findStart g).r (Chatgpt.findStart g).c)
          (fun s s' hs hb => Chatgpt.replays_step_chatgpt hp hs hb) j s0 sj hinv0 hit
      obtain ⟨hgoal, hpm⟩ := (Chatgpt.body_halt_chatgpt hhalt).1 p rfl
      obtain ⟨dirs, hmoves, hlegal, hgr, hr, hc, _, _, _, hdes⟩ := hinvj
      refine ⟨s0, j, sj,
        replay H W (Walk.start g (Chatgpt.findStart g).r (Chatgpt.findStart g).c) dirs, rfl, hit,
        hhalt, ?_, hlegal, hr, hc, ?_, hgr, hdes⟩
      · rw [hpm, hmoves]
        unfold replayNames
        rw [parsePath_names _ nameToDir_chatgpt]
        rfl
      · rw [hr, hc]
        have hero := (replay_destroyed H W g (Chatgpt.findStart g).r (Chatgpt.findStart g).c
          dirs).1
        rw [hgr] at hero
        exact eroded_back hero (by decide) hgoal

/-! ## claude: a successful run replays -/

/-- claude, for every grid: a run that ends in success replays, from the cell
the robot starts on, to the cell the run ended on, along passable cells and
with the same grid at the end.  The start cell holds `@` when the window holds
one and is `(0, 0)` when it holds none; the end cell holds `$` when the window
holds one. -/
theorem Claude.replay_claude {g : Grid} {H W : Nat} {fuel : Nat} {p : List String}
    (hrun : Claude.main fuel H W g = some (.success p)) :
    ∃ rb0 n r w, Claude.NewRobot g H W = .ok rb0 ∧
      iterate (fun r => some (Claude.findPathBody r)) n rb0 = some r ∧
      Claude.findPathBody r = .halt (.success p) ∧
      ((∃ q ∈ rowMajor H W, cellAt g (q.1 : Int) (q.2 : Int) = some '@') →
        cellAt g rb0.state.pos.row rb0.state.pos.col = some '@') ∧
      ((¬ ∃ q ∈ rowMajor H W, cellAt g (q.1 : Int) (q.2 : Int) = some '@') →
        rb0.state.pos = ⟨0, 0⟩) ∧
      replayNames H W (Walk.start g rb0.state.pos.row rb0.state.pos.col) p = some w ∧
      w.legal = true ∧
      w.r = r.state.pos.row ∧ w.c = r.state.pos.col ∧ w.grid = r.grid ∧
      ((∃ q ∈ rowMajor H W, cellAt g (q.1 : Int) (q.2 : Int) = some '$') →
        cellAt g w.r w.c = some '$') := by
  unfold Claude.main at hrun
  cases hnew : Claude.NewRobot g H W with
  | crash => simp [hnew] at hrun
  | ok rb0 =>
    simp only [hnew, Claude.findPath] at hrun
    obtain ⟨n1, n2, n3, n4, n5, n6, n7⟩ := Claude.newRobotScan_frame g _ _ _ hnew
    simp only at n1 n2 n3 n4 n5 n6 n7
    have htele := Claude.newRobotScan_tele g _ _ _ hnew
    simp only [List.nil_append] at htele
    have hstart := Claude.newRobotScan_start g _ _ _ hnew
    simp only at hstart
    have hdir : rb0.state.direction = .SOUTH := by
      rcases hstart with ⟨h, _⟩ | ⟨q, _, _, h⟩
      · rw [h]
      · rw [h]
    have hat : (∃ q ∈ rowMajor H W, cellAt g (q.1 : Int) (q.2 : Int) = some '@') →
        cellAt g rb0.state.pos.row rb0.state.pos.col = some '@' := by
      rintro ⟨q, hq, hqc⟩
      rcases hstart with ⟨_, hno⟩ | ⟨q', _, hq'c, h⟩
      · exact absurd hqc (hno q hq)
      · rw [h]
        exact hq'c
    have hnat : (¬ ∃ q ∈ rowMajor H W, cellAt g (q.1 : Int) (q.2 : Int) = some '@') →
        rb0.state.pos = ⟨0, 0⟩ := by
      intro hno
      rcases hstart with ⟨h, _⟩ | ⟨q', hq', hq'c, _⟩
      · rw [h]
      · exact absurd ⟨q', hq', hq'c⟩ hno
    have hinv0 : Claude.Replays g H W rb0.state.pos.row rb0.state.pos.col rb0 := by
      unfold Claude.Replays
      rw [n5]
      exact ⟨n2, n3, htele, rfl, n1.symm, rfl, rfl, hdir.symm, n7.symm, n6.symm⟩
    obtain ⟨j, rj, _, hit, hhalt⟩ := drive_halts _ _ _ _ hrun
    simp only [Option.some.injEq] at hhalt
    have hinvj : Claude.Replays g H W rb0.state.pos.row rb0.state.pos.col rj := by
      refine iterate_inv (fun r => some (Claude.findPathBody r))
        (Claude.Replays g H W rb0.state.pos.row rb0.state.pos.col) ?_ j rb0 rj hinv0 hit
      intro s s' hs hb
      simp only [Option.some.injEq] at hb
      exact Claude.replays_step_claude hs hb
    obtain ⟨hpos, hp⟩ := (Claude.findPathBody_halt hhalt).1 p rfl
    obtain ⟨_, _, _, hlegal, hgr, hr, hc, _, _, _⟩ := hinvj
    have hdest : rj.destPos = rb0.destPos := by
      refine iterate_inv (fun r => some (Claude.findPathBody r))
        (fun r => r.destPos = rb0.destPos) ?_ j rb0 rj rfl hit
      intro s s' hs hb
      simp only [Option.some.injEq] at hb
      obtain ⟨_, _, _, _, _, _, hd, _⟩ :=
        Claude.advance_grid_claude (Claude.findPathBody_next hb).1
      rw [hd, hs]
    refine ⟨rb0, j, rj, replay H W (Walk.start g rb0.state.pos.row rb0.state.pos.col) rj.path,
      rfl, hit, hhalt, hat, hnat, ?_, hlegal, hr, hc, hgr, ?_⟩
    · rw [hp]
      unfold replayNames
      rw [parsePath_names _ nameToDir_claude]
      rfl
    · intro hd
      rw [hr, hc, hpos, hdest]
      exact Claude.newRobotScan_dest g _ _ _ hnew (Or.inr hd)

/-! ## grok: a successful run replays -/

theorem blanked_iff {g g' : Grid} (h : Blanked g g') {x : Char} (hx : x ≠ ' ') (hx' : x ≠ '@')
    (r c : Int) : cellAt g' r c = some x ↔ cellAt g r c = some x := by
  rcases h r c with e | ⟨e1, e2⟩
  · rw [e]
  · rw [e1, e2]
    constructor
    · intro hh
      exact absurd (Option.some.inj hh).symm hx
    · intro hh
      exact absurd (Option.some.inj hh).symm hx'

theorem blanked_isSome {g g' : Grid} (h : Blanked g g') (r c : Int) :
    (cellAt g' r c).isSome = (cellAt g r c).isSome := by
  rcases h r c with e | ⟨e1, e2⟩
  · rw [e]
  · rw [e1, e2]
    rfl

theorem passable_blanked {g g' : Grid} (h : Blanked g g') (H W : Nat) (b : Bool) (r c : Int) :
    Passable g' H W b r c ↔ Passable g H W b r c := by
  unfold Passable
  have h1 := blanked_iff h (show '#' ≠ ' ' by decide) (by decide) r c
  have h2 := blanked_iff h (show 'X' ≠ ' ' by decide) (by decide) r c
  have h3 := blanked_isSome h r c
  simp only [ne_eq, h1, h2, h3]

theorem Grok.moveTo_walk {H W : Nat} {v : Grok.Vars} {we : Walk}
    (hrel : Blanked we.grid v.grid)
    (hr : we.r = v.curR) (hc : we.c = v.curC) (hb : we.breaker = v.curBreaker)
    (hi : we.inverted = v.curInv) (hlegal : we.legal = true)
    (hopen : OpenTo v.grid H W v.curBreaker v.curR v.curC v.curDir) :
    Blanked (Walk.move H W we v.curDir).grid
      (Grok.moveTo v (ahead v.curR v.curC v.curDir).1 (ahead v.curR v.curC v.curDir).2).grid ∧
    (Walk.move H W we v.curDir).r = (ahead v.curR v.curC v.curDir).1 ∧
    (Walk.move H W we v.curDir).c = (ahead v.curR v.curC v.curDir).2 ∧
    (Walk.move H W we v.curDir).breaker = v.curBreaker ∧
    (Walk.move H W we v.curDir).inverted = v.curInv ∧
    (Walk.move H W we v.curDir).legal = true := by
  obtain ⟨grid, r, c, facing, breaker, inverted, destroyed, legal⟩ := we
  simp only at hrel hr hc hb hi hlegal
  subst hr hc hb hi hlegal
  have hpass : Passable v.grid H W v.curBreaker (ahead v.curR v.curC v.curDir).1
      (ahead v.curR v.curC v.curDir).2 := hopen
  have hpassw := (passable_blanked hrel H W v.curBreaker _ _).1 hpass
  obtain ⟨⟨h0r, _, h0c, _⟩, _, _, hxb⟩ := hpass
  have hx : cellAt v.grid (ahead v.curR v.curC v.curDir).1 (ahead v.curR v.curC v.curDir).2 =
      some 'X' ↔
      cellAt grid (ahead v.curR v.curC v.curDir).1 (ahead v.curR v.curC v.curDir).2 = some 'X' :=
    blanked_iff hrel (by decide) (by decide) _ _
  unfold Walk.move Grok.moveTo
  simp only
  by_cases hX : cellAt v.grid (ahead v.curR v.curC v.curDir).1
      (ahead v.curR v.curC v.curDir).2 = some 'X'
  · have hbt : v.curBreaker = true := by
      rcases hxb with h | h
      · exact absurd hX h
      · exact h
    rw [if_pos hX, if_pos ⟨hx.1 hX, hbt⟩]
    simp only [Bool.true_and, decide_eq_true_eq]
    refine ⟨?_, trivial, trivial, trivial, trivial, hpassw⟩
    intro x y
    rw [cellAt_setCell _ _ _ _ h0r h0c, cellAt_setCell _ _ _ _ h0r h0c, hX, hx.1 hX]
    split_ifs
    · left; rfl
    · exact hrel x y
  · have hX' : ¬ (cellAt grid (ahead v.curR v.curC v.curDir).1
        (ahead v.curR v.curC v.curDir).2 = some 'X' ∧ v.curBreaker = true) :=
      fun e => hX (hx.2 e.1)
    rw [if_neg hX, if_neg hX']
    simp only [Bool.true_and, decide_eq_true_eq]
    exact ⟨hrel, trivial, trivial, trivial, trivial, hpassw⟩

theorem Grok.applyEffect_blank {H W : Nat} {v : Grok.Vars}
    (hc : cellAt v.grid v.curR v.curC = some ' ') : Grok.applyEffect H W v = .ok v := by
  unfold Grok.applyEffect
  simp only [hc]
  simp [isTeleDigit, Grok.charToDir]

theorem Grok.applyEffect_walk {H W : Nat} {v v' : Grok.Vars} {w : Walk}
    (hg : Readable v.grid H W) (hrel : Blanked w.grid v.grid)
    (hr : w.r = v.curR) (hc : w.c = v.curC) (hb : w.breaker = v.curBreaker)
    (hi : w.inverted = v.curInv) (h : Grok.applyEffect H W v = .ok v') :
    (Walk.effect H W w).r = v'.curR ∧ (Walk.effect H W w).c = v'.curC ∧
    (Walk.effect H W w).breaker = v'.curBreaker ∧ (Walk.effect H W w).inverted = v'.curInv := by
  rcases hrel v.curR v.curC with hsame | ⟨hw, hv⟩
  · unfold Grok.applyEffect at h
    cases hcv : cellAt v.grid v.curR v.curC with
    | none => simp [hcv] at h
    | some ch =>
      simp only [hcv] at h
      have hcw : cellAt w.grid w.r w.c = some ch := by rw [hr, hc, ← hsame, hcv]
      unfold Walk.effect
      rw [hcw]
      simp only
      by_cases hd : isTeleDigit ch = true
      · obtain ⟨h1, h2, h3, h4, h5, h6⟩ := isTeleDigit_ne_letters hd
        simp only [hd, if_true, h5, h6, if_false] at h ⊢
        rw [Grok.teleScan_eq _ hg] at h
        have hpred : (fun q : Nat × Nat => decide (cellAt v.grid (q.1 : Int) (q.2 : Int) = some ch ∧
            ((q.1 : Int) ≠ v.curR ∨ (q.2 : Int) ≠ v.curC))) =
            (fun q : Nat × Nat => decide (cellAt w.grid (q.1 : Int) (q.2 : Int) = some ch ∧
              ((q.1 : Int) ≠ w.r ∨ (q.2 : Int) ≠ w.c))) := by
          funext q
          have e := @blanked_iff _ _ hrel ch (by rintro rfl; revert hd; decide)
            (by rintro rfl; revert hd; decide) (q.1 : Int) (q.2 : Int)
          simp only [e, hr, hc]
        rw [hpred] at h
        unfold teleDest
        cases hf : (rowMajor H W).find? (fun q : Nat × Nat =>
            decide (cellAt w.grid (q.1 : Int) (q.2 : Int) = some ch ∧
              ((q.1 : Int) ≠ w.r ∨ (q.2 : Int) ≠ w.c))) with
        | none =>
          simp only [hf, Res.ok.injEq] at h
          subst h
          exact ⟨hr, hc, hb, hi⟩
        | some q =>
          obtain ⟨rR, cC⟩ := q
          simp only [hf, Res.ok.injEq] at h
          subst h
          exact ⟨rfl, rfl, hb, hi⟩
      · have hd' : isTeleDigit ch = false := by simpa using hd
        simp only [hd', Bool.false_eq_true, if_false] at h ⊢
        by_cases hB : ch = 'B'
        · subst hB
          simp only [Grok.charToDir] at h
          simp only [show ¬ ('B' = 'N') by decide, show ¬ ('B' = 'S') by decide,
            show ¬ ('B' = 'E') by decide, show ¬ ('B' = 'W') by decide,
            show ¬ ('B' = 'I') by decide, if_false, if_true, Res.ok.injEq] at h
          subst h
          simp [hr, hc, hb, hi]
        by_cases hI : ch = 'I'
        · subst hI
          simp only [Grok.charToDir] at h
          simp only [show ¬ ('I' = 'N') by decide, show ¬ ('I' = 'S') by decide,
            show ¬ ('I' = 'E') by decide, show ¬ ('I' = 'W') by decide,
            show ¬ ('I' = 'B') by decide, if_false, if_true, Res.ok.injEq] at h
          subst h
          simp [hr, hc, hb, hi]
        simp only [hB, hI, if_false]
        cases hdir : Grok.charToDir ch with
        | some dIr =>
          simp only [hdir, Res.ok.injEq] at h
          subst h
          exact ⟨hr, hc, hb, hi⟩
        | none =>
          simp only [hdir, hB, hI, if_false, Res.ok.injEq] at h
          subst h
          exact ⟨hr, hc, hb, hi⟩
  · rw [Grok.applyEffect_blank hv] at h
    simp only [Res.ok.injEq] at h
    subst h
    have hw' : cellAt w.grid w.r w.c = some '@' := by rw [hr, hc]; exact hw
    obtain ⟨e1, e2⟩ := @Walk.effect_stay H W w '@' hw' (by decide)
    obtain ⟨e3, e4⟩ := @Walk.effect_plain H W w '@' hw' (by decide)
    simp only [show ¬ ('@' = 'B') by decide, show ¬ ('@' = 'I') by decide, if_false] at e3 e4
    exact ⟨e1.trans hr, e2.trans hc, e3.trans hb, e4.trans hi⟩

theorem Grok.replays_step_grok {g0 : Grid} {H W : Nat} {sr sc : Int} {v v' : Grok.Vars}
    (hinv : Readable v.grid H W ∧ Grok.Replays g0 H W sr sc v) (h : Grok.body H W v = .next v') :
    Readable v'.grid H W ∧ Grok.Replays g0 H W sr sc v' := by
  obtain ⟨hg, dirs, hpath, hlegal, hrel, hr, hc, hb, hi⟩ := hinv
  have hg' : Readable v'.grid H W := readable_of_eroded (Grok.body_eroded h) hg
  refine ⟨hg', ?_⟩
  obtain ⟨hadv, _, _, _⟩ := Grok.body_next_grok h
  unfold Grok.advance at hadv
  rcases Grok.moveStep_next_grok hadv with ⟨_, nDir, _, hv'⟩ | ⟨hopen, heff⟩
  · subst hv'
    exact ⟨dirs, hpath, hlegal, hrel, hr, hc, hb, hi⟩
  · simp only at hopen heff
    obtain ⟨f1, f2, _⟩ := Grok.applyEffect_frame heff
    obtain ⟨k1, _, k3⟩ := Walk.effect_frame H W (replay H W (Walk.start g0 sr sc) dirs)
    rw [← k1] at hrel
    rw [← k3] at hlegal
    obtain ⟨m1, m2, m3, m4, m5, m6⟩ := @Grok.moveTo_walk H W
      { v with visited := Grok.stateOf v :: v.visited } _ hrel hr hc hb hi hlegal hopen
    simp only at m1 m2 m3 m4 m5 m6
    have hread : Readable (Grok.moveTo { v with visited := Grok.stateOf v :: v.visited }
        (ahead v.curR v.curC v.curDir).1 (ahead v.curR v.curC v.curDir).2).grid H W := by
      rw [← f1]
      exact hg'
    refine ⟨dirs ++ [v.curDir], ?_, ?_, ?_, ?_⟩
    · rw [f2]
      simp [Grok.moveTo, hpath]
    · rw [replay_snoc]
      exact m6
    · rw [replay_snoc, f1]
      exact m1
    · rw [replay_snoc]
      exact Grok.applyEffect_walk hread m1 m2 m3 m4 m5 heff

/-- grok on a grid whose window holds an `@`: a run that ends in success
started on a cell `@` of the window and replays, from that cell, to the `$`
cell the run ended on, along passable cells; the grid of grok at the end is
the grid of the replay with some of its `@` cells blanked. -/
theorem Grok.replay_grok {g : Grid} {H W : Nat}
    (hstart : ∃ q ∈ rowMajor H W, cellAt g (q.1 : Int) (q.2 : Int) = some '@')
    {fuel : Nat} {p : List String}
    (hrun : Grok.main fuel H W g = some (.success p)) :
    ∃ g1 sr sc n v w, Grok.findStart (rowMajor H W) (g, 0, 0) = .ok (g1, sr, sc) ∧
      cellAt g sr sc = some '@' ∧ InGrid H W sr sc ∧
      iterate (fun v => some (Grok.body H W v)) n (Grok.initial g1 sr sc) = some v ∧
      Grok.body H W v = .halt (.success p) ∧
      replayNames H W (Walk.start g sr sc) p = some w ∧ w.legal = true ∧
      w.r = v.curR ∧ w.c = v.curC ∧ cellAt g w.r w.c = some '$' ∧
      Blanked w.grid v.grid := by
  unfold Grok.main at hrun
  cases hf : Grok.findStart (rowMajor H W) (g, 0, 0) with
  | crash =>
    rw [hf] at hrun
    simp at hrun
  | ok a =>
    obtain ⟨g1, sr, sc⟩ := a
    rw [hf] at hrun
    simp only at hrun
    obtain ⟨hbl, _, hpos⟩ := Grok.findStart_blank _ _ _ _ _ _ _ hf
    obtain ⟨q0, hq0, hq0c⟩ := hstart
    have hat : cellAt g sr sc = some '@' ∧ InGrid H W sr sc := by
      rcases hpos with ⟨_, _, hno⟩ | ⟨q, hq, hqc, e1, e2⟩
      · exact absurd hq0c (hno q0 hq0)
      · rw [e1, e2]
        obtain ⟨h1, h2⟩ := mem_rowMajor.1 hq
        exact ⟨hqc, by omega, by omega, by omega, by omega⟩
    have hinv0 : Readable (Grok.initial g1 sr sc).grid H W ∧
        Grok.Replays g H W sr sc (Grok.initial g1 sr sc) := by
      refine ⟨(Grok.findStart_readable hf).2, [], rfl, rfl, hbl, ?_, ?_, ?_, ?_⟩ <;>
        simp [replay, Walk.effect, Walk.start, hat.1, Grok.initial, isTeleDigit]
    obtain ⟨j, vj, _, hit, hhalt⟩ := drive_halts _ _ _ _ hrun
    simp only [Option.some.injEq] at hhalt
    have hinvj : Readable vj.grid H W ∧ Grok.Replays g H W sr sc vj := by
      refine iterate_inv (fun v => some (Grok.body H W v))
        (fun v => Readable v.grid H W ∧ Grok.Replays g H W sr sc v) ?_ j _ vj hinv0 hit
      intro s s' hs hb
      simp only [Option.some.injEq] at hb
      exact Grok.replays_step_grok hs hb
    obtain ⟨hgoal, hp⟩ := (Grok.body_halt_grok hhalt).1 p rfl
    obtain ⟨_, dirs, hpath, hlegal, hrel, hr, hc, _, _⟩ := hinvj
    have hcw : cellAt (replay H W (Walk.start g sr sc) dirs).grid vj.curR vj.curC = some '$' :=
      (blanked_iff hrel (by decide) (by decide) _ _).1 hgoal
    -- the replay stands on a cell that is no digit, so it stands where grok does
    have hstay : (replay H W (Walk.start g sr sc) dirs).r = vj.curR ∧
        (replay H W (Walk.start g sr sc) dirs).c = vj.curC := by
      cases hcell : cellAt (replay H W (Walk.start g sr sc) dirs).grid
          (replay H W (Walk.start g sr sc) dirs).r (replay H W (Walk.start g sr sc) dirs).c with
      | none =>
        simp only [Walk.effect, hcell] at hr hc
        exact ⟨hr, hc⟩
      | some ch =>
        by_cases hd : isTeleDigit ch = true
        · exfalso
          have hdest := @teleDest_cell _ H W _ _ _ hcell
          have hobt : (Walk.effect H W (replay H W (Walk.start g sr sc) dirs)).r =
              (teleDest (replay H W (Walk.start g sr sc) dirs).grid H W ch
                (replay H W (Walk.start g sr sc) dirs).r
                (replay H W (Walk.start g sr sc) dirs).c).1 ∧
              (Walk.effect H W (replay H W (Walk.start g sr sc) dirs)).c =
              (teleDest (replay H W (Walk.start g sr sc) dirs).grid H W ch
                (replay H W (Walk.start g sr sc) dirs).r
                (replay H W (Walk.start g sr sc) dirs).c).2 := by
            obtain ⟨h1, h2, h3, h4, h5, h6⟩ := isTeleDigit_ne_letters hd
            simp only [Walk.effect, hcell, h5, h6, hd, if_true, if_false, and_self]
          rw [← hobt.1, ← hobt.2, hr, hc, hcw] at hdest
          simp only [Option.some.injEq] at hdest
          subst hdest
          revert hd
          decide
        · have hd' : isTeleDigit ch = false := by simpa using hd
          obtain ⟨e1, e2⟩ := @Walk.effect_stay H W _ _ hcell hd'
          exact ⟨by rw [← e1, hr], by rw [← e2, hc]⟩
    refine ⟨g1, sr, sc, j, vj, replay H W (Walk.start g sr sc) dirs, rfl, hat.1, hat.2, hit,
      hhalt, ?_, hlegal, hstay.1, hstay.2, ?_, hrel⟩
    · rw [hp, hpath]
      unfold replayNames
      rw [parsePath_names _ nameToDir_grok]
      rfl
    · rw [hstay.1, hstay.2]
      exact eroded_back (replay_destroyed H W g sr sc dirs).1 (by decide) hcw

/-! ## The round trip: the claim -/

/-- C13, as stated, fails.  On the one-row grid `$ 1@` the digit `1` has no
partner: chatgpt moves WEST onto it, `applyTile` reads the missing key of
`telePair` as `(0, 0)` and puts the robot there, on `$`, and the run ends in
success with the path WEST; the replay of that path from `@` ends on the cell
`(0, 2)`, which holds `1`, not on the cell `(0, 0)` the run ended on.  On the
grid ` @`, which has no `$`, claude ends in success on its default goal
`(0, 0)` with the path WEST; the replay ends there too, but the cell is blank.
On the one-row grid `1$ 1`, which has no `@`, grok starts on its default cell
`(0, 0)`, whose effect it does not apply, and ends in success on `$` at
`(0, 1)` with the path EAST; the replay of that path from `(0, 0)` first
teleports to the other `1` at `(0, 3)` and then leaves the grid. -/
theorem lone_teleporter_replay_strays :
    Rect loneTeleGrid 1 4 ∧ cellsWith loneTeleGrid 1 4 '@' = [(0, 3)] ∧
    Chatgpt.findStart loneTeleGrid = ⟨0, 3⟩ ∧
    Chatgpt.runSolver 2 2 1 4 loneTeleGrid = some (.success ["WEST"]) ∧
    (iterate (Chatgpt.body (Chatgpt.telePair loneTeleGrid) 2 1 4) 1
        (Chatgpt.initial loneTeleGrid)).map
      (fun s => (s.pos, cellAt s.grid s.pos.r s.pos.c, s.moves)) =
      some (⟨0, 0⟩, some '$', ["WEST"]) ∧
    (replayNames 1 4 (Walk.start loneTeleGrid 0 3) ["WEST"]).map
      (fun w => (w.r, w.c, cellAt loneTeleGrid w.r w.c)) = some (0, 2, some '1') ∧
    Rect noGoalGrid 1 2 ∧ cellsWith noGoalGrid 1 2 '@' = [(0, 1)] ∧
    Claude.main 2 1 2 noGoalGrid = some (.success ["WEST"]) ∧
    (replayNames 1 2 (Walk.start noGoalGrid 0 1) ["WEST"]).map
      (fun w => (w.r, w.c, cellAt noGoalGrid w.r w.c)) = some (0, 0, some ' ') ∧
    Rect noStartGrid 1 4 ∧ cellsWith noStartGrid 1 4 '@' = [] ∧
    Grok.findStart (rowMajor 1 4) (noStartGrid, 0, 0) = .ok (noStartGrid, 0, 0) ∧
    Grok.main 3 1 4 noStartGrid = some (.success ["EAST"]) ∧
    (iterate (fun v => some (Grok.body 1 4 v)) 2 (Grok.initial noStartGrid 0 0)).map
      (fun v => (v.curR, v.curC, cellAt v.grid v.curR v.curC, v.path)) =
      some (0, 1, some '$', ["EAST"]) ∧
    (replayNames 1 4 (Walk.start noStartGrid 0 0) ["EAST"]).map
      (fun w => (w.legal, w.r, w.c, cellAt noStartGrid w.r w.c)) =
      some (false, 0, 4, none) := by
  refine ⟨?_, ?_, ?_, ?_, ?_, ?_, ?_, ?_, ?_, ?_, ?_, ?_, ?_, ?_, ?_, ?_⟩ <;> decide

/-- C13, amended.  For every grid on which the run of a solver ends in
success (for chatgpt: provided every digit that appears in the grid appears
exactly twice; for grok: provided the `H` by `W` window holds an `@`), the
replay of the printed path on the loaded grid, from the cell the solver starts
on, breaker and inverted off (for each listed direction the tile effect of the
current cell, then the move, destroying an `X` entered with breaker on),
enters only passable cells, ends on the cell the run ended on and has the grid
of the run at its end (for grok with `@` cells blanked), so it has destroyed
exactly the walls the run destroyed.  The start cell holds `@` (for claude:
when the window holds an `@`, and it is `(0, 0)` when the window holds none);
the end cell holds `$` for chatgpt and grok, and for claude when the window
holds a `$`. -/
theorem replay_round_trip (g : Grid) (H W : Nat) :
    (PairedDigits g → ∀ (tf fuel : Nat) (p : List String),
      Chatgpt.runSolver tf fuel H W g = some (.success p) →
      cellAt g (Chatgpt.findStart g).r (Chatgpt.findStart g).c = some '@' ∧
      ∃ s0 n s w,
        Chatgpt.applyTile (Chatgpt.telePair g) tf (Chatgpt.initial g) = some (.ok s0) ∧
        iterate (Chatgpt.body (Chatgpt.telePair g) tf H W) n s0 = some s ∧
        Chatgpt.body (Chatgpt.telePair g) tf H W s = some (.halt (.success p)) ∧
        replayNames H W (Walk.start g (Chatgpt.findStart g).r (Chatgpt.findStart g).c) p =
          some w ∧
        w.legal = true ∧
        w.r = s.pos.r ∧ w.c = s.pos.c ∧ cellAt g w.r w.c = some '$' ∧ w.grid = s.grid ∧
        (∀ i : Int, i ∈ s.destroyed ↔ ∃ q ∈ w.destroyed, i = q.1 * (W : Int) + q.2) ∧
        (∀ x y : Int, (x, y) ∈ w.destroyed ↔
          (cellAt g x y = some 'X' ∧ cellAt s.grid x y = some ' '))) ∧
    (∀ (fuel : Nat) (p : List String), Claude.main fuel H W g = some (.success p) →
      ∃ rb0 n r w, Claude.NewRobot g H W = .ok rb0 ∧
        iterate (fun r => some (Claude.findPathBody r)) n rb0 = some r ∧
        Claude.findPathBody r = .halt (.success p) ∧
        ((∃ q ∈ rowMajor H W, cellAt g (q.1 : Int) (q.2 : Int) = some '@') →
          cellAt g rb0.state.pos.row rb0.state.pos.col = some '@') ∧
        ((¬ ∃ q ∈ rowMajor H W, cellAt g (q.1 : Int) (q.2 : Int) = some '@') →
          rb0.state.pos = ⟨0, 0⟩) ∧
        replayNames H W (Walk.start g rb0.state.pos.row rb0.state.pos.col) p = some w ∧
        w.legal = true ∧
        w.r = r.state.pos.row ∧ w.c = r.state.pos.col ∧ w.grid = r.grid ∧
        ((∃ q ∈ rowMajor H W, cellAt g (q.1 : Int) (q.2 : Int) = some '$') →
          cellAt g w.r w.c = some '$') ∧
        (∀ x y : Int, (x, y) ∈ w.destroyed ↔
          (cellAt g x y = some 'X' ∧ cellAt r.grid x y = some ' '))) ∧
    ((∃ q ∈ rowMajor H W, cellAt g (q.1 : Int) (q.2 : Int) = some '@') →
      ∀ (fuel : Nat) (p : List String), Grok.main fuel H W g = some (.success p) →
      ∃ g1 sr sc n v w, Grok.findStart (rowMajor H W) (g, 0, 0) = .ok (g1, sr, sc) ∧
        cellAt g sr sc = some '@' ∧ InGrid H W sr sc ∧
        iterate (fun v => some (Grok.body H W v)) n (Grok.initial g1 sr sc) = some v ∧
        Grok.body H W v = .halt (.success p) ∧
        replayNames H W (Walk.start g sr sc) p = some w ∧ w.legal = true ∧
        w.r = v.curR ∧ w.c = v.curC ∧ cellAt g w.r w.c = some '$' ∧
        Blanked w.grid v.grid ∧
        (∀ x y : Int, (x, y) ∈ w.destroyed ↔
          (cellAt g x y = some 'X' ∧ cellAt v.grid x y = some ' '))) := by
  refine ⟨?_, ?_, ?_⟩
  · intro hp tf fuel p hrun
    obtain ⟨hat, s0, n, s, w, h1, h2, h3, h4, h5, h6, h7, h8, h9, h10⟩ :=
      @Chatgpt.replay_chatgpt g H W hp tf fuel p hrun
    obtain ⟨dirs, rfl⟩ := replayNames_some h4
    refine ⟨hat, s0, n, s, _, h1, h2, h3, h4, h5, h6, h7, h8, h9, h10, ?_⟩
    intro x y
    rw [← h9]
    exact (replay_destroyed H W g _ _ dirs).2 x y
  · intro fuel p hrun
    obtain ⟨rb0, n, r, w, h1, h2, h3, hat, hnat, h4, h5, h6, h7, h8, h9⟩ :=
      @Claude.replay_claude g H W fuel p hrun
    obtain ⟨dirs, rfl⟩ := replayNames_some h4
    refine ⟨rb0, n, r, _, h1, h2, h3, hat, hnat, h4, h5, h6, h7, h8, h9, ?_⟩
    intro x y
    rw [← h8]
    exact (replay_destroyed H W g _ _ dirs).2 x y
  · intro hstart fuel p hrun
    obtain ⟨g1, sr, sc, n, v, w, h1, hat, hin, h2, h3, h4, h5, h6, h7, h8, h9⟩ :=
      @Grok.replay_grok g H W hstart fuel p hrun
    obtain ⟨dirs, rfl⟩ := replayNames_some h4
    refine ⟨g1, sr, sc, n, v, _, h1, hat, hin, h2, h3, h4, h5, h6, h7, h8, h9, ?_⟩
    intro x y
    obtain ⟨hero, hmem⟩ := replay_destroyed H W g sr sc dirs
    rw [hmem x y]
    constructor
    · rintro ⟨hx, hb⟩
      refine ⟨hx, ?_⟩
      rcases h9 x y with e | ⟨e1, _⟩
      · rw [e, hb]
      · rw [hb] at e1
        exact absurd e1 (by decide)
    · rintro ⟨hx, hb⟩
      refine ⟨hx, ?_⟩
      rcases h9 x y with e | ⟨e1, _⟩
      · rw [← e, hb]
      · exfalso
        rcases hero x y with he | ⟨_, he⟩
        · rw [he, hx] at e1
          exact absurd e1 (by decide)
        · rw [he] at e1
          exact absurd e1 (by decide)

/-- Witness of the amended C13.  On test 3 of the chatgpt harness the run of
claude destroys three walls: the replay of the ten printed moves from `@` at
`(1, 2)` enters only passable cells, ends on `$` at `(5, 8)` and destroys the
walls at `(3, 2)`, `(5, 6)` and `(5, 7)`.  On the grid with the rows `@ @` and
two blanks and `$`, which has two `@`, chatgpt and grok start on the second
`@`, at `(0, 2)`, and print SOUTH; the replay of SOUTH from there ends on `$`
at `(1, 2)`, where the run ended.  On the row `@ $#` read with `W = 3`, which
grok keeps whole, four cells long, grok prints EAST, EAST and the replay ends
on `$` at `(0, 2)`. -/
theorem replay_round_trip_witness :
    (∃ (r : Claude.Robot) (w : Walk),
      replayNames 10 10 (Walk.start harnessTest3 1 2)
        ["SOUTH", "SOUTH", "SOUTH", "SOUTH", "EAST", "EAST", "EAST", "EAST", "EAST", "EAST"] =
        some w ∧
      w.legal = true ∧ w.r = r.state.pos.row ∧ w.c = r.state.pos.col ∧ w.grid = r.grid ∧
      cellAt harnessTest3 w.r w.c = some '$' ∧
      (∀ x y : Int, (x, y) ∈ w.destroyed ↔
        (cellAt harnessTest3 x y = some 'X' ∧ cellAt r.grid x y = some ' '))) ∧
    (∃ (s : Chatgpt.St) (w : Walk),
      replayNames 2 3 (Walk.start twoStartsGrid 0 2) ["SOUTH"] = some w ∧
      w.legal = true ∧ w.r = s.pos.r ∧ w.c = s.pos.c ∧
      cellAt twoStartsGrid w.r w.c = some '$' ∧ w.grid = s.grid) ∧
    (∃ (v : Grok.Vars) (w : Walk),
      replayNames 2 3 (Walk.start twoStartsGrid 0 2) ["SOUTH"] = some w ∧
      w.legal = true ∧ w.r = v.curR ∧ w.c = v.curC ∧
      cellAt twoStartsGrid w.r w.c = some '$' ∧ Blanked w.grid v.grid) ∧
    (¬ Rect longRowGrid 1 3 ∧ ∃ (v : Grok.Vars) (w : Walk),
      replayNames 1 3 (Walk.start longRowGrid 0 0) ["EAST", "EAST"] = some w ∧
      w.legal = true ∧ w.r = v.curR ∧ w.c = v.curC ∧
      cellAt longRowGrid w.r w.c = some '$' ∧ Blanked w.grid v.grid) := by
  refine ⟨?_, ?_, ?_, by decide, ?_⟩
  · obtain ⟨rb0, _, r, w, hnew, _, _, hat, _, h4, h5, h6, h7, h8, h9, h10⟩ :=
      (replay_round_trip harnessTest3 10 10).2.1 11
        ["SOUTH", "SOUTH", "SOUTH", "SOUTH", "EAST", "EAST", "EAST", "EAST", "EAST", "EAST"]
        (by decide)
    have hs : rb0.state.pos = ⟨1, 2⟩ := by
      have hv : (Claude.runChecked 0 harnessTest3 10 10).map Claude.view =
          some (⟨⟨1, 2⟩, .SOUTH, false, false⟩, harnessTest3) := by decide
      unfold Claude.runChecked at hv
      simp only [hnew, iterate, Option.map_some', Option.some.injEq, Claude.view,
        Prod.mk.injEq] at hv
      rw [hv.1]
    rw [hs] at h4
    exact ⟨r, w, h4, h5, h6, h7, h8, h9 ⟨(5, 8), by decide, by decide⟩, h10⟩
  · obtain ⟨_, _, _, s, w, _, _, _, h4, h5, h6, h7, h8, h9, _⟩ :=
      (replay_round_trip twoStartsGrid 2 3).1 (by decide) 1 3 ["SOUTH"] (by decide)
    have hs : Chatgpt.findStart twoStartsGrid = ⟨0, 2⟩ := by decide
    rw [hs] at h4
    exact ⟨s, w, h4, h5, h6, h7, h8, h9⟩
  · obtain ⟨g1, sr, sc, _, v, w, hf, _, _, _, _, h4, h5, h6, h7, h8, h9, _⟩ :=
      (replay_round_trip twoStartsGrid 2 3).2.2 ⟨(0, 0), by decide, by decide⟩ 3 ["SOUTH"]
        (by decide)
    have hs : Grok.findStart (rowMajor 2 3) (twoStartsGrid, 0, 0) =
        .ok ([[' ', ' ', ' '], [' ', ' ', '$']], 0, 2) := by decide
    rw [hs] at hf
    simp only [Res.ok.injEq, Prod.mk.injEq] at hf
    obtain ⟨_, e1, e2⟩ := hf
    subst e1 e2
    exact ⟨v, w, h4, h5, h6, h7, h8, h9⟩
  · obtain ⟨g1, sr, sc, _, v, w, hf, _, _, _, _, h4, h5, h6, h7, h8, h9, _⟩ :=
      (replay_round_trip longRowGrid 1 3).2.2 ⟨(0, 0), by decide, by decide⟩ 4 ["EAST", "EAST"]
        (by decide)
    have hs : Grok.findStart (rowMajor 1 3) (longRowGrid, 0, 0) =
        .ok ([[' ', ' ', '$', '#']], 0, 0) := by decide
    rw [hs] at hf
    simp only [Res.ok.injEq, Prod.mk.injEq] at hf
    obtain ⟨_, e1, e2⟩ := hf
    subst e1 e2
    exact ⟨v, w, h4, h5, h6, h7, h8, h9⟩

end Optimus
